import Mathlib

/-!
# Tablestore C++ SDK: the plainbuffer row reader and the validation of requests

A shallow embedding of `src/tablestore/core/plainbuffer/reader.cpp`, of the
CRC-8 helpers of `src/tablestore/util/security.hpp`, of the `validate()`
functions and comparisons of `src/tablestore/core/types.cpp` and
`core/batch_writer.cpp`, of `go` of `core/impl/async_client.cpp`, of the
arithmetic of `src/tablestore/util/timestamp.hpp`, of the endpoint parser of
`src/tablestore/core/http/types.cpp`, of the pretty-printers of a row in
`core/types.cpp`, of the blocking calls of `core/batch_writer.cpp`, and of the
range iterator as `test/unittest/core/range_iterator_unittest.cpp` drives it,
followed by theorems about them. The retry classification and the batch writer,
whose implementations are not among the sources, follow the specification.

Conventions of the embedding.

* A byte (`uint8_t`) is an element of `Fin 256`; wider machine integers are
  natural numbers or integers with the wrap-around written out.
* The pair of pointers `(b, e)` of the reader is the list of the bytes in
  `[b, e)`: `b + n > e` is `length < n`, `*b` is the head, `++b` is the tail.
* A function `std::optional<OTSError> f(T& out, uint8_t const*& b, ...)` becomes
  a function returning `Res T`: the written out-parameters with the cursor on
  success, the error with the cursor on failure.
* `TRY(x)` is `Res.bind`, `ISSUE()` is `ISSUE line` with the line of the source.
* A function `std::optional<OTSError> validate() const` returns a `Verdict`: no
  error, an error, or an `OTS_ASSERT` that fails; there `TRY(x)` is
  `Verdict.andThen`. A function that returns a value and may fail an assertion
  returns an `Option`.
* The remainder `%` and the quotient `/` of C++ on `int64_t` truncate: they are
  `Int.tmod` and `Int.tdiv`.
* A parser `std::optional<string> f(T& out, uint8_t const*& b, uint8_t const* e)`
  of the endpoint becomes a function returning the error, `out` and the cursor
  as the call leaves them.
* A loop without a bound known beforehand takes fuel, one unit a round; running
  out of fuel is `none`.
-/

set_option autoImplicit false

namespace Tablestore

/-- A byte, `uint8_t`. -/
abbrev Byte := Fin 256

/-! ## util/security.hpp -/

/-- The 256-entry table `kTable` of `crc8`. -/
def kTable : List Nat := [
  0x00, 0x07, 0x0e, 0x09, 0x1c, 0x1b, 0x12, 0x15, 0x38, 0x3f, 0x36, 0x31,
  0x24, 0x23, 0x2a, 0x2d, 0x70, 0x77, 0x7e, 0x79, 0x6c, 0x6b, 0x62, 0x65,
  0x48, 0x4f, 0x46, 0x41, 0x54, 0x53, 0x5a, 0x5d, 0xe0, 0xe7, 0xee, 0xe9,
  0xfc, 0xfb, 0xf2, 0xf5, 0xd8, 0xdf, 0xd6, 0xd1, 0xc4, 0xc3, 0xca, 0xcd,
  0x90, 0x97, 0x9e, 0x99, 0x8c, 0x8b, 0x82, 0x85, 0xa8, 0xaf, 0xa6, 0xa1,
  0xb4, 0xb3, 0xba, 0xbd, 0xc7, 0xc0, 0xc9, 0xce, 0xdb, 0xdc, 0xd5, 0xd2,
  0xff, 0xf8, 0xf1, 0xf6, 0xe3, 0xe4, 0xed, 0xea, 0xb7, 0xb0, 0xb9, 0xbe,
  0xab, 0xac, 0xa5, 0xa2, 0x8f, 0x88, 0x81, 0x86, 0x93, 0x94, 0x9d, 0x9a,
  0x27, 0x20, 0x29, 0x2e, 0x3b, 0x3c, 0x35, 0x32, 0x1f, 0x18, 0x11, 0x16,
  0x03, 0x04, 0x0d, 0x0a, 0x57, 0x50, 0x59, 0x5e, 0x4b, 0x4c, 0x45, 0x42,
  0x6f, 0x68, 0x61, 0x66, 0x73, 0x74, 0x7d, 0x7a, 0x89, 0x8e, 0x87, 0x80,
  0x95, 0x92, 0x9b, 0x9c, 0xb1, 0xb6, 0xbf, 0xb8, 0xad, 0xaa, 0xa3, 0xa4,
  0xf9, 0xfe, 0xf7, 0xf0, 0xe5, 0xe2, 0xeb, 0xec, 0xc1, 0xc6, 0xcf, 0xc8,
  0xdd, 0xda, 0xd3, 0xd4, 0x69, 0x6e, 0x67, 0x60, 0x75, 0x72, 0x7b, 0x7c,
  0x51, 0x56, 0x5f, 0x58, 0x4d, 0x4a, 0x43, 0x44, 0x19, 0x1e, 0x17, 0x10,
  0x05, 0x02, 0x0b, 0x0c, 0x21, 0x26, 0x2f, 0x28, 0x3d, 0x3a, 0x33, 0x34,
  0x4e, 0x49, 0x40, 0x47, 0x52, 0x55, 0x5c, 0x5b, 0x76, 0x71, 0x78, 0x7f,
  0x6a, 0x6d, 0x64, 0x63, 0x3e, 0x39, 0x30, 0x37, 0x22, 0x25, 0x2c, 0x2b,
  0x06, 0x01, 0x08, 0x0f, 0x1a, 0x1d, 0x14, 0x13, 0xae, 0xa9, 0xa0, 0xa7,
  0xb2, 0xb5, 0xbc, 0xbb, 0x96, 0x91, 0x98, 0x9f, 0x8a, 0x8d, 0x84, 0x83,
  0xde, 0xd9, 0xd0, 0xd7, 0xc2, 0xc5, 0xcc, 0xcb, 0xe6, 0xe1, 0xe8, 0xef,
  0xfa, 0xfd, 0xf4, 0xf3]

/-- The function `crc8(uint8_t& out, const uint8_t in)`: `out = kTable[out ^ in]`.
The state and the input are bytes, so the index is below 256. -/
def crc8 (out inp : Nat) : Nat :=
  kTable.getD (out ^^^ inp) 0

/-- The function `crc8U32`: the four bytes of `in`, least significant first. -/
def crc8U32 (out inp : Nat) : Nat :=
  let out := crc8 out (inp &&& 0xFF)
  let out := crc8 out ((inp >>> 8) &&& 0xFF)
  let out := crc8 out ((inp >>> 16) &&& 0xFF)
  crc8 out ((inp >>> 24) % 256)

/-- The loop of `crc8U64`, with `n` iterations left. -/
def crc8U64Loop : Nat → Nat → Nat → Nat
  | 0, out, _ => out
  | n + 1, out, inp => crc8U64Loop n (crc8 out (inp &&& 0xFF)) (inp >>> 8)

/-- The function `crc8U64`: `sizeof(in) = 8` rounds of `crc8(out, in & 0xFF); in >>= 8`. -/
def crc8U64 (out inp : Nat) : Nat :=
  crc8U64Loop 8 out inp

/-- The function `crc8MemPiece`: every byte of the piece in order. -/
def crc8MemPiece (out : Nat) (inp : List Byte) : Nat :=
  if inp.length = 0 then out
  else inp.foldl (fun o x => crc8 o x.val) out

/-- One shift of the bitwise CRC-8/ATM register: shift left by one inside a
byte and xor the polynomial `0x07` in when the bit shifted out is 1. -/
def crc8ShiftStep (r : Nat) : Nat :=
  if r &&& 0x80 = 0 then (r <<< 1) % 256 else ((r <<< 1) % 256) ^^^ 0x07

/-- The bitwise CRC-8/ATM update as the specification words it: xor the input
into the state, then shift eight times. -/
def crc8Bitwise (c x : Nat) : Nat :=
  crc8ShiftStep^[8] (c ^^^ x)

/-! ## Errors and results -/

/-- Modelled from the spec: the predefined error codes of `OTSError` (its header
is not part of the sources at hand); the names are the codes of section 7. -/
inductive Predefined
  | kPredefined_OTSParameterInvalid
  | kPredefined_OTSClientUnknownError
  | kPredefined_CouldntResolveHost
  | kPredefined_NoAvailableConnection
  | kPredefined_WriteRequestFail
  | kPredefined_CorruptedResponse
  | kPredefined_ResponseDirectlyLost
  | kPredefined_SSLHandshakeFail
  | kPredefined_RequestTimeout
  | kPredefined_OTSServerBusy
  | kPredefined_OTSQuotaExhausted
  | kPredefined_OTSPartitionUnavailable
  | kPredefined_OTSNotEnoughCapacityUnit
  | kPredefined_OTSTableNotReady
  | kPredefined_OTSRowOperationConflict
  | kPredefined_OTSRequestTimeout
  | kPredefined_OTSAuthFailed
  | kPredefined_OTSMethodNotAllowed
  | kPredefined_OTSObjectNotExist
  | kPredefined_OTSObjectAlreadyExist
  | kPredefined_OTSConditionCheckFail
  | kPredefined_OTSOutOfRowSizeLimit
  | kPredefined_OTSOutOfColumnCountLimit
  | kPredefined_OTSInvalidPK
  | kPredefined_OTSInternalServerError
  deriving DecidableEq, Repr

/-- Modelled from the spec: an `OTSError`, reduced to its error code and its
message (HTTP status, request id and trace id play no part here). -/
structure OTSError where
  code : Predefined
  message : String
  deriving DecidableEq, Repr

/-- The value of `__FILE__` inside `reader.cpp`; it depends on how the file is
handed to the compiler and only ever ends up in the message text. -/
def FILE : String := "reader.cpp"

/-- The function `issueError(filename, line)`. -/
def issueError (filename : String) (line : Nat) : OTSError :=
  { code := .kPredefined_CorruptedResponse
    message := "Fail to parse protobuf in response at " ++ filename ++ ":" ++ toString line }

/-- Ways in which a run leaves the defined behaviour of the program: a read
outside `[b, e)`, or a loop that outlives the fuel given to it. -/
inductive Abort
  | outOfBounds
  | outOfFuel
  deriving DecidableEq, Repr

/-- Outcome of a reader function: the out-parameters and the cursor after a
success, the returned error and the cursor after a failure. -/
inductive Res (α : Type)
  | ok (v : α) (b : List Byte)
  | error (e : OTSError) (b : List Byte)
  | abort (a : Abort)
  deriving DecidableEq, Repr

/-- The macro `TRY(x)`: go on after a success, return the error otherwise. -/
def Res.bind {α β : Type} (r : Res α) (k : α → List Byte → Res β) : Res β :=
  match r with
  | .ok v b => k v b
  | .error e b => .error e b
  | .abort a => .abort a

/-- The macro `ISSUE()` expanded at line `line` of `reader.cpp`. -/
def ISSUE {α : Type} (line : Nat) (b : List Byte) : Res α :=
  .error (issueError FILE line) b

/-! ## util/timestamp.hpp -/

/-- The value of a 64-bit pattern read as `int64_t`, as in
`static_cast<int64_t>(v)` for a `uint64_t v`. -/
def toInt64 (v : Nat) : Int :=
  if v % 2 ^ 64 < 2 ^ 63 then ((v % 2 ^ 64 : Nat) : Int)
  else ((v % 2 ^ 64 : Nat) : Int) - 2 ^ 64

/-- The 64-bit pattern of an `int64_t`, as in `static_cast<uint64_t>(x)`. -/
def toUint64 (x : Int) : Nat :=
  (x % 2 ^ 64).toNat

/-- The `int64_t` left by an operation whose exact result is `x`: two's
complement wrap-around. -/
def wrapInt64 (x : Int) : Int :=
  toInt64 (toUint64 x)

/-- The constant `kUsecPerMsec`. -/
def kUsecPerMsec : Int := 1000

/-- The class `UtcTime`: microseconds since the epoch in an `int64_t`. -/
structure UtcTime where
  mValue : Int := 0
  deriving DecidableEq, Repr

/-- The function `UtcTime::fromMsec`: `UtcTime(msec * kUsecPerMsec)`, the product
taken in `int64_t` without any check. -/
def UtcTime.fromMsec (msec : Int) : UtcTime :=
  { mValue := wrapInt64 (msec * kUsecPerMsec) }

/-- The function `UtcTime::toUsec`. -/
def UtcTime.toUsec (t : UtcTime) : Int :=
  t.mValue

/-- The function `UtcTime::toMsec`: `mValue / kUsecPerMsec`, truncating. -/
def UtcTime.toMsec (t : UtcTime) : Int :=
  t.mValue.tdiv kUsecPerMsec

/-! ## core/types.hpp, core/types.cpp : rows -/

/-- The enum `PrimaryKeyValue::Category`. -/
inductive PrimaryKeyValue.Category
  | kNone
  | kInfMin
  | kInfMax
  | kAutoIncr
  | kInteger
  | kString
  | kBinary
  deriving DecidableEq, Repr

/-- The class `PrimaryKeyValue`; the defaults are those of `PrimaryKeyValue()`. -/
structure PrimaryKeyValue where
  mCategory : PrimaryKeyValue.Category := .kNone
  mIntValue : Int := 0
  mStrBlobValue : List Byte := []
  deriving DecidableEq, Repr

/-- The function `PrimaryKeyValue::reset`. -/
def PrimaryKeyValue.reset (_self : PrimaryKeyValue) : PrimaryKeyValue :=
  { mCategory := .kNone, mIntValue := 0, mStrBlobValue := [] }

/-- The statement `self.mutableInteger() = v`. -/
def PrimaryKeyValue.mutableInteger (self : PrimaryKeyValue) (v : Int) : PrimaryKeyValue :=
  { self.reset with mCategory := .kInteger, mIntValue := v }

/-- The statement `self.mutableStr() = v`. -/
def PrimaryKeyValue.mutableStr (self : PrimaryKeyValue) (v : List Byte) : PrimaryKeyValue :=
  { self.reset with mCategory := .kString, mStrBlobValue := v }

/-- The statement `self.mutableBlob() = v`. -/
def PrimaryKeyValue.mutableBlob (self : PrimaryKeyValue) (v : List Byte) : PrimaryKeyValue :=
  { self.reset with mCategory := .kBinary, mStrBlobValue := v }

/-- The function `PrimaryKeyValue::toInteger`. -/
def PrimaryKeyValue.toInteger (x : Int) : PrimaryKeyValue :=
  { mCategory := .kInteger, mIntValue := x }

/-- The function `PrimaryKeyValue::toStr`. -/
def PrimaryKeyValue.toStr (s : List Byte) : PrimaryKeyValue :=
  { mCategory := .kString, mIntValue := 0, mStrBlobValue := s }

/-- The function `PrimaryKeyValue::toBlob`. -/
def PrimaryKeyValue.toBlob (s : List Byte) : PrimaryKeyValue :=
  { mCategory := .kBinary, mIntValue := 0, mStrBlobValue := s }

/-- The function `PrimaryKeyValue::isReal`. -/
def PrimaryKeyValue.isReal (self : PrimaryKeyValue) : Bool :=
  match self.mCategory with
  | .kNone | .kInfMin | .kInfMax | .kAutoIncr => false
  | .kInteger | .kString | .kBinary => true

/-- The class `PrimaryKeyColumn`. -/
structure PrimaryKeyColumn where
  mName : List Byte := []
  mValue : PrimaryKeyValue := {}
  deriving DecidableEq, Repr

/-- The enum `AttributeValue::Category`. -/
inductive AttributeValue.Category
  | kNone
  | kString
  | kInteger
  | kBinary
  | kBoolean
  | kFloatPoint
  deriving DecidableEq, Repr

/-- The class `AttributeValue`; the defaults are those of `AttributeValue()`. The
`double` member is kept as its 64-bit pattern (the reader fills it by `memcpy`),
so `0` stands for `+0.0`. -/
structure AttributeValue where
  mCategory : AttributeValue.Category := .kNone
  mIntValue : Int := 0
  mStrBlobValue : List Byte := []
  mBoolValue : Bool := false
  mFloatingValue : Nat := 0
  deriving DecidableEq, Repr

/-- The statement `self.mutableStr() = v`: the value is overwritten by a
default-constructed one, the category is set, the member is assigned. -/
def AttributeValue.mutableStr (_self : AttributeValue) (v : List Byte) : AttributeValue :=
  { ({} : AttributeValue) with mCategory := .kString, mStrBlobValue := v }

/-- The statement `self.mutableBlob() = v`. -/
def AttributeValue.mutableBlob (_self : AttributeValue) (v : List Byte) : AttributeValue :=
  { ({} : AttributeValue) with mCategory := .kBinary, mStrBlobValue := v }

/-- The statement `self.mutableInteger() = v`. -/
def AttributeValue.mutableInteger (_self : AttributeValue) (v : Int) : AttributeValue :=
  { ({} : AttributeValue) with mCategory := .kInteger, mIntValue := v }

/-- The statement `self.mutableFloatPoint() = v`, `v` given by its bit pattern. -/
def AttributeValue.mutableFloatPoint (_self : AttributeValue) (v : Nat) : AttributeValue :=
  { ({} : AttributeValue) with mCategory := .kFloatPoint, mFloatingValue := v }

/-- The statement `self.mutableBoolean() = v`. -/
def AttributeValue.mutableBoolean (_self : AttributeValue) (v : Bool) : AttributeValue :=
  { ({} : AttributeValue) with mCategory := .kBoolean, mBoolValue := v }

/-- The function `AttributeValue::toStr`. -/
def AttributeValue.toStr (a : List Byte) : AttributeValue :=
  { mCategory := .kString, mIntValue := 0, mStrBlobValue := a, mBoolValue := false,
    mFloatingValue := 0 }

/-- The function `AttributeValue::toBlob`. -/
def AttributeValue.toBlob (a : List Byte) : AttributeValue :=
  { mCategory := .kBinary, mIntValue := 0, mStrBlobValue := a, mBoolValue := false,
    mFloatingValue := 0 }

/-- The function `AttributeValue::toInteger`. -/
def AttributeValue.toInteger (v : Int) : AttributeValue :=
  { mCategory := .kInteger, mIntValue := v, mBoolValue := false, mFloatingValue := 0 }

/-- The function `AttributeValue::toFloatPoint`, on the bit pattern of the `double`. -/
def AttributeValue.toFloatPoint (v : Nat) : AttributeValue :=
  { mCategory := .kFloatPoint, mIntValue := 0, mBoolValue := false, mFloatingValue := v }

/-- The function `AttributeValue::toBoolean`. -/
def AttributeValue.toBoolean (v : Bool) : AttributeValue :=
  { mCategory := .kBoolean, mIntValue := 0, mBoolValue := v, mFloatingValue := 0 }

/-- The class `Attribute`. -/
structure Attribute where
  mName : List Byte := []
  mValue : AttributeValue := {}
  mTimestamp : Option UtcTime := none
  deriving DecidableEq, Repr

/-- The class `Row`: the primary key (an `IVector` of columns) and the list of
its attributes. -/
structure Row where
  mPkey : List PrimaryKeyColumn := []
  mAttrs : List Attribute := []
  deriving DecidableEq, Repr

/-! ## plainbuffer/consts.hpp -/

/-- The enum `VariantType`; its enumerators are pairwise different values, since
all nine label one `switch`. -/
inductive VariantType
  | kVT_Integer
  | kVT_Double
  | kVT_Boolean
  | kVT_String
  | kVT_Null
  | kVT_Blob
  | kVT_InfMin
  | kVT_InfMax
  | kVT_AutoIncrement
  deriving DecidableEq, Repr

/-- The constants of `consts.hpp`, a header that is not among the sources at
hand: the frame header and the byte values of the tags and of the variant
types. They are parameters of the reader. -/
structure Consts where
  kHeader : Nat
  kTag_RowKey : Byte
  kTag_RowData : Byte
  kTag_Cell : Byte
  kTag_CellName : Byte
  kTag_CellValue : Byte
  kTag_CellTimestamp : Byte
  kTag_CellChecksum : Byte
  kTag_RowChecksum : Byte
  kVT_Integer : Byte
  kVT_Double : Byte
  kVT_Boolean : Byte
  kVT_String : Byte
  kVT_Null : Byte
  kVT_Blob : Byte
  kVT_InfMin : Byte
  kVT_InfMax : Byte
  kVT_AutoIncrement : Byte
  deriving DecidableEq, Repr

/-- The cast `static_cast<uint8_t>(vt)` of a variant type. -/
def Consts.vt (c : Consts) : VariantType → Byte
  | .kVT_Integer => c.kVT_Integer
  | .kVT_Double => c.kVT_Double
  | .kVT_Boolean => c.kVT_Boolean
  | .kVT_String => c.kVT_String
  | .kVT_Null => c.kVT_Null
  | .kVT_Blob => c.kVT_Blob
  | .kVT_InfMin => c.kVT_InfMin
  | .kVT_InfMax => c.kVT_InfMax
  | .kVT_AutoIncrement => c.kVT_AutoIncrement

/-- What the theorems ask of the constants: the header fits the `uint32_t` it is
compared with, the tags that the reader tells apart by peeking are different
bytes, and so are the five variant types it looks up. -/
structure Consts.WF (c : Consts) : Prop where
  header_lt : c.kHeader < 2 ^ 32
  cell_ne_rowData : c.kTag_Cell ≠ c.kTag_RowData
  cell_ne_rowChecksum : c.kTag_Cell ≠ c.kTag_RowChecksum
  rowData_ne_rowChecksum : c.kTag_RowData ≠ c.kTag_RowChecksum
  timestamp_ne_checksum : c.kTag_CellTimestamp ≠ c.kTag_CellChecksum
  vt_nodup : [c.kVT_Integer, c.kVT_Double, c.kVT_Boolean, c.kVT_String, c.kVT_Blob].Nodup

instance (c : Consts) : Decidable c.WF :=
  decidable_of_iff
    (c.kHeader < 2 ^ 32 ∧ c.kTag_Cell ≠ c.kTag_RowData ∧ c.kTag_Cell ≠ c.kTag_RowChecksum
      ∧ c.kTag_RowData ≠ c.kTag_RowChecksum ∧ c.kTag_CellTimestamp ≠ c.kTag_CellChecksum
      ∧ [c.kVT_Integer, c.kVT_Double, c.kVT_Boolean, c.kVT_String, c.kVT_Blob].Nodup)
    ⟨fun h => ⟨h.1, h.2.1, h.2.2.1, h.2.2.2.1, h.2.2.2.2.1, h.2.2.2.2.2⟩,
      fun h => ⟨h.1, h.2, h.3, h.4, h.5, h.6⟩⟩

/-- Modelled from the spec: the values of the constants on the wire, header
`0x75` as section 4.A gives it; the tag and variant-type bytes are those of the
service protocol, which the specification leaves to the constants header. -/
def wire : Consts :=
  { kHeader := 0x75
    kTag_RowKey := 0x1
    kTag_RowData := 0x2
    kTag_Cell := 0x3
    kTag_CellName := 0x4
    kTag_CellValue := 0x5
    kTag_CellTimestamp := 0x7
    kTag_CellChecksum := 0xA
    kTag_RowChecksum := 0x9
    kVT_Integer := 0x0
    kVT_Double := 0x1
    kVT_Boolean := 0x2
    kVT_String := 0x3
    kVT_Null := 0x6
    kVT_Blob := 0x7
    kVT_InfMin := 0x9
    kVT_InfMax := 0xA
    kVT_AutoIncrement := 0xB }

/-! ## plainbuffer/reader.cpp -/

namespace impl

/-- The loop of `readUint<T>` with `n` iterations left, `i` the loop counter and
`size = sizeof(T)`: `T x = *b; x <<= 8 * i; out |= x; ++b`. -/
def readUintLoop (size : Nat) : Nat → Nat → Nat → List Byte → Option (Nat × List Byte)
  | 0, _, out, b => some (out, b)
  | n + 1, i, out, b =>
    match b with
    | [] => none
    | x :: b =>
      let x := (x.val <<< (8 * i)) % 2 ^ (8 * size)
      readUintLoop size n (i + 1) (out ||| x) b

/-- The template `readUint<T>` for an unsigned `T` of `size` bytes. -/
def readUint (size : Nat) (b : List Byte) : Res Nat :=
  if b.length < size then ISSUE 44 b
  else
    match readUintLoop size size 0 0 b with
    | none => .abort .outOfBounds
    | some (out, b) => .ok out b

/-- The function `readUint64`. -/
def readUint64 (b : List Byte) : Res Nat :=
  readUint 8 b

/-- The function `readUint32`. -/
def readUint32 (b : List Byte) : Res Nat :=
  readUint 4 b

/-- The function `readUint8`. -/
def readUint8 (b : List Byte) : Res Byte :=
  if b.length < 1 then ISSUE 71 b
  else
    match b with
    | [] => .abort .outOfBounds
    | x :: b => .ok x b

/-- The function `readHeader`. -/
def readHeader (c : Consts) (b : List Byte) : Res Unit :=
  (readUint32 b).bind fun header b =>
  if header ≠ c.kHeader then ISSUE 83 b
  else .ok () b

/-- The function `readTag`; a `Tag` is kept as its byte. -/
def readTag (b : List Byte) : Res Byte :=
  (readUint8 b).bind fun res b =>
  .ok res b

/-- The function `peekAndCheckTag`; `none` stands for a read of `*b` outside
the input. -/
def peekAndCheckTag (expect : Byte) (b : List Byte) : Option Bool :=
  if b.length < 1 then some false
  else
    match b with
    | [] => none
    | x :: _ => some (decide (expect = x))

/-- The piece `MemPiece p(b, len)` copied out by `p.to<string>()`: the `len`
bytes at the cursor, `none` when they do not all lie inside the input. -/
def memPiece (b : List Byte) (len : Nat) : Option (List Byte) :=
  if len ≤ b.length then some (b.take len) else none

/-- The function `readBlob`: returns the string and the checksum. -/
def readBlob (checksum : Nat) (b : List Byte) : Res (List Byte × Nat) :=
  (readUint32 b).bind fun len b =>
  if b.length < len then ISSUE 114 b
  else
    match memPiece b len with
    | none => .abort .outOfBounds
    | some p =>
      let checksum := crc8U32 checksum len
      let checksum := crc8MemPiece checksum p
      .ok (p, checksum) (b.drop len)

/-- The function `readName`: returns the name and the checksum. -/
def readName (c : Consts) (checksum : Nat) (b : List Byte) : Res (List Byte × Nat) :=
  (readTag b).bind fun tag b =>
  if tag ≠ c.kTag_CellName then ISSUE 136 b
  else
    (readUint32 b).bind fun len b =>
    if b.length < len then ISSUE 143 b
    else
      match memPiece b len with
      | none => .abort .outOfBounds
      | some p => .ok (p, crc8MemPiece checksum p) (b.drop len)

/-- The function `readVariantType`: the first of the five listed types whose
byte is the one read. -/
def readVariantType (c : Consts) (b : List Byte) : Res VariantType :=
  let types : List VariantType :=
    [.kVT_Integer, .kVT_Double, .kVT_Boolean, .kVT_String, .kVT_Blob]
  (readUint8 b).bind fun v b =>
  match types.find? (fun i => decide (c.vt i = v)) with
  | some i => .ok i b
  | none => ISSUE 175 b

/-- The function `readPrimaryKeyValue`: returns the value and the checksum. -/
def readPrimaryKeyValue (c : Consts) (out : PrimaryKeyValue) (checksum : Nat) (b : List Byte) :
    Res (PrimaryKeyValue × Nat) :=
  (readTag b).bind fun tag b =>
  if tag ≠ c.kTag_CellValue then ISSUE 188 b
  else
    (readUint32 b).bind fun _placeholder b =>
    (readVariantType c b).bind fun vt b =>
    match vt with
    | .kVT_Integer =>
      (readUint64 b).bind fun v b =>
      let out := out.mutableInteger (toInt64 v)
      let checksum := crc8 checksum (c.vt .kVT_Integer).val
      let checksum := crc8U64 checksum v
      .ok (out, checksum) b
    | .kVT_String =>
      let checksum := crc8 checksum (c.vt .kVT_String).val
      (readBlob checksum b).bind fun r b =>
      .ok (out.mutableStr r.1, r.2) b
    | .kVT_Blob =>
      let checksum := crc8 checksum (c.vt .kVT_Blob).val
      (readBlob checksum b).bind fun r b =>
      .ok (out.mutableBlob r.1, r.2) b
    | .kVT_Double | .kVT_Boolean | .kVT_Null | .kVT_InfMin | .kVT_InfMax
    | .kVT_AutoIncrement => ISSUE 224 b

/-- The function `readPrimaryKeyColumn`: returns the column and the row
checksum. -/
def readPrimaryKeyColumn (c : Consts) (out : PrimaryKeyColumn) (checksum : Nat)
    (b : List Byte) : Res (PrimaryKeyColumn × Nat) :=
  (readTag b).bind fun tag b =>
  if tag ≠ c.kTag_Cell then ISSUE 239 b
  else
    let colChecksum := 0
    (readName c colChecksum b).bind fun r b =>
    let out := { out with mName := r.1 }
    let colChecksum := r.2
    (readPrimaryKeyValue c out.mValue colChecksum b).bind fun r b =>
    let out := { out with mValue := r.1 }
    let colChecksum := r.2
    (readTag b).bind fun tag b =>
    if tag ≠ c.kTag_CellChecksum then ISSUE 250 b
    else
      (readUint8 b).bind fun oracle b =>
      if colChecksum ≠ oracle.val then ISSUE 255 b
      else .ok (out, crc8 checksum colChecksum) b

/-- The loop of `readRowKey`, `for(;peekAndCheckTag(kTag_Cell, b, e);)`, run
for at most `fuel` tests of its condition. -/
def readRowKeyLoop (c : Consts) :
    Nat → List PrimaryKeyColumn → Nat → List Byte → Res (List PrimaryKeyColumn × Nat)
  | 0, _, _, _ => .abort .outOfFuel
  | fuel + 1, out, checksum, b =>
    match peekAndCheckTag c.kTag_Cell b with
    | none => .abort .outOfBounds
    | some false => .ok (out, checksum) b
    | some true =>
      (readPrimaryKeyColumn c {} checksum b).bind fun r b =>
      readRowKeyLoop c fuel (out ++ [r.1]) r.2 b

/-- The function `readRowKey`; every turn of its loop takes at least one byte,
so `b.length + 1` tests of the condition are enough. -/
def readRowKey (c : Consts) (out : List PrimaryKeyColumn) (checksum : Nat) (b : List Byte) :
    Res (List PrimaryKeyColumn × Nat) :=
  (readTag b).bind fun tag b =>
  if tag ≠ c.kTag_RowKey then ISSUE 273 b
  else readRowKeyLoop c (b.length + 1) out checksum b

/-- The function `readAttrValue`: returns the value and the checksum. -/
def readAttrValue (c : Consts) (out : AttributeValue) (checksum : Nat) (b : List Byte) :
    Res (AttributeValue × Nat) :=
  (readTag b).bind fun tag b =>
  if tag ≠ c.kTag_CellValue then ISSUE 292 b
  else
    (readUint32 b).bind fun _placeholder b =>
    (readVariantType c b).bind fun vt b =>
    match vt with
    | .kVT_Integer =>
      (readUint64 b).bind fun v b =>
      let out := out.mutableInteger (toInt64 v)
      let checksum := crc8 checksum (c.vt .kVT_Integer).val
      let checksum := crc8U64 checksum v
      .ok (out, checksum) b
    | .kVT_String =>
      let checksum := crc8 checksum (c.vt .kVT_String).val
      (readBlob checksum b).bind fun r b =>
      .ok (out.mutableStr r.1, r.2) b
    | .kVT_Blob =>
      let checksum := crc8 checksum (c.vt .kVT_Blob).val
      (readBlob checksum b).bind fun r b =>
      .ok (out.mutableBlob r.1, r.2) b
    | .kVT_Double =>
      (readUint64 b).bind fun iv b =>
      let out := out.mutableFloatPoint iv
      let checksum := crc8 checksum (c.vt .kVT_Double).val
      let checksum := crc8U64 checksum iv
      .ok (out, checksum) b
    | .kVT_Boolean =>
      (readUint8 b).bind fun v b =>
      let out := out.mutableBoolean (if v.val ≠ 0 then true else false)
      let checksum := crc8 checksum (c.vt .kVT_Boolean).val
      let checksum := crc8 checksum (if out.mBoolValue then 1 else 0)
      .ok (out, checksum) b
    | .kVT_Null | .kVT_InfMin | .kVT_InfMax | .kVT_AutoIncrement => ISSUE 345 b

/-- The function that reads the optional cell timestamp (line 350 of the
source): returns the timestamp slot and the checksum. -/
def readOptionalCellTimestamp (c : Consts) (out : Option UtcTime) (checksum : Nat)
    (b : List Byte) : Res (Option UtcTime × Nat) :=
  match peekAndCheckTag c.kTag_CellTimestamp b with
  | none => .abort .outOfBounds
  | some true =>
    (readTag b).bind fun _tag b =>
    (readUint64 b).bind fun v b =>
    .ok (some (UtcTime.fromMsec (toInt64 v)), crc8U64 checksum v) b
  | some false => .ok (out, checksum) b

/-- The function `readAttr`: returns the attribute and the row checksum. -/
def readAttr (c : Consts) (out : Attribute) (checksum : Nat) (b : List Byte) :
    Res (Attribute × Nat) :=
  (readTag b).bind fun tag b =>
  if tag ≠ c.kTag_Cell then ISSUE 377 b
  else
    let colChecksum := 0
    (readName c colChecksum b).bind fun r b =>
    let out := { out with mName := r.1 }
    let colChecksum := r.2
    (readAttrValue c out.mValue colChecksum b).bind fun r b =>
    let out := { out with mValue := r.1 }
    let colChecksum := r.2
    (readOptionalCellTimestamp c out.mTimestamp colChecksum b).bind fun r b =>
    let out := { out with mTimestamp := r.1 }
    let colChecksum := r.2
    (readTag b).bind fun tag b =>
    if tag ≠ c.kTag_CellChecksum then ISSUE 389 b
    else
      (readUint8 b).bind fun oracle b =>
      if colChecksum ≠ oracle.val then ISSUE 394 b
      else .ok (out, crc8 checksum colChecksum) b

/-- The loop of `readAttrs`, run for at most `fuel` tests of its condition. -/
def readAttrsLoop (c : Consts) :
    Nat → List Attribute → Nat → List Byte → Res (List Attribute × Nat)
  | 0, _, _, _ => .abort .outOfFuel
  | fuel + 1, out, checksum, b =>
    match peekAndCheckTag c.kTag_Cell b with
    | none => .abort .outOfBounds
    | some false => .ok (out, checksum) b
    | some true =>
      (readAttr c {} checksum b).bind fun r b =>
      readAttrsLoop c fuel (out ++ [r.1]) r.2 b

/-- The function `readAttrs`. -/
def readAttrs (c : Consts) (out : List Attribute) (checksum : Nat) (b : List Byte) :
    Res (List Attribute × Nat) :=
  (readTag b).bind fun tag b =>
  if tag ≠ c.kTag_RowData then ISSUE 412 b
  else readAttrsLoop c (b.length + 1) out checksum b

/-- The function `impl::readRow`. -/
def readRow (c : Consts) (out : Row) (b : List Byte) : Res Row :=
  let checksum := 0
  (readRowKey c out.mPkey checksum b).bind fun r b =>
  let out := { out with mPkey := r.1 }
  let checksum := r.2
  match peekAndCheckTag c.kTag_RowData b with
  | none => .abort .outOfBounds
  | some hasData =>
    (if hasData then readAttrs c out.mAttrs checksum b
      else .ok (out.mAttrs, checksum) b).bind fun r b =>
    let out := { out with mAttrs := r.1 }
    let checksum := crc8 r.2 0
    (readTag b).bind fun tag b =>
    if tag ≠ c.kTag_RowChecksum then ISSUE 437 b
    else
      (readUint8 b).bind fun oracle b =>
      if checksum ≠ oracle.val then ISSUE 442 b
      else .ok out b

/-- The loop of `impl::readRows`, `for(; b < e;)`, run for at most `fuel` tests
of its condition. -/
def readRowsLoop (c : Consts) : Nat → List Row → List Byte → Res (List Row)
  | 0, _, _ => .abort .outOfFuel
  | fuel + 1, out, b =>
    if 0 < b.length then
      (readRow c {} b).bind fun row b =>
      readRowsLoop c fuel (out ++ [row]) b
    else .ok out b

/-- The function `impl::readRows`. -/
def readRows (c : Consts) (out : List Row) (b : List Byte) : Res (List Row) :=
  readRowsLoop c (b.length + 1) out b

end impl

/-- The function `plainbuffer::readRow(Row& out, const MemPiece& p)`. -/
def readRow (c : Consts) (out : Row) (p : List Byte) : Res Row :=
  let b := p
  (impl.readHeader c b).bind fun _ b =>
  (impl.readRow c out b).bind fun out b =>
  if b ≠ [] then ISSUE 466 b
  else .ok out b

/-- The function `plainbuffer::readRows(IVector<Row>& out, const MemPiece& p)`. -/
def readRows (c : Consts) (out : List Row) (p : List Byte) : Res (List Row) :=
  let b := p
  (impl.readHeader c b).bind fun _ b =>
  (impl.readRows c out b).bind fun out b =>
  if b ≠ [] then ISSUE 478 b
  else .ok out b

/-! ## Reference notions used in the statements -/

/-- The value of a byte string read as an unsigned little-endian integer. -/
def leValue : List Byte → Nat
  | [] => 0
  | x :: xs => x.val + 256 * leValue xs

/-- The sum of `byte[i] * 256 ^ i` over the first `n` bytes at the cursor. -/
def leSum (n : Nat) (b : List Byte) : Nat :=
  ((List.range n).map fun i => (b.getD i 0).val * 256 ^ i).sum

/-- The `n` little-endian bytes of `v`, least significant first. -/
def leBytes : Nat → Nat → List Byte
  | 0, _ => []
  | n + 1, v => ⟨v % 256, Nat.mod_lt v (by decide)⟩ :: leBytes n (v / 256)

/-- The CRC-8 of a byte string continued from state `crc`, byte by byte. -/
def crc8Bytes (crc : Nat) (l : List Byte) : Nat :=
  l.foldl (fun o x => crc8 o x.val) crc

/-! ## The frame layout of section 4.A

The writer of the codec is not among the sources at hand. The layout of a frame
and the encoding rules are taken from section 4.A of the specification, in two
layers: a frame layout whose checksum bytes are free (`WireRow`, `WireRow.bytes`)
and the encoder that fills them in (`layoutRow`, `encodeFrame`). -/

/-- Modelled from the spec: the value of a cell as it lies on the wire after
the placeholder, one case per variant tag of a `CellValue`. -/
inductive WireValue
  | integer (v : Nat)
  | double (v : Nat)
  | boolean (x : Byte)
  | string (s : List Byte)
  | blob (s : List Byte)
  deriving DecidableEq, Repr

/-- Modelled from the spec: the variant tag of a wire value. -/
def WireValue.vt : WireValue → VariantType
  | .integer _ => .kVT_Integer
  | .double _ => .kVT_Double
  | .boolean _ => .kVT_Boolean
  | .string _ => .kVT_String
  | .blob _ => .kVT_Blob

/-- Modelled from the spec: the raw-encoded value bytes that follow the variant
tag: eight little-endian bytes, one byte, or a 4-byte length and the content. -/
def WireValue.body : WireValue → List Byte
  | .integer v => leBytes 8 v
  | .double v => leBytes 8 v
  | .boolean x => [x]
  | .string s => leBytes 4 s.length ++ s
  | .blob s => leBytes 4 s.length ++ s

/-- Modelled from the spec: the value bytes fed to the cell CRC-8 after the
variant tag; they are the raw-encoded bytes, a Boolean counting as 1 or 0. -/
def WireValue.crcBody : WireValue → List Byte
  | .boolean x => [if x.val ≠ 0 then 1 else 0]
  | v => v.body

/-- Modelled from the spec: the bounds of the fixed-width fields of a value. -/
@[reducible] def WireValue.WF : WireValue → Prop
  | .integer v => v < 2 ^ 64
  | .double v => v < 2 ^ 64
  | .boolean _ => True
  | .string s => s.length < 2 ^ 32
  | .blob s => s.length < 2 ^ 32

instance (v : WireValue) : Decidable v.WF := by
  cases v <;> unfold WireValue.WF <;> infer_instance

/-- Modelled from the spec: the values allowed in a row-key cell. -/
def WireValue.isKey : WireValue → Bool
  | .integer _ | .string _ | .blob _ => true
  | .double _ | .boolean _ => false

/-- Modelled from the spec: a cell of a frame: name, the four placeholder bytes,
value, optional timestamp in milliseconds, and the stored checksum byte. -/
structure WireCell where
  name : List Byte
  placeholder : List Byte
  value : WireValue
  timestamp : Option Nat
  checksum : Byte
  deriving DecidableEq, Repr

/-- Modelled from the spec: the bounds of the fixed-width fields of a cell. -/
@[reducible] def WireCell.WF (x : WireCell) : Prop :=
  x.name.length < 2 ^ 32 ∧ x.placeholder.length = 4 ∧ x.value.WF
  ∧ ∀ t ∈ x.timestamp, t < 2 ^ 64

/-- Modelled from the spec: a row-key cell holds an Integer, String or Blob and
no timestamp. -/
@[reducible] def WireCell.KeyWF (x : WireCell) : Prop :=
  x.WF ∧ x.value.isKey = true ∧ x.timestamp = none

/-- Modelled from the spec: the eight little-endian bytes of the optional
timestamp of a cell, in milliseconds. -/
def timestampBytes : Option Nat → List Byte
  | none => []
  | some t => leBytes 8 t

/-- Modelled from the spec: the optional timestamp section of a cell: the
`CellTimestamp` tag and the eight bytes. -/
def timestampSection (c : Consts) : Option Nat → List Byte
  | none => []
  | some t => c.kTag_CellTimestamp :: leBytes 8 t

/-- Modelled from the spec: the bytes of a cell: `Cell` tag; `CellName` tag,
4-byte length, name; `CellValue` tag, placeholder, variant tag, value bytes; the
optional `CellTimestamp` tag with 8 bytes; `CellChecksum` tag and checksum. -/
def WireCell.bytes (c : Consts) (x : WireCell) : List Byte :=
  [c.kTag_Cell, c.kTag_CellName] ++ leBytes 4 x.name.length ++ x.name
    ++ [c.kTag_CellValue] ++ x.placeholder ++ [c.vt x.value.vt] ++ x.value.body
    ++ timestampSection c x.timestamp
    ++ [c.kTag_CellChecksum, x.checksum]

/-- Modelled from the spec: the cell CRC-8, from 0 over the name bytes, the
variant tag, the value bytes and, when present, the 8 timestamp bytes. -/
def WireCell.crc (c : Consts) (x : WireCell) : Nat :=
  crc8Bytes 0 (x.name ++ [c.vt x.value.vt] ++ x.value.crcBody ++ timestampBytes x.timestamp)

/-- Modelled from the spec: a row of a frame: the row-key cells, the optional
row-data section, and the stored row checksum byte. -/
structure WireRow where
  key : List WireCell
  data : Option (List WireCell)
  checksum : Byte
  deriving DecidableEq, Repr

/-- Modelled from the spec: the cells of a row in frame order. -/
def WireRow.cells (r : WireRow) : List WireCell :=
  r.key ++ r.data.getD []

/-- Modelled from the spec: the bounds of the fields of a row. -/
@[reducible] def WireRow.WF (r : WireRow) : Prop :=
  (∀ x ∈ r.key, x.KeyWF) ∧ ∀ x ∈ r.data.getD [], x.WF

/-- Modelled from the spec: the optional row-data section: the `RowData` tag
and the cells. -/
def dataSection (c : Consts) : Option (List WireCell) → List Byte
  | none => []
  | some a => c.kTag_RowData :: (a.map (WireCell.bytes c)).flatten

/-- Modelled from the spec: the bytes of a row: the `RowKey` section, the
optional `RowData` section, the `RowChecksum` tag and the checksum byte. -/
def WireRow.bytes (c : Consts) (r : WireRow) : List Byte :=
  c.kTag_RowKey :: (r.key.map (WireCell.bytes c)).flatten
    ++ dataSection c r.data
    ++ [c.kTag_RowChecksum, r.checksum]

/-- Modelled from the spec: the row CRC-8, from 0 over the cell checksums in
order, then one byte of 0 for the row-delete marker. -/
def WireRow.crc (r : WireRow) : Nat :=
  crc8 (crc8Bytes 0 (r.cells.map (·.checksum))) 0

/-- Modelled from the spec: every stored checksum of the row is the computed
one. -/
@[reducible] def WireRow.ChecksumsOk (c : Consts) (r : WireRow) : Prop :=
  (∀ x ∈ r.cells, x.checksum.val = x.crc c) ∧ r.checksum.val = r.crc

/-- Modelled from the spec: the 4-byte little-endian header and the rows. -/
def frameBytes (c : Consts) (rows : List WireRow) : List Byte :=
  leBytes 4 c.kHeader ++ (rows.map (WireRow.bytes c)).flatten

/-- The primary-key value a row-key cell stands for. -/
def WireValue.pkValue : WireValue → PrimaryKeyValue
  | .integer v => PrimaryKeyValue.toInteger (toInt64 v)
  | .string s => PrimaryKeyValue.toStr s
  | .blob s => PrimaryKeyValue.toBlob s
  | .double _ => {}
  | .boolean _ => {}

/-- The attribute value a cell stands for. -/
def WireValue.attrValue : WireValue → AttributeValue
  | .integer v => AttributeValue.toInteger (toInt64 v)
  | .double v => AttributeValue.toFloatPoint v
  | .boolean x => AttributeValue.toBoolean (decide (x.val ≠ 0))
  | .string s => AttributeValue.toStr s
  | .blob s => AttributeValue.toBlob s

/-- The primary-key column a row-key cell stands for. -/
def WireCell.column (x : WireCell) : PrimaryKeyColumn :=
  { mName := x.name, mValue := x.value.pkValue }

/-- The attribute a row-data cell stands for. -/
def WireCell.attribute (x : WireCell) : Attribute :=
  { mName := x.name, mValue := x.value.attrValue
    mTimestamp := x.timestamp.map fun t => UtcTime.fromMsec (toInt64 t) }

/-- The row a frame row stands for. -/
def WireRow.row (r : WireRow) : Row :=
  { mPkey := r.key.map WireCell.column, mAttrs := (r.data.getD []).map WireCell.attribute }

/-! ## What a caller observes -/

/-- What a caller of a reader function observes: the value or the error, not
the cursor, which is local to the call. -/
inductive Outcome (α : Type)
  | ok (v : α)
  | error (e : OTSError)
  | abort (a : Abort)
  deriving DecidableEq, Repr

/-- The outcome of a result. -/
def Res.outcome {α : Type} : Res α → Outcome α
  | .ok v _ => .ok v
  | .error e _ => .error e
  | .abort a => .abort a

/-- Every error the result may carry has the code `CorruptedResponse`. -/
def Res.OnlyCorrupted {α : Type} (r : Res α) : Prop :=
  ∀ e b, r = .error e b → e.code = .kPredefined_CorruptedResponse

/-- The result is an error with the code `CorruptedResponse`. -/
def Res.IsCorrupted {α : Type} (r : Res α) : Prop :=
  ∃ e b, r = .error e b ∧ e.code = .kPredefined_CorruptedResponse

/-- Two results agree: they are the same result, or the same error met at
possibly different cursors. -/
def Res.Agree {α : Type} (r r1 : Res α) : Prop :=
  r = r1 ∨ ∃ e b b1, r = .error e b ∧ r1 = .error e b1

/-- The run stays inside the defined behaviour of the program: it reads no
byte outside the input and every loop ends within its fuel. -/
def Res.NoAbort {α : Type} (r : Res α) : Prop :=
  ∀ a, r ≠ .abort a

/-! ## Placeholder positions -/

/-- Modelled from the spec: the bytes of a cell up to and including its
`CellValue` tag; the four placeholder bytes come next. -/
def cellOpening (c : Consts) (name : List Byte) : List Byte :=
  c.kTag_Cell :: c.kTag_CellName :: (leBytes 4 name.length ++ name ++ [c.kTag_CellValue])

/-- The bytes `pre` end right after the `CellValue` tag of a cell of the first
row of a frame: they are the header, the `RowKey` tag, whole row-key cells, then
either an opened row-key cell, or the `RowData` tag, whole cells and an opened
cell. -/
def ValuePosition (c : Consts) (pre : List Byte) : Prop :=
  ∃ (key : List WireCell) (data : Option (List WireCell)) (name : List Byte),
    (∀ x ∈ key, x.KeyWF) ∧ (∀ x ∈ data.getD [], x.WF) ∧ name.length < 2 ^ 32
    ∧ pre = leBytes 4 c.kHeader ++ (c.kTag_RowKey :: (key.map (WireCell.bytes c)).flatten
        ++ (dataSection c data ++ cellOpening c name))

/-- The inputs `p` and `q` differ at most in the four placeholder bytes that
follow one `CellValue` tag. -/
def PlaceholderStep (c : Consts) (p q : List Byte) : Prop :=
  ∃ pre ph ph1 post : List Byte, ValuePosition c pre ∧ ph.length = 4 ∧ ph1.length = 4
    ∧ p = pre ++ (ph ++ post) ∧ q = pre ++ (ph1 ++ post)

/-- The inputs `p` and `q` differ only in placeholder bytes: `q` is reached
from `p` by changing the placeholder of one cell after the other. -/
def PlaceholderVariant (c : Consts) (p q : List Byte) : Prop :=
  Relation.ReflTransGen (PlaceholderStep c) p q

/-! ## The encoder of section 4.A -/

/-- Modelled from the spec: a computed CRC-8 as the byte that is written. -/
def crcByte (crc : Nat) : Byte :=
  ⟨crc % 256, Nat.mod_lt crc (by decide)⟩

/-- Modelled from the spec: the cell the encoder emits for a name, a value and
an optional timestamp: the placeholder is `ph` of the value bytes (the rules
leave it free, it "may be zero"), the checksum is the cell CRC-8. -/
def layoutCell (c : Consts) (ph : List Byte → Nat) (name : List Byte) (value : WireValue)
    (timestamp : Option Nat) : WireCell :=
  let x : WireCell :=
    { name := name, placeholder := leBytes 4 (ph (c.vt value.vt :: value.body)),
      value := value, timestamp := timestamp, checksum := 0 }
  { x with checksum := crcByte (x.crc c) }

/-- Modelled from the spec: the wire value of a primary-key value; the rules
cover Integer, String and Blob. -/
def PrimaryKeyValue.wire (v : PrimaryKeyValue) : Option WireValue :=
  match v.mCategory with
  | .kInteger => some (.integer (toUint64 v.mIntValue))
  | .kString => some (.string v.mStrBlobValue)
  | .kBinary => some (.blob v.mStrBlobValue)
  | .kNone | .kInfMin | .kInfMax | .kAutoIncr => none

/-- Modelled from the spec: the wire value of an attribute value. -/
def AttributeValue.wire (v : AttributeValue) : Option WireValue :=
  match v.mCategory with
  | .kInteger => some (.integer (toUint64 v.mIntValue))
  | .kFloatPoint => some (.double v.mFloatingValue)
  | .kBoolean => some (.boolean (if v.mBoolValue then 1 else 0))
  | .kString => some (.string v.mStrBlobValue)
  | .kBinary => some (.blob v.mStrBlobValue)
  | .kNone => none

/-- Modelled from the spec: the cell of a primary-key column. -/
def PrimaryKeyColumn.layout (c : Consts) (ph : List Byte → Nat) (col : PrimaryKeyColumn) :
    Option WireCell :=
  col.mValue.wire.map fun v => layoutCell c ph col.mName v none

/-- Modelled from the spec: the cell of an attribute; its timestamp goes out as
whole milliseconds. -/
def Attribute.layout (c : Consts) (ph : List Byte → Nat) (a : Attribute) : Option WireCell :=
  a.mValue.wire.map fun v =>
    layoutCell c ph a.mName v (a.mTimestamp.map fun t => toUint64 t.toMsec)

/-- All the values of a list of options, when none is missing. -/
def collect {α : Type} : List (Option α) → Option (List α)
  | [] => some []
  | none :: _ => none
  | some a :: l => (collect l).map (a :: ·)

/-- Modelled from the spec: the row the encoder emits: the row-key section, the
row-data section, and the row CRC-8 as checksum. -/
def layoutRow (c : Consts) (ph : List Byte → Nat) (X : Row) : Option WireRow :=
  match collect (X.mPkey.map (PrimaryKeyColumn.layout c ph)),
      collect (X.mAttrs.map (Attribute.layout c ph)) with
  | some key, some data =>
    let r : WireRow := { key := key, data := some data, checksum := 0 }
    some { r with checksum := crcByte r.crc }
  | _, _ => none

/-- Modelled from the spec: the frame of a row: 4-byte little-endian header,
`RowKey` section, `RowData` section, `RowChecksum`. -/
def encodeFrame (c : Consts) (ph : List Byte → Nat) (X : Row) : Option (List Byte) :=
  (layoutRow c ph X).map fun r => frameBytes c [r]

/-! ## The role of every byte of a frame -/

/-- The role a byte plays in a frame. -/
inductive ByteKind
  | header
  | tag
  | nameLength
  | name
  | placeholder
  | variantType
  | valueLength
  | value
  | boolean
  | timestamp
  | cellChecksum
  | rowChecksum
  deriving DecidableEq, Repr

/-- The roles whose bytes take part in a checksum or in the header comparison
without steering the layout: header bytes, name bytes, the eight bytes of an
Integer or a Double, the content bytes of a String or a Blob, timestamp bytes
and cell-checksum bytes. -/
@[reducible] def ByteKind.Checked (k : ByteKind) : Prop :=
  k = .header ∨ k = .name ∨ k = .value ∨ k = .timestamp ∨ k = .cellChecksum

/-- The roles of the bytes of `WireValue.body`, byte for byte. -/
def WireValue.kinds : WireValue → List ByteKind
  | .integer _ => List.replicate 8 .value
  | .double _ => List.replicate 8 .value
  | .boolean _ => [.boolean]
  | .string s => List.replicate 4 .valueLength ++ List.replicate s.length .value
  | .blob s => List.replicate 4 .valueLength ++ List.replicate s.length .value

/-- The roles of the bytes of `timestampSection`, byte for byte. -/
def timestampKinds : Option Nat → List ByteKind
  | none => []
  | some _ => .tag :: List.replicate 8 .timestamp

/-- The roles of the bytes of `WireCell.bytes`, byte for byte. -/
def WireCell.kinds (x : WireCell) : List ByteKind :=
  [.tag, .tag] ++ List.replicate 4 .nameLength ++ List.replicate x.name.length .name
    ++ [.tag] ++ List.replicate x.placeholder.length .placeholder ++ [.variantType]
    ++ x.value.kinds
    ++ timestampKinds x.timestamp
    ++ [.tag, .cellChecksum]

/-- The roles of the bytes of `dataSection`, byte for byte. -/
def dataKinds : Option (List WireCell) → List ByteKind
  | none => []
  | some a => .tag :: (a.map WireCell.kinds).flatten

/-- The roles of the bytes of `WireRow.bytes`, byte for byte. -/
def WireRow.kinds (r : WireRow) : List ByteKind :=
  .tag :: (r.key.map WireCell.kinds).flatten
    ++ dataKinds r.data
    ++ [.tag, .rowChecksum]

/-- The roles of the bytes of `frameBytes`, byte for byte. -/
def frameKinds (rows : List WireRow) : List ByteKind :=
  List.replicate 4 .header ++ (rows.map WireRow.kinds).flatten

/-- The roles of the bytes of `encodeFrame`, byte for byte. -/
def encodeKinds (c : Consts) (ph : List Byte → Nat) (X : Row) : Option (List ByteKind) :=
  (layoutRow c ph X).map fun r => frameKinds [r]

/-- The bytes `bs1` are the bytes `bs`, whose roles are `ks`, with one byte of
a checked role replaced by a different value. -/
def Flip (bs : List Byte) (ks : List ByteKind) (bs1 : List Byte) : Prop :=
  ∃ (pre : List Byte) (x : Byte) (post : List Byte) (y : Byte) (k : ByteKind),
    bs = pre ++ x :: post ∧ ks[pre.length]? = some k ∧ k.Checked ∧ y ≠ x
    ∧ bs1 = pre ++ y :: post

/-! ## Well-formed rows -/

/-- The value lies in `int64_t`. -/
@[reducible] def InInt64 (x : Int) : Prop :=
  -2 ^ 63 ≤ x ∧ x < 2 ^ 63

/-- A primary-key value that is an Integer, a String or a Blob, as its
constructor `toInteger`, `toStr` or `toBlob` leaves it, a string or blob being
shorter than `2 ^ 32` bytes. -/
def PrimaryKeyValue.WellFormed (v : PrimaryKeyValue) : Prop :=
  (v = PrimaryKeyValue.toInteger v.mIntValue ∧ InInt64 v.mIntValue)
  ∨ ((v = PrimaryKeyValue.toStr v.mStrBlobValue ∨ v = PrimaryKeyValue.toBlob v.mStrBlobValue)
      ∧ v.mStrBlobValue.length < 2 ^ 32)

instance (v : PrimaryKeyValue) : Decidable v.WellFormed := by
  unfold PrimaryKeyValue.WellFormed
  infer_instance

/-- The bit pattern of a `double` that is finite: the 11 exponent bits are not
all ones. -/
@[reducible] def FiniteDouble (bits : Nat) : Prop :=
  bits < 2 ^ 64 ∧ (bits >>> 52) &&& 0x7FF ≠ 0x7FF

/-- An attribute value that is a String, an Integer, a Blob, a Boolean or a
finite Double, as its constructor leaves it. -/
def AttributeValue.WellFormed (v : AttributeValue) : Prop :=
  (v = AttributeValue.toInteger v.mIntValue ∧ InInt64 v.mIntValue)
  ∨ ((v = AttributeValue.toStr v.mStrBlobValue ∨ v = AttributeValue.toBlob v.mStrBlobValue)
      ∧ v.mStrBlobValue.length < 2 ^ 32)
  ∨ v = AttributeValue.toBoolean v.mBoolValue
  ∨ (v = AttributeValue.toFloatPoint v.mFloatingValue ∧ FiniteDouble v.mFloatingValue)

instance (v : AttributeValue) : Decidable v.WellFormed := by
  unfold AttributeValue.WellFormed
  infer_instance

/-- A timestamp of whole, non-negative milliseconds; its microseconds lie in
`int64_t`. -/
@[reducible] def UtcTime.WellFormed (t : UtcTime) : Prop :=
  0 ≤ t.mValue ∧ t.mValue % 1000 = 0 ∧ t.mValue < 2 ^ 63

/-- A well-formed primary-key column. -/
@[reducible] def PrimaryKeyColumn.WellFormed (col : PrimaryKeyColumn) : Prop :=
  col.mName.length < 2 ^ 32 ∧ col.mValue.WellFormed

/-- A well-formed attribute. -/
@[reducible] def Attribute.WellFormed (a : Attribute) : Prop :=
  a.mName.length < 2 ^ 32 ∧ a.mValue.WellFormed ∧ ∀ t ∈ a.mTimestamp, t.WellFormed

/-- A well-formed row: every key column and every attribute is well formed. -/
@[reducible] def Row.WellFormed (X : Row) : Prop :=
  (∀ col ∈ X.mPkey, col.WellFormed) ∧ ∀ a ∈ X.mAttrs, a.WellFormed

/-- The row of scenario S7: key column `pk` with the integer 1, attribute
`attr` with the string `a`. -/
def sampleRow : Row :=
  { mPkey := [{ mName := [0x70, 0x6B], mValue := PrimaryKeyValue.toInteger 1 }]
    mAttrs := [{ mName := [0x61, 0x74, 0x74, 0x72], mValue := AttributeValue.toStr [0x61] }] }

/-- A row with a timestamped Boolean attribute next to the cells of
`sampleRow`. -/
def sampleRow2 : Row :=
  { mPkey := [{ mName := [0x70, 0x6B], mValue := PrimaryKeyValue.toInteger 1 },
              { mName := [0x6B], mValue := PrimaryKeyValue.toStr [0x61, 0x62] }]
    mAttrs := [{ mName := [0x61, 0x74, 0x74, 0x72], mValue := AttributeValue.toStr [0x61] },
               { mName := [0x62], mValue := AttributeValue.toBoolean true,
                 mTimestamp := some { mValue := 5000 } }] }

/-- The 55 bytes of the frame of `sampleRow` under the constants `wire`, every
placeholder being 0: header; `RowKey`; the cell `pk` (Integer 1, checksum
0x4C); `RowData`; the cell `attr` (String `a`, checksum 0x02); `RowChecksum`
0x56. -/
def sampleFrame : List Byte :=
  [0x75, 0, 0, 0,
   1,
   3, 4, 2, 0, 0, 0, 0x70, 0x6B, 5, 0, 0, 0, 0, 0, 1, 0, 0, 0, 0, 0, 0, 0, 0x0A, 0x4C,
   2,
   3, 4, 4, 0, 0, 0, 0x61, 0x74, 0x74, 0x72, 5, 0, 0, 0, 0, 3, 1, 0, 0, 0, 0x61, 0x0A, 0x02,
   9, 0x56]

/-- The layout of `sampleFrame`: its cells and checksum bytes. -/
def sampleWire : WireRow :=
  { key := [{ name := [0x70, 0x6B], placeholder := [0, 0, 0, 0], value := .integer 1,
              timestamp := none, checksum := 0x4C }]
    data := some [{ name := [0x61, 0x74, 0x74, 0x72], placeholder := [0, 0, 0, 0],
                    value := .string [0x61], timestamp := none, checksum := 0x02 }]
    checksum := 0x56 }

/-- A row with the key column of `sampleRow` and the Boolean attribute `b`,
true. -/
def sampleBoolRow : Row :=
  { mPkey := [{ mName := [0x70, 0x6B], mValue := PrimaryKeyValue.toInteger 1 }]
    mAttrs := [{ mName := [0x62], mValue := AttributeValue.toBoolean true }] }

/-- The 48 bytes of the frame of `sampleBoolRow` under the constants `wire`,
every placeholder being 0; the byte of the Boolean is byte 43. -/
def sampleBoolFrame : List Byte :=
  [0x75, 0, 0, 0,
   1,
   3, 4, 2, 0, 0, 0, 0x70, 0x6B, 5, 0, 0, 0, 0, 0, 1, 0, 0, 0, 0, 0, 0, 0, 0x0A, 0x4C,
   2,
   3, 4, 1, 0, 0, 0, 0x62, 5, 0, 0, 0, 0, 2, 1, 0x0A, 0x3E,
   9, 0x53]

/-! ## Validation: results and messages -/

/-- What a call of a `validate()` function ends in: `std::optional<OTSError>()`,
an error, or the end of the process by an `OTS_ASSERT` that fails. -/
inductive Verdict
  | ok
  | error (e : OTSError)
  | assertFailed
  deriving DecidableEq, Repr

/-- The macro `TRY(x)` on a `std::optional<OTSError>`: return the error of `x`,
go on with `k` when there is none. -/
def Verdict.andThen (v : Verdict) (k : Verdict) : Verdict :=
  match v with
  | .ok => k
  | .error e => .error e
  | .assertFailed => .assertFailed

/-- The loop `for(i = 0; i < sz; ++i) { body(x[i]) }` whose body returns from the
function on an error. -/
def Verdict.forEach {α : Type} (body : α → Verdict) : List α → Verdict
  | [] => .ok
  | x :: xs => (body x).andThen (Verdict.forEach body xs)

/-- The statements `OTSError e(OTSError::kPredefined_OTSParameterInvalid);
e.mutableMessage() = msg; return e;`. -/
def invalid (msg : String) : Verdict :=
  .error { code := .kPredefined_OTSParameterInvalid, message := msg }

/-- The bytes of a `std::string` as they are appended to a message: every byte
as the character of that code. -/
def text (s : List Byte) : String :=
  String.mk (s.map fun b => Char.ofNat b.val)

/-- Modelled from the spec: `pp::prettyPrint` of a string into a message; the
pretty-printer header is not among the sources and the specification only has
it produce text: the string between double quotes. -/
def ppString (s : List Byte) : String :=
  "\"" ++ text s ++ "\""

/-- The message of an error with `msg` put in front, as `PrimaryKeyColumn` and
`Attribute` do with the error of their value: the code is kept. -/
def Verdict.mapMessage (v : Verdict) (f : String → String) : Verdict :=
  match v with
  | .error e => .error { e with message := f e.message }
  | v => v

/-! ## util/timestamp.hpp : durations -/

/-- The constant `kUsecPerSec`. -/
def kUsecPerSec : Int := 1000000

/-- The class `Duration`: microseconds in an `int64_t`. -/
structure Duration where
  mValue : Int := 0
  deriving DecidableEq, Repr

/-- The function `Duration::fromMsec` at an `int`: `Duration(x * kUsecPerMsec)`. -/
def Duration.fromMsec (x : Int) : Duration :=
  { mValue := wrapInt64 (x * kUsecPerMsec) }

/-- The function `Duration::fromSec` at an `int`: `Duration(x * kUsecPerSec)`. -/
def Duration.fromSec (x : Int) : Duration :=
  { mValue := wrapInt64 (x * kUsecPerSec) }

/-- The function `Duration::toUsec`. -/
def Duration.toUsec (d : Duration) : Int :=
  d.mValue

/-- The operator `Duration * T` at an `int`: `mValue = static_cast<int64_t>(mValue
* multiple)`. -/
def Duration.mul (d : Duration) (multiple : Int) : Duration :=
  { mValue := wrapInt64 (d.mValue * multiple) }

/-! ## core/types.hpp, core/types.cpp : the data model -/

/-- The enum `Action`. -/
inductive Action
  | kApi_CreateTable
  | kApi_ListTable
  | kApi_DescribeTable
  | kApi_DeleteTable
  | kApi_UpdateTable
  | kApi_GetRow
  | kApi_PutRow
  | kApi_UpdateRow
  | kApi_DeleteRow
  | kApi_BatchGetRow
  | kApi_BatchWriteRow
  | kApi_GetRange
  | kApi_ComputeSplitsBySize
  deriving DecidableEq, Repr

/-- The enum `PrimaryKeyType`. -/
inductive PrimaryKeyType
  | kPKT_Integer
  | kPKT_String
  | kPKT_Binary
  deriving DecidableEq, Repr

/-- The enum `BloomFilterType`. -/
inductive BloomFilterType
  | kBFT_None
  | kBFT_Cell
  | kBFT_Row
  deriving DecidableEq, Repr

/-- The enum `TableStatus`. -/
inductive TableStatus
  | kTS_Active
  | kTS_Inactive
  | kTS_Loading
  | kTS_Unloading
  | kTS_Updating
  deriving DecidableEq, Repr

/-- The enum `CompareResult`. -/
inductive CompareResult
  | kCR_Uncomparable
  | kCR_Equivalent
  | kCR_Smaller
  | kCR_Larger
  deriving DecidableEq, Repr

/-- The class `Endpoint`. -/
structure Endpoint where
  mEndpoint : List Byte := []
  mInstanceName : List Byte := []
  deriving DecidableEq, Repr

/-- The bytes of the literal `"http://"`. -/
def kHttp : List Byte := [0x68, 0x74, 0x74, 0x70, 0x3A, 0x2F, 0x2F]

/-- The bytes of the literal `"https://"`. -/
def kHttps : List Byte := [0x68, 0x74, 0x74, 0x70, 0x73, 0x3A, 0x2F, 0x2F]

/-- The function `Endpoint::validate`; `MemPiece::startsWith` is the test for a
leading piece of bytes. -/
def Endpoint.validate (self : Endpoint) : Verdict :=
  if self.mEndpoint = [] then invalid "Endpoint must be nonempty."
  else if !kHttp.isPrefixOf self.mEndpoint && !kHttps.isPrefixOf self.mEndpoint then
    invalid "Endpoint must starts with either \"http://\" or \"https://\"."
  else if self.mInstanceName = [] then invalid "Instance name must be nonempty."
  else .ok

/-- The class `Credential`. -/
structure Credential where
  mAccessKeyId : List Byte := []
  mAccessKeySecret : List Byte := []
  mSecurityToken : List Byte := []
  deriving DecidableEq, Repr

/-- The function `ContainsCrlf`: the string holds a `'\n'` (10) or a `'\r'`
(13). -/
def ContainsCrlf (s : List Byte) : Bool :=
  s.contains 10 || s.contains 13

/-- The function `Credential::validate`. -/
def Credential.validate (self : Credential) : Verdict :=
  if self.mAccessKeyId = [] then invalid "Access-key id must be nonempty."
  else if ContainsCrlf self.mAccessKeyId then
    invalid "Access-key id must contain neither CR nor LF."
  else if self.mAccessKeySecret = [] then invalid "Access-key secret must be nonempty."
  else if ContainsCrlf self.mAccessKeySecret then
    invalid "Access-key secret must contain neither CR nor LF."
  else if ContainsCrlf self.mSecurityToken then
    invalid "Security token must contain neither CR nor LF."
  else .ok

/-- The class `Tracker`. -/
structure Tracker where
  mTraceId : List Byte := []
  mTraceHash : Nat := 0
  deriving DecidableEq, Repr

/-- The function `Tracker::validate`. -/
def Tracker.validate (_self : Tracker) : Verdict :=
  .ok

/-- The class `ClientOptions`, with the members that `validate` reads; of the
retry strategy only whether the pointer holds an object. -/
structure ClientOptions where
  mMaxConnections : Int := 5000
  mConnectTimeout : Duration := Duration.fromSec 3
  mRequestTimeout : Duration := Duration.fromSec 3
  mRetryStrategy : Option Unit := some ()
  deriving DecidableEq, Repr

/-- The function `ClientOptions::validate`. -/
def ClientOptions.validate (self : ClientOptions) : Verdict :=
  if self.mMaxConnections ≤ 0 then invalid "MaxConnections must be positive."
  else if self.mConnectTimeout.mValue < (Duration.fromMsec 1).mValue then
    invalid "ConnectTimeout must be greater than 1 msec. Recommends 2 secs."
  else if self.mRequestTimeout.mValue < (Duration.fromMsec 1).mValue then
    invalid "RequestTimeout must be greater than 1 msec. Recommends 10 secs."
  else if self.mRetryStrategy = none then invalid "RetryStrategy is required."
  else .ok

/-- The enum `PrimaryKeyColumnSchema::Option`, named apart from the type
`Option` of optional values. -/
inductive PrimaryKeyColumnSchemaOption
  | AutoIncrement
  deriving DecidableEq, Repr

/-- The class `PrimaryKeyColumnSchema`. -/
structure PrimaryKeyColumnSchema where
  mName : List Byte := []
  mType : PrimaryKeyType := .kPKT_Integer
  mOption : Option PrimaryKeyColumnSchemaOption := none
  deriving DecidableEq, Repr

/-- The function `PrimaryKeyColumnSchema::validate`. -/
def PrimaryKeyColumnSchema.validate (self : PrimaryKeyColumnSchema) : Verdict :=
  if self.mName = [] then invalid "\"name\" is required."
  else
    match self.mOption with
    | some opt =>
      if opt = .AutoIncrement ∧ self.mType ≠ .kPKT_Integer then
        invalid ("AutoIncrement can only be applied on kPKT_Integer, for primary key \""
          ++ text self.mName ++ "\".")
      else .ok
    | none => .ok

/-- The class `Schema`: a vector of column schemas. -/
abbrev Schema := List PrimaryKeyColumnSchema

/-- The function `Schema::validate`. -/
def Schema.validate (self : Schema) : Verdict :=
  if self.length = 0 then invalid "Table schema must be nonempty."
  else Verdict.forEach PrimaryKeyColumnSchema.validate self

/-- The function `PrimaryKeyValue::toPrimaryKeyType`; `none` stands for the
`OTS_ASSERT(false)` of the categories that are no type. -/
def PrimaryKeyValue.toPrimaryKeyType : PrimaryKeyValue.Category → Option PrimaryKeyType
  | .kInteger => some .kPKT_Integer
  | .kString => some .kPKT_String
  | .kBinary => some .kPKT_Binary
  | .kNone | .kInfMin | .kInfMax | .kAutoIncr => none

/-- The function `PrimaryKeyValue::validate`. -/
def PrimaryKeyValue.validate (self : PrimaryKeyValue) : Verdict :=
  if self.mCategory = .kNone then invalid "value is required."
  else .ok

/-- The function `PrimaryKeyValue::toInfMax`. -/
def PrimaryKeyValue.toInfMax : PrimaryKeyValue :=
  { mCategory := .kInfMax, mIntValue := 0 }

/-- The function `PrimaryKeyValue::toInfMin`. -/
def PrimaryKeyValue.toInfMin : PrimaryKeyValue :=
  { mCategory := .kInfMin, mIntValue := 0 }

/-- The function `PrimaryKeyValue::toAutoIncrement`. -/
def PrimaryKeyValue.toAutoIncrement : PrimaryKeyValue :=
  { mCategory := .kAutoIncr, mIntValue := 0 }

/-- The function `PrimaryKeyValue::isInfinity`. -/
def PrimaryKeyValue.isInfinity (self : PrimaryKeyValue) : Bool :=
  match self.mCategory with
  | .kInfMin | .kInfMax => true
  | .kNone | .kAutoIncr | .kInteger | .kString | .kBinary => false

/-- The function `PrimaryKeyValue::integer`; `none` stands for its
`OTS_ASSERT(category() == kInteger)` failing. -/
def PrimaryKeyValue.integer (self : PrimaryKeyValue) : Option Int :=
  if self.mCategory = .kInteger then some self.mIntValue else none

/-- The function `PrimaryKeyValue::str`; `none` stands for its assertion
failing. -/
def PrimaryKeyValue.str (self : PrimaryKeyValue) : Option (List Byte) :=
  if self.mCategory = .kString then some self.mStrBlobValue else none

/-- The function `PrimaryKeyValue::blob`; `none` stands for its assertion
failing. -/
def PrimaryKeyValue.blob (self : PrimaryKeyValue) : Option (List Byte) :=
  if self.mCategory = .kBinary then some self.mStrBlobValue else none

/-- Modelled from the spec: `lexicographicOrder` of two pieces of bytes, whose
header is not among the sources ("strings and bytes compare
lexicographically"): negative, zero or positive. -/
def lexicographicOrder : List Byte → List Byte → Int
  | [], [] => 0
  | [], _ :: _ => -1
  | _ :: _, [] => 1
  | x :: xs, y :: ys =>
    if x.val < y.val then -1 else if x.val > y.val then 1 else lexicographicOrder xs ys

/-- The three-way answer that `compare` makes of an `int c`. -/
def CompareResult.ofInt (c : Int) : CompareResult :=
  if c < 0 then .kCR_Smaller else if c > 0 then .kCR_Larger else .kCR_Equivalent

/-- The function `PrimaryKeyValue::compare`; `none` stands for an `OTS_ASSERT`
that fails. -/
def PrimaryKeyValue.compare (self b : PrimaryKeyValue) : Option CompareResult :=
  if self.mCategory = .kNone then none
  else if b.mCategory = .kNone then none
  else if self.mCategory = .kInfMin then
    (if b.mCategory = .kInfMin then some .kCR_Uncomparable else some .kCR_Smaller)
  else if b.mCategory = .kInfMin then some .kCR_Larger
  else if self.mCategory = .kInfMax then
    (if b.mCategory = .kInfMax then some .kCR_Uncomparable else some .kCR_Larger)
  else if b.mCategory = .kInfMax then some .kCR_Smaller
  else if self.mCategory = .kAutoIncr then some .kCR_Uncomparable
  else if b.mCategory = .kAutoIncr then some .kCR_Uncomparable
  else if self.mCategory ≠ b.mCategory then some .kCR_Uncomparable
  else
    match self.mCategory with
    | .kInteger =>
      self.integer.bind fun x => b.integer.bind fun y =>
        if x < y then some .kCR_Smaller
        else if x > y then some .kCR_Larger
        else some .kCR_Equivalent
    | .kString =>
      self.str.bind fun x => b.str.bind fun y =>
        some (CompareResult.ofInt (lexicographicOrder x y))
    | .kBinary =>
      self.blob.bind fun x => b.blob.bind fun y =>
        some (CompareResult.ofInt (lexicographicOrder x y))
    | .kNone | .kInfMin | .kInfMax | .kAutoIncr => none

/-- The function `PrimaryKeyColumn::validate`: the error of the value comes back
with the column named in front of its message. -/
def PrimaryKeyColumn.validate (self : PrimaryKeyColumn) : Verdict :=
  if self.mName = [] then invalid "name of primary-key column is required."
  else
    self.mValue.validate.mapMessage fun msg =>
      "For primary-key column \"" ++ text self.mName ++ "\", " ++ msg

/-- The class `PrimaryKey`: a vector of primary-key columns. -/
abbrev PrimaryKey := List PrimaryKeyColumn

/-- The function `PrimaryKey::validate`. -/
def PrimaryKey.validate (self : PrimaryKey) : Verdict :=
  if self.length = 0 then invalid "Primary key is required."
  else Verdict.forEach PrimaryKeyColumn.validate self

/-- The loop of `PrimaryKey::compare` over the columns from index `i` on, given
as the rests of both keys; `none` stands for an assertion that fails, in
`compare` of the values or in `b[i]` past the end of `b`. -/
def PrimaryKey.compareLoop : List PrimaryKeyColumn → List PrimaryKeyColumn → Option CompareResult
  | [], _ => some .kCR_Equivalent
  | _ :: _, [] => none
  | x :: xs, y :: ys =>
    match x.mValue.compare y.mValue with
    | none => none
    | some c => if c ≠ .kCR_Equivalent then some c else PrimaryKey.compareLoop xs ys

/-- The function `PrimaryKey::compare`. -/
def PrimaryKey.compare (self b : PrimaryKey) : Option CompareResult :=
  if self.length ≠ b.length then some .kCR_Uncomparable
  else PrimaryKey.compareLoop self b

/-- The class `TableMeta`. -/
structure TableMeta where
  mTableName : List Byte := []
  mSchema : Schema := []
  deriving DecidableEq, Repr

/-- The function `TableMeta::validate`. -/
def TableMeta.validate (self : TableMeta) : Verdict :=
  if self.mTableName = [] then invalid "Table name is required."
  else Schema.validate self.mSchema

/-- The class `CapacityUnit`. -/
structure CapacityUnit where
  mRead : Option Int := none
  mWrite : Option Int := none
  deriving DecidableEq, Repr

/-- The function `CapacityUnit::validate`. -/
def CapacityUnit.validate (self : CapacityUnit) : Verdict :=
  (match self.mRead with
    | some r => if r < 0 then invalid "read capacity unit must be positive." else .ok
    | none => .ok).andThen
  (match self.mWrite with
    | some w => if w < 0 then invalid "write capacity unit must be positive." else .ok
    | none => .ok)

/-- The class `TableOptions`. -/
structure TableOptions where
  mReservedThroughput : Option CapacityUnit := none
  mTimeToLive : Option Duration := none
  mMaxVersions : Option Int := none
  mBloomFilterType : Option BloomFilterType := none
  mBlockSize : Option Int := none
  mMaxTimeDeviation : Option Duration := none
  deriving DecidableEq, Repr

/-- The function `TableOptions::validate`; `%` is the remainder of C++, which
truncates. -/
def TableOptions.validate (self : TableOptions) : Verdict :=
  (match self.mReservedThroughput with
    | some cu =>
      cu.validate.andThen
        (if cu.mRead = none then invalid "Read reserved throughput is required."
          else if cu.mWrite = none then invalid "Write reserved throughput is required."
          else .ok)
    | none => .ok).andThen <|
  (match self.mTimeToLive with
    | some ttl =>
      if ttl.toUsec.tmod kUsecPerSec ≠ 0 then
        invalid "TimeToLive must be integral multiple of seconds."
      else if ttl.toUsec ≤ 0 then invalid "TimeToLive must be positive."
      else .ok
    | none => .ok).andThen <|
  (match self.mMaxVersions with
    | some v => if v ≤ 0 then invalid "MaxVersions must be positive." else .ok
    | none => .ok).andThen <|
  (match self.mBlockSize with
    | some v => if v ≤ 0 then invalid "BlockSize must be positive." else .ok
    | none => .ok).andThen <|
  (match self.mMaxTimeDeviation with
    | some d =>
      if d.toUsec.tmod kUsecPerSec ≠ 0 then
        invalid "MaxTimeDeviation must be integral multiple of seconds."
      else if d.toUsec ≤ 0 then invalid "MaxTimeDeviation must be positive."
      else .ok
    | none => .ok)

/-- The library function `isinf` on the 64-bit pattern of a `double`: all eleven
exponent bits set and no fraction bit. -/
def isinf (bits : Nat) : Bool :=
  decide ((bits >>> 52) &&& 0x7FF = 0x7FF ∧ bits &&& 0xFFFFFFFFFFFFF = 0)

/-- The library function `isnan` on the 64-bit pattern of a `double`: all eleven
exponent bits set and some fraction bit. -/
def isnan (bits : Nat) : Bool :=
  decide ((bits >>> 52) &&& 0x7FF = 0x7FF ∧ bits &&& 0xFFFFFFFFFFFFF ≠ 0)

/-- The function `AttributeValue::floatPoint`; `none` stands for its
`OTS_ASSERT(category() == kFloatPoint)` failing. -/
def AttributeValue.floatPoint (self : AttributeValue) : Option Nat :=
  if self.mCategory = .kFloatPoint then some self.mFloatingValue else none

/-- The function `AttributeValue::validate`. -/
def AttributeValue.validate (self : AttributeValue) : Verdict :=
  if self.mCategory = .kNone then invalid "value is required."
  else if self.mCategory = .kFloatPoint then
    match self.floatPoint with
    | none => .assertFailed
    | some v =>
      if isinf v then invalid "value cannot be set to infinity."
      else if isnan v then invalid "value cannot be set to NaN."
      else .ok
  else .ok

/-- The function `Attribute::validate`. -/
def Attribute.validate (self : Attribute) : Verdict :=
  if self.mName = [] then invalid "Attribute name must be nonempty."
  else
    (self.mValue.validate.mapMessage fun msg =>
      "For column " ++ ppString self.mName ++ ", " ++ msg).andThen
    (match self.mTimestamp with
      | some ts =>
        if ts.toMsec < 0 then
          invalid ("Timestamp of column " ++ ppString self.mName ++ " must be positive.")
        else if ts.toUsec.tmod kUsecPerMsec ≠ 0 then
          invalid ("Timestamp of column " ++ ppString self.mName
            ++ " must be multiple of milliseconds.")
        else .ok
      | none => .ok)

/-- The function `Row::validate`. -/
def Row.validate (self : Row) : Verdict :=
  (PrimaryKey.validate self.mPkey).andThen
    (Verdict.forEach Attribute.validate self.mAttrs)

/-- The class `TimeRange`. -/
structure TimeRange where
  mStart : UtcTime := {}
  mEnd : UtcTime := {}
  deriving DecidableEq, Repr

/-- The function `TimeRange::validate`; `%` truncates, and `mStart > mEnd`
compares the `mValue` of both. -/
def TimeRange.validate (self : TimeRange) : Verdict :=
  if self.mStart.toUsec.tmod kUsecPerMsec ≠ 0 then
    invalid "Start of time ranges must be integral multiple of milliseconds."
  else if self.mEnd.toUsec.tmod kUsecPerMsec ≠ 0 then
    invalid "End of time ranges must be integral multiple of milliseconds."
  else if self.mStart.mValue > self.mEnd.mValue then
    invalid "Start of time ranges must be in advance of their ends."
  else .ok

/-- The class `Split`; a `shared_ptr` that holds nothing is `none`. -/
structure Split where
  mLowerBound : Option PrimaryKey := none
  mUpperBound : Option PrimaryKey := none
  mLocation : List Byte := []
  deriving DecidableEq, Repr

/-- The loop of `Split::validate` over the columns of both bounds; a column of
the lower bound without its partner stands for `(*mUpperBound)[i]` past the
end. -/
def Split.validateColumns : List PrimaryKeyColumn → List PrimaryKeyColumn → Verdict
  | [], _ => .ok
  | _ :: _, [] => .assertFailed
  | lower :: ls, upper :: us =>
    if lower.mName ≠ upper.mName then
      invalid ("Lower bound of a split must have the same names of "
        ++ "the upper bound of that split.")
    else if lower.mValue.mCategory ≠ upper.mValue.mCategory then
      invalid ("Lower bound of a split must have the same types of "
        ++ "the upper bound of that split.")
    else Split.validateColumns ls us

/-- The function `Split::validate`. -/
def Split.validate (self : Split) : Verdict :=
  match self.mLowerBound, self.mUpperBound with
  | none, _ => invalid "Lower bound of a split must be nonnull."
  | some _, none => invalid "Upper bound of a split must be nonnull."
  | some lower, some upper =>
    (PrimaryKey.validate lower).andThen <|
    (PrimaryKey.validate upper).andThen <|
    if lower.length ≠ upper.length then
      invalid ("Lower bound of a split must be "
        ++ "of the same length of the upper bound of that split.")
    else
      (Split.validateColumns lower upper).andThen <|
      match PrimaryKey.compare lower upper with
      | none => .assertFailed
      | some c =>
        if c = .kCR_Larger ∨ c = .kCR_Equivalent then
          invalid ("Lower bound of a split must be smaller than the "
            ++ "upper bound of that split.")
        else if c = .kCR_Uncomparable then
          invalid "Lower bound of a split must be comparable with the upper bound."
        else .ok

/-- The class `Response`, the base of every response. -/
structure Response where
  mRequestId : List Byte := []
  mTraceId : List Byte := []
  deriving DecidableEq, Repr

/-- The enum `SingleColumnCondition::Relation`. -/
inductive SingleColumnCondition.Relation
  | kEqual
  | kNotEqual
  | kLarger
  | kLargerEqual
  | kSmaller
  | kSmallerEqual
  deriving DecidableEq, Repr

/-- The class `SingleColumnCondition`; the defaults are those of `reset`. -/
structure SingleColumnCondition where
  mColumnName : List Byte := []
  mRelation : SingleColumnCondition.Relation := .kEqual
  mColumnValue : AttributeValue := {}
  mPassIfMissing : Bool := false
  mLatestVersionOnly : Bool := true
  deriving DecidableEq, Repr

/-- The function `SingleColumnCondition::validate`. -/
def SingleColumnCondition.validate (self : SingleColumnCondition) : Verdict :=
  if self.mColumnName = [] then invalid "Column name is required."
  else
    self.mColumnValue.validate.andThen
      (if self.mColumnValue.mCategory = .kNone then invalid "Column value is required."
        else .ok)

/-- The enum `CompositeColumnCondition::Operator`. -/
inductive CompositeColumnCondition.Operator
  | kNot
  | kAnd
  | kOr
  deriving DecidableEq, Repr

/-- The abstract class `ColumnCondition` with its two subclasses,
`SingleColumnCondition` and `CompositeColumnCondition` (operator and children);
a child pointer that holds nothing is `none`. -/
inductive ColumnCondition
  | kSingle (c : SingleColumnCondition)
  | kComposite (mOperator : CompositeColumnCondition.Operator)
      (mChildren : List (Option ColumnCondition))

mutual
/-- The virtual function `ColumnCondition::validate`: that of the subclass of
the object. -/
def ColumnCondition.validate : ColumnCondition → Verdict
  | .kSingle c => c.validate
  | .kComposite _ mChildren => CompositeColumnCondition.validate mChildren
/-- The function `CompositeColumnCondition::validate`, the loop over the
children. -/
def CompositeColumnCondition.validate : List (Option ColumnCondition) → Verdict
  | [] => .ok
  | none :: _ => invalid "Children of a composite column condition must be nonnull."
  | some child :: rest =>
    child.validate.andThen (CompositeColumnCondition.validate rest)
end

/-- The enum `Condition::RowExistenceExpectation`. -/
inductive Condition.RowExistenceExpectation
  | kIgnore
  | kExpectExist
  | kExpectNotExist
  deriving DecidableEq, Repr

/-- The class `Condition`. -/
structure Condition where
  mRowCondition : Condition.RowExistenceExpectation := .kIgnore
  mColumnCondition : Option ColumnCondition := none

/-- The function `Condition::validate`. -/
def Condition.validate (self : Condition) : Verdict :=
  match self.mColumnCondition with
  | some c => c.validate
  | none => .ok

/-- The enum `RowChange::ReturnType`. -/
inductive RowChange.ReturnType
  | kRT_None
  | kRT_PrimaryKey
  deriving DecidableEq, Repr

/-- The class `RowChange`, the base of the three kinds of row changes. -/
structure RowChange where
  mTable : List Byte := []
  mPrimaryKey : PrimaryKey := []
  mCondition : Condition := {}
  mReturnType : RowChange.ReturnType := .kRT_None

/-- The function `RowChange::validate`. -/
def RowChange.validate (self : RowChange) : Verdict :=
  if self.mTable = [] then invalid "Table name is required."
  else
    (PrimaryKey.validate self.mPrimaryKey).andThen <|
    (Verdict.forEach (fun col : PrimaryKeyColumn =>
        if col.mValue.isInfinity then invalid "Infinity is not allowed in writing a row."
        else .ok) self.mPrimaryKey).andThen <|
    self.mCondition.validate

/-- The class `RowPutChange`. -/
structure RowPutChange extends RowChange where
  mAttrs : List Attribute := []

/-- The function `RowPutChange::validate`. -/
def RowPutChange.validate (self : RowPutChange) : Verdict :=
  self.toRowChange.validate.andThen (Verdict.forEach Attribute.validate self.mAttrs)

/-- The enum `RowUpdateChange::Update::Type`. -/
inductive RowUpdateChange.Update.Type
  | kPut
  | kDelete
  | kDeleteAll
  deriving DecidableEq, Repr

/-- The class `RowUpdateChange::Update`. -/
structure RowUpdateChange.Update where
  mType : RowUpdateChange.Update.Type := .kPut
  mAttrName : List Byte := []
  mAttrValue : Option AttributeValue := none
  mTimestamp : Option UtcTime := none
  deriving DecidableEq, Repr

/-- The function `RowUpdateChange::Update::validate`. -/
def RowUpdateChange.Update.validate (self : RowUpdateChange.Update) : Verdict :=
  if self.mAttrName = [] then invalid "Attribute name is required."
  else
    (match self.mAttrValue with
      | some v => v.validate
      | none => .ok).andThen <|
    match self.mType with
    | .kPut =>
      if self.mAttrValue = none then invalid "Attribute value is required for Put update."
      else .ok
    | .kDelete =>
      if self.mAttrValue ≠ none then
        invalid "Attribute value should not be specified for Delete update."
      else .ok
    | .kDeleteAll =>
      if self.mAttrValue ≠ none then
        invalid "Attribute value should not be specified for Delete-All update."
      else if self.mTimestamp ≠ none then
        invalid "Timestamp should not be specified for Delete-All update."
      else .ok

/-- The class `RowUpdateChange`. -/
structure RowUpdateChange extends RowChange where
  mUpdates : List RowUpdateChange.Update := []

/-- The function `RowUpdateChange::validate`. -/
def RowUpdateChange.validate (self : RowUpdateChange) : Verdict :=
  self.toRowChange.validate.andThen
    (Verdict.forEach RowUpdateChange.Update.validate self.mUpdates)

/-- The class `RowDeleteChange`. -/
structure RowDeleteChange extends RowChange where

/-- The function `RowDeleteChange::validate`. -/
def RowDeleteChange.validate (self : RowDeleteChange) : Verdict :=
  self.toRowChange.validate.andThen .ok

/-- The class `PutRowRequest`. -/
structure PutRowRequest where
  mRowChange : RowPutChange := {}

/-- The function `PutRowRequest::validate`. -/
def PutRowRequest.validate (self : PutRowRequest) : Verdict :=
  self.mRowChange.validate

/-- The class `PutRowResponse`. -/
structure PutRowResponse extends Response where
  mConsumedCapacity : CapacityUnit := {}
  mRow : Option Row := none
  deriving DecidableEq, Repr

/-- The function `PutRowResponse::validate`. -/
def PutRowResponse.validate (self : PutRowResponse) : Verdict :=
  self.mConsumedCapacity.validate.andThen
    (match self.mRow with
      | some row => row.validate
      | none => .ok)

/-- The class `UpdateRowRequest`. -/
structure UpdateRowRequest where
  mRowChange : RowUpdateChange := {}

/-- The function `UpdateRowRequest::validate`. -/
def UpdateRowRequest.validate (self : UpdateRowRequest) : Verdict :=
  self.mRowChange.validate.andThen .ok

/-- The class `UpdateRowResponse`. -/
structure UpdateRowResponse extends Response where
  mConsumedCapacity : CapacityUnit := {}
  mRow : Option Row := none
  deriving DecidableEq, Repr

/-- The function `UpdateRowResponse::validate`. -/
def UpdateRowResponse.validate (self : UpdateRowResponse) : Verdict :=
  self.mConsumedCapacity.validate.andThen
    (match self.mRow with
      | some row => row.validate
      | none => .ok)

/-- The class `DeleteRowRequest`. -/
structure DeleteRowRequest where
  mRowChange : RowDeleteChange := {}

/-- The function `DeleteRowRequest::validate`. -/
def DeleteRowRequest.validate (self : DeleteRowRequest) : Verdict :=
  self.mRowChange.validate.andThen .ok

/-- The class `DeleteRowResponse`. -/
structure DeleteRowResponse extends Response where
  mConsumedCapacity : CapacityUnit := {}
  mRow : Option Row := none
  deriving DecidableEq, Repr

/-- The function `DeleteRowResponse::validate`. -/
def DeleteRowResponse.validate (self : DeleteRowResponse) : Verdict :=
  self.mConsumedCapacity.validate.andThen
    (match self.mRow with
      | some row => row.validate
      | none => .ok)

/-- The class `QueryCriterion`, the base of the query criteria. -/
structure QueryCriterion where
  mTable : List Byte := []
  mColumnsToGet : List (List Byte) := []
  mMaxVersions : Option Int := none
  mTimeRange : Option TimeRange := none
  mCacheBlocks : Option Bool := none
  mFilter : Option ColumnCondition := none

/-- The function `QueryCriterion::validate`. -/
def QueryCriterion.validate (self : QueryCriterion) : Verdict :=
  if self.mTable = [] then invalid "Table name is required."
  else
    (Verdict.forEach (fun col : List Byte =>
        if col = [] then invalid "Columns in ColumnsToGet must be nonempty." else .ok)
      self.mColumnsToGet).andThen <|
    if self.mMaxVersions = none ∧ self.mTimeRange = none then
      invalid "Either MaxVersions or TimeRange is required."
    else if (match self.mMaxVersions with
        | some v => decide (v ≤ 0)
        | none => false) then
      invalid "MaxVersions must be positive."
    else
      (match self.mTimeRange with
        | some tr => tr.validate
        | none => .ok).andThen <|
      match self.mFilter with
      | some f => f.validate
      | none => .ok

/-- The class `PointQueryCriterion`. -/
structure PointQueryCriterion extends QueryCriterion where
  mPrimaryKey : PrimaryKey := []

/-- The function `PointQueryCriterion::validate`. -/
def PointQueryCriterion.validate (self : PointQueryCriterion) : Verdict :=
  self.toQueryCriterion.validate.andThen <|
  (PrimaryKey.validate self.mPrimaryKey).andThen .ok

/-- The class `GetRowRequest`. -/
structure GetRowRequest where
  mQueryCriterion : PointQueryCriterion := {}

/-- The function `GetRowRequest::validate`. -/
def GetRowRequest.validate (self : GetRowRequest) : Verdict :=
  self.mQueryCriterion.validate

/-- The class `GetRowResponse`. -/
structure GetRowResponse extends Response where
  mConsumedCapacity : CapacityUnit := {}
  mRow : Option Row := none
  deriving DecidableEq, Repr

/-- The function `GetRowResponse::validate`. -/
def GetRowResponse.validate (self : GetRowResponse) : Verdict :=
  self.mConsumedCapacity.validate.andThen
    (match self.mRow with
      | some row => row.validate
      | none => .ok)

/-- The enum `RangeQueryCriterion::Direction`. -/
inductive RangeQueryCriterion.Direction
  | FORWARD
  | BACKWARD
  deriving DecidableEq, Repr

/-- The class `RangeQueryCriterion`. -/
structure RangeQueryCriterion extends QueryCriterion where
  mDirection : RangeQueryCriterion.Direction := .FORWARD
  mInclusiveStart : PrimaryKey := []
  mExclusiveEnd : PrimaryKey := []
  mLimit : Option Int := none

/-- The function `RangeQueryCriterion::validate`. -/
def RangeQueryCriterion.validate (self : RangeQueryCriterion) : Verdict :=
  self.toQueryCriterion.validate.andThen <|
  (PrimaryKey.validate self.mInclusiveStart).andThen <|
  (PrimaryKey.validate self.mExclusiveEnd).andThen <|
  if self.mInclusiveStart.length = 0 then invalid "Start primary key is required."
  else if self.mExclusiveEnd.length = 0 then invalid "End primary key is required."
  else if self.mInclusiveStart.length ≠ self.mExclusiveEnd.length then
    invalid "Start primary key must be of the same length of that of the end."
  else
    Verdict.andThen
      (match PrimaryKey.compare self.mInclusiveStart self.mExclusiveEnd with
        | none => Verdict.assertFailed
        | some r =>
          if self.mDirection = .FORWARD then
            if r = .kCR_Uncomparable ∨ r = .kCR_Larger then
              invalid ("Start primary key should be less than or equals "
                ++ "to the end in a forward range.")
            else Verdict.ok
          else
            if r = .kCR_Uncomparable ∨ r = .kCR_Smaller then
              invalid ("Start primary key should be greater than or "
                ++ "equals to the end in a backward range.")
            else Verdict.ok)
      (match self.mLimit with
        | some limit =>
          if limit ≤ 0 then invalid "Limit of GetRange must be positive." else Verdict.ok
        | none => Verdict.ok)

/-- The class `GetRangeRequest`. -/
structure GetRangeRequest where
  mQueryCriterion : RangeQueryCriterion := {}

/-- The function `GetRangeRequest::validate`. -/
def GetRangeRequest.validate (self : GetRangeRequest) : Verdict :=
  self.mQueryCriterion.validate.andThen .ok

/-- The class `GetRangeResponse`. -/
structure GetRangeResponse extends Response where
  mConsumedCapacity : CapacityUnit := {}
  mRows : List Row := []
  mNextStart : Option PrimaryKey := none
  deriving DecidableEq, Repr

/-- The function `GetRangeResponse::validate`. -/
def GetRangeResponse.validate (self : GetRangeResponse) : Verdict :=
  self.mConsumedCapacity.validate.andThen <|
  (Verdict.forEach Row.validate self.mRows).andThen <|
  match self.mNextStart with
  | some pk => (PrimaryKey.validate pk).andThen .ok
  | none => .ok

/-- The class template `PairWithUserData<T>`; the user-data pointer is kept as
a number. -/
structure PairWithUserData (T : Type) where
  mData : T
  mUserData : Nat := 0

/-- The function `PairWithUserData::get`. -/
def PairWithUserData.get {T : Type} (self : PairWithUserData T) : T :=
  self.mData

/-- The class `MultiPointQueryCriterion`. -/
structure MultiPointQueryCriterion extends QueryCriterion where
  mRowKeys : List (PairWithUserData PrimaryKey) := []

/-- The function `MultiPointQueryCriterion::validate`. -/
def MultiPointQueryCriterion.validate (self : MultiPointQueryCriterion) : Verdict :=
  self.toQueryCriterion.validate.andThen
    (Verdict.forEach (fun k : PairWithUserData PrimaryKey => PrimaryKey.validate k.get)
      self.mRowKeys)

/-- The class `BatchGetRowRequest`. -/
structure BatchGetRowRequest where
  mCriteria : List MultiPointQueryCriterion := []

/-- The function `BatchGetRowRequest::validate`. -/
def BatchGetRowRequest.validate (self : BatchGetRowRequest) : Verdict :=
  Verdict.forEach MultiPointQueryCriterion.validate self.mCriteria

/-- The enum `Result::ResultType` of `util/result.hpp`. -/
inductive Result.ResultType
  | OK
  | ERROR
  deriving DecidableEq, Repr

/-- The class template `util::Result<OkType, ErrType>`. -/
structure Result (OkType ErrType : Type) where
  mResultType : Result.ResultType := .OK
  mOkValue : OkType
  mErrValue : ErrType

/-- The function `Result::ok`. -/
def Result.ok {OkType ErrType : Type} (self : Result OkType ErrType) : Bool :=
  decide (self.mResultType = .OK)

/-- The function `Result::okValue`; `none` stands for its `OTS_ASSERT(ok())`
failing. -/
def Result.okValue {OkType ErrType : Type} (self : Result OkType ErrType) : Option OkType :=
  if self.ok then some self.mOkValue else none

/-- The body shared by the loops over row results in `BatchGetRowResponse` and
`BatchWriteRowResponse`: `if (res.ok() && res.okValue()) TRY(res.okValue()->
validate())`. -/
def validateRowResult (res : PairWithUserData (Result (Option Row) OTSError)) : Verdict :=
  if res.get.ok then
    match res.get.okValue with
    | none => .assertFailed
    | some none => .ok
    | some (some row) => row.validate
  else .ok

/-- The class `BatchGetRowResponse`. -/
structure BatchGetRowResponse extends Response where
  mConsumedCapacity : CapacityUnit := {}
  mResults : List (PairWithUserData (Result (Option Row) OTSError)) := []

/-- The function `BatchGetRowResponse::validate`. -/
def BatchGetRowResponse.validate (self : BatchGetRowResponse) : Verdict :=
  self.mConsumedCapacity.validate.andThen (Verdict.forEach validateRowResult self.mResults)

/-- The class `BatchWriteRowRequest`. -/
structure BatchWriteRowRequest where
  mPuts : List (PairWithUserData RowPutChange) := []
  mUpdates : List (PairWithUserData RowUpdateChange) := []
  mDeletes : List (PairWithUserData RowDeleteChange) := []

/-- The function `BatchWriteRowRequest::validate`. -/
def BatchWriteRowRequest.validate (self : BatchWriteRowRequest) : Verdict :=
  (Verdict.forEach (fun x : PairWithUserData RowPutChange => x.get.validate)
    self.mPuts).andThen <|
  (Verdict.forEach (fun x : PairWithUserData RowUpdateChange => x.get.validate)
    self.mUpdates).andThen <|
  Verdict.forEach (fun x : PairWithUserData RowDeleteChange => x.get.validate) self.mDeletes

/-- The class `BatchWriteRowResponse`. -/
structure BatchWriteRowResponse extends Response where
  mConsumedCapacity : CapacityUnit := {}
  mPutResults : List (PairWithUserData (Result (Option Row) OTSError)) := []
  mUpdateResults : List (PairWithUserData (Result (Option Row) OTSError)) := []
  mDeleteResults : List (PairWithUserData (Result (Option Row) OTSError)) := []

/-- The function `BatchWriteRowResponse::validate`. -/
def BatchWriteRowResponse.validate (self : BatchWriteRowResponse) : Verdict :=
  self.mConsumedCapacity.validate.andThen <|
  (Verdict.forEach validateRowResult self.mPutResults).andThen <|
  (Verdict.forEach validateRowResult self.mUpdateResults).andThen <|
  Verdict.forEach validateRowResult self.mDeleteResults

/-- The class `CreateTableRequest`; the defaults are those of its constructor:
reserved throughput `(0, 0)` and one version. -/
structure CreateTableRequest where
  mMeta : TableMeta := {}
  mOptions : TableOptions :=
    { mReservedThroughput := some { mRead := some 0, mWrite := some 0 }
      mMaxVersions := some 1 }
  mShardSplitPoints : List PrimaryKey := []
  deriving DecidableEq, Repr

/-- The pretty-printer of `PrimaryKeyValue::Category`. -/
def PrimaryKeyValue.Category.prettyPrint : PrimaryKeyValue.Category → String
  | .kNone => "None"
  | .kInfMin => "-Inf"
  | .kInfMax => "+Inf"
  | .kAutoIncr => "AutoIncr"
  | .kInteger => "Integer"
  | .kString => "String"
  | .kBinary => "Binary"

/-- The third loop of `CreateTableRequest::validate` over the shard split
points: the first column against the first column of the schema. -/
def CreateTableRequest.validateSplitPoint (schema : Schema) (pk : PrimaryKey) : Verdict :=
  match pk with
  | [] => .assertFailed
  | pkc :: _ =>
    if !pkc.mValue.isReal then
      invalid ("Shard split points contains an unreal value type "
        ++ pkc.mValue.mCategory.prettyPrint ++ ".")
    else
      match schema with
      | [] => .assertFailed
      | colSchema :: _ =>
        if pkc.mName ≠ colSchema.mName then
          invalid ("Shard split points contains " ++ ppString pkc.mName
            ++ ", which is different with that in the schema.")
        else
          match PrimaryKeyValue.toPrimaryKeyType pkc.mValue.mCategory with
          | none => .assertFailed
          | some t =>
            if t ≠ colSchema.mType then
              invalid ("Type of primary-key column " ++ ppString pkc.mName
                ++ " mismatches that in schema.")
            else .ok

/-- The function `CreateTableRequest::validate`. -/
def CreateTableRequest.validate (self : CreateTableRequest) : Verdict :=
  self.mMeta.validate.andThen <|
  self.mOptions.validate.andThen <|
  match self.mOptions.mReservedThroughput with
  | none => invalid "Both read and write capacity units are required."
  | some cu =>
    match cu.mRead, cu.mWrite with
    | none, _ => invalid "Both read and write capacity units are required."
    | some _, none => invalid "Both read and write capacity units are required."
    | some r, some w =>
      if r < 0 then invalid "Read capacity units must be positive."
      else if w < 0 then invalid "Write capacity units must be positive."
      else if self.mOptions.mMaxVersions = none then
        invalid "MaxVersions is missing while creating table."
      else
        (Verdict.forEach PrimaryKey.validate self.mShardSplitPoints).andThen <|
        (Verdict.forEach (fun pk : PrimaryKey =>
            if pk.length ≠ 1 then invalid "Length of shard split points must be exactly one."
            else .ok) self.mShardSplitPoints).andThen <|
        Verdict.forEach (CreateTableRequest.validateSplitPoint self.mMeta.mSchema)
          self.mShardSplitPoints

/-- The class `CreateTableResponse`. -/
structure CreateTableResponse extends Response where
  deriving DecidableEq, Repr

/-- The function `CreateTableResponse::validate`. -/
def CreateTableResponse.validate (_self : CreateTableResponse) : Verdict :=
  .ok

/-- The class `ListTableRequest`. -/
structure ListTableRequest where
  deriving DecidableEq, Repr

/-- The function `ListTableRequest::validate`. -/
def ListTableRequest.validate (_self : ListTableRequest) : Verdict :=
  .ok

/-- The class `ListTableResponse`. -/
structure ListTableResponse extends Response where
  mTables : List (List Byte) := []
  deriving DecidableEq, Repr

/-- The function `ListTableResponse::validate`. -/
def ListTableResponse.validate (_self : ListTableResponse) : Verdict :=
  .ok

/-- The class `DeleteTableRequest`. -/
structure DeleteTableRequest where
  mTable : List Byte := []
  deriving DecidableEq, Repr

/-- The function `DeleteTableRequest::validate`. -/
def DeleteTableRequest.validate (self : DeleteTableRequest) : Verdict :=
  if self.mTable = [] then invalid "Table name must be nonempty."
  else .ok

/-- The class `DeleteTableResponse`. -/
structure DeleteTableResponse extends Response where
  deriving DecidableEq, Repr

/-- The function `DeleteTableResponse::validate`. -/
def DeleteTableResponse.validate (_self : DeleteTableResponse) : Verdict :=
  .ok

/-- The class `DescribeTableRequest`. -/
structure DescribeTableRequest where
  mTable : List Byte := []
  deriving DecidableEq, Repr

/-- The function `DescribeTableRequest::validate`. -/
def DescribeTableRequest.validate (self : DescribeTableRequest) : Verdict :=
  if self.mTable = [] then invalid "Table name must be nonempty."
  else .ok

/-- The class `DescribeTableResponse`. -/
structure DescribeTableResponse extends Response where
  mMeta : TableMeta := {}
  mOptions : TableOptions := {}
  mStatus : TableStatus := .kTS_Active
  mShardSplitPoints : List PrimaryKey := []
  deriving DecidableEq, Repr

/-- The function `DescribeTableResponse::validate`. -/
def DescribeTableResponse.validate (self : DescribeTableResponse) : Verdict :=
  self.mMeta.validate.andThen <|
  self.mOptions.validate.andThen <|
  Verdict.forEach PrimaryKey.validate self.mShardSplitPoints

/-- The class `UpdateTableRequest`. -/
structure UpdateTableRequest where
  mTable : List Byte := []
  mOptions : TableOptions := {}
  deriving DecidableEq, Repr

/-- The function `UpdateTableRequest::validate`. -/
def UpdateTableRequest.validate (self : UpdateTableRequest) : Verdict :=
  if self.mTable = [] then invalid "Table name is required."
  else self.mOptions.validate.andThen .ok

/-- The class `UpdateTableResponse`. -/
structure UpdateTableResponse extends Response where
  deriving DecidableEq, Repr

/-- The function `UpdateTableResponse::validate`. -/
def UpdateTableResponse.validate (_self : UpdateTableResponse) : Verdict :=
  .ok

/-- The constant `ComputeSplitsBySizeRequest::kDefaultSplitSize`. -/
def ComputeSplitsBySizeRequest.kDefaultSplitSize : Int := 5

/-- The class `ComputeSplitsBySizeRequest`. -/
structure ComputeSplitsBySizeRequest where
  mTable : List Byte := []
  mSplitSize : Int := ComputeSplitsBySizeRequest.kDefaultSplitSize
  deriving DecidableEq, Repr

/-- The function `ComputeSplitsBySizeRequest::validate`. -/
def ComputeSplitsBySizeRequest.validate (self : ComputeSplitsBySizeRequest) : Verdict :=
  if self.mTable = [] then invalid "Table name must be nonempty."
  else if self.mSplitSize ≤ 0 then invalid "Split size must be positive."
  else .ok

/-- The class `ComputeSplitsBySizeResponse`. -/
structure ComputeSplitsBySizeResponse extends Response where
  mConsumedCapacity : CapacityUnit := {}
  mSchema : Schema := []
  mSplits : List Split := []
  deriving DecidableEq, Repr

/-- The function `ComputeSplitsBySizeResponse::validate`. -/
def ComputeSplitsBySizeResponse.validate (self : ComputeSplitsBySizeResponse) : Verdict :=
  self.mConsumedCapacity.validate.andThen <|
  (Schema.validate self.mSchema).andThen <|
  Verdict.forEach Split.validate self.mSplits

/-! ## core/batch_writer.cpp -/

/-- The class `BatchWriterConfig`, whose declaration is not among the sources;
the members are those its constructor and `validate` name, the defaults those
of the constructor; of the actors only their number, when given. -/
structure BatchWriterConfig where
  mMaxConcurrency : Int := 32
  mMaxBatchSize : Int := 200
  mRegularNap : Duration := Duration.fromMsec 10
  mMaxNap : Duration := Duration.fromSec 10
  mNapShrinkStep : Duration := Duration.fromMsec 157
  mActors : Option Nat := none
  deriving DecidableEq, Repr

/-- The function `BatchWriterConfig::validate`. -/
def BatchWriterConfig.validate (self : BatchWriterConfig) : Verdict :=
  if self.mMaxConcurrency < 1 then invalid "Max concurrency must be positive."
  else if self.mMaxBatchSize < 1 then invalid "Max batch size must be positive."
  else if self.mRegularNap.mValue ≤ (Duration.fromMsec 1).mValue then
    invalid "Regular nap must be greater than one msec."
  else if self.mMaxNap.mValue < (self.mRegularNap.mul 2).mValue then
    invalid "Max nap must be longer than twice regular period."
  else if self.mNapShrinkStep.mValue ≤ (Duration.fromSec 0).mValue then
    invalid "Each step on shrinking nap must be positive."
  else if (match self.mActors with
      | some n => decide (n = 0)
      | none => false) then
    invalid "Number of invoking-callback threads must be positive."
  else .ok

/-! ## Responses in their reset state -/

/-- The function `Response::reset`. -/
def Response.reset (self : Response) : Response :=
  { self with mRequestId := [], mTraceId := [] }

/-- The function `CapacityUnit::reset`. -/
def CapacityUnit.reset (self : CapacityUnit) : CapacityUnit :=
  { self with mRead := none, mWrite := none }

/-- The function `TableMeta::reset`. -/
def TableMeta.reset (self : TableMeta) : TableMeta :=
  { self with mTableName := [], mSchema := [] }

/-- The function `TableOptions::reset`. -/
def TableOptions.reset (self : TableOptions) : TableOptions :=
  { self with mReservedThroughput := none, mTimeToLive := none, mMaxVersions := none,
              mBloomFilterType := none, mBlockSize := none, mMaxTimeDeviation := none }

/-- The function `CreateTableResponse::reset`. -/
def CreateTableResponse.reset (self : CreateTableResponse) : CreateTableResponse :=
  { self with toResponse := self.toResponse.reset }

/-- The function `ListTableResponse::reset`. -/
def ListTableResponse.reset (self : ListTableResponse) : ListTableResponse :=
  { self with toResponse := self.toResponse.reset, mTables := [] }

/-- The function `DeleteTableResponse::reset`. -/
def DeleteTableResponse.reset (self : DeleteTableResponse) : DeleteTableResponse :=
  { self with toResponse := self.toResponse.reset }

/-- The function `DescribeTableResponse::reset`. -/
def DescribeTableResponse.reset (self : DescribeTableResponse) : DescribeTableResponse :=
  { self with toResponse := self.toResponse.reset, mMeta := self.mMeta.reset,
              mOptions := self.mOptions.reset, mStatus := .kTS_Active,
              mShardSplitPoints := [] }

/-- The function `UpdateTableResponse::reset`. -/
def UpdateTableResponse.reset (self : UpdateTableResponse) : UpdateTableResponse :=
  { self with toResponse := self.toResponse.reset }

/-- The function `ComputeSplitsBySizeResponse::reset`. -/
def ComputeSplitsBySizeResponse.reset (self : ComputeSplitsBySizeResponse) :
    ComputeSplitsBySizeResponse :=
  { self with toResponse := self.toResponse.reset,
              mConsumedCapacity := self.mConsumedCapacity.reset, mSchema := [], mSplits := [] }

/-- The function `PutRowResponse::reset`. -/
def PutRowResponse.reset (self : PutRowResponse) : PutRowResponse :=
  { self with toResponse := self.toResponse.reset,
              mConsumedCapacity := self.mConsumedCapacity.reset, mRow := none }

/-- The function `GetRowResponse::reset`. -/
def GetRowResponse.reset (self : GetRowResponse) : GetRowResponse :=
  { self with toResponse := self.toResponse.reset,
              mConsumedCapacity := self.mConsumedCapacity.reset, mRow := none }

/-- The function `GetRangeResponse::reset`. -/
def GetRangeResponse.reset (self : GetRangeResponse) : GetRangeResponse :=
  { self with toResponse := self.toResponse.reset,
              mConsumedCapacity := self.mConsumedCapacity.reset, mRows := [],
              mNextStart := none }

/-- The function `UpdateRowResponse::reset`. -/
def UpdateRowResponse.reset (self : UpdateRowResponse) : UpdateRowResponse :=
  { self with toResponse := self.toResponse.reset,
              mConsumedCapacity := self.mConsumedCapacity.reset, mRow := none }

/-- The function `DeleteRowResponse::reset`. -/
def DeleteRowResponse.reset (self : DeleteRowResponse) : DeleteRowResponse :=
  { self with toResponse := self.toResponse.reset,
              mConsumedCapacity := self.mConsumedCapacity.reset, mRow := none }

/-- The function `BatchGetRowResponse::reset`. -/
def BatchGetRowResponse.reset (self : BatchGetRowResponse) : BatchGetRowResponse :=
  { self with toResponse := self.toResponse.reset,
              mConsumedCapacity := self.mConsumedCapacity.reset, mResults := [] }

/-- The function `BatchWriteRowResponse::reset`. -/
def BatchWriteRowResponse.reset (self : BatchWriteRowResponse) : BatchWriteRowResponse :=
  { self with toResponse := self.toResponse.reset,
              mConsumedCapacity := self.mConsumedCapacity.reset, mPutResults := [],
              mUpdateResults := [], mDeleteResults := [] }

/-! ## core/impl/api_traits.hpp, core/impl/async_client.cpp -/

/-- The type `ApiTraits<kAction>::ApiRequest`. -/
@[reducible] def ApiTraits.ApiRequest : Action → Type
  | .kApi_CreateTable => CreateTableRequest
  | .kApi_ListTable => ListTableRequest
  | .kApi_DescribeTable => DescribeTableRequest
  | .kApi_DeleteTable => DeleteTableRequest
  | .kApi_UpdateTable => UpdateTableRequest
  | .kApi_GetRow => GetRowRequest
  | .kApi_PutRow => PutRowRequest
  | .kApi_UpdateRow => UpdateRowRequest
  | .kApi_DeleteRow => DeleteRowRequest
  | .kApi_BatchGetRow => BatchGetRowRequest
  | .kApi_BatchWriteRow => BatchWriteRowRequest
  | .kApi_GetRange => GetRangeRequest
  | .kApi_ComputeSplitsBySize => ComputeSplitsBySizeRequest

/-- The type `ApiTraits<kAction>::ApiResponse`. -/
@[reducible] def ApiTraits.ApiResponse : Action → Type
  | .kApi_CreateTable => CreateTableResponse
  | .kApi_ListTable => ListTableResponse
  | .kApi_DescribeTable => DescribeTableResponse
  | .kApi_DeleteTable => DeleteTableResponse
  | .kApi_UpdateTable => UpdateTableResponse
  | .kApi_GetRow => GetRowResponse
  | .kApi_PutRow => PutRowResponse
  | .kApi_UpdateRow => UpdateRowResponse
  | .kApi_DeleteRow => DeleteRowResponse
  | .kApi_BatchGetRow => BatchGetRowResponse
  | .kApi_BatchWriteRow => BatchWriteRowResponse
  | .kApi_GetRange => GetRangeResponse
  | .kApi_ComputeSplitsBySize => ComputeSplitsBySizeResponse

/-- The response that the declaration `typename ApiTraits<kAction>::ApiResponse
resp;` makes: the default constructor of the response type of the action. -/
def ApiTraits.defaultResponse : (kAction : Action) → ApiTraits.ApiResponse kAction
  | .kApi_CreateTable => ({} : CreateTableResponse)
  | .kApi_ListTable => ({} : ListTableResponse)
  | .kApi_DescribeTable => ({} : DescribeTableResponse)
  | .kApi_DeleteTable => ({} : DeleteTableResponse)
  | .kApi_UpdateTable => ({} : UpdateTableResponse)
  | .kApi_GetRow => ({} : GetRowResponse)
  | .kApi_PutRow => ({} : PutRowResponse)
  | .kApi_UpdateRow => ({} : UpdateRowResponse)
  | .kApi_DeleteRow => ({} : DeleteRowResponse)
  | .kApi_BatchGetRow => ({} : BatchGetRowResponse)
  | .kApi_BatchWriteRow => ({} : BatchWriteRowResponse)
  | .kApi_GetRange => ({} : GetRangeResponse)
  | .kApi_ComputeSplitsBySize => ({} : ComputeSplitsBySizeResponse)

/-- The function `reset` of the response type of the action. -/
def ApiTraits.resetResponse :
    (kAction : Action) → ApiTraits.ApiResponse kAction → ApiTraits.ApiResponse kAction
  | .kApi_CreateTable => CreateTableResponse.reset
  | .kApi_ListTable => ListTableResponse.reset
  | .kApi_DescribeTable => DescribeTableResponse.reset
  | .kApi_DeleteTable => DeleteTableResponse.reset
  | .kApi_UpdateTable => UpdateTableResponse.reset
  | .kApi_GetRow => GetRowResponse.reset
  | .kApi_PutRow => PutRowResponse.reset
  | .kApi_UpdateRow => UpdateRowResponse.reset
  | .kApi_DeleteRow => DeleteRowResponse.reset
  | .kApi_BatchGetRow => BatchGetRowResponse.reset
  | .kApi_BatchWriteRow => BatchWriteRowResponse.reset
  | .kApi_GetRange => GetRangeResponse.reset
  | .kApi_ComputeSplitsBySize => ComputeSplitsBySizeResponse.reset

/-- The function `validate` of the request type of the action. -/
def ApiTraits.validateRequest : (kAction : Action) → ApiTraits.ApiRequest kAction → Verdict
  | .kApi_CreateTable => CreateTableRequest.validate
  | .kApi_ListTable => ListTableRequest.validate
  | .kApi_DescribeTable => DescribeTableRequest.validate
  | .kApi_DeleteTable => DeleteTableRequest.validate
  | .kApi_UpdateTable => UpdateTableRequest.validate
  | .kApi_GetRow => GetRowRequest.validate
  | .kApi_PutRow => PutRowRequest.validate
  | .kApi_UpdateRow => UpdateRowRequest.validate
  | .kApi_DeleteRow => DeleteRowRequest.validate
  | .kApi_BatchGetRow => BatchGetRowRequest.validate
  | .kApi_BatchWriteRow => BatchWriteRowRequest.validate
  | .kApi_GetRange => GetRangeRequest.validate
  | .kApi_ComputeSplitsBySize => ComputeSplitsBySizeRequest.validate

/-- The struct `Context<kAction>` of `async_client.cpp`: of the members of its
base class the tracker, and its own request. The user callback is not kept as
a member here: a call of it is a step of `go`. -/
structure Context (kAction : Action) where
  mTracker : Tracker
  mApiRequest : ApiTraits.ApiRequest kAction

/-- What `go` does to the world around it, one step after the other: a call
`cb(req, err, resp)` of the user callback, or the call `issue()` on the
context. -/
inductive GoStep (kAction : Action)
  | userCb (req : ApiTraits.ApiRequest kAction) (err : Option OTSError)
      (resp : ApiTraits.ApiResponse kAction)
  | issue (ctx : Context kAction)

/-- The step is a call of the user callback. -/
def GoStep.isUserCb {kAction : Action} : GoStep kAction → Bool
  | .userCb _ _ _ => true
  | .issue _ => false

/-- The step is a call of `issue()`. -/
def GoStep.isIssue {kAction : Action} : GoStep kAction → Bool
  | .userCb _ _ _ => false
  | .issue _ => true

/-- The function template `go<kAction>` of `async_client.cpp`, as the list of
the steps it takes. The member `build` of the base class
`AsyncClientBase::Context` is not among the sources and is a parameter: from
the context it is called on, its result and the context as it leaves it; the
wrapped callback it is handed is for the response and `build` is taken not to
call it. `tracker` is what `Tracker::create(base.randomGenerator())` made. -/
def go (kAction : Action)
    (build : Context kAction → Option OTSError × Context kAction)
    (tracker : Tracker) (req : ApiTraits.ApiRequest kAction) : List (GoStep kAction) :=
  let ctx : Context kAction := { mTracker := tracker, mApiRequest := req }
  let built := build ctx
  match built.1 with
  | some err => [GoStep.userCb built.2.mApiRequest (some err) (ApiTraits.defaultResponse kAction)]
  | none => [GoStep.issue built.2]

/-- A `build` that only validates: the error of `validate` of the request, the
context untouched. -/
def validateOnly (kAction : Action) (ctx : Context kAction) :
    Option OTSError × Context kAction :=
  match ApiTraits.validateRequest kAction ctx.mApiRequest with
  | .error e => (some e, ctx)
  | _ => (none, ctx)

/-! ## Every object with a `validate()` -/

/-- An object of one of the classes that define `validate()`: the 55 classes of
`core/types.cpp` and `BatchWriterConfig`. Of the abstract class
`ColumnCondition` the objects are those of its two subclasses. -/
inductive Validated
  | ofEndpoint (x : Endpoint)
  | ofCredential (x : Credential)
  | ofTracker (x : Tracker)
  | ofClientOptions (x : ClientOptions)
  | ofPrimaryKeyColumnSchema (x : PrimaryKeyColumnSchema)
  | ofSchema (x : Schema)
  | ofPrimaryKeyValue (x : PrimaryKeyValue)
  | ofPrimaryKeyColumn (x : PrimaryKeyColumn)
  | ofPrimaryKey (x : PrimaryKey)
  | ofTableMeta (x : TableMeta)
  | ofTableOptions (x : TableOptions)
  | ofCapacityUnit (x : CapacityUnit)
  | ofAttributeValue (x : AttributeValue)
  | ofAttribute (x : Attribute)
  | ofRow (x : Row)
  | ofTimeRange (x : TimeRange)
  | ofSplit (x : Split)
  | ofCreateTableRequest (x : CreateTableRequest)
  | ofCreateTableResponse (x : CreateTableResponse)
  | ofListTableRequest (x : ListTableRequest)
  | ofListTableResponse (x : ListTableResponse)
  | ofDeleteTableRequest (x : DeleteTableRequest)
  | ofDeleteTableResponse (x : DeleteTableResponse)
  | ofDescribeTableRequest (x : DescribeTableRequest)
  | ofDescribeTableResponse (x : DescribeTableResponse)
  | ofUpdateTableRequest (x : UpdateTableRequest)
  | ofUpdateTableResponse (x : UpdateTableResponse)
  | ofComputeSplitsBySizeRequest (x : ComputeSplitsBySizeRequest)
  | ofComputeSplitsBySizeResponse (x : ComputeSplitsBySizeResponse)
  | ofCondition (x : Condition)
  | ofSingleColumnCondition (x : SingleColumnCondition)
  | ofCompositeColumnCondition (mOperator : CompositeColumnCondition.Operator)
      (mChildren : List (Option ColumnCondition))
  | ofRowChange (x : RowChange)
  | ofRowPutChange (x : RowPutChange)
  | ofPutRowRequest (x : PutRowRequest)
  | ofPutRowResponse (x : PutRowResponse)
  | ofQueryCriterion (x : QueryCriterion)
  | ofPointQueryCriterion (x : PointQueryCriterion)
  | ofGetRowRequest (x : GetRowRequest)
  | ofGetRowResponse (x : GetRowResponse)
  | ofRangeQueryCriterion (x : RangeQueryCriterion)
  | ofGetRangeRequest (x : GetRangeRequest)
  | ofGetRangeResponse (x : GetRangeResponse)
  | ofUpdate (x : RowUpdateChange.Update)
  | ofRowUpdateChange (x : RowUpdateChange)
  | ofUpdateRowRequest (x : UpdateRowRequest)
  | ofUpdateRowResponse (x : UpdateRowResponse)
  | ofRowDeleteChange (x : RowDeleteChange)
  | ofDeleteRowRequest (x : DeleteRowRequest)
  | ofDeleteRowResponse (x : DeleteRowResponse)
  | ofMultiPointQueryCriterion (x : MultiPointQueryCriterion)
  | ofBatchGetRowRequest (x : BatchGetRowRequest)
  | ofBatchGetRowResponse (x : BatchGetRowResponse)
  | ofBatchWriteRowRequest (x : BatchWriteRowRequest)
  | ofBatchWriteRowResponse (x : BatchWriteRowResponse)
  | ofBatchWriterConfig (x : BatchWriterConfig)

/-- The function `validate()` of the object. -/
def Validated.validate : Validated → Verdict
  | .ofEndpoint x => x.validate
  | .ofCredential x => x.validate
  | .ofTracker x => x.validate
  | .ofClientOptions x => x.validate
  | .ofPrimaryKeyColumnSchema x => x.validate
  | .ofSchema x => Schema.validate x
  | .ofPrimaryKeyValue x => x.validate
  | .ofPrimaryKeyColumn x => x.validate
  | .ofPrimaryKey x => PrimaryKey.validate x
  | .ofTableMeta x => x.validate
  | .ofTableOptions x => x.validate
  | .ofCapacityUnit x => x.validate
  | .ofAttributeValue x => x.validate
  | .ofAttribute x => x.validate
  | .ofRow x => x.validate
  | .ofTimeRange x => x.validate
  | .ofSplit x => x.validate
  | .ofCreateTableRequest x => x.validate
  | .ofCreateTableResponse x => x.validate
  | .ofListTableRequest x => x.validate
  | .ofListTableResponse x => x.validate
  | .ofDeleteTableRequest x => x.validate
  | .ofDeleteTableResponse x => x.validate
  | .ofDescribeTableRequest x => x.validate
  | .ofDescribeTableResponse x => x.validate
  | .ofUpdateTableRequest x => x.validate
  | .ofUpdateTableResponse x => x.validate
  | .ofComputeSplitsBySizeRequest x => x.validate
  | .ofComputeSplitsBySizeResponse x => x.validate
  | .ofCondition x => x.validate
  | .ofSingleColumnCondition x => x.validate
  | .ofCompositeColumnCondition _ mChildren => CompositeColumnCondition.validate mChildren
  | .ofRowChange x => x.validate
  | .ofRowPutChange x => x.validate
  | .ofPutRowRequest x => x.validate
  | .ofPutRowResponse x => x.validate
  | .ofQueryCriterion x => x.validate
  | .ofPointQueryCriterion x => x.validate
  | .ofGetRowRequest x => x.validate
  | .ofGetRowResponse x => x.validate
  | .ofRangeQueryCriterion x => x.validate
  | .ofGetRangeRequest x => x.validate
  | .ofGetRangeResponse x => x.validate
  | .ofUpdate x => x.validate
  | .ofRowUpdateChange x => x.validate
  | .ofUpdateRowRequest x => x.validate
  | .ofUpdateRowResponse x => x.validate
  | .ofRowDeleteChange x => x.validate
  | .ofDeleteRowRequest x => x.validate
  | .ofDeleteRowResponse x => x.validate
  | .ofMultiPointQueryCriterion x => x.validate
  | .ofBatchGetRowRequest x => x.validate
  | .ofBatchGetRowResponse x => x.validate
  | .ofBatchWriteRowRequest x => x.validate
  | .ofBatchWriteRowResponse x => x.validate
  | .ofBatchWriterConfig x => x.validate

/-- The verdict is no error of a code other than `OTSParameterInvalid`. -/
def Verdict.OnlyInvalid : Verdict → Prop
  | .error e => e.code = .kPredefined_OTSParameterInvalid
  | _ => True

/-- The verdict is `ok` or an error: no assertion has failed. -/
def Verdict.Returns : Verdict → Prop
  | .assertFailed => False
  | _ => True

/-! ## Sample requests -/

/-- An `UpdateRowRequest` on table `t`, row `k = 1`, with one Put update of
column `a` to the integer 1 at the timestamp of 1 microsecond. -/
def sampleUpdateRowRequest : UpdateRowRequest :=
  { mRowChange :=
      { mTable := [0x74]
        mPrimaryKey := [{ mName := [0x6B], mValue := PrimaryKeyValue.toInteger 1 }]
        mUpdates := [{ mType := .kPut, mAttrName := [0x61],
                       mAttrValue := some (AttributeValue.toInteger 1),
                       mTimestamp := some { mValue := 1 } }] } }

/-- A `PutRowRequest` on table `t`, row `k = 1`, with the columns `a`, the
integer 1 at 1000 microseconds, and `b`, the integer 2 at -1000
microseconds. -/
def samplePutRowRequest : PutRowRequest :=
  { mRowChange :=
      { mTable := [0x74]
        mPrimaryKey := [{ mName := [0x6B], mValue := PrimaryKeyValue.toInteger 1 }]
        mAttrs := [{ mName := [0x61], mValue := AttributeValue.toInteger 1,
                     mTimestamp := some { mValue := 1000 } },
                   { mName := [0x62], mValue := AttributeValue.toInteger 2,
                     mTimestamp := some { mValue := -1000 } }] } }

/-- A `RangeQueryCriterion` on table `t` for one version, forward from `k = 1`
to `k = 2`, at most 10 rows. -/
def sampleRangeQueryCriterion : RangeQueryCriterion :=
  { mTable := [0x74]
    mMaxVersions := some 1
    mDirection := .FORWARD
    mInclusiveStart := [{ mName := [0x6B], mValue := PrimaryKeyValue.toInteger 1 }]
    mExclusiveEnd := [{ mName := [0x6B], mValue := PrimaryKeyValue.toInteger 2 }]
    mLimit := some 10 }

/-- A `CreateTableRequest` for table `t` with the integer key column `k`, the
options of the constructor, and the one shard split point `k = 5`. -/
def sampleCreateTableRequest : CreateTableRequest :=
  { mMeta := { mTableName := [0x74], mSchema := [{ mName := [0x6B], mType := .kPKT_Integer }] }
    mShardSplitPoints := [[{ mName := [0x6B], mValue := PrimaryKeyValue.toInteger 5 }]] }

/-! ## util/timestamp.hpp : arithmetic of `UtcTime` -/

/-- The constant `kUsecPerMin`. -/
def kUsecPerMin : Int := kUsecPerSec * 60

/-- The constant `kUsecPerHour`. -/
def kUsecPerHour : Int := kUsecPerMin * 60

/-- The function `Duration::fromUsec` at an `int64_t`. -/
def Duration.fromUsec (x : Int) : Duration :=
  { mValue := x }

/-- The function `UtcTime::fromUsec`. -/
def UtcTime.fromUsec (usec : Int) : UtcTime :=
  { mValue := usec }

/-- The function `UtcTime::fromSec`: `UtcTime(sec * kUsecPerSec)`, the product
taken in `int64_t` without any check. -/
def UtcTime.fromSec (sec : Int) : UtcTime :=
  { mValue := wrapInt64 (sec * kUsecPerSec) }

/-- The function `UtcTime::fromMin`: `UtcTime(min * kUsecPerMin)`, the product
taken in `int64_t` without any check. -/
def UtcTime.fromMin (min : Int) : UtcTime :=
  { mValue := wrapInt64 (min * kUsecPerMin) }

/-- The function `UtcTime::fromHour`: `UtcTime(hour * kUsecPerHour)`, the product
taken in `int64_t` without any check. -/
def UtcTime.fromHour (hour : Int) : UtcTime :=
  { mValue := wrapInt64 (hour * kUsecPerHour) }

/-- The operator `UtcTime - UtcTime`: the difference taken in `int64_t`; `none`
stands for the `OTS_ASSERT((result >= 0) == (mValue >= ano.mValue))` failing
("UtcTime underflow"). -/
def UtcTime.sub (self ano : UtcTime) : Option Duration :=
  let result := wrapInt64 (self.mValue - ano.mValue)
  if decide (result ≥ 0) = decide (self.mValue ≥ ano.mValue) then
    some (Duration.fromUsec result)
  else none

/-- The operator `UtcTime += Duration`: the sum taken in `int64_t`; `none` stands
for the `OTS_ASSERT((delta.toUsec() >= 0) == (newValue >= mValue))` failing
("UtcTime overflow"). -/
def UtcTime.addAssign (self : UtcTime) (delta : Duration) : Option UtcTime :=
  let newValue := wrapInt64 (self.mValue + delta.toUsec)
  if decide (delta.toUsec ≥ 0) = decide (newValue ≥ self.mValue) then
    some { self with mValue := newValue }
  else none

/-- The operator `UtcTime + Duration`: a copy of `base` and `+=`. -/
def UtcTime.add (base : UtcTime) (delta : Duration) : Option UtcTime :=
  base.addAssign delta

/-! ## core/batch_writer.cpp : creation of a writer -/

/-- The function `AsyncBatchWriter::create`: the result and the pointer `writer`
as the call leaves it. The constructor of `impl::AsyncBatchWriter` is not among
the sources; `newWriter` is the object that `new impl::AsyncBatchWriter(client,
cfg)` makes. -/
def AsyncBatchWriter.create {W : Type} (newWriter : W) (writer : Option W)
    (cfg : BatchWriterConfig) : Verdict × Option W :=
  match cfg.validate with
  | .ok => (.ok, some newWriter)
  | v => (v, writer)

/-- The configuration of the constructor with the regular nap set to `2 ^ 62`
microseconds. -/
def sampleHugeNapConfig : BatchWriterConfig :=
  { mRegularNap := Duration.fromUsec (2 ^ 62) }

/-! ## core/http/types.cpp : parsing an endpoint -/

/-- The enum `http::Endpoint::Protocol`. -/
inductive http.Endpoint.Protocol
  | HTTP
  | HTTPS
  deriving DecidableEq, Repr

/-- The class `http::Endpoint`; the protocol of the constructor is `HTTP`. -/
structure http.Endpoint where
  mProtocol : http.Endpoint.Protocol := .HTTP
  mHost : List Byte := []
  mPort : List Byte := []
  deriving DecidableEq, Repr

/-- The bytes of the literals `"http"` and `"https"` that `parseProtocol`
compares with. -/
def http.Endpoint.Protocol.literal : http.Endpoint.Protocol → List Byte
  | .HTTP => [0x68, 0x74, 0x74, 0x70]
  | .HTTPS => [0x68, 0x74, 0x74, 0x70, 0x73]

/-- The bytes of the literals `"80"` and `"443"`, the ports that `parse` sets when
the URL names none. -/
def http.Endpoint.Protocol.defaultPort : http.Endpoint.Protocol → List Byte
  | .HTTP => [0x38, 0x30]
  | .HTTPS => [0x34, 0x34, 0x33]

/-- The test `*c != ':'` of the scan in `parseProtocol`; `':'` is 0x3A. -/
def http.notColon (x : Byte) : Bool :=
  decide (x ≠ 0x3A)

/-- The test `*c != ':' && *c != '/'` of the scan in `parseHost`; `'/'` is
0x2F. -/
def http.inHost (x : Byte) : Bool :=
  decide (x ≠ 0x3A ∧ x ≠ 0x2F)

/-- The test `*c >= '0' && *c <= '9'` of the scan in `parsePort`; `'0'` is 0x30
and `'9'` is 0x39. -/
def http.isDigit (x : Byte) : Bool :=
  decide (0x30 ≤ x ∧ x ≤ 0x39)

/-- The test `*b == '/'` of the scan in `validateRootPath`. -/
def http.isSlash (x : Byte) : Bool :=
  decide (x = 0x2F)

/-- The step `if (c < e && *c == ch) { ++c; } else { return ...; }`: the cursor
behind the byte `ch`, or `none` for the `else`. -/
def http.expect (ch : Byte) : List Byte → Option (List Byte)
  | [] => none
  | x :: rest => if x = ch then some rest else none

/-- The function `parseProtocol`: the error, `proto` and the cursor `b` as the
call leaves them. `':'` is 0x3A and `'/'` is 0x2F. The pretty-printer of a
`MemPiece` is not among the sources and is the parameter `pp`. -/
def http.parseProtocol (pp : List Byte → String) (proto : http.Endpoint.Protocol)
    (b : List Byte) : Option String × http.Endpoint.Protocol × List Byte :=
  let p := b.takeWhile http.notColon
  let c := b.dropWhile http.notColon
  match (if p = http.Endpoint.Protocol.literal .HTTP then some http.Endpoint.Protocol.HTTP
      else if p = http.Endpoint.Protocol.literal .HTTPS then some http.Endpoint.Protocol.HTTPS
      else none) with
  | none => (some ("unsupported protocol: " ++ pp p ++ "."), proto, b)
  | some proto1 =>
    match ((http.expect 0x3A c).bind (http.expect 0x2F)).bind (http.expect 0x2F) with
    | none => (some "invalid syntax of endpoint.", proto1, b)
    | some c3 => (none, proto1, c3)

/-- The function `parseHost`: the error, `out` and the cursor as the call leaves
them. -/
def http.parseHost (out : List Byte) (b : List Byte) : Option String × List Byte × List Byte :=
  let p := b.takeWhile http.inHost
  let c := b.dropWhile http.inHost
  if p.length = 0 then (some "invalid syntax of endpoint.", out, b)
  else (none, p, c)

/-- The function `parsePort`: the error, `out` and the cursor as the call leaves
them. `'0'` is 0x30 and `'9'` is 0x39. -/
def http.parsePort (out : List Byte) (b : List Byte) : Option String × List Byte × List Byte :=
  match b with
  | [] => (none, out, b)
  | x :: b1 =>
    if x ≠ 0x3A then (none, out, b)
    else
      let p := b1.takeWhile http.isDigit
      let c := b1.dropWhile http.isDigit
      if p.length = 0 then (some "invalid syntax of endpoint.", out, b1)
      else (none, p, c)

/-- The function `validateRootPath`: the loop passes over every `'/'` at the
front. -/
def http.validateRootPath (b : List Byte) : Option String :=
  if b.dropWhile http.isSlash ≠ [] then some "invalid syntax of endpoint."
  else none

/-- The function `http::Endpoint::parse`: the error and `out` as the call leaves
it. -/
def http.Endpoint.parse (pp : List Byte → String) (out : http.Endpoint) (url : List Byte) :
    Option String × http.Endpoint :=
  if url = [] then (some "Endpoint must be nonempty.", out)
  else
    match http.parseProtocol pp out.mProtocol url with
    | (some err, proto, _) => (some err, { out with mProtocol := proto })
    | (none, proto, b1) =>
      match http.parseHost out.mHost b1 with
      | (some err, host, _) => (some err, { out with mProtocol := proto, mHost := host })
      | (none, host, b2) =>
        match http.parsePort [] b2 with
        | (some err, _, _) => (some err, { out with mProtocol := proto, mHost := host })
        | (none, port, b3) =>
          let out3 : http.Endpoint :=
            { mProtocol := proto
              mHost := host
              mPort := if port ≠ [] then port else proto.defaultPort }
          match http.validateRootPath b3 with
          | some err => (some err, out3)
          | none => (none, out3)

/-- The URL `scheme "://" host [":" port] rest`. -/
def http.urlOf (proto : http.Endpoint.Protocol) (host : List Byte) (port : Option (List Byte))
    (rest : List Byte) : List Byte :=
  proto.literal ++ [0x3A, 0x2F, 0x2F] ++ host
    ++ (match port with
        | some p => 0x3A :: p
        | none => [])
    ++ rest

/-- The bytes of the text `"http://h//"`. -/
def sampleUrlTwoSlashes : List Byte :=
  [0x68, 0x74, 0x74, 0x70, 0x3A, 0x2F, 0x2F, 0x68, 0x2F, 0x2F]

/-! ## core/range_iterator.hpp and its unit test : the range iterator -/

/-- The type `Api` of `range_iterator_unittest.cpp`: the function that the
`GetRange` of a client is bound to. The mocks of the test bind another function
during a call, so the binding is a state of type `σ`: a call gives the error, the
response, and the binding it leaves behind. -/
abbrev Api (σ : Type) := σ → GetRangeRequest → Option OTSError × GetRangeResponse × σ

/-- One call of `GetRange` as a recording client keeps it: the request, the
error and the response. -/
structure Call where
  mRequest : GetRangeRequest
  mError : Option OTSError
  mResponse : GetRangeResponse

/-- The page that a call delivered: its response, unless the call failed. -/
def Call.page (c : Call) : Option GetRangeResponse :=
  match c.mError with
  | some _ => none
  | none => some c.mResponse

/-- A client bound to `api` that records every call of `GetRange` behind the
calls it has recorded before. -/
def Api.recorded {σ : Type} (api : Api σ) : Api (σ × List Call) :=
  fun client req =>
    ((api client.1 req).1, (api client.1 req).2.1,
      ((api client.1 req).2.2,
        client.2 ++ [{ mRequest := req
                       mError := (api client.1 req).1
                       mResponse := (api client.1 req).2.1 }]))

/-- A deterministic mock in the manner of `getRange_continuation_0` and
`getRange_continuation_1`: it serves the listed pages in order, whatever the
request, each call binding the rest of the list; with no page left it serves the
empty response of `getRange_empty`. -/
def pagesApi : Api (List GetRangeResponse)
  | [], _ => (none, {}, [])
  | p :: ps, _ => (none, p, ps)

/-- The pages that a list of recorded calls delivered. -/
def pagesOf (log : List Call) : List GetRangeResponse :=
  log.filterMap Call.page

/-- The rows of a list of pages, in page order. -/
def rowsOf : List GetRangeResponse → List Row
  | [] => []
  | p :: ps => p.mRows ++ rowsOf ps

/-- The `nextStart` of the last page of a list, if any. -/
def lastNextStart (pages : List GetRangeResponse) : Option PrimaryKey :=
  pages.getLast?.bind fun p => p.mNextStart

/-- Modelled from the spec: one step of the "accumulated consumed-capacity
tally" of section 4.J: a count that the page reports is added to the count so
far (none so far counts as 0); a count that the page does not report leaves the
tally as it is, so that a count no page reported stays absent. -/
def CapacityUnit.accumulate (total page : CapacityUnit) : CapacityUnit :=
  { mRead := match page.mRead with
      | some r => some (total.mRead.getD 0 + r)
      | none => total.mRead
    mWrite := match page.mWrite with
      | some w => some (total.mWrite.getD 0 + w)
      | none => total.mWrite }

/-- The tally of a list of pages, from the empty `CapacityUnit`. -/
def tallyOf (pages : List GetRangeResponse) : CapacityUnit :=
  pages.foldl (fun total p => total.accumulate p.mConsumedCapacity) {}

/-- The sum of the read capacity units that the pages of a list report. -/
def readSum : List GetRangeResponse → Int
  | [] => 0
  | p :: ps => p.mConsumedCapacity.mRead.getD 0 + readSum ps

/-- Modelled from the spec: the range iterator of section 4.J. It "maintains a
cursor, a remaining-limit counter, an accumulated consumed-capacity tally, and a
last-`nextStart`": the cursor is `mInclusiveStart` of the criterion that the
next request carries and the remaining limit is its `mLimit`. `mServerCap` is
the `server_cap` of that section, which neither the spec nor the sources give a
value (`none`: there is none); `mRows` is the row buffer, `mCurrent` the row
positioned by the last `moveNext`, and `mFetched` tells whether a page has been
returned. -/
structure RangeIterator where
  mCriterion : RangeQueryCriterion
  mServerCap : Option Int
  mRows : List Row
  mCurrent : Option Row
  mConsumedCapacity : CapacityUnit
  mNextStart : Option PrimaryKey
  mFetched : Bool

/-- Modelled from the spec: the constructor `RangeIterator(client, criterion)` of
the test: nothing buffered, nothing positioned, nothing fetched. -/
def RangeIterator.create (criterion : RangeQueryCriterion) (serverCap : Option Int) :
    RangeIterator :=
  { mCriterion := criterion
    mServerCap := serverCap
    mRows := []
    mCurrent := none
    mConsumedCapacity := {}
    mNextStart := none
    mFetched := false }

/-- Modelled from the spec: the limit `min(L_remaining, server_cap)` that a
request carries; an absent limit or cap bounds nothing. -/
def RangeIterator.requestLimit (remaining serverCap : Option Int) : Option Int :=
  match remaining, serverCap with
  | some r, some c => some (min r c)
  | some r, none => some r
  | none, c => c

/-- Modelled from the spec: the request that `moveNext` issues, "a `GetRange`
from the cursor with limit `min(L_remaining, server_cap)`". -/
def RangeIterator.request (self : RangeIterator) : GetRangeRequest :=
  { mQueryCriterion :=
      { self.mCriterion with
        mLimit := RangeIterator.requestLimit self.mCriterion.mLimit self.mServerCap } }

/-- Modelled from the spec: the test of `moveNext` for the end of the range:
"`nextStart` is absent and the previous page was returned", or "the caller's
limit has been reached" (section 2, and scenario S4, where no third request is
issued). -/
def RangeIterator.exhausted (self : RangeIterator) : Bool :=
  (self.mFetched && self.mNextStart.isNone)
    || (match self.mCriterion.mLimit with
        | some l => decide (l ≤ 0)
        | none => false)

/-- Modelled from the spec: what `moveNext` does with a page: "refill the
buffer, set cursor ← `nextStart`", take the rows received off the remaining
limit, add the page to the tally and keep its `nextStart`. -/
def RangeIterator.refill (self : RangeIterator) (resp : GetRangeResponse) : RangeIterator :=
  { self with
    mCriterion :=
      { self.mCriterion with
        mInclusiveStart := resp.mNextStart.getD self.mCriterion.mInclusiveStart
        mLimit := self.mCriterion.mLimit.map fun l => l - (resp.mRows.length : Int) }
    mRows := resp.mRows
    mConsumedCapacity := self.mConsumedCapacity.accumulate resp.mConsumedCapacity
    mNextStart := resp.mNextStart
    mFetched := true }

/-- Modelled from the spec: the function `moveNext` of section 4.J: "if the row
buffer is non-empty, pop its head; else if `nextStart` is absent and the
previous page was returned, transition to exhausted; else issue a `GetRange`
..., refill the buffer, set cursor ← `nextStart`, go again"; "failures from
`GetRange` propagate verbatim" and leave no row positioned. Each round takes one
unit of `fuel`; `none` is a run that outlives its fuel. The result is the error,
the iterator and the client as the call leaves them. -/
def RangeIterator.moveNext {σ : Type} (api : Api σ) :
    Nat → RangeIterator → σ → Option (Option OTSError × RangeIterator × σ)
  | 0, _, _ => none
  | fuel + 1, self, client =>
    match self.mRows with
    | r :: rest => some (none, { self with mRows := rest, mCurrent := some r }, client)
    | [] =>
      if self.exhausted = true then some (none, { self with mCurrent := none }, client)
      else
        match (api client self.request).1 with
        | some err =>
          some (some err, { self with mCurrent := none }, (api client self.request).2.2)
        | none =>
          RangeIterator.moveNext api fuel (self.refill (api client self.request).2.1)
            (api client self.request).2.2

/-- Modelled from the spec: the function `valid`: "true iff the last
`move_next` succeeded and a row is positioned". -/
def RangeIterator.valid (self : RangeIterator) : Bool :=
  self.mCurrent.isSome

/-- Modelled from the spec: the function `get`: "the current row". -/
def RangeIterator.get (self : RangeIterator) : Option Row :=
  self.mCurrent

/-- Modelled from the spec: the function `consumedCapacity`. -/
def RangeIterator.consumedCapacity (self : RangeIterator) : CapacityUnit :=
  self.mConsumedCapacity

/-- The function `collect` of `range_iterator_unittest.cpp`: `moveNext` until it
fails or `valid()` is false, each row behind the rows collected before. The
`none` of `get` is `!iter.valid()`. Each round takes one unit of `fuel`, and
`moveNext` gets as much as the round had; `none` is a run that outlives its
fuel. The result is the error, the rows, the iterator and the client. The name
`collect` alone is taken by the helper of the frame layout. -/
def unittest.collect {σ : Type} (api : Api σ) :
    Nat → List Row → RangeIterator → σ → Option (Option OTSError × List Row × RangeIterator × σ)
  | 0, _, _, _ => none
  | fuel + 1, rows, iter, client =>
    match RangeIterator.moveNext api (fuel + 1) iter client with
    | none => none
    | some (some err, iter1, client1) => some (some err, rows, iter1, client1)
    | some (none, iter1, client1) =>
      match iter1.get with
      | none => some (none, rows, iter1, client1)
      | some r => unittest.collect api fuel (rows ++ [r]) iter1 client1

/-! ## Sample pages of the unit test -/

/-- The bytes of the column name `"pk"`. -/
def pkName : List Byte := [0x70, 0x6B]

/-- The primary key with the one column `pk`. -/
def pkKey (v : PrimaryKeyValue) : PrimaryKey :=
  [{ mName := pkName, mValue := v }]

/-- The row whose primary key is `pk = i` and that has no attributes, as the
mocks of the test make it. -/
def pkRow (i : Int) : Row :=
  { mPkey := pkKey (PrimaryKeyValue.toInteger i) }

/-- The criterion of the tests `RangeIterator_empty`, `RangeIterator_one` and
`RangeIterator_continuation`: from `pk = -inf` to `pk = +inf`, no limit. -/
def sampleCriterion : RangeQueryCriterion :=
  { mInclusiveStart := pkKey PrimaryKeyValue.toInfMin
    mExclusiveEnd := pkKey PrimaryKeyValue.toInfMax }

/-- The page of `getRange_one`: the row `pk = 0`, 12 read units. -/
def pageOne : GetRangeResponse :=
  { mRows := [pkRow 0], mConsumedCapacity := { mRead := some 12 } }

/-- The pages of `getRange_continuation_0` and `getRange_continuation_1`. -/
def pagesContinuation : List GetRangeResponse :=
  [{ mRows := [pkRow 0], mNextStart := some (pkKey (PrimaryKeyValue.toInteger 1))
     mConsumedCapacity := { mRead := some 1 } },
   { mRows := [pkRow 1], mConsumedCapacity := { mRead := some 2 } }]

/-- What holds of a range iterator `iter` created with the limit `limit` and the
server cap `cap`, of the calls `log` that a recording client has kept, and of the
rows `out` that the iterator has yielded: the remaining limit is the limit less
the rows received; the rows yielded and the rows buffered are the rows received;
the tally and the last `nextStart` are those of the pages received; and each
request carried the limit that remained when it was issued. -/
structure RangeIterator.Inv (limit cap : Option Int) (iter : RangeIterator) (log : List Call)
    (out : List Row) : Prop where
  limit_eq : iter.mCriterion.mLimit
    = limit.map fun l => l - ((rowsOf (pagesOf log)).length : Int)
  cap_eq : iter.mServerCap = cap
  rows_eq : out ++ iter.mRows = rowsOf (pagesOf log)
  tally_eq : iter.mConsumedCapacity = tallyOf (pagesOf log)
  next_eq : iter.mNextStart = lastNextStart (pagesOf log)
  requests : ∀ pre c post, log = pre ++ c :: post →
    c.mRequest.mQueryCriterion.mLimit
      = RangeIterator.requestLimit
          (limit.map fun l => l - ((rowsOf (pagesOf pre)).length : Int)) cap

/-- Whether the server kept to the limit of the request in a call: a page
delivered for a request with a limit holds no more rows than the limit. -/
def Call.withinLimit (c : Call) : Bool :=
  match c.mError, c.mRequest.mQueryCriterion.mLimit with
  | none, some l => decide ((c.mResponse.mRows.length : Int) ≤ l)
  | _, _ => true

/-- What holds of a range iterator without limit and of the pages `rest` that
`pagesApi` has yet to serve, `last` being the only page without `nextStart`:
either all pages are served and the iterator has seen the page without
`nextStart`, or `rest` ends with `last` and the iterator has fetched nothing or
holds a `nextStart`. -/
def PagesState (last : GetRangeResponse) (self : RangeIterator)
    (rest : List GetRangeResponse) : Prop :=
  self.mCriterion.mLimit = none
    ∧ ((rest = [] ∧ self.mFetched = true ∧ self.mNextStart = none)
      ∨ (∃ init, rest = init ++ [last] ∧ (∀ p ∈ init, p.mNextStart ≠ none)
          ∧ last.mNextStart = none
          ∧ (self.mFetched = false ∨ self.mNextStart ≠ none)))

/-! ## util/timestamp.hpp : the checked operators -/

/-- The operator `Duration += Duration`: the sum taken in `int64_t`; `none`
stands for the `OTS_ASSERT((ano.mValue >= 0) == (newValue >= mValue))` failing
("Duration overflow!"). -/
def Duration.addAssign (self ano : Duration) : Option Duration :=
  let newValue := wrapInt64 (self.mValue + ano.mValue)
  if decide (ano.mValue ≥ 0) = decide (newValue ≥ self.mValue) then
    some { self with mValue := newValue }
  else none

/-- The operator `Duration -= Duration`: the difference taken in `int64_t`;
`none` stands for the `OTS_ASSERT((newValue >= 0) == (mValue >= ano.mValue))`
failing ("Duration underflow!"). -/
def Duration.subAssign (self ano : Duration) : Option Duration :=
  let newValue := wrapInt64 (self.mValue - ano.mValue)
  if decide (newValue ≥ 0) = decide (self.mValue ≥ ano.mValue) then
    some { self with mValue := newValue }
  else none

/-- The class `MonotonicTime`: microseconds from a start that is not defined. -/
structure MonotonicTime where
  mValue : Int := 0
  deriving DecidableEq, Repr

/-- The operator `MonotonicTime - MonotonicTime`; `none` stands for the
`OTS_ASSERT((result >= 0) == (mValue >= ano.mValue))` failing ("MonotonicTime
underflow"). -/
def MonotonicTime.sub (self ano : MonotonicTime) : Option Duration :=
  let result := wrapInt64 (self.mValue - ano.mValue)
  if decide (result ≥ 0) = decide (self.mValue ≥ ano.mValue) then
    some (Duration.fromUsec result)
  else none

/-- The operator `MonotonicTime += Duration`; `none` stands for the
`OTS_ASSERT((inc.toUsec() >= 0) == (newValue >= mValue))` failing
("MonotonicTime overflow"). -/
def MonotonicTime.addAssign (self : MonotonicTime) (inc : Duration) : Option MonotonicTime :=
  let newValue := wrapInt64 (self.mValue + inc.toUsec)
  if decide (inc.toUsec ≥ 0) = decide (newValue ≥ self.mValue) then
    some { self with mValue := newValue }
  else none

/-- The operator `MonotonicTime + Duration`: a copy of `base` and `+=`. -/
def MonotonicTime.add (base : MonotonicTime) (delta : Duration) : Option MonotonicTime :=
  base.addAssign delta

/-! ## core/types.hpp : results of comparisons and retries -/

/-- The result that a comparison has with its two sides exchanged, if the order
is one: `Smaller` for `Larger` and `Larger` for `Smaller`. -/
def CompareResult.reverse : CompareResult → CompareResult
  | .kCR_Smaller => .kCR_Larger
  | .kCR_Larger => .kCR_Smaller
  | .kCR_Equivalent => .kCR_Equivalent
  | .kCR_Uncomparable => .kCR_Uncomparable

/-- The enum `RetryStrategy::RetryCategory`. -/
inductive RetryStrategy.RetryCategory
  | UNRETRIABLE
  | RETRIABLE
  | DEPENDS
  deriving DecidableEq, Repr

/-- Modelled from the spec: the function `RetryStrategy::retriable(const
OTSError&)`, declared in `types.hpp` and defined in no source at hand, as the
"fixed table over the error-code enum" of section 4.E: five codes are retriable,
`OTSQuotaExhausted` and `OTSRequestTimeout` depend on the action, the codes the
section lists as unretriable and those it does not list are unretriable. -/
def RetryStrategy.retriableCategory (e : OTSError) : RetryStrategy.RetryCategory :=
  match e.code with
  | .kPredefined_OTSRowOperationConflict | .kPredefined_OTSNotEnoughCapacityUnit
  | .kPredefined_OTSTableNotReady | .kPredefined_OTSPartitionUnavailable
  | .kPredefined_OTSServerBusy => .RETRIABLE
  | .kPredefined_OTSQuotaExhausted | .kPredefined_OTSRequestTimeout => .DEPENDS
  | _ => .UNRETRIABLE

/-- Modelled from the spec: the actions that section 4.E calls idempotent:
`ListTable`, `DescribeTable`, `GetRow`, `GetRange`, `BatchGetRow`, `DeleteRow`
and `DeleteTable`. -/
def Action.idempotent : Action → Bool
  | .kApi_ListTable | .kApi_DescribeTable | .kApi_GetRow | .kApi_GetRange
  | .kApi_BatchGetRow | .kApi_DeleteRow | .kApi_DeleteTable => true
  | _ => false

/-- Modelled from the spec: the function `RetryStrategy::retriable(Action, const
OTSError&)`, declared in `types.hpp` and defined in no source at hand: the codes
that depend on the action "are retriable only for idempotent actions". -/
def RetryStrategy.retriable (action : Action) (e : OTSError) : Bool :=
  match RetryStrategy.retriableCategory e with
  | .RETRIABLE => true
  | .UNRETRIABLE => false
  | .DEPENDS => action.idempotent

/-! ## core/http/types.cpp : printing an endpoint -/

/-- The function `http::Endpoint::prettyPrint`: `out` with the text appended. -/
def http.Endpoint.prettyPrint (self : http.Endpoint) (out : List Byte) : List Byte :=
  match self.mProtocol with
  | .HTTP =>
    let out := out ++ [0x68, 0x74, 0x74, 0x70, 0x3A, 0x2F, 0x2F]
    let out := out ++ self.mHost
    if self.mPort ≠ [0x38, 0x30] then (out ++ [0x3A]) ++ self.mPort else out
  | .HTTPS =>
    let out := out ++ [0x68, 0x74, 0x74, 0x70, 0x73, 0x3A, 0x2F, 0x2F]
    let out := out ++ self.mHost
    if self.mPort ≠ [0x34, 0x34, 0x33] then (out ++ [0x3A]) ++ self.mPort else out

/-! ## core/types.cpp : pretty-printing a row -/

/-- The overloads of `pp::prettyPrint` for the types that are no classes of
`types.cpp`: strings, pieces of memory, `int64_t`, `double` (by its bit pattern)
and `UtcTime`. Their header is not among the sources; each gives the text that
it appends. -/
structure pp.Printers where
  string : List Byte → String
  memPiece : List Byte → String
  int64 : Int → String
  double : Nat → String
  utcTime : UtcTime → String

/-- The function `PrimaryKeyValue::prettyPrint`: `out` with the text appended.
In each branch of the `switch` the assertion of `integer()`, `str()` or `blob()`
holds. -/
def PrimaryKeyValue.prettyPrint (P : pp.Printers) (self : PrimaryKeyValue) (out : String) :
    String :=
  match self.mCategory with
  | .kNone => out ++ "none"
  | .kInfMin => out ++ "-inf"
  | .kInfMax => out ++ "+inf"
  | .kAutoIncr => out ++ "auto-incr"
  | .kInteger => out ++ P.int64 self.mIntValue
  | .kString => out ++ P.string self.mStrBlobValue
  | .kBinary => out ++ P.memPiece self.mStrBlobValue

/-- The function `PrimaryKeyColumn::prettyPrint`. -/
def PrimaryKeyColumn.prettyPrint (P : pp.Printers) (self : PrimaryKeyColumn) (out : String) :
    String :=
  let out := out ++ P.string self.mName
  let out := out ++ ":"
  self.mValue.prettyPrint P out

/-- The loop `for (i = 1; i < sz; ++i) { out.push_back(','); pp::prettyPrint(out,
(*this)[i]); }` of `IVector::prettyPrint` and of `PrimaryKey::prettyPrint`, over
the elements from index 1 on. -/
def IVector.prettyPrintLoop {α : Type} (ppElem : α → String → String) :
    List α → String → String
  | [], out => out
  | x :: xs, out => IVector.prettyPrintLoop ppElem xs (ppElem x (out ++ ","))

/-- The function `PrimaryKey::prettyPrint`. -/
def PrimaryKey.prettyPrint (P : pp.Printers) (self : PrimaryKey) (out : String) : String :=
  match self with
  | [] => out ++ "\x7b\x7d"
  | c :: cs =>
    let out := out ++ "\x7b"
    let out := c.prettyPrint P out
    let out := IVector.prettyPrintLoop (PrimaryKeyColumn.prettyPrint P) cs out
    out ++ "\x7d"

/-- The function `AttributeValue::prettyPrint`. -/
def AttributeValue.prettyPrint (P : pp.Printers) (self : AttributeValue) (out : String) :
    String :=
  match self.mCategory with
  | .kNone => out ++ "none"
  | .kString => out ++ P.string self.mStrBlobValue
  | .kBinary => out ++ P.memPiece self.mStrBlobValue
  | .kInteger => out ++ P.int64 self.mIntValue
  | .kBoolean => if self.mBoolValue then out ++ "true" else out ++ "false"
  | .kFloatPoint => out ++ P.double self.mFloatingValue

/-- The function `Attribute::prettyPrint`. -/
def Attribute.prettyPrint (P : pp.Printers) (self : Attribute) (out : String) : String :=
  let out := out ++ "\x7b\"Name\":"
  let out := out ++ P.string self.mName
  let out := out ++ ",\"Value\":"
  let out := self.mValue.prettyPrint P out
  let out :=
    match self.mTimestamp with
    | some t => (out ++ ",\"Timestamp\":") ++ P.utcTime t
    | none => out
  out ++ "\x7d"

/-- The function `IVector<Elem>::prettyPrint`, with `pp::prettyPrint` of an
element given as `ppElem`. -/
def IVector.prettyPrint {α : Type} (ppElem : α → String → String) (self : List α)
    (out : String) : String :=
  match self with
  | [] => out ++ "[]"
  | x :: xs =>
    let out := out ++ "["
    let out := ppElem x out
    let out := IVector.prettyPrintLoop ppElem xs out
    out ++ "]"

/-- The function `Row::prettyPrint`. -/
def Row.prettyPrint (P : pp.Printers) (self : Row) (out : String) : String :=
  let out := out ++ "\x7b\"PrimaryKey\":"
  let out := PrimaryKey.prettyPrint P self.mPkey out
  let out := out ++ ",\"Attributes\":"
  let out := IVector.prettyPrint (Attribute.prettyPrint P) self.mAttrs out
  out ++ "\x7d"

/-- Printers that put a string between double quotes and an integer as its
decimal digits, as the texts asserted by `range_iterator_unittest.cpp` have
them. -/
def samplePrinters : pp.Printers :=
  { string := ppString
    memPiece := ppString
    int64 := fun x => toString x
    double := fun x => toString x
    utcTime := fun t => toString t.mValue }

/-! ## core/batch_writer.cpp : the blocking calls of `SyncBatchWriterImpl` -/

/-- What one blocking call of `SyncBatchWriterImpl` shares with its callback:
the count of the `Semaphore sem(0)`, the `err` that the call returns and the
`resp` of the caller. -/
structure SyncCall (Response : Type) where
  sem : Nat
  outErr : Option OTSError
  outResp : Response

/-- The function template `callback`: `outErr` and `outResp` take what the
writer delivers, and `sem.post()`. -/
def callback {Response : Type} (st : SyncCall Response) (inErr : Option OTSError)
    (inResp : Response) : SyncCall Response :=
  { sem := st.sem + 1, outErr := inErr, outResp := inResp }

/-- The function `Semaphore::wait`: `none` stands for a wait that never ends,
the count being 0 for good. -/
def Semaphore.wait (sem : Nat) : Option Nat :=
  if 0 < sem then some (sem - 1) else none

/-- The body shared by `SyncBatchWriterImpl::putRow`, `updateRow` and
`deleteRow`: the request goes to the asynchronous writer with `callback` bound
to `sem`, `err` and `resp`; `sem.wait()`; `return err`. `deliveries` are the
invocations of the callback by the writer, in order; the result is the error
returned and `resp` as the call leaves it, `none` when the call never
returns. -/
def SyncBatchWriterImpl.writeRow {Response : Type} (resp : Response)
    (deliveries : List (Option OTSError × Response)) : Option (Option OTSError × Response) :=
  let st := deliveries.foldl (fun st d => callback st d.1 d.2)
    ({ sem := 0, outErr := none, outResp := resp } : SyncCall Response)
  (Semaphore.wait st.sem).map fun _ => (st.outErr, st.outResp)

/-- Modelled from the spec: the state of `impl::AsyncBatchWriter`, whose
implementation is not among the sources, as section 4.I describes it: the
waiting list, the batches in flight (dispatched and not yet answered), and the
callbacks invoked so far, each with the item it belongs to and the error it
got (`none`: an OK single-row response). The items are of a type `ι`. -/
structure BatchWriter (ι : Type) where
  mWaitingList : List ι
  mInFlight : List (List ι)
  mCallbacks : List (ι × Option OTSError)

/-- Modelled from the spec: the writer as its constructor leaves it. -/
def BatchWriter.create {ι : Type} : BatchWriter ι :=
  { mWaitingList := [], mInFlight := [], mCallbacks := [] }

/-- The invocations of the callback of the item `x` that a writer has made, as
the blocking call that submitted `x` gets them: the error of each, and with it
the single-row response `response` that the writer makes for it. -/
def BatchWriter.deliveries {ι Response : Type} [DecidableEq ι] (w : BatchWriter ι) (x : ι)
    (response : Option OTSError → Response) : List (Option OTSError × Response) :=
  (w.mCallbacks.filter fun p => decide (p.1 = x)).map fun p => (p.2, response p.2)

theorem kTable_eq_shift :
    ∀ i : Fin 256, kTable.getD i.val 0 = crc8ShiftStep^[8] i.val := by
  set_option maxRecDepth 100000 in
  decide

/-- C9: for every CRC state `c` and input byte `x`, the table-driven step
`crc8` equals the bitwise CRC-8/ATM update, which shifts `c xor x` left eight
times and xors the polynomial `0x07` in whenever the bit shifted out is 1. -/
theorem crc8_eq_bitwise (c x : Byte) : crc8 c.val x.val = crc8Bitwise c.val x.val := by
  have hlt : c.val ^^^ x.val < 256 :=
    Nat.xor_lt_two_pow (n := 8) c.isLt x.isLt
  exact kTable_eq_shift ⟨c.val ^^^ x.val, hlt⟩

/-! ### Little-endian integers -/

theorem leValue_lt (l : List Byte) : leValue l < 256 ^ l.length := by
  induction l with
  | nil => simp [leValue]
  | cons x xs ih =>
    have hx := x.isLt
    simp only [leValue, List.length_cons, pow_succ]
    omega

theorem leSum_cons (n : Nat) (x : Byte) (xs : List Byte) :
    leSum (n + 1) (x :: xs) = x.val + 256 * leSum n xs := by
  unfold leSum
  rw [List.range_succ_eq_map, List.map_cons, List.sum_cons, List.map_map, ← List.sum_map_mul_left]
  simp only [List.getD_cons_zero, pow_zero, Nat.mul_one, Function.comp_def, Nat.succ_eq_add_one,
    List.getD_cons_succ, pow_succ]
  congr 2
  apply List.map_congr_left
  intro i _
  ring

theorem leValue_take_eq_leSum (n : Nat) (b : List Byte) (h : n ≤ b.length) :
    leValue (b.take n) = leSum n b := by
  induction n generalizing b with
  | zero => simp [leValue, leSum]
  | succ n ih =>
    cases b with
    | nil => simp at h
    | cons x xs =>
      simp only [List.length_cons, Nat.add_le_add_iff_right] at h
      rw [List.take_succ_cons, leValue, leSum_cons, ih xs h]

theorem readUintLoop_eq (size : Nat) (n i out : Nat) (b : List Byte)
    (hn : n ≤ b.length) (hi : i + n ≤ size) (hout : out < 2 ^ (8 * i)) :
    impl.readUintLoop size n i out b
      = some (out + 2 ^ (8 * i) * leValue (b.take n), b.drop n) := by
  induction n generalizing i out b with
  | zero => simp [impl.readUintLoop, leValue]
  | succ n ih =>
    cases b with
    | nil => simp at hn
    | cons x xs =>
      simp only [List.length_cons, Nat.add_le_add_iff_right] at hn
      have hx := x.isLt
      have hpow : 2 ^ (8 * (i + 1)) = 2 ^ (8 * i) * 256 := by
        rw [Nat.mul_add, pow_add]; rfl
      have hshift : x.val <<< (8 * i) = 2 ^ (8 * i) * x.val := by
        rw [Nat.shiftLeft_eq, Nat.mul_comm]
      have hlt : 2 ^ (8 * i) * x.val + out < 2 ^ (8 * (i + 1)) := by
        rw [hpow]
        have : 2 ^ (8 * i) * x.val ≤ 2 ^ (8 * i) * 255 := Nat.mul_le_mul_left _ (by omega)
        omega
      have hle : 2 ^ (8 * (i + 1)) ≤ 2 ^ (8 * size) :=
        Nat.pow_le_pow_right (by decide) (by omega)
      have hmod : (x.val <<< (8 * i)) % 2 ^ (8 * size) = 2 ^ (8 * i) * x.val := by
        rw [hshift]
        apply Nat.mod_eq_of_lt
        omega
      have hor : out ||| 2 ^ (8 * i) * x.val = 2 ^ (8 * i) * x.val + out := by
        rw [Nat.lor_comm, ← Nat.mul_add_lt_is_or hout]
      simp only [impl.readUintLoop, hmod, hor]
      rw [ih (i + 1) _ xs hn (by omega) hlt, List.take_succ_cons, List.drop_succ_cons, leValue,
        hpow]
      congr 2
      ring

theorem readUint_eq (size : Nat) (b : List Byte) :
    impl.readUint size b
      = if size ≤ b.length then .ok (leValue (b.take size)) (b.drop size) else ISSUE 44 b := by
  unfold impl.readUint
  by_cases h : size ≤ b.length
  · rw [if_neg (by omega), if_pos h,
      readUintLoop_eq size size 0 0 b h (by omega) (by simp)]
    simp
  · rw [if_pos (by omega), if_neg h]

/-- C8: `impl.readUint32` (n = 4) and `impl.readUint64` (n = 8) return, on an input with
at least n bytes left, the sum of `byte[i] * 256 ^ i` over the next n bytes (their
unsigned little-endian value) and advance the cursor by exactly n; with fewer
than n bytes left they fail and leave the cursor where it was. -/
theorem readUint_little_endian (b : List Byte) :
    impl.readUint32 b = (if 4 ≤ b.length then .ok (leSum 4 b) (b.drop 4)
      else .error (issueError FILE 44) b)
    ∧ impl.readUint64 b = (if 8 ≤ b.length then .ok (leSum 8 b) (b.drop 8)
      else .error (issueError FILE 44) b) := by
  constructor
  · unfold impl.readUint32
    rw [readUint_eq]
    by_cases h : 4 ≤ b.length
    · rw [if_pos h, if_pos h, leValue_take_eq_leSum 4 b h]
    · rw [if_neg h, if_neg h]; rfl
  · unfold impl.readUint64
    rw [readUint_eq]
    by_cases h : 8 ≤ b.length
    · rw [if_pos h, if_pos h, leValue_take_eq_leSum 8 b h]
    · rw [if_neg h, if_neg h]; rfl

/-! ## Lemmas on the reader -/

/-! ### Results -/

@[simp] theorem Res.bind_ok {α β : Type} (v : α) (b : List Byte) (k : α → List Byte → Res β) :
    (Res.ok v b).bind k = k v b := rfl

@[simp] theorem Res.bind_error {α β : Type} (e : OTSError) (b : List Byte)
    (k : α → List Byte → Res β) :
    (Res.error e b : Res α).bind k = .error e b := rfl

@[simp] theorem Res.bind_abort {α β : Type} (a : Abort) (k : α → List Byte → Res β) :
    (Res.abort a : Res α).bind k = .abort a := rfl

@[simp] theorem Res.bind_ISSUE {α β : Type} (line : Nat) (b : List Byte)
    (k : α → List Byte → Res β) :
    (ISSUE line b : Res α).bind k = ISSUE line b := rfl

theorem Res.bind_eq_ok {α β : Type} {r : Res α} {k : α → List Byte → Res β} {v : β}
    {b : List Byte} (h : r.bind k = .ok v b) :
    ∃ v1 b1, r = .ok v1 b1 ∧ k v1 b1 = .ok v b := by
  cases r with
  | ok v1 b1 => exact ⟨v1, b1, rfl, h⟩
  | error e b1 => simp at h
  | abort a => simp at h

theorem ISSUE_ne_ok {α : Type} (line : Nat) (b : List Byte) (v : α) (b1 : List Byte) :
    (ISSUE line b : Res α) ≠ .ok v b1 := by
  simp [ISSUE]

/-! ### Little-endian bytes -/

@[simp] theorem leBytes_length (n v : Nat) : (leBytes n v).length = n := by
  induction n generalizing v with
  | zero => rfl
  | succ n ih => simp [leBytes, ih]

theorem leValue_leBytes (n v : Nat) : leValue (leBytes n v) = v % 256 ^ n := by
  induction n generalizing v with
  | zero => simp [leBytes, leValue, Nat.mod_one]
  | succ n ih =>
    simp only [leBytes, leValue, ih, pow_succ]
    rw [Nat.mul_comm (256 ^ n) 256, Nat.mod_mul]

theorem leBytes_leValue (l : List Byte) : leBytes l.length (leValue l) = l := by
  induction l with
  | nil => rfl
  | cons x xs ih =>
    have hx := x.isLt
    simp only [List.length_cons, leBytes, leValue]
    congr 1
    · apply Fin.ext
      simp only
      omega
    · have : (x.val + 256 * leValue xs) / 256 = leValue xs := by omega
      rw [this, ih]

theorem leBytes_mod (n v : Nat) : leBytes n (v % 256 ^ n) = leBytes n v := by
  have h := leBytes_leValue (leBytes n v)
  rw [leBytes_length, leValue_leBytes] at h
  exact h

theorem readUint_leBytes (n v : Nat) (rest : List Byte) :
    impl.readUint n (leBytes n v ++ rest) = .ok (v % 256 ^ n) rest := by
  rw [readUint_eq, if_pos (by simp)]
  simp [List.take_append_eq_append_take, List.drop_append_eq_append_drop, leValue_leBytes]

theorem readUint_ok {n v : Nat} {b b1 : List Byte} (h : impl.readUint n b = .ok v b1) :
    v < 256 ^ n ∧ b = leBytes n v ++ b1 := by
  rw [readUint_eq] at h
  by_cases hn : n ≤ b.length
  · rw [if_pos hn] at h
    simp only [Res.ok.injEq] at h
    obtain ⟨hv, hb⟩ := h
    subst hv hb
    have hl : (b.take n).length = n := by simp [hn]
    refine ⟨?_, ?_⟩
    · have := leValue_lt (b.take n)
      rwa [hl] at this
    · have := leBytes_leValue (b.take n)
      rw [hl] at this
      rw [this, List.take_append_drop]
  · rw [if_neg hn] at h
    exact absurd h (ISSUE_ne_ok _ _ _ _)

theorem readUint_not_abort (n : Nat) (b : List Byte) (a : Abort) : impl.readUint n b ≠ .abort a := by
  rw [readUint_eq]
  split <;> simp [ISSUE]

@[simp] theorem readUint8_cons (x : Byte) (b : List Byte) : impl.readUint8 (x :: b) = .ok x b := by
  simp [impl.readUint8]

@[simp] theorem readUint8_nil : impl.readUint8 [] = ISSUE 71 [] := by
  simp [impl.readUint8]

@[simp] theorem readTag_cons (x : Byte) (b : List Byte) : impl.readTag (x :: b) = .ok x b := by
  simp [impl.readTag]

@[simp] theorem readTag_nil : impl.readTag [] = ISSUE 71 [] := by
  simp [impl.readTag]

@[simp] theorem peekAndCheckTag_cons (t x : Byte) (b : List Byte) :
    impl.peekAndCheckTag t (x :: b) = some (decide (t = x)) := by
  simp [impl.peekAndCheckTag]

@[simp] theorem peekAndCheckTag_nil (t : Byte) : impl.peekAndCheckTag t [] = some false := by
  simp [impl.peekAndCheckTag]

/-! ### CRC-8 over byte strings -/

theorem crc8MemPiece_eq (crc : Nat) (l : List Byte) : crc8MemPiece crc l = crc8Bytes crc l := by
  unfold crc8MemPiece crc8Bytes
  split
  · rename_i h
    rw [List.length_eq_zero] at h
    subst h
    rfl
  · rfl

@[simp] theorem crc8Bytes_nil (crc : Nat) : crc8Bytes crc [] = crc := rfl

@[simp] theorem crc8Bytes_cons (crc : Nat) (x : Byte) (l : List Byte) :
    crc8Bytes crc (x :: l) = crc8Bytes (crc8 crc x.val) l := rfl

@[simp] theorem crc8Bytes_append (crc : Nat) (l1 l2 : List Byte) :
    crc8Bytes crc (l1 ++ l2) = crc8Bytes (crc8Bytes crc l1) l2 := by
  simp [crc8Bytes]

theorem crc8U64Loop_eq (n crc v : Nat) : crc8U64Loop n crc v = crc8Bytes crc (leBytes n v) := by
  induction n generalizing crc v with
  | zero => rfl
  | succ n ih =>
    simp only [crc8U64Loop, leBytes, crc8Bytes_cons]
    rw [ih]
    have h1 : v &&& 0xFF = v % 256 := Nat.and_pow_two_sub_one_eq_mod v 8
    have h2 : v >>> 8 = v / 256 := by rw [Nat.shiftRight_eq_div_pow]
    rw [h1, h2]

theorem crc8U64_eq (crc v : Nat) : crc8U64 crc v = crc8Bytes crc (leBytes 8 v) :=
  crc8U64Loop_eq 8 crc v

theorem crc8U32_eq (crc v : Nat) : crc8U32 crc v = crc8Bytes crc (leBytes 4 v) := by
  have h1 : ∀ x : Nat, x &&& 0xFF = x % 256 := fun x => Nat.and_pow_two_sub_one_eq_mod x 8
  simp only [crc8U32, leBytes, crc8Bytes_cons, crc8Bytes_nil, h1, Nat.shiftRight_eq_div_pow]
  have e2 : v / 2 ^ 8 = v / 256 := rfl
  have e3 : v / 2 ^ 16 = v / 256 / 256 := by rw [Nat.div_div_eq_div_mul]; norm_num
  have e4 : v / 2 ^ 24 = v / 256 / 256 / 256 := by
    rw [Nat.div_div_eq_div_mul, Nat.div_div_eq_div_mul]; norm_num
  rw [e2, e3, e4]

/-! ### The reader on the pieces of a frame -/

theorem readUint_append (n : Nat) (l rest : List Byte) (h : l.length = n) :
    impl.readUint n (l ++ rest) = .ok (leValue l) rest := by
  have := readUint_leBytes n (leValue l) rest
  rw [← h, leBytes_leValue] at this
  rw [← h, this]
  congr 1
  exact Nat.mod_eq_of_lt (leValue_lt l)

theorem readUint32_leBytes (v : Nat) (rest : List Byte) (hv : v < 2 ^ 32) :
    impl.readUint32 (leBytes 4 v ++ rest) = .ok v rest := by
  unfold impl.readUint32
  rw [readUint_leBytes]
  congr 1
  exact Nat.mod_eq_of_lt hv

theorem readUint64_leBytes (v : Nat) (rest : List Byte) (hv : v < 2 ^ 64) :
    impl.readUint64 (leBytes 8 v ++ rest) = .ok v rest := by
  unfold impl.readUint64
  rw [readUint_leBytes]
  congr 1
  exact Nat.mod_eq_of_lt hv

theorem memPiece_append (s rest : List Byte) :
    impl.memPiece (s ++ rest) s.length = some s := by
  simp [impl.memPiece]

theorem readName_bytes (c : Consts) (chk : Nat) (name rest : List Byte)
    (h : name.length < 2 ^ 32) :
    impl.readName c chk (c.kTag_CellName :: (leBytes 4 name.length ++ (name ++ rest)))
      = .ok (name, crc8Bytes chk name) rest := by
  simp [impl.readName, readUint32_leBytes _ _ h, memPiece_append, crc8MemPiece_eq]

theorem readBlob_bytes (chk : Nat) (s rest : List Byte) (h : s.length < 2 ^ 32) :
    impl.readBlob chk (leBytes 4 s.length ++ (s ++ rest))
      = .ok (s, crc8Bytes chk (leBytes 4 s.length ++ s)) rest := by
  simp [impl.readBlob, readUint32_leBytes _ _ h, memPiece_append, crc8MemPiece_eq, crc8U32_eq]

theorem readVariantType_vt (c : Consts) (hc : c.WF) (v : WireValue) (rest : List Byte) :
    impl.readVariantType c (c.vt v.vt :: rest) = .ok v.vt rest := by
  have hn := hc.vt_nodup
  simp only [List.nodup_cons, List.mem_cons, List.mem_singleton, not_or, List.not_mem_nil,
    not_false_eq_true, List.nodup_nil, and_true] at hn
  obtain ⟨⟨h1, h2, h3, h4⟩, ⟨h5, h6, h7⟩, ⟨h8, h9⟩, h10⟩ := hn
  cases v <;>
    simp [impl.readVariantType, WireValue.vt, Consts.vt, List.find?, h1, h2, h3, h4, h5, h6,
      h7, h8, h9, h10, Ne.symm h1, Ne.symm h2, Ne.symm h3, Ne.symm h4, Ne.symm h5, Ne.symm h6,
      Ne.symm h7, Ne.symm h8, Ne.symm h9, Ne.symm h10]

theorem readPrimaryKeyValue_bytes (c : Consts) (hc : c.WF) (out : PrimaryKeyValue)
    (chk : Nat) (ph : List Byte) (v : WireValue) (rest : List Byte)
    (hph : ph.length = 4) (hv : v.WF) (hk : v.isKey = true) :
    impl.readPrimaryKeyValue c out chk
        (c.kTag_CellValue :: (ph ++ (c.vt v.vt :: (v.body ++ rest))))
      = .ok (v.pkValue, crc8Bytes chk (c.vt v.vt :: v.crcBody)) rest := by
  unfold impl.readPrimaryKeyValue
  simp only [readTag_cons, Res.bind_ok, ne_eq, not_true_eq_false, if_false]
  rw [show impl.readUint32 (ph ++ (c.vt v.vt :: (v.body ++ rest)))
      = .ok (leValue ph) (c.vt v.vt :: (v.body ++ rest)) from readUint_append 4 ph _ hph]
  simp only [Res.bind_ok, readVariantType_vt c hc]
  cases v with
  | integer x =>
    simp only [WireValue.vt, WireValue.body, readUint64_leBytes x rest hv, Res.bind_ok,
      crc8U64_eq, WireValue.pkValue, WireValue.crcBody, crc8Bytes_cons, Consts.vt]
    rfl
  | string s =>
    simp only [WireValue.vt, WireValue.body, List.append_assoc, readBlob_bytes _ s rest hv,
      Res.bind_ok, WireValue.pkValue, WireValue.crcBody, crc8Bytes_cons, Consts.vt]
    rfl
  | blob s =>
    simp only [WireValue.vt, WireValue.body, List.append_assoc, readBlob_bytes _ s rest hv,
      Res.bind_ok, WireValue.pkValue, WireValue.crcBody, crc8Bytes_cons, Consts.vt]
    rfl
  | double x => simp [WireValue.isKey] at hk
  | boolean x => simp [WireValue.isKey] at hk

theorem readAttrValue_bytes (c : Consts) (hc : c.WF) (out : AttributeValue)
    (chk : Nat) (ph : List Byte) (v : WireValue) (rest : List Byte)
    (hph : ph.length = 4) (hv : v.WF) :
    impl.readAttrValue c out chk
        (c.kTag_CellValue :: (ph ++ (c.vt v.vt :: (v.body ++ rest))))
      = .ok (v.attrValue, crc8Bytes chk (c.vt v.vt :: v.crcBody)) rest := by
  unfold impl.readAttrValue
  simp only [readTag_cons, Res.bind_ok, ne_eq, not_true_eq_false, if_false]
  rw [show impl.readUint32 (ph ++ (c.vt v.vt :: (v.body ++ rest)))
      = .ok (leValue ph) (c.vt v.vt :: (v.body ++ rest)) from readUint_append 4 ph _ hph]
  simp only [Res.bind_ok, readVariantType_vt c hc]
  cases v with
  | integer x =>
    simp only [WireValue.vt, WireValue.body, readUint64_leBytes x rest hv, Res.bind_ok,
      crc8U64_eq, WireValue.attrValue, WireValue.crcBody, crc8Bytes_cons, Consts.vt]
    rfl
  | double x =>
    simp only [WireValue.vt, WireValue.body, readUint64_leBytes x rest hv, Res.bind_ok,
      crc8U64_eq, WireValue.attrValue, WireValue.crcBody, crc8Bytes_cons, Consts.vt]
    rfl
  | string s =>
    simp only [WireValue.vt, WireValue.body, List.append_assoc, readBlob_bytes _ s rest hv,
      Res.bind_ok, WireValue.attrValue, WireValue.crcBody, crc8Bytes_cons, Consts.vt]
    rfl
  | blob s =>
    simp only [WireValue.vt, WireValue.body, List.append_assoc, readBlob_bytes _ s rest hv,
      Res.bind_ok, WireValue.attrValue, WireValue.crcBody, crc8Bytes_cons, Consts.vt]
    rfl
  | boolean x =>
    simp only [WireValue.vt, WireValue.body, List.singleton_append, readUint8_cons, Res.bind_ok,
      WireValue.attrValue, WireValue.crcBody, crc8Bytes_cons, crc8Bytes_nil, Consts.vt,
      AttributeValue.mutableBoolean, AttributeValue.toBoolean]
    by_cases hx : x.val = 0 <;> simp [hx]

theorem readOptionalCellTimestamp_bytes (c : Consts) (hc : c.WF) (chk : Nat)
    (ts : Option Nat) (rest : List Byte) (hts : ∀ t ∈ ts, t < 2 ^ 64) :
    impl.readOptionalCellTimestamp c none chk
        (timestampSection c ts ++ (c.kTag_CellChecksum :: rest))
      = .ok (ts.map fun t => UtcTime.fromMsec (toInt64 t),
          crc8Bytes chk (timestampBytes ts)) (c.kTag_CellChecksum :: rest) := by
  have h4 := hc.timestamp_ne_checksum
  cases ts with
  | none => simp [impl.readOptionalCellTimestamp, h4, timestampSection, timestampBytes]
  | some t =>
    have ht : t < 2 ^ 64 := hts t rfl
    simp [impl.readOptionalCellTimestamp, readUint64_leBytes t _ ht, crc8U64_eq,
      timestampSection, timestampBytes]

theorem wireCell_bytes_eq (c : Consts) (x : WireCell) (rest : List Byte) :
    x.bytes c ++ rest
      = c.kTag_Cell :: c.kTag_CellName :: (leBytes 4 x.name.length ++ (x.name
          ++ (c.kTag_CellValue :: (x.placeholder ++ (c.vt x.value.vt :: (x.value.body
          ++ (timestampSection c x.timestamp
              ++ (c.kTag_CellChecksum :: x.checksum :: rest)))))))) := by
  simp [WireCell.bytes, List.append_assoc]

theorem wireCell_crc_eq (c : Consts) (x : WireCell) :
    x.crc c = crc8Bytes (crc8Bytes (crc8Bytes 0 x.name) (c.vt x.value.vt :: x.value.crcBody))
      (timestampBytes x.timestamp) := by
  simp only [WireCell.crc, crc8Bytes_append, crc8Bytes_cons, crc8Bytes_nil]

theorem readPrimaryKeyColumn_bytes (c : Consts) (hc : c.WF) (chk : Nat) (x : WireCell)
    (rest : List Byte) (hx : x.KeyWF) :
    impl.readPrimaryKeyColumn c {} chk (x.bytes c ++ rest)
      = if x.checksum.val = x.crc c then .ok (x.column, crc8 chk (x.crc c)) rest
        else ISSUE 255 rest := by
  obtain ⟨⟨hname, hph, hv, _⟩, hk, hts⟩ := hx
  rw [wireCell_bytes_eq, wireCell_crc_eq, hts]
  unfold impl.readPrimaryKeyColumn
  simp only [readTag_cons, Res.bind_ok, ne_eq, not_true_eq_false, if_false,
    readName_bytes c 0 x.name _ hname,
    readPrimaryKeyValue_bytes c hc _ _ x.placeholder x.value _ hph hv hk, List.nil_append,
    readUint8_cons, crc8Bytes_nil, timestampSection, timestampBytes]
  by_cases h : x.checksum.val = crc8Bytes (crc8Bytes 0 x.name) (c.vt x.value.vt :: x.value.crcBody)
  · rw [if_pos h]
    simp only [h, not_true_eq_false, if_false]
    rfl
  · rw [if_neg h]
    have h2 : ¬ crc8Bytes (crc8Bytes 0 x.name) (c.vt x.value.vt :: x.value.crcBody)
        = x.checksum.val := fun e => h e.symm
    simp only [h2, not_false_eq_true, if_true]

theorem readAttr_bytes (c : Consts) (hc : c.WF) (chk : Nat) (x : WireCell)
    (rest : List Byte) (hx : x.WF) :
    impl.readAttr c {} chk (x.bytes c ++ rest)
      = if x.checksum.val = x.crc c then .ok (x.attribute, crc8 chk (x.crc c)) rest
        else ISSUE 394 rest := by
  obtain ⟨hname, hph, hv, hts⟩ := hx
  rw [wireCell_bytes_eq, wireCell_crc_eq]
  unfold impl.readAttr
  simp only [readTag_cons, Res.bind_ok, ne_eq, not_true_eq_false, if_false,
    readName_bytes c 0 x.name _ hname,
    readAttrValue_bytes c hc _ _ x.placeholder x.value _ hph hv,
    readOptionalCellTimestamp_bytes c hc _ x.timestamp _ hts, readUint8_cons]
  by_cases h : x.checksum.val
      = crc8Bytes (crc8Bytes (crc8Bytes 0 x.name) (c.vt x.value.vt :: x.value.crcBody))
        (timestampBytes x.timestamp)
  · rw [if_pos h]
    simp only [h, not_true_eq_false, if_false]
    rfl
  · rw [if_neg h]
    have h2 : ¬ crc8Bytes (crc8Bytes (crc8Bytes 0 x.name) (c.vt x.value.vt :: x.value.crcBody))
        (timestampBytes x.timestamp) = x.checksum.val := fun e => h e.symm
    simp only [h2, not_false_eq_true, if_true]

theorem cells_length_le (c : Consts) (xs : List WireCell) :
    xs.length ≤ ((xs.map (WireCell.bytes c)).flatten).length := by
  induction xs with
  | nil => simp
  | cons x xs ih =>
    simp only [List.map_cons, List.flatten_cons, List.length_append, List.length_cons]
    have : 1 ≤ (x.bytes c).length := by simp [WireCell.bytes]
    omega

theorem peekAndCheckTag_cell (c : Consts) (x : WireCell) (rest : List Byte) :
    impl.peekAndCheckTag c.kTag_Cell (x.bytes c ++ rest) = some true := by
  rw [wireCell_bytes_eq]
  simp

theorem readRowKeyLoop_bytes (c : Consts) (hc : c.WF) (xs : List WireCell)
    (fuel : Nat) (out : List PrimaryKeyColumn) (chk : Nat) (rest : List Byte)
    (hfuel : xs.length < fuel) (hxs : ∀ x ∈ xs, x.KeyWF)
    (hok : ∀ x ∈ xs, x.checksum.val = x.crc c)
    (hrest : impl.peekAndCheckTag c.kTag_Cell rest = some false) :
    impl.readRowKeyLoop c fuel out chk ((xs.map (WireCell.bytes c)).flatten ++ rest)
      = .ok (out ++ xs.map WireCell.column, crc8Bytes chk (xs.map (·.checksum))) rest := by
  induction xs generalizing fuel out chk with
  | nil =>
    cases fuel with
    | zero => simp at hfuel
    | succ fuel => simp [impl.readRowKeyLoop, hrest]
  | cons x xs ih =>
    cases fuel with
    | zero => simp at hfuel
    | succ fuel =>
      simp only [List.length_cons, Nat.add_lt_add_iff_right] at hfuel
      have hx := hxs x (List.mem_cons_self _ _)
      have hxok := hok x (List.mem_cons_self _ _)
      simp only [List.map_cons, List.flatten_cons, List.append_assoc, impl.readRowKeyLoop,
        peekAndCheckTag_cell, readPrimaryKeyColumn_bytes c hc _ x _ hx, if_pos hxok, Res.bind_ok]
      rw [ih fuel _ _ hfuel (fun y hy => hxs y (List.mem_cons_of_mem _ hy))
        (fun y hy => hok y (List.mem_cons_of_mem _ hy))]
      simp [hxok]

theorem readRowKeyLoop_bad (c : Consts) (hc : c.WF) (xs : List WireCell)
    (fuel : Nat) (out : List PrimaryKeyColumn) (chk : Nat) (rest : List Byte)
    (hfuel : xs.length < fuel) (hxs : ∀ x ∈ xs, x.KeyWF)
    (hbad : ∃ x ∈ xs, x.checksum.val ≠ x.crc c) :
    ∃ b1, impl.readRowKeyLoop c fuel out chk ((xs.map (WireCell.bytes c)).flatten ++ rest)
      = ISSUE 255 b1 := by
  induction xs generalizing fuel out chk with
  | nil => simp at hbad
  | cons x xs ih =>
    cases fuel with
    | zero => simp at hfuel
    | succ fuel =>
      simp only [List.length_cons, Nat.add_lt_add_iff_right] at hfuel
      have hx := hxs x (List.mem_cons_self _ _)
      simp only [List.map_cons, List.flatten_cons, List.append_assoc, impl.readRowKeyLoop,
        peekAndCheckTag_cell, readPrimaryKeyColumn_bytes c hc _ x _ hx]
      by_cases hxok : x.checksum.val = x.crc c
      · rw [if_pos hxok, Res.bind_ok]
        apply ih fuel _ _ hfuel (fun y hy => hxs y (List.mem_cons_of_mem _ hy))
        obtain ⟨y, hy, hyb⟩ := hbad
        rcases List.mem_cons.mp hy with rfl | hy
        · exact absurd hxok hyb
        · exact ⟨y, hy, hyb⟩
      · rw [if_neg hxok]
        exact ⟨_, rfl⟩

theorem readAttrsLoop_bytes (c : Consts) (hc : c.WF) (xs : List WireCell)
    (fuel : Nat) (out : List Attribute) (chk : Nat) (rest : List Byte)
    (hfuel : xs.length < fuel) (hxs : ∀ x ∈ xs, x.WF)
    (hok : ∀ x ∈ xs, x.checksum.val = x.crc c)
    (hrest : impl.peekAndCheckTag c.kTag_Cell rest = some false) :
    impl.readAttrsLoop c fuel out chk ((xs.map (WireCell.bytes c)).flatten ++ rest)
      = .ok (out ++ xs.map WireCell.attribute, crc8Bytes chk (xs.map (·.checksum))) rest := by
  induction xs generalizing fuel out chk with
  | nil =>
    cases fuel with
    | zero => simp at hfuel
    | succ fuel => simp [impl.readAttrsLoop, hrest]
  | cons x xs ih =>
    cases fuel with
    | zero => simp at hfuel
    | succ fuel =>
      simp only [List.length_cons, Nat.add_lt_add_iff_right] at hfuel
      have hx := hxs x (List.mem_cons_self _ _)
      have hxok := hok x (List.mem_cons_self _ _)
      simp only [List.map_cons, List.flatten_cons, List.append_assoc, impl.readAttrsLoop,
        peekAndCheckTag_cell, readAttr_bytes c hc _ x _ hx, if_pos hxok, Res.bind_ok]
      rw [ih fuel _ _ hfuel (fun y hy => hxs y (List.mem_cons_of_mem _ hy))
        (fun y hy => hok y (List.mem_cons_of_mem _ hy))]
      simp [hxok]

theorem readAttrsLoop_bad (c : Consts) (hc : c.WF) (xs : List WireCell)
    (fuel : Nat) (out : List Attribute) (chk : Nat) (rest : List Byte)
    (hfuel : xs.length < fuel) (hxs : ∀ x ∈ xs, x.WF)
    (hbad : ∃ x ∈ xs, x.checksum.val ≠ x.crc c) :
    ∃ b1, impl.readAttrsLoop c fuel out chk ((xs.map (WireCell.bytes c)).flatten ++ rest)
      = ISSUE 394 b1 := by
  induction xs generalizing fuel out chk with
  | nil => simp at hbad
  | cons x xs ih =>
    cases fuel with
    | zero => simp at hfuel
    | succ fuel =>
      simp only [List.length_cons, Nat.add_lt_add_iff_right] at hfuel
      have hx := hxs x (List.mem_cons_self _ _)
      simp only [List.map_cons, List.flatten_cons, List.append_assoc, impl.readAttrsLoop,
        peekAndCheckTag_cell, readAttr_bytes c hc _ x _ hx]
      by_cases hxok : x.checksum.val = x.crc c
      · rw [if_pos hxok, Res.bind_ok]
        apply ih fuel _ _ hfuel (fun y hy => hxs y (List.mem_cons_of_mem _ hy))
        obtain ⟨y, hy, hyb⟩ := hbad
        rcases List.mem_cons.mp hy with rfl | hy
        · exact absurd hxok hyb
        · exact ⟨y, hy, hyb⟩
      · rw [if_neg hxok]
        exact ⟨_, rfl⟩

/-! ### The reader on a whole row and on a frame -/

theorem readHeader_bytes (c : Consts) (hc : c.WF) (rest : List Byte) :
    impl.readHeader c (leBytes 4 c.kHeader ++ rest) = .ok () rest := by
  simp [impl.readHeader, readUint32_leBytes _ _ hc.header_lt]

theorem wireRow_bytes_eq (c : Consts) (r : WireRow) (rest : List Byte) :
    r.bytes c ++ rest
      = c.kTag_RowKey :: ((r.key.map (WireCell.bytes c)).flatten
          ++ (dataSection c r.data ++ (c.kTag_RowChecksum :: r.checksum :: rest))) := by
  simp [WireRow.bytes, List.append_assoc]

theorem peek_cell_dataSection (c : Consts) (hc : c.WF) (data : Option (List WireCell))
    (rest : List Byte) :
    impl.peekAndCheckTag c.kTag_Cell
      (dataSection c data ++ (c.kTag_RowChecksum :: rest)) = some false := by
  cases data with
  | none => simp [dataSection, hc.cell_ne_rowChecksum]
  | some a => simp [dataSection, hc.cell_ne_rowData]

/-- The row that `impl::readRow` leaves in `out` after reading the frame row `r`. -/
theorem wireRow_crc_eq (r : WireRow) :
    r.crc = crc8 (crc8Bytes (crc8Bytes 0 (r.key.map (·.checksum)))
      ((r.data.getD []).map (·.checksum))) 0 := by
  simp [WireRow.crc, WireRow.cells]

theorem readRowKey_bytes (c : Consts) (hc : c.WF) (out : List PrimaryKeyColumn) (chk : Nat)
    (xs : List WireCell) (rest : List Byte) (hxs : ∀ x ∈ xs, x.KeyWF)
    (hok : ∀ x ∈ xs, x.checksum.val = x.crc c)
    (hrest : impl.peekAndCheckTag c.kTag_Cell rest = some false) :
    impl.readRowKey c out chk (c.kTag_RowKey :: ((xs.map (WireCell.bytes c)).flatten ++ rest))
      = .ok (out ++ xs.map WireCell.column, crc8Bytes chk (xs.map (·.checksum))) rest := by
  unfold impl.readRowKey
  simp only [readTag_cons, Res.bind_ok, ne_eq, not_true_eq_false, if_false]
  apply readRowKeyLoop_bytes c hc xs _ _ _ _ _ hxs hok hrest
  have := cells_length_le c xs
  simp only [List.length_append]
  omega

theorem readRowKey_bad (c : Consts) (hc : c.WF) (out : List PrimaryKeyColumn) (chk : Nat)
    (xs : List WireCell) (rest : List Byte) (hxs : ∀ x ∈ xs, x.KeyWF)
    (hbad : ∃ x ∈ xs, x.checksum.val ≠ x.crc c) :
    ∃ b1, impl.readRowKey c out chk
      (c.kTag_RowKey :: ((xs.map (WireCell.bytes c)).flatten ++ rest)) = ISSUE 255 b1 := by
  unfold impl.readRowKey
  simp only [readTag_cons, Res.bind_ok, ne_eq, not_true_eq_false, if_false]
  apply readRowKeyLoop_bad c hc xs _ _ _ _ _ hxs hbad
  have := cells_length_le c xs
  simp only [List.length_append]
  omega

theorem readAttrs_bytes (c : Consts) (hc : c.WF) (out : List Attribute) (chk : Nat)
    (xs : List WireCell) (rest : List Byte) (hxs : ∀ x ∈ xs, x.WF)
    (hok : ∀ x ∈ xs, x.checksum.val = x.crc c)
    (hrest : impl.peekAndCheckTag c.kTag_Cell rest = some false) :
    impl.readAttrs c out chk (c.kTag_RowData :: ((xs.map (WireCell.bytes c)).flatten ++ rest))
      = .ok (out ++ xs.map WireCell.attribute, crc8Bytes chk (xs.map (·.checksum))) rest := by
  unfold impl.readAttrs
  simp only [readTag_cons, Res.bind_ok, ne_eq, not_true_eq_false, if_false]
  apply readAttrsLoop_bytes c hc xs _ _ _ _ _ hxs hok hrest
  have := cells_length_le c xs
  simp only [List.length_append]
  omega

theorem readAttrs_bad (c : Consts) (hc : c.WF) (out : List Attribute) (chk : Nat)
    (xs : List WireCell) (rest : List Byte) (hxs : ∀ x ∈ xs, x.WF)
    (hbad : ∃ x ∈ xs, x.checksum.val ≠ x.crc c) :
    ∃ b1, impl.readAttrs c out chk
      (c.kTag_RowData :: ((xs.map (WireCell.bytes c)).flatten ++ rest)) = ISSUE 394 b1 := by
  unfold impl.readAttrs
  simp only [readTag_cons, Res.bind_ok, ne_eq, not_true_eq_false, if_false]
  apply readAttrsLoop_bad c hc xs _ _ _ _ _ hxs hbad
  have := cells_length_le c xs
  simp only [List.length_append]
  omega

/-- The reader on the bytes of a frame row whose checksums are the computed
ones: the columns and attributes are appended to `out`. -/
theorem impl_readRow_bytes (c : Consts) (hc : c.WF) (out : Row) (r : WireRow)
    (rest : List Byte) (hr : r.WF) (hok : r.ChecksumsOk c) :
    impl.readRow c out (r.bytes c ++ rest)
      = .ok { mPkey := out.mPkey ++ r.row.mPkey, mAttrs := out.mAttrs ++ r.row.mAttrs } rest := by
  obtain ⟨hkey, hdata⟩ := hr
  obtain ⟨hcells, hrow⟩ := hok
  have hkok : ∀ x ∈ r.key, x.checksum.val = x.crc c := fun x hx =>
    hcells x (by simp [WireRow.cells, hx])
  have hdok : ∀ x ∈ r.data.getD [], x.checksum.val = x.crc c := fun x hx =>
    hcells x (by simp [WireRow.cells, hx])
  rw [wireRow_bytes_eq, wireRow_crc_eq] at *
  unfold impl.readRow
  simp only [readRowKey_bytes c hc _ _ r.key _ hkey hkok (peek_cell_dataSection c hc _ _),
    Res.bind_ok]
  cases hd : r.data with
  | none =>
    rw [hd] at hrow
    simp only [Option.getD_none, List.map_nil, crc8Bytes_nil] at hrow
    simp [dataSection, hc.rowData_ne_rowChecksum, hrow, WireRow.row, hd]
  | some a =>
    rw [hd] at hrow hdok hdata
    simp only [Option.getD_some] at hrow hdok hdata
    have hp : impl.peekAndCheckTag c.kTag_Cell (c.kTag_RowChecksum :: r.checksum :: rest)
        = some false := by simp [hc.cell_ne_rowChecksum]
    simp [dataSection, readAttrs_bytes c hc _ _ a _ hdata hdok hp, hrow, WireRow.row, hd]

/-- The reader on the bytes of a frame row in which a stored checksum is not the
computed one: it stops at an `ISSUE()`. -/
theorem impl_readRow_bad (c : Consts) (hc : c.WF) (out : Row) (r : WireRow)
    (rest : List Byte) (hr : r.WF) (hbad : ¬ r.ChecksumsOk c) :
    ∃ line b1, impl.readRow c out (r.bytes c ++ rest) = ISSUE line b1 := by
  obtain ⟨hkey, hdata⟩ := hr
  rw [wireRow_bytes_eq]
  unfold impl.readRow
  by_cases hk : ∀ x ∈ r.key, x.checksum.val = x.crc c
  · simp only [readRowKey_bytes c hc _ _ r.key _ hkey hk (peek_cell_dataSection c hc _ _),
      Res.bind_ok]
    by_cases hd : ∀ x ∈ r.data.getD [], x.checksum.val = x.crc c
    · have hrow : r.checksum.val ≠ r.crc := by
        intro h
        apply hbad
        refine ⟨?_, h⟩
        intro x hx
        simp only [WireRow.cells, List.mem_append] at hx
        rcases hx with hx | hx
        · exact hk x hx
        · exact hd x hx
      rw [wireRow_crc_eq] at hrow
      cases hdd : r.data with
      | none =>
        rw [hdd] at hrow
        simp only [Option.getD_none, List.map_nil, crc8Bytes_nil] at hrow
        refine ⟨442, rest, ?_⟩
        simp [dataSection, hc.rowData_ne_rowChecksum, Ne.symm hrow]
      | some a =>
        rw [hdd] at hrow hd hdata
        simp only [Option.getD_some] at hrow hd hdata
        have hp : impl.peekAndCheckTag c.kTag_Cell (c.kTag_RowChecksum :: r.checksum :: rest)
            = some false := by simp [hc.cell_ne_rowChecksum]
        refine ⟨442, rest, ?_⟩
        simp [dataSection, readAttrs_bytes c hc _ _ a _ hdata hd hp, Ne.symm hrow]
    · cases hdd : r.data with
      | none => simp [hdd] at hd
      | some a =>
        rw [hdd] at hd hdata
        simp only [Option.getD_some] at hd hdata
        have hbad2 : ∃ x ∈ a, x.checksum.val ≠ x.crc c := by
          by_contra hcon
          apply hd
          intro x hx
          by_contra hne
          exact hcon ⟨x, hx, hne⟩
        obtain ⟨b1, hb1⟩ := readAttrs_bad c hc out.mAttrs
          (crc8Bytes 0 (r.key.map (·.checksum))) a (c.kTag_RowChecksum :: r.checksum :: rest)
          hdata hbad2
        refine ⟨394, b1, ?_⟩
        simp [dataSection, hb1]
  · have hbad2 : ∃ x ∈ r.key, x.checksum.val ≠ x.crc c := by
      by_contra hcon
      apply hk
      intro x hx
      by_contra hne
      exact hcon ⟨x, hx, hne⟩
    obtain ⟨b1, hb1⟩ := readRowKey_bad c hc out.mPkey 0 r.key
      (dataSection c r.data ++ (c.kTag_RowChecksum :: r.checksum :: rest)) hkey hbad2
    exact ⟨255, b1, by simp [hb1]⟩

/-- The public `readRow` on a frame of one row with correct checksums, read
into a fresh row. -/
theorem readRow_frameBytes (c : Consts) (hc : c.WF) (r : WireRow) (hr : r.WF)
    (hok : r.ChecksumsOk c) :
    readRow c {} (frameBytes c [r]) = .ok r.row [] := by
  have h := impl_readRow_bytes c hc {} r [] hr hok
  simp only [List.append_nil] at h
  simp [readRow, frameBytes, readHeader_bytes c hc, h]

/-- The public `readRow` on a frame of one row with a wrong checksum. -/
theorem readRow_frameBytes_bad (c : Consts) (hc : c.WF) (out : Row) (r : WireRow) (hr : r.WF)
    (hbad : ¬ r.ChecksumsOk c) :
    ∃ line b1, readRow c out (frameBytes c [r]) = ISSUE line b1 := by
  obtain ⟨line, b1, h⟩ := impl_readRow_bad c hc out r [] hr hbad
  simp only [List.append_nil] at h
  exact ⟨line, b1, by simp [readRow, frameBytes, readHeader_bytes c hc, h]⟩

/-! ### The encoder -/

theorem kTable_lt : ∀ x ∈ kTable, x < 256 := by
  set_option maxRecDepth 100000 in
  decide

theorem crc8_lt (a b : Nat) : crc8 a b < 256 := by
  unfold crc8
  rw [List.getD_eq_getElem?_getD]
  cases h : kTable[a ^^^ b]? with
  | none => simp
  | some x =>
    simp only [Option.getD_some]
    exact kTable_lt x (List.getElem?_mem h)

theorem crc8Bytes_lt (crc : Nat) (l : List Byte) (h : crc < 256) : crc8Bytes crc l < 256 := by
  induction l generalizing crc with
  | nil => simpa using h
  | cons x xs ih =>
    rw [crc8Bytes_cons]
    exact ih _ (crc8_lt _ _)

theorem crcByte_val (crc : Nat) (h : crc < 256) : (crcByte crc).val = crc := by
  simp [crcByte, Nat.mod_eq_of_lt h]

theorem wireCell_crc_lt (c : Consts) (x : WireCell) : x.crc c < 256 :=
  crc8Bytes_lt 0 _ (by decide)

theorem wireRow_crc_lt (r : WireRow) : r.crc < 256 :=
  crc8_lt _ _

theorem toUint64_lt (x : Int) : toUint64 x < 2 ^ 64 := by
  unfold toUint64
  have h1 : 0 ≤ x % 2 ^ 64 := Int.emod_nonneg x (by norm_num)
  have h2 : x % 2 ^ 64 < 2 ^ 64 := Int.emod_lt_of_pos x (by norm_num)
  omega

theorem toInt64_toUint64 (x : Int) (h : InInt64 x) : toInt64 (toUint64 x) = x := by
  obtain ⟨h1, h2⟩ := h
  unfold toInt64 toUint64
  have h3 : 0 ≤ x % 2 ^ 64 := Int.emod_nonneg x (by norm_num)
  have h4 : x % 2 ^ 64 < 2 ^ 64 := Int.emod_lt_of_pos x (by norm_num)
  have h5 : ((x % 2 ^ 64).toNat : Int) = x % 2 ^ 64 := Int.toNat_of_nonneg h3
  have h6 : (x % 2 ^ 64).toNat % 2 ^ 64 = (x % 2 ^ 64).toNat := by
    apply Nat.mod_eq_of_lt
    omega
  rw [h6]
  split
  · rename_i hlt
    rw [h5]
    have : (x % 2 ^ 64).toNat < 2 ^ 63 := hlt
    omega
  · rename_i hge
    rw [h5]
    have : ¬ (x % 2 ^ 64).toNat < 2 ^ 63 := hge
    omega

theorem layoutCell_checksum (c : Consts) (ph : List Byte → Nat) (name : List Byte)
    (v : WireValue) (ts : Option Nat) :
    (layoutCell c ph name v ts).checksum.val = (layoutCell c ph name v ts).crc c := by
  simp only [layoutCell]
  rw [crcByte_val _ (wireCell_crc_lt _ _)]
  rfl

theorem layoutCell_WF (c : Consts) (ph : List Byte → Nat) (name : List Byte)
    (v : WireValue) (ts : Option Nat) (hname : name.length < 2 ^ 32) (hv : v.WF)
    (hts : ∀ t ∈ ts, t < 2 ^ 64) :
    (layoutCell c ph name v ts).WF := by
  refine ⟨hname, ?_, hv, hts⟩
  simp [layoutCell]

theorem primaryKeyValue_wire_spec (v : PrimaryKeyValue) (h : v.WellFormed) :
    ∃ w, v.wire = some w ∧ w.WF ∧ w.isKey = true ∧ w.pkValue = v := by
  rcases h with ⟨hv, hr⟩ | ⟨hv | hv, hl⟩
  · refine ⟨.integer (toUint64 v.mIntValue), ?_, toUint64_lt _, rfl, ?_⟩
    · rw [hv]; rfl
    · simp only [WireValue.pkValue, toInt64_toUint64 _ hr]
      exact hv.symm
  · refine ⟨.string v.mStrBlobValue, ?_, hl, rfl, ?_⟩
    · rw [hv]; rfl
    · exact hv.symm
  · refine ⟨.blob v.mStrBlobValue, ?_, hl, rfl, ?_⟩
    · rw [hv]; rfl
    · exact hv.symm

theorem attributeValue_wire_spec (v : AttributeValue) (h : v.WellFormed) :
    ∃ w, v.wire = some w ∧ w.WF ∧ w.attrValue = v := by
  rcases h with ⟨hv, hr⟩ | ⟨hv | hv, hl⟩ | hv | ⟨hv, hf⟩
  · refine ⟨.integer (toUint64 v.mIntValue), ?_, toUint64_lt _, ?_⟩
    · rw [hv]; rfl
    · simp only [WireValue.attrValue, toInt64_toUint64 _ hr]
      exact hv.symm
  · refine ⟨.string v.mStrBlobValue, ?_, hl, ?_⟩
    · rw [hv]; rfl
    · exact hv.symm
  · refine ⟨.blob v.mStrBlobValue, ?_, hl, ?_⟩
    · rw [hv]; rfl
    · exact hv.symm
  · refine ⟨.boolean (if v.mBoolValue then 1 else 0), ?_, trivial, ?_⟩
    · rw [hv]; rfl
    · rw [hv]
      cases v.mBoolValue <;> rfl
  · refine ⟨.double v.mFloatingValue, ?_, hf.1, ?_⟩
    · rw [hv]; rfl
    · exact hv.symm

theorem utcTime_wire_spec (t : UtcTime) (h : t.WellFormed) :
    toUint64 t.toMsec < 2 ^ 64 ∧ UtcTime.fromMsec (toInt64 (toUint64 t.toMsec)) = t := by
  obtain ⟨h0, hm, hlt⟩ := h
  refine ⟨toUint64_lt _, ?_⟩
  have hdiv : t.mValue.tdiv 1000 = t.mValue / 1000 := Int.tdiv_eq_ediv h0 (by norm_num)
  have hmul : t.mValue / 1000 * 1000 = t.mValue := Int.ediv_mul_cancel (Int.dvd_of_emod_eq_zero hm)
  have hr : InInt64 (t.mValue / 1000) := by
    constructor <;> omega
  unfold UtcTime.fromMsec UtcTime.toMsec wrapInt64 kUsecPerMsec
  rw [hdiv, toInt64_toUint64 _ hr, hmul, toInt64_toUint64 _ ⟨by omega, hlt⟩]

theorem primaryKeyColumn_layout_spec (c : Consts) (ph : List Byte → Nat)
    (col : PrimaryKeyColumn) (h : col.WellFormed) :
    ∃ x, col.layout c ph = some x ∧ x.KeyWF
      ∧ x.checksum.val = x.crc c ∧ x.column = col := by
  obtain ⟨hname, hv⟩ := h
  obtain ⟨w, hw, hwf, hkey, hpk⟩ := primaryKeyValue_wire_spec _ hv
  refine ⟨layoutCell c ph col.mName w none, ?_, ⟨?_, hkey, rfl⟩, layoutCell_checksum _ _ _ _ _, ?_⟩
  · simp [PrimaryKeyColumn.layout, hw]
  · exact layoutCell_WF c ph _ _ _ hname hwf (by simp)
  · simp only [WireCell.column, layoutCell, hpk]

theorem attribute_layout_spec (c : Consts) (ph : List Byte → Nat)
    (a : Attribute) (h : a.WellFormed) :
    ∃ x, a.layout c ph = some x ∧ x.WF
      ∧ x.checksum.val = x.crc c ∧ x.attribute = a := by
  obtain ⟨hname, hv, hts⟩ := h
  obtain ⟨w, hw, hwf, hav⟩ := attributeValue_wire_spec _ hv
  refine ⟨layoutCell c ph a.mName w (a.mTimestamp.map fun t => toUint64 t.toMsec), ?_, ?_,
    layoutCell_checksum _ _ _ _ _, ?_⟩
  · simp [Attribute.layout, hw]
  · apply layoutCell_WF c ph _ _ _ hname hwf
    intro t ht
    simp only [Option.mem_def, Option.map_eq_some'] at ht
    obtain ⟨u, _, rfl⟩ := ht
    exact toUint64_lt _
  · simp only [WireCell.attribute, layoutCell, hav]
    cases hto : a.mTimestamp with
    | none =>
      simp only [Option.map_none']
      cases a
      simp_all
    | some t =>
      have := (utcTime_wire_spec t (hts t (by simp [hto]))).2
      simp only [Option.map_some', this]
      cases a
      simp_all

theorem collect_map {α β : Type} (f : α → Option β) (g : β → α) (P : β → Prop) (l : List α)
    (h : ∀ a ∈ l, ∃ x, f a = some x ∧ P x ∧ g x = a) :
    ∃ xs, collect (l.map f) = some xs ∧ (∀ x ∈ xs, P x) ∧ xs.map g = l := by
  induction l with
  | nil => exact ⟨[], rfl, by simp, rfl⟩
  | cons a l ih =>
    obtain ⟨x, hx, hP, hg⟩ := h a (List.mem_cons_self _ _)
    obtain ⟨xs, hxs, hPs, hgs⟩ := ih fun b hb => h b (List.mem_cons_of_mem _ hb)
    refine ⟨x :: xs, ?_, ?_, ?_⟩
    · simp [collect, hx, hxs]
    · intro y hy
      rcases List.mem_cons.mp hy with rfl | hy
      · exact hP
      · exact hPs y hy
    · simp [hg, hgs]

theorem layoutRow_spec (c : Consts) (ph : List Byte → Nat) (X : Row) (h : X.WellFormed) :
    ∃ r, layoutRow c ph X = some r ∧ r.WF ∧ r.ChecksumsOk c ∧ r.row = X := by
  obtain ⟨hk, ha⟩ := h
  obtain ⟨key, hkey, hkP, hkg⟩ := collect_map (PrimaryKeyColumn.layout c ph) WireCell.column
    (fun x => x.KeyWF ∧ x.checksum.val = x.crc c) X.mPkey
    (fun col hcol => by
      obtain ⟨x, h1, h2, h3, h4⟩ := primaryKeyColumn_layout_spec c ph col (hk col hcol)
      exact ⟨x, h1, ⟨h2, h3⟩, h4⟩)
  obtain ⟨data, hdata, hdP, hdg⟩ := collect_map (Attribute.layout c ph) WireCell.attribute
    (fun x => x.WF ∧ x.checksum.val = x.crc c) X.mAttrs
    (fun a haa => by
      obtain ⟨x, h1, h2, h3, h4⟩ := attribute_layout_spec c ph a (ha a haa)
      exact ⟨x, h1, ⟨h2, h3⟩, h4⟩)
  refine ⟨{ key := key, data := some data,
            checksum := crcByte (WireRow.crc { key := key, data := some data, checksum := 0 }) },
    ?_, ?_, ?_, ?_⟩
  · simp [layoutRow, hkey, hdata]
  · exact ⟨fun x hx => (hkP x hx).1, fun x hx => (hdP x hx).1⟩
  · refine ⟨?_, ?_⟩
    · intro x hx
      simp only [WireRow.cells, Option.getD_some, List.mem_append] at hx
      rcases hx with hx | hx
      · exact (hkP x hx).2
      · exact (hdP x hx).2
    · rw [crcByte_val _ (wireRow_crc_lt _)]
      rfl
  · simp [WireRow.row, hkg, hdg]

/-- The frame that the encoding rules produce for a well-formed row decodes to
that row. -/
theorem readRow_encodeFrame_aux (c : Consts) (hc : c.WF) (ph : List Byte → Nat) (X : Row)
    (hX : X.WellFormed) :
    ∃ frame, encodeFrame c ph X = some frame ∧ readRow c {} frame = .ok X [] := by
  obtain ⟨r, hr, hwf, hok, hrow⟩ := layoutRow_spec c ph X hX
  refine ⟨frameBytes c [r], by simp [encodeFrame, hr], ?_⟩
  rw [readRow_frameBytes c hc r hwf hok, hrow]

/-! ### What a successful read says about the input -/

theorem readTag_ok {b b1 : List Byte} {t : Byte} (h : impl.readTag b = .ok t b1) :
    b = t :: b1 := by
  cases b with
  | nil => simp [ISSUE] at h
  | cons x xs =>
    simp only [readTag_cons, Res.ok.injEq] at h
    rw [h.1, h.2]

theorem readUint8_ok {b b1 : List Byte} {t : Byte} (h : impl.readUint8 b = .ok t b1) :
    b = t :: b1 := by
  cases b with
  | nil => simp [ISSUE] at h
  | cons x xs =>
    simp only [readUint8_cons, Res.ok.injEq] at h
    rw [h.1, h.2]

theorem readUint32_ok {v : Nat} {b b1 : List Byte} (h : impl.readUint32 b = .ok v b1) :
    v < 2 ^ 32 ∧ b = leBytes 4 v ++ b1 :=
  readUint_ok h

theorem readUint64_ok {v : Nat} {b b1 : List Byte} (h : impl.readUint64 b = .ok v b1) :
    v < 2 ^ 64 ∧ b = leBytes 8 v ++ b1 :=
  readUint_ok h

theorem readHeader_ok {c : Consts} {b b1 : List Byte} (h : impl.readHeader c b = .ok () b1) :
    b = leBytes 4 c.kHeader ++ b1 := by
  unfold impl.readHeader at h
  obtain ⟨v, b2, h1, h2⟩ := Res.bind_eq_ok h
  obtain ⟨_, hb⟩ := readUint32_ok h1
  split at h2
  · exact absurd h2 (ISSUE_ne_ok _ _ _ _)
  · rename_i hv
    simp only [ne_eq, Decidable.not_not] at hv
    simp only [Res.ok.injEq, true_and] at h2
    rw [hb, hv, h2]

theorem memPiece_ok {b p : List Byte} {len : Nat} (h : impl.memPiece b len = some p) :
    p.length = len ∧ b = p ++ b.drop len := by
  unfold impl.memPiece at h
  split at h
  · rename_i hl
    simp only [Option.some.injEq] at h
    subst h
    exact ⟨by simp [hl], (List.take_append_drop _ _).symm⟩
  · simp at h

theorem readName_ok {c : Consts} {chk chk1 : Nat} {b b1 name : List Byte}
    (h : impl.readName c chk b = .ok (name, chk1) b1) :
    name.length < 2 ^ 32
      ∧ b = c.kTag_CellName :: (leBytes 4 name.length ++ (name ++ b1))
      ∧ chk1 = crc8Bytes chk name := by
  unfold impl.readName at h
  obtain ⟨t, b2, h1, h2⟩ := Res.bind_eq_ok h
  have hb := readTag_ok h1
  split at h2
  · exact absurd h2 (ISSUE_ne_ok _ _ _ _)
  · rename_i ht
    simp only [ne_eq, Decidable.not_not] at ht
    obtain ⟨len, b3, h3, h4⟩ := Res.bind_eq_ok h2
    obtain ⟨hlen, hb2⟩ := readUint32_ok h3
    split at h4
    · exact absurd h4 (ISSUE_ne_ok _ _ _ _)
    · cases hm : impl.memPiece b3 len with
      | none => simp [hm] at h4
      | some p =>
        obtain ⟨hpl, hb3⟩ := memPiece_ok hm
        simp only [hm, Res.ok.injEq, Prod.mk.injEq] at h4
        obtain ⟨⟨hp, hchk⟩, hb1⟩ := h4
        subst hp
        refine ⟨by omega, ?_, ?_⟩
        · rw [hb, ht, hb2, hpl, ← hb1, ← hb3]
        · rw [← hchk, crc8MemPiece_eq]

theorem readBlob_ok {chk chk1 : Nat} {b b1 s : List Byte}
    (h : impl.readBlob chk b = .ok (s, chk1) b1) :
    s.length < 2 ^ 32
      ∧ b = leBytes 4 s.length ++ (s ++ b1)
      ∧ chk1 = crc8Bytes chk (leBytes 4 s.length ++ s) := by
  unfold impl.readBlob at h
  obtain ⟨len, b3, h3, h4⟩ := Res.bind_eq_ok h
  obtain ⟨hlen, hb2⟩ := readUint32_ok h3
  split at h4
  · exact absurd h4 (ISSUE_ne_ok _ _ _ _)
  · cases hm : impl.memPiece b3 len with
    | none => simp [hm] at h4
    | some p =>
      obtain ⟨hpl, hb3⟩ := memPiece_ok hm
      simp only [hm, Res.ok.injEq, Prod.mk.injEq] at h4
      obtain ⟨⟨hp, hchk⟩, hb1⟩ := h4
      subst hp
      refine ⟨by omega, ?_, ?_⟩
      · rw [hb2, hpl, ← hb1, ← hb3]
      · rw [← hchk, crc8MemPiece_eq, crc8U32_eq, crc8Bytes_append, hpl]

theorem readVariantType_ok {c : Consts} {b b1 : List Byte} {t : VariantType}
    (h : impl.readVariantType c b = .ok t b1) :
    b = c.vt t :: b1
      ∧ (t = .kVT_Integer ∨ t = .kVT_Double ∨ t = .kVT_Boolean ∨ t = .kVT_String
          ∨ t = .kVT_Blob) := by
  unfold impl.readVariantType at h
  obtain ⟨v, b2, h1, h2⟩ := Res.bind_eq_ok h
  have hb := readUint8_ok h1
  split at h2
  · rename_i i hi
    simp only [Res.ok.injEq] at h2
    obtain ⟨rfl, rfl⟩ := h2
    have hp := List.find?_some hi
    have hm := List.mem_of_find?_eq_some hi
    simp only [decide_eq_true_eq] at hp
    refine ⟨by rw [hb, hp], ?_⟩
    simpa using hm
  · exact absurd h2 (ISSUE_ne_ok _ _ _ _)

theorem readPrimaryKeyValue_ok {c : Consts} {out val : PrimaryKeyValue} {chk chk1 : Nat}
    {b b1 : List Byte} (h : impl.readPrimaryKeyValue c out chk b = .ok (val, chk1) b1) :
    ∃ ph w, ph.length = 4 ∧ WireValue.WF w ∧ w.isKey = true
      ∧ b = c.kTag_CellValue :: (ph ++ (c.vt w.vt :: (w.body ++ b1)))
      ∧ val = w.pkValue ∧ chk1 = crc8Bytes chk (c.vt w.vt :: w.crcBody) := by
  unfold impl.readPrimaryKeyValue at h
  obtain ⟨t, b2, h1, h2⟩ := Res.bind_eq_ok h
  have hb := readTag_ok h1
  split at h2
  · exact absurd h2 (ISSUE_ne_ok _ _ _ _)
  · rename_i ht
    simp only [ne_eq, Decidable.not_not] at ht
    obtain ⟨p, b3, h3, h4⟩ := Res.bind_eq_ok h2
    obtain ⟨hp, hb2⟩ := readUint32_ok h3
    obtain ⟨vt, b4, h5, h6⟩ := Res.bind_eq_ok h4
    obtain ⟨hb3, _⟩ := readVariantType_ok h5
    cases vt with
    | kVT_Integer =>
      simp only at h6
      obtain ⟨v, b5, h7, h8⟩ := Res.bind_eq_ok h6
      obtain ⟨hv, hb4⟩ := readUint64_ok h7
      simp only [Res.ok.injEq, Prod.mk.injEq] at h8
      obtain ⟨⟨hval, hchk⟩, hb5⟩ := h8
      refine ⟨leBytes 4 p, .integer v, by simp, hv, rfl, ?_, ?_, ?_⟩
      · rw [hb, ht, hb2, hb3, hb4, hb5]; rfl
      · rw [← hval]; rfl
      · rw [← hchk, crc8U64_eq]; rfl
    | kVT_String =>
      simp only at h6
      obtain ⟨r, b5, h7, h8⟩ := Res.bind_eq_ok h6
      obtain ⟨s, chk2⟩ := r
      obtain ⟨hs, hb4, hc2⟩ := readBlob_ok h7
      simp only [Res.ok.injEq, Prod.mk.injEq] at h8
      obtain ⟨⟨hval, hchk⟩, hb5⟩ := h8
      refine ⟨leBytes 4 p, .string s, by simp, hs, rfl, ?_, ?_, ?_⟩
      · rw [hb, ht, hb2, hb3, hb4, hb5]; simp [WireValue.vt, WireValue.body]
      · rw [← hval]; rfl
      · rw [← hchk, hc2]; rfl
    | kVT_Blob =>
      simp only at h6
      obtain ⟨r, b5, h7, h8⟩ := Res.bind_eq_ok h6
      obtain ⟨s, chk2⟩ := r
      obtain ⟨hs, hb4, hc2⟩ := readBlob_ok h7
      simp only [Res.ok.injEq, Prod.mk.injEq] at h8
      obtain ⟨⟨hval, hchk⟩, hb5⟩ := h8
      refine ⟨leBytes 4 p, .blob s, by simp, hs, rfl, ?_, ?_, ?_⟩
      · rw [hb, ht, hb2, hb3, hb4, hb5]; simp [WireValue.vt, WireValue.body]
      · rw [← hval]; rfl
      · rw [← hchk, hc2]; rfl
    | kVT_Double => exact absurd h6 (ISSUE_ne_ok _ _ _ _)
    | kVT_Boolean => exact absurd h6 (ISSUE_ne_ok _ _ _ _)
    | kVT_Null => exact absurd h6 (ISSUE_ne_ok _ _ _ _)
    | kVT_InfMin => exact absurd h6 (ISSUE_ne_ok _ _ _ _)
    | kVT_InfMax => exact absurd h6 (ISSUE_ne_ok _ _ _ _)
    | kVT_AutoIncrement => exact absurd h6 (ISSUE_ne_ok _ _ _ _)

theorem readAttrValue_ok {c : Consts} {out val : AttributeValue} {chk chk1 : Nat}
    {b b1 : List Byte} (h : impl.readAttrValue c out chk b = .ok (val, chk1) b1) :
    ∃ ph w, ph.length = 4 ∧ WireValue.WF w
      ∧ b = c.kTag_CellValue :: (ph ++ (c.vt w.vt :: (w.body ++ b1)))
      ∧ val = w.attrValue ∧ chk1 = crc8Bytes chk (c.vt w.vt :: w.crcBody) := by
  unfold impl.readAttrValue at h
  obtain ⟨t, b2, h1, h2⟩ := Res.bind_eq_ok h
  have hb := readTag_ok h1
  split at h2
  · exact absurd h2 (ISSUE_ne_ok _ _ _ _)
  · rename_i ht
    simp only [ne_eq, Decidable.not_not] at ht
    obtain ⟨p, b3, h3, h4⟩ := Res.bind_eq_ok h2
    obtain ⟨hp, hb2⟩ := readUint32_ok h3
    obtain ⟨vt, b4, h5, h6⟩ := Res.bind_eq_ok h4
    obtain ⟨hb3, _⟩ := readVariantType_ok h5
    cases vt with
    | kVT_Integer =>
      simp only at h6
      obtain ⟨v, b5, h7, h8⟩ := Res.bind_eq_ok h6
      obtain ⟨hv, hb4⟩ := readUint64_ok h7
      simp only [Res.ok.injEq, Prod.mk.injEq] at h8
      obtain ⟨⟨hval, hchk⟩, hb5⟩ := h8
      refine ⟨leBytes 4 p, .integer v, by simp, hv, ?_, ?_, ?_⟩
      · rw [hb, ht, hb2, hb3, hb4, hb5]; rfl
      · rw [← hval]; rfl
      · rw [← hchk, crc8U64_eq]; rfl
    | kVT_Double =>
      simp only at h6
      obtain ⟨v, b5, h7, h8⟩ := Res.bind_eq_ok h6
      obtain ⟨hv, hb4⟩ := readUint64_ok h7
      simp only [Res.ok.injEq, Prod.mk.injEq] at h8
      obtain ⟨⟨hval, hchk⟩, hb5⟩ := h8
      refine ⟨leBytes 4 p, .double v, by simp, hv, ?_, ?_, ?_⟩
      · rw [hb, ht, hb2, hb3, hb4, hb5]; rfl
      · rw [← hval]; rfl
      · rw [← hchk, crc8U64_eq]; rfl
    | kVT_Boolean =>
      simp only at h6
      obtain ⟨v, b5, h7, h8⟩ := Res.bind_eq_ok h6
      have hb4 := readUint8_ok h7
      simp only [Res.ok.injEq, Prod.mk.injEq] at h8
      obtain ⟨⟨hval, hchk⟩, hb5⟩ := h8
      refine ⟨leBytes 4 p, .boolean v, by simp, trivial, ?_, ?_, ?_⟩
      · rw [hb, ht, hb2, hb3, hb4, hb5]; rfl
      · rw [← hval]
        by_cases hv : v.val = 0 <;>
          simp [WireValue.attrValue, AttributeValue.mutableBoolean, AttributeValue.toBoolean, hv]
      · rw [← hchk]
        by_cases hv : v.val = 0 <;>
          simp [WireValue.crcBody, WireValue.vt, AttributeValue.mutableBoolean, hv]
    | kVT_String =>
      simp only at h6
      obtain ⟨r, b5, h7, h8⟩ := Res.bind_eq_ok h6
      obtain ⟨s, chk2⟩ := r
      obtain ⟨hs, hb4, hc2⟩ := readBlob_ok h7
      simp only [Res.ok.injEq, Prod.mk.injEq] at h8
      obtain ⟨⟨hval, hchk⟩, hb5⟩ := h8
      refine ⟨leBytes 4 p, .string s, by simp, hs, ?_, ?_, ?_⟩
      · rw [hb, ht, hb2, hb3, hb4, hb5]; simp [WireValue.vt, WireValue.body]
      · rw [← hval]; rfl
      · rw [← hchk, hc2]; rfl
    | kVT_Blob =>
      simp only at h6
      obtain ⟨r, b5, h7, h8⟩ := Res.bind_eq_ok h6
      obtain ⟨s, chk2⟩ := r
      obtain ⟨hs, hb4, hc2⟩ := readBlob_ok h7
      simp only [Res.ok.injEq, Prod.mk.injEq] at h8
      obtain ⟨⟨hval, hchk⟩, hb5⟩ := h8
      refine ⟨leBytes 4 p, .blob s, by simp, hs, ?_, ?_, ?_⟩
      · rw [hb, ht, hb2, hb3, hb4, hb5]; simp [WireValue.vt, WireValue.body]
      · rw [← hval]; rfl
      · rw [← hchk, hc2]; rfl
    | kVT_Null => exact absurd h6 (ISSUE_ne_ok _ _ _ _)
    | kVT_InfMin => exact absurd h6 (ISSUE_ne_ok _ _ _ _)
    | kVT_InfMax => exact absurd h6 (ISSUE_ne_ok _ _ _ _)
    | kVT_AutoIncrement => exact absurd h6 (ISSUE_ne_ok _ _ _ _)

theorem peekAndCheckTag_ne_none (t : Byte) (b : List Byte) : impl.peekAndCheckTag t b ≠ none := by
  cases b <;> simp

theorem peekAndCheckTag_true {t : Byte} {b : List Byte}
    (h : impl.peekAndCheckTag t b = some true) : ∃ b1, b = t :: b1 := by
  cases b with
  | nil => simp at h
  | cons x xs =>
    simp only [peekAndCheckTag_cons, Option.some.injEq, decide_eq_true_eq] at h
    exact ⟨xs, by rw [h]⟩

theorem readOptionalCellTimestamp_ok {c : Consts} {chk chk1 : Nat} {b b1 : List Byte}
    {ts1 : Option UtcTime}
    (h : impl.readOptionalCellTimestamp c none chk b = .ok (ts1, chk1) b1) :
    ∃ ts : Option Nat, (∀ t ∈ ts, t < 2 ^ 64) ∧ b = timestampSection c ts ++ b1
      ∧ ts1 = ts.map (fun t => UtcTime.fromMsec (toInt64 t))
      ∧ chk1 = crc8Bytes chk (timestampBytes ts) := by
  unfold impl.readOptionalCellTimestamp at h
  cases hp : impl.peekAndCheckTag c.kTag_CellTimestamp b with
  | none => exact absurd hp (peekAndCheckTag_ne_none _ _)
  | some p =>
    cases p with
    | false =>
      simp only [hp, Res.ok.injEq, Prod.mk.injEq] at h
      obtain ⟨⟨h1, h2⟩, h3⟩ := h
      exact ⟨none, by simp, by simp [timestampSection, h3], h1.symm, by simp [timestampBytes, h2]⟩
    | true =>
      simp only [hp] at h
      obtain ⟨b2, hb⟩ := peekAndCheckTag_true hp
      subst hb
      simp only [readTag_cons, Res.bind_ok] at h
      obtain ⟨v, b3, h1, h2⟩ := Res.bind_eq_ok h
      obtain ⟨hv, hb2⟩ := readUint64_ok h1
      simp only [Res.ok.injEq, Prod.mk.injEq] at h2
      obtain ⟨⟨h3, h4⟩, h5⟩ := h2
      refine ⟨some v, ?_, ?_, ?_, ?_⟩
      · intro t ht
        simp only [Option.mem_def, Option.some.injEq] at ht
        omega
      · simp [timestampSection, hb2, h5]
      · simp [← h3]
      · simp [timestampBytes, ← h4, crc8U64_eq]

theorem readPrimaryKeyColumn_ok {c : Consts} {chk chk1 : Nat} {b b1 : List Byte}
    {col : PrimaryKeyColumn}
    (h : impl.readPrimaryKeyColumn c {} chk b = .ok (col, chk1) b1) :
    ∃ x : WireCell, x.KeyWF ∧ x.checksum.val = x.crc c ∧ b = x.bytes c ++ b1
      ∧ col = x.column ∧ chk1 = crc8 chk x.checksum.val := by
  unfold impl.readPrimaryKeyColumn at h
  obtain ⟨t, b2, h1, h2⟩ := Res.bind_eq_ok h
  have hb := readTag_ok h1
  split at h2
  · exact absurd h2 (ISSUE_ne_ok _ _ _ _)
  · rename_i ht
    simp only [ne_eq, Decidable.not_not] at ht
    obtain ⟨r, b3, h3, h4⟩ := Res.bind_eq_ok h2
    obtain ⟨name, chk2⟩ := r
    obtain ⟨hname, hb2, hchk2⟩ := readName_ok h3
    obtain ⟨r, b4, h5, h6⟩ := Res.bind_eq_ok h4
    obtain ⟨val, chk3⟩ := r
    obtain ⟨ph, w, hph, hw, hkey, hb3, hval, hchk3⟩ := readPrimaryKeyValue_ok h5
    obtain ⟨t2, b5, h7, h8⟩ := Res.bind_eq_ok h6
    have hb4 := readTag_ok h7
    split at h8
    · exact absurd h8 (ISSUE_ne_ok _ _ _ _)
    · rename_i ht2
      simp only [ne_eq, Decidable.not_not] at ht2
      obtain ⟨oracle, b6, h9, h10⟩ := Res.bind_eq_ok h8
      have hb5 := readUint8_ok h9
      split at h10
      · exact absurd h10 (ISSUE_ne_ok _ _ _ _)
      · rename_i hor
        simp only [ne_eq, Decidable.not_not] at hor
        simp only [Res.ok.injEq, Prod.mk.injEq] at h10
        obtain ⟨⟨hcol, hchk⟩, hb6⟩ := h10
        have hcrc : WireCell.crc c
            { name := name, placeholder := ph, value := w, timestamp := none, checksum := oracle }
            = chk3 := by
          rw [wireCell_crc_eq, hchk3, hchk2]
          simp [timestampBytes]
        refine ⟨{ name := name, placeholder := ph, value := w, timestamp := none,
                  checksum := oracle }, ⟨⟨hname, hph, hw, by simp⟩, hkey, rfl⟩, ?_, ?_, ?_, ?_⟩
        · rw [hcrc, hor]
        · rw [wireCell_bytes_eq, hb, ht, hb2, hb3, hb4, ht2, hb5, hb6]
          simp [timestampSection]
        · rw [← hcol]
          simp [WireCell.column, hval]
        · rw [← hchk, hor]

theorem readAttr_ok {c : Consts} {chk chk1 : Nat} {b b1 : List Byte} {a : Attribute}
    (h : impl.readAttr c {} chk b = .ok (a, chk1) b1) :
    ∃ x : WireCell, x.WF ∧ x.checksum.val = x.crc c ∧ b = x.bytes c ++ b1
      ∧ a = x.attribute ∧ chk1 = crc8 chk x.checksum.val := by
  unfold impl.readAttr at h
  obtain ⟨t, b2, h1, h2⟩ := Res.bind_eq_ok h
  have hb := readTag_ok h1
  split at h2
  · exact absurd h2 (ISSUE_ne_ok _ _ _ _)
  · rename_i ht
    simp only [ne_eq, Decidable.not_not] at ht
    obtain ⟨r, b3, h3, h4⟩ := Res.bind_eq_ok h2
    obtain ⟨name, chk2⟩ := r
    obtain ⟨hname, hb2, hchk2⟩ := readName_ok h3
    obtain ⟨r, b4, h5, h6⟩ := Res.bind_eq_ok h4
    obtain ⟨val, chk3⟩ := r
    obtain ⟨ph, w, hph, hw, hb3, hval, hchk3⟩ := readAttrValue_ok h5
    obtain ⟨r, b7, h11, h12⟩ := Res.bind_eq_ok h6
    obtain ⟨ts1, chk4⟩ := r
    obtain ⟨ts, hts, hb7, hts1, hchk4⟩ := readOptionalCellTimestamp_ok h11
    obtain ⟨t2, b5, h7, h8⟩ := Res.bind_eq_ok h12
    have hb4 := readTag_ok h7
    split at h8
    · exact absurd h8 (ISSUE_ne_ok _ _ _ _)
    · rename_i ht2
      simp only [ne_eq, Decidable.not_not] at ht2
      obtain ⟨oracle, b6, h9, h10⟩ := Res.bind_eq_ok h8
      have hb5 := readUint8_ok h9
      split at h10
      · exact absurd h10 (ISSUE_ne_ok _ _ _ _)
      · rename_i hor
        simp only [ne_eq, Decidable.not_not] at hor
        simp only [Res.ok.injEq, Prod.mk.injEq] at h10
        obtain ⟨⟨hcol, hchk⟩, hb6⟩ := h10
        have hcrc : WireCell.crc c
            { name := name, placeholder := ph, value := w, timestamp := ts, checksum := oracle }
            = chk4 := by
          rw [wireCell_crc_eq, hchk4, hchk3, hchk2]
        refine ⟨{ name := name, placeholder := ph, value := w, timestamp := ts,
                  checksum := oracle }, ⟨hname, hph, hw, hts⟩, ?_, ?_, ?_, ?_⟩
        · rw [hcrc, hor]
        · rw [wireCell_bytes_eq, hb, ht, hb2, hb3, hb7, hb4, ht2, hb5, hb6]
        · rw [← hcol]
          simp [WireCell.attribute, hval, hts1]
        · rw [← hchk, hor]

theorem readRowKeyLoop_ok {c : Consts} {fuel : Nat} {out out1 : List PrimaryKeyColumn}
    {chk chk1 : Nat} {b b1 : List Byte}
    (h : impl.readRowKeyLoop c fuel out chk b = .ok (out1, chk1) b1) :
    ∃ xs : List WireCell, (∀ x ∈ xs, x.KeyWF) ∧ (∀ x ∈ xs, x.checksum.val = x.crc c)
      ∧ b = (xs.map (WireCell.bytes c)).flatten ++ b1
      ∧ out1 = out ++ xs.map WireCell.column
      ∧ chk1 = crc8Bytes chk (xs.map (·.checksum))
      ∧ impl.peekAndCheckTag c.kTag_Cell b1 = some false := by
  induction fuel generalizing out chk b with
  | zero => simp [impl.readRowKeyLoop] at h
  | succ fuel ih =>
    unfold impl.readRowKeyLoop at h
    cases hp : impl.peekAndCheckTag c.kTag_Cell b with
    | none => exact absurd hp (peekAndCheckTag_ne_none _ _)
    | some p =>
      cases p with
      | false =>
        simp only [hp, Res.ok.injEq, Prod.mk.injEq] at h
        obtain ⟨⟨h1, h2⟩, h3⟩ := h
        subst h1 h2 h3
        exact ⟨[], by simp, by simp, by simp, by simp, by simp, hp⟩
      | true =>
        simp only [hp] at h
        obtain ⟨r, b2, h1, h2⟩ := Res.bind_eq_ok h
        obtain ⟨col, chk2⟩ := r
        obtain ⟨x, hx, hxok, hb, hcol, hchk2⟩ := readPrimaryKeyColumn_ok h1
        obtain ⟨xs, hxs, hxsok, hb2, hout, hchk, hpeek⟩ := ih h2
        refine ⟨x :: xs, ?_, ?_, ?_, ?_, ?_, hpeek⟩
        · intro y hy
          rcases List.mem_cons.mp hy with rfl | hy
          · exact hx
          · exact hxs y hy
        · intro y hy
          rcases List.mem_cons.mp hy with rfl | hy
          · exact hxok
          · exact hxsok y hy
        · rw [hb, hb2]; simp
        · rw [hout, hcol]; simp
        · rw [hchk, hchk2]; simp

theorem readAttrsLoop_ok {c : Consts} {fuel : Nat} {out out1 : List Attribute}
    {chk chk1 : Nat} {b b1 : List Byte}
    (h : impl.readAttrsLoop c fuel out chk b = .ok (out1, chk1) b1) :
    ∃ xs : List WireCell, (∀ x ∈ xs, x.WF) ∧ (∀ x ∈ xs, x.checksum.val = x.crc c)
      ∧ b = (xs.map (WireCell.bytes c)).flatten ++ b1
      ∧ out1 = out ++ xs.map WireCell.attribute
      ∧ chk1 = crc8Bytes chk (xs.map (·.checksum))
      ∧ impl.peekAndCheckTag c.kTag_Cell b1 = some false := by
  induction fuel generalizing out chk b with
  | zero => simp [impl.readAttrsLoop] at h
  | succ fuel ih =>
    unfold impl.readAttrsLoop at h
    cases hp : impl.peekAndCheckTag c.kTag_Cell b with
    | none => exact absurd hp (peekAndCheckTag_ne_none _ _)
    | some p =>
      cases p with
      | false =>
        simp only [hp, Res.ok.injEq, Prod.mk.injEq] at h
        obtain ⟨⟨h1, h2⟩, h3⟩ := h
        subst h1 h2 h3
        exact ⟨[], by simp, by simp, by simp, by simp, by simp, hp⟩
      | true =>
        simp only [hp] at h
        obtain ⟨r, b2, h1, h2⟩ := Res.bind_eq_ok h
        obtain ⟨col, chk2⟩ := r
        obtain ⟨x, hx, hxok, hb, hcol, hchk2⟩ := readAttr_ok h1
        obtain ⟨xs, hxs, hxsok, hb2, hout, hchk, hpeek⟩ := ih h2
        refine ⟨x :: xs, ?_, ?_, ?_, ?_, ?_, hpeek⟩
        · intro y hy
          rcases List.mem_cons.mp hy with rfl | hy
          · exact hx
          · exact hxs y hy
        · intro y hy
          rcases List.mem_cons.mp hy with rfl | hy
          · exact hxok
          · exact hxsok y hy
        · rw [hb, hb2]; simp
        · rw [hout, hcol]; simp
        · rw [hchk, hchk2]; simp

theorem readRowKey_ok {c : Consts} {out out1 : List PrimaryKeyColumn}
    {chk chk1 : Nat} {b b1 : List Byte}
    (h : impl.readRowKey c out chk b = .ok (out1, chk1) b1) :
    ∃ xs : List WireCell, (∀ x ∈ xs, x.KeyWF) ∧ (∀ x ∈ xs, x.checksum.val = x.crc c)
      ∧ b = c.kTag_RowKey :: ((xs.map (WireCell.bytes c)).flatten ++ b1)
      ∧ out1 = out ++ xs.map WireCell.column
      ∧ chk1 = crc8Bytes chk (xs.map (·.checksum)) := by
  unfold impl.readRowKey at h
  obtain ⟨t, b2, h1, h2⟩ := Res.bind_eq_ok h
  have hb := readTag_ok h1
  split at h2
  · exact absurd h2 (ISSUE_ne_ok _ _ _ _)
  · rename_i ht
    simp only [ne_eq, Decidable.not_not] at ht
    obtain ⟨xs, h3, h4, h5, h6, h7, _⟩ := readRowKeyLoop_ok h2
    exact ⟨xs, h3, h4, by rw [hb, ht, h5], h6, h7⟩

theorem readAttrs_ok {c : Consts} {out out1 : List Attribute}
    {chk chk1 : Nat} {b b1 : List Byte}
    (h : impl.readAttrs c out chk b = .ok (out1, chk1) b1) :
    ∃ xs : List WireCell, (∀ x ∈ xs, x.WF) ∧ (∀ x ∈ xs, x.checksum.val = x.crc c)
      ∧ b = c.kTag_RowData :: ((xs.map (WireCell.bytes c)).flatten ++ b1)
      ∧ out1 = out ++ xs.map WireCell.attribute
      ∧ chk1 = crc8Bytes chk (xs.map (·.checksum)) := by
  unfold impl.readAttrs at h
  obtain ⟨t, b2, h1, h2⟩ := Res.bind_eq_ok h
  have hb := readTag_ok h1
  split at h2
  · exact absurd h2 (ISSUE_ne_ok _ _ _ _)
  · rename_i ht
    simp only [ne_eq, Decidable.not_not] at ht
    obtain ⟨xs, h3, h4, h5, h6, h7, _⟩ := readAttrsLoop_ok h2
    exact ⟨xs, h3, h4, by rw [hb, ht, h5], h6, h7⟩

/-- A successful `impl::readRow` has read the bytes of a frame row whose stored
checksums are the computed ones, and has appended its cells to `out`. -/
theorem impl_readRow_ok {c : Consts} {out R : Row} {b b1 : List Byte}
    (h : impl.readRow c out b = .ok R b1) :
    ∃ r : WireRow, r.WF ∧ r.ChecksumsOk c ∧ b = r.bytes c ++ b1
      ∧ R = { mPkey := out.mPkey ++ r.row.mPkey, mAttrs := out.mAttrs ++ r.row.mAttrs } := by
  unfold impl.readRow at h
  obtain ⟨r1, b2, h1, h2⟩ := Res.bind_eq_ok h
  obtain ⟨key1, chk1⟩ := r1
  obtain ⟨ks, hks, hksok, hb, hkey1, hchk1⟩ := readRowKey_ok h1
  cases hp : impl.peekAndCheckTag c.kTag_RowData b2 with
  | none => exact absurd hp (peekAndCheckTag_ne_none _ _)
  | some p =>
    simp only [hp] at h2
    obtain ⟨r2, b3, h3, h4⟩ := Res.bind_eq_ok h2
    obtain ⟨attrs1, chk2⟩ := r2
    obtain ⟨t, b4, h5, h6⟩ := Res.bind_eq_ok h4
    have hb3 := readTag_ok h5
    split at h6
    · exact absurd h6 (ISSUE_ne_ok _ _ _ _)
    · rename_i ht
      simp only [ne_eq, Decidable.not_not] at ht
      obtain ⟨oracle, b5, h7, h8⟩ := Res.bind_eq_ok h6
      have hb4 := readUint8_ok h7
      split at h8
      · exact absurd h8 (ISSUE_ne_ok _ _ _ _)
      · rename_i hor
        simp only [ne_eq, Decidable.not_not] at hor
        simp only [Res.ok.injEq] at h8
        obtain ⟨hR, hb5⟩ := h8
        cases p with
        | false =>
          simp only [Bool.false_eq_true, if_false, Res.ok.injEq, Prod.mk.injEq] at h3
          obtain ⟨⟨ha, hc2⟩, hb2⟩ := h3
          refine ⟨{ key := ks, data := none, checksum := oracle }, ⟨hks, by simp⟩, ⟨?_, ?_⟩,
            ?_, ?_⟩
          · intro x hx
            simp only [WireRow.cells, Option.getD_none, List.append_nil] at hx
            exact hksok x hx
          · rw [wireRow_crc_eq, ← hor, ← hc2, hchk1]
            simp
          · rw [wireRow_bytes_eq, hb, hb2, hb3, ht, hb4, hb5]
            simp [dataSection]
          · rw [← hR, ← ha, hkey1]
            simp [WireRow.row]
        | true =>
          simp only [if_true] at h3
          obtain ⟨as, has, hasok, hb2, hattrs, hchk2⟩ := readAttrs_ok h3
          refine ⟨{ key := ks, data := some as, checksum := oracle }, ⟨hks, by simpa using has⟩,
            ⟨?_, ?_⟩, ?_, ?_⟩
          · intro x hx
            simp only [WireRow.cells, Option.getD_some, List.mem_append] at hx
            rcases hx with hx | hx
            · exact hksok x hx
            · exact hasok x hx
          · rw [wireRow_crc_eq, ← hor, hchk2, hchk1]
            simp
          · rw [wireRow_bytes_eq, hb, hb2, hb3, ht, hb4, hb5]
            simp [dataSection]
          · rw [← hR, hattrs, hkey1]
            simp [WireRow.row]

/-- A successful public `readRow` has read exactly a header and one frame row. -/
theorem readRow_ok {c : Consts} {out R : Row} {p b1 : List Byte}
    (h : readRow c out p = .ok R b1) :
    b1 = [] ∧ ∃ r : WireRow, r.WF ∧ r.ChecksumsOk c ∧ p = frameBytes c [r]
      ∧ R = { mPkey := out.mPkey ++ r.row.mPkey, mAttrs := out.mAttrs ++ r.row.mAttrs } := by
  unfold readRow at h
  obtain ⟨u, b2, h1, h2⟩ := Res.bind_eq_ok h
  have hb := readHeader_ok h1
  obtain ⟨R1, b3, h3, h4⟩ := Res.bind_eq_ok h2
  obtain ⟨r, hr, hok, hb2, hR⟩ := impl_readRow_ok h3
  split at h4
  · exact absurd h4 (ISSUE_ne_ok _ _ _ _)
  · rename_i hnil
    simp only [ne_eq, Decidable.not_not] at hnil
    simp only [Res.ok.injEq] at h4
    obtain ⟨hR1, hb3⟩ := h4
    subst hnil
    refine ⟨hb3.symm, r, hr, hok, ?_, by rw [← hR1, hR]⟩
    rw [hb, hb2]
    simp [frameBytes]

theorem readRowsLoop_ok {c : Consts} {fuel : Nat} {out out1 : List Row} {b b1 : List Byte}
    (h : impl.readRowsLoop c fuel out b = .ok out1 b1) :
    b1 = [] ∧ ∃ rs : List WireRow, (∀ r ∈ rs, r.WF ∧ r.ChecksumsOk c)
      ∧ b = (rs.map (WireRow.bytes c)).flatten
      ∧ out1 = out ++ rs.map WireRow.row := by
  induction fuel generalizing out b with
  | zero => simp [impl.readRowsLoop] at h
  | succ fuel ih =>
    unfold impl.readRowsLoop at h
    split at h
    · obtain ⟨row, b2, h1, h2⟩ := Res.bind_eq_ok h
      obtain ⟨r, hr, hok, hb, hrow⟩ := impl_readRow_ok h1
      obtain ⟨hnil, rs, hrs, hb2, hout⟩ := ih h2
      refine ⟨hnil, r :: rs, ?_, ?_, ?_⟩
      · intro y hy
        rcases List.mem_cons.mp hy with rfl | hy
        · exact ⟨hr, hok⟩
        · exact hrs y hy
      · rw [hb, hb2]; simp
      · rw [hout, hrow]
        simp [WireRow.row]
    · rename_i hlen
      simp only [Res.ok.injEq] at h
      obtain ⟨h1, h2⟩ := h
      have : b = [] := by
        cases b with
        | nil => rfl
        | cons x xs => simp at hlen
      subst this
      exact ⟨h2.symm, [], by simp, by simp, by simp [h1]⟩

/-- A successful public `readRows` has read exactly a header and a sequence of
frame rows. -/
theorem readRows_ok {c : Consts} {out out1 : List Row} {p b1 : List Byte}
    (h : readRows c out p = .ok out1 b1) :
    b1 = [] ∧ ∃ rs : List WireRow, (∀ r ∈ rs, r.WF ∧ r.ChecksumsOk c)
      ∧ p = frameBytes c rs ∧ out1 = out ++ rs.map WireRow.row := by
  unfold readRows at h
  obtain ⟨u, b2, h1, h2⟩ := Res.bind_eq_ok h
  have hb := readHeader_ok h1
  obtain ⟨R1, b3, h3, h4⟩ := Res.bind_eq_ok h2
  obtain ⟨hnil, rs, hrs, hb2, hout⟩ := readRowsLoop_ok h3
  split at h4
  · exact absurd h4 (ISSUE_ne_ok _ _ _ _)
  · simp only [Res.ok.injEq] at h4
    obtain ⟨hR1, hb3⟩ := h4
    refine ⟨by rw [← hb3, hnil], rs, hrs, ?_, by rw [← hR1, hout]⟩
    rw [hb, hb2]
    simp [frameBytes]

/-! ### Every error is `CorruptedResponse` -/

theorem issueError_code (file : String) (line : Nat) :
    (issueError file line).code = .kPredefined_CorruptedResponse := rfl

theorem OnlyCorrupted_ISSUE {α : Type} (line : Nat) (b : List Byte) :
    (ISSUE line b : Res α).OnlyCorrupted := by
  intro e b1 h
  simp only [ISSUE, Res.error.injEq] at h
  rw [← h.1]
  rfl

theorem OnlyCorrupted_ok {α : Type} (v : α) (b : List Byte) : (Res.ok v b).OnlyCorrupted := by
  intro e b1 h
  simp at h

theorem OnlyCorrupted_abort {α : Type} (a : Abort) : (Res.abort a : Res α).OnlyCorrupted := by
  intro e b1 h
  simp at h

theorem OnlyCorrupted_bind {α β : Type} (r : Res α) (k : α → List Byte → Res β)
    (hr : r.OnlyCorrupted) (hk : ∀ v b, (k v b).OnlyCorrupted) : (r.bind k).OnlyCorrupted := by
  cases r with
  | ok v b => exact hk v b
  | error e b =>
    intro e1 b1 h
    simp only [Res.bind_error, Res.error.injEq] at h
    rw [← h.1]
    exact hr e b rfl
  | abort a => exact OnlyCorrupted_abort a

theorem OnlyCorrupted_ite {α : Type} (p : Prop) [Decidable p] (r1 r2 : Res α)
    (h1 : r1.OnlyCorrupted) (h2 : r2.OnlyCorrupted) : (if p then r1 else r2).OnlyCorrupted := by
  split
  · exact h1
  · exact h2

theorem readUint_OnlyCorrupted (n : Nat) (b : List Byte) : (impl.readUint n b).OnlyCorrupted := by
  rw [readUint_eq]
  exact OnlyCorrupted_ite _ _ _ (OnlyCorrupted_ok _ _) (OnlyCorrupted_ISSUE _ _)

theorem readUint8_OnlyCorrupted (b : List Byte) : (impl.readUint8 b).OnlyCorrupted := by
  cases b with
  | nil => rw [readUint8_nil]; exact OnlyCorrupted_ISSUE _ _
  | cons x xs => rw [readUint8_cons]; exact OnlyCorrupted_ok _ _

theorem readTag_OnlyCorrupted (b : List Byte) : (impl.readTag b).OnlyCorrupted := by
  cases b with
  | nil => rw [readTag_nil]; exact OnlyCorrupted_ISSUE _ _
  | cons x xs => rw [readTag_cons]; exact OnlyCorrupted_ok _ _

theorem readHeader_OnlyCorrupted (c : Consts) (b : List Byte) :
    (impl.readHeader c b).OnlyCorrupted := by
  unfold impl.readHeader
  refine OnlyCorrupted_bind _ _ (readUint_OnlyCorrupted _ _) fun v b1 => ?_
  exact OnlyCorrupted_ite _ _ _ (OnlyCorrupted_ISSUE _ _) (OnlyCorrupted_ok _ _)

theorem readBlob_OnlyCorrupted (chk : Nat) (b : List Byte) :
    (impl.readBlob chk b).OnlyCorrupted := by
  unfold impl.readBlob
  refine OnlyCorrupted_bind _ _ (readUint_OnlyCorrupted _ _) fun v b1 => ?_
  refine OnlyCorrupted_ite _ _ _ (OnlyCorrupted_ISSUE _ _) ?_
  cases impl.memPiece b1 v with
  | none => exact OnlyCorrupted_abort _
  | some p => exact OnlyCorrupted_ok _ _

theorem readName_OnlyCorrupted (c : Consts) (chk : Nat) (b : List Byte) :
    (impl.readName c chk b).OnlyCorrupted := by
  unfold impl.readName
  refine OnlyCorrupted_bind _ _ (readTag_OnlyCorrupted _) fun t b1 => ?_
  refine OnlyCorrupted_ite _ _ _ (OnlyCorrupted_ISSUE _ _) ?_
  refine OnlyCorrupted_bind _ _ (readUint_OnlyCorrupted _ _) fun v b2 => ?_
  refine OnlyCorrupted_ite _ _ _ (OnlyCorrupted_ISSUE _ _) ?_
  cases impl.memPiece b2 v with
  | none => exact OnlyCorrupted_abort _
  | some p => exact OnlyCorrupted_ok _ _

theorem readVariantType_OnlyCorrupted (c : Consts) (b : List Byte) :
    (impl.readVariantType c b).OnlyCorrupted := by
  unfold impl.readVariantType
  refine OnlyCorrupted_bind _ _ (readUint8_OnlyCorrupted _) fun v b1 => ?_
  split
  · exact OnlyCorrupted_ok _ _
  · exact OnlyCorrupted_ISSUE _ _

theorem readPrimaryKeyValue_OnlyCorrupted (c : Consts) (out : PrimaryKeyValue) (chk : Nat)
    (b : List Byte) : (impl.readPrimaryKeyValue c out chk b).OnlyCorrupted := by
  unfold impl.readPrimaryKeyValue
  refine OnlyCorrupted_bind _ _ (readTag_OnlyCorrupted _) fun t b1 => ?_
  refine OnlyCorrupted_ite _ _ _ (OnlyCorrupted_ISSUE _ _) ?_
  refine OnlyCorrupted_bind _ _ (readUint_OnlyCorrupted _ _) fun v b2 => ?_
  refine OnlyCorrupted_bind _ _ (readVariantType_OnlyCorrupted _ _) fun vt b3 => ?_
  cases vt
  · exact OnlyCorrupted_bind _ _ (readUint_OnlyCorrupted _ _) fun _ _ => OnlyCorrupted_ok _ _
  · exact OnlyCorrupted_ISSUE _ _
  · exact OnlyCorrupted_ISSUE _ _
  · exact OnlyCorrupted_bind _ _ (readBlob_OnlyCorrupted _ _) fun _ _ => OnlyCorrupted_ok _ _
  · exact OnlyCorrupted_ISSUE _ _
  · exact OnlyCorrupted_bind _ _ (readBlob_OnlyCorrupted _ _) fun _ _ => OnlyCorrupted_ok _ _
  · exact OnlyCorrupted_ISSUE _ _
  · exact OnlyCorrupted_ISSUE _ _
  · exact OnlyCorrupted_ISSUE _ _

theorem readAttrValue_OnlyCorrupted (c : Consts) (out : AttributeValue) (chk : Nat)
    (b : List Byte) : (impl.readAttrValue c out chk b).OnlyCorrupted := by
  unfold impl.readAttrValue
  refine OnlyCorrupted_bind _ _ (readTag_OnlyCorrupted _) fun t b1 => ?_
  refine OnlyCorrupted_ite _ _ _ (OnlyCorrupted_ISSUE _ _) ?_
  refine OnlyCorrupted_bind _ _ (readUint_OnlyCorrupted _ _) fun v b2 => ?_
  refine OnlyCorrupted_bind _ _ (readVariantType_OnlyCorrupted _ _) fun vt b3 => ?_
  cases vt
  · exact OnlyCorrupted_bind _ _ (readUint_OnlyCorrupted _ _) fun _ _ => OnlyCorrupted_ok _ _
  · exact OnlyCorrupted_bind _ _ (readUint_OnlyCorrupted _ _) fun _ _ => OnlyCorrupted_ok _ _
  · exact OnlyCorrupted_bind _ _ (readUint8_OnlyCorrupted _) fun _ _ => OnlyCorrupted_ok _ _
  · exact OnlyCorrupted_bind _ _ (readBlob_OnlyCorrupted _ _) fun _ _ => OnlyCorrupted_ok _ _
  · exact OnlyCorrupted_ISSUE _ _
  · exact OnlyCorrupted_bind _ _ (readBlob_OnlyCorrupted _ _) fun _ _ => OnlyCorrupted_ok _ _
  · exact OnlyCorrupted_ISSUE _ _
  · exact OnlyCorrupted_ISSUE _ _
  · exact OnlyCorrupted_ISSUE _ _

theorem readOptionalCellTimestamp_OnlyCorrupted (c : Consts) (out : Option UtcTime) (chk : Nat)
    (b : List Byte) : (impl.readOptionalCellTimestamp c out chk b).OnlyCorrupted := by
  unfold impl.readOptionalCellTimestamp
  cases impl.peekAndCheckTag c.kTag_CellTimestamp b with
  | none => exact OnlyCorrupted_abort _
  | some p =>
    cases p with
    | false => exact OnlyCorrupted_ok _ _
    | true =>
      refine OnlyCorrupted_bind _ _ (readTag_OnlyCorrupted _) fun t b1 => ?_
      exact OnlyCorrupted_bind _ _ (readUint_OnlyCorrupted _ _) fun _ _ => OnlyCorrupted_ok _ _

theorem cellTail_OnlyCorrupted {α : Type} (c : Consts) (l1 l2 : Nat) (col : Nat) (v : α)
    (b : List Byte) :
    ((impl.readTag b).bind fun tag b =>
      if tag ≠ c.kTag_CellChecksum then ISSUE l1 b
      else (impl.readUint8 b).bind fun oracle b =>
        if col ≠ oracle.val then ISSUE l2 b else Res.ok v b).OnlyCorrupted := by
  refine OnlyCorrupted_bind _ _ (readTag_OnlyCorrupted _) fun t b1 => ?_
  refine OnlyCorrupted_ite _ _ _ (OnlyCorrupted_ISSUE _ _) ?_
  refine OnlyCorrupted_bind _ _ (readUint8_OnlyCorrupted _) fun o b2 => ?_
  exact OnlyCorrupted_ite _ _ _ (OnlyCorrupted_ISSUE _ _) (OnlyCorrupted_ok _ _)

theorem readPrimaryKeyColumn_OnlyCorrupted (c : Consts) (out : PrimaryKeyColumn) (chk : Nat)
    (b : List Byte) : (impl.readPrimaryKeyColumn c out chk b).OnlyCorrupted := by
  unfold impl.readPrimaryKeyColumn
  refine OnlyCorrupted_bind _ _ (readTag_OnlyCorrupted _) fun t b1 => ?_
  refine OnlyCorrupted_ite _ _ _ (OnlyCorrupted_ISSUE _ _) ?_
  refine OnlyCorrupted_bind _ _ (readName_OnlyCorrupted _ _ _) fun r1 b2 => ?_
  refine OnlyCorrupted_bind _ _ (readPrimaryKeyValue_OnlyCorrupted _ _ _ _) fun r2 b3 => ?_
  exact cellTail_OnlyCorrupted c 250 255 _ _ _

theorem readAttr_OnlyCorrupted (c : Consts) (out : Attribute) (chk : Nat)
    (b : List Byte) : (impl.readAttr c out chk b).OnlyCorrupted := by
  unfold impl.readAttr
  refine OnlyCorrupted_bind _ _ (readTag_OnlyCorrupted _) fun t b1 => ?_
  refine OnlyCorrupted_ite _ _ _ (OnlyCorrupted_ISSUE _ _) ?_
  refine OnlyCorrupted_bind _ _ (readName_OnlyCorrupted _ _ _) fun r1 b2 => ?_
  refine OnlyCorrupted_bind _ _ (readAttrValue_OnlyCorrupted _ _ _ _) fun r2 b3 => ?_
  refine OnlyCorrupted_bind _ _ (readOptionalCellTimestamp_OnlyCorrupted _ _ _ _) fun r3 b4 => ?_
  exact cellTail_OnlyCorrupted c 389 394 _ _ _

theorem readRowKeyLoop_OnlyCorrupted (c : Consts) (fuel : Nat) (out : List PrimaryKeyColumn)
    (chk : Nat) (b : List Byte) : (impl.readRowKeyLoop c fuel out chk b).OnlyCorrupted := by
  induction fuel generalizing out chk b with
  | zero => exact OnlyCorrupted_abort _
  | succ fuel ih =>
    unfold impl.readRowKeyLoop
    cases impl.peekAndCheckTag c.kTag_Cell b with
    | none => exact OnlyCorrupted_abort _
    | some p =>
      cases p with
      | false => exact OnlyCorrupted_ok _ _
      | true =>
        exact OnlyCorrupted_bind _ _ (readPrimaryKeyColumn_OnlyCorrupted _ _ _ _)
          fun r b1 => ih _ _ _

theorem readAttrsLoop_OnlyCorrupted (c : Consts) (fuel : Nat) (out : List Attribute)
    (chk : Nat) (b : List Byte) : (impl.readAttrsLoop c fuel out chk b).OnlyCorrupted := by
  induction fuel generalizing out chk b with
  | zero => exact OnlyCorrupted_abort _
  | succ fuel ih =>
    unfold impl.readAttrsLoop
    cases impl.peekAndCheckTag c.kTag_Cell b with
    | none => exact OnlyCorrupted_abort _
    | some p =>
      cases p with
      | false => exact OnlyCorrupted_ok _ _
      | true =>
        exact OnlyCorrupted_bind _ _ (readAttr_OnlyCorrupted _ _ _ _) fun r b1 => ih _ _ _

theorem readRowKey_OnlyCorrupted (c : Consts) (out : List PrimaryKeyColumn)
    (chk : Nat) (b : List Byte) : (impl.readRowKey c out chk b).OnlyCorrupted := by
  unfold impl.readRowKey
  refine OnlyCorrupted_bind _ _ (readTag_OnlyCorrupted _) fun t b1 => ?_
  exact OnlyCorrupted_ite _ _ _ (OnlyCorrupted_ISSUE _ _) (readRowKeyLoop_OnlyCorrupted _ _ _ _ _)

theorem readAttrs_OnlyCorrupted (c : Consts) (out : List Attribute)
    (chk : Nat) (b : List Byte) : (impl.readAttrs c out chk b).OnlyCorrupted := by
  unfold impl.readAttrs
  refine OnlyCorrupted_bind _ _ (readTag_OnlyCorrupted _) fun t b1 => ?_
  exact OnlyCorrupted_ite _ _ _ (OnlyCorrupted_ISSUE _ _) (readAttrsLoop_OnlyCorrupted _ _ _ _ _)

theorem impl_readRow_OnlyCorrupted (c : Consts) (out : Row) (b : List Byte) :
    (impl.readRow c out b).OnlyCorrupted := by
  unfold impl.readRow
  refine OnlyCorrupted_bind _ _ (readRowKey_OnlyCorrupted _ _ _ _) fun r b1 => ?_
  cases impl.peekAndCheckTag c.kTag_RowData b1 with
  | none => exact OnlyCorrupted_abort _
  | some p =>
    refine OnlyCorrupted_bind _ _ ?_ fun r2 b2 => ?_
    · exact OnlyCorrupted_ite _ _ _ (readAttrs_OnlyCorrupted _ _ _ _) (OnlyCorrupted_ok _ _)
    · refine OnlyCorrupted_bind _ _ (readTag_OnlyCorrupted _) fun t b3 => ?_
      refine OnlyCorrupted_ite _ _ _ (OnlyCorrupted_ISSUE _ _) ?_
      refine OnlyCorrupted_bind _ _ (readUint8_OnlyCorrupted _) fun o b4 => ?_
      exact OnlyCorrupted_ite _ _ _ (OnlyCorrupted_ISSUE _ _) (OnlyCorrupted_ok _ _)

theorem impl_readRowsLoop_OnlyCorrupted (c : Consts) (fuel : Nat) (out : List Row)
    (b : List Byte) : (impl.readRowsLoop c fuel out b).OnlyCorrupted := by
  induction fuel generalizing out b with
  | zero => exact OnlyCorrupted_abort _
  | succ fuel ih =>
    unfold impl.readRowsLoop
    refine OnlyCorrupted_ite _ _ _ ?_ (OnlyCorrupted_ok _ _)
    exact OnlyCorrupted_bind _ _ (impl_readRow_OnlyCorrupted _ _ _) fun r b1 => ih _ _

theorem readRow_OnlyCorrupted (c : Consts) (out : Row) (p : List Byte) :
    (readRow c out p).OnlyCorrupted := by
  unfold readRow
  refine OnlyCorrupted_bind _ _ (readHeader_OnlyCorrupted _ _) fun _ b1 => ?_
  refine OnlyCorrupted_bind _ _ (impl_readRow_OnlyCorrupted _ _ _) fun r b2 => ?_
  exact OnlyCorrupted_ite _ _ _ (OnlyCorrupted_ISSUE _ _) (OnlyCorrupted_ok _ _)

theorem readRows_OnlyCorrupted (c : Consts) (out : List Row) (p : List Byte) :
    (readRows c out p).OnlyCorrupted := by
  unfold readRows
  refine OnlyCorrupted_bind _ _ (readHeader_OnlyCorrupted _ _) fun _ b1 => ?_
  refine OnlyCorrupted_bind _ _ (impl_readRowsLoop_OnlyCorrupted _ _ _ _) fun r b2 => ?_
  exact OnlyCorrupted_ite _ _ _ (OnlyCorrupted_ISSUE _ _) (OnlyCorrupted_ok _ _)

theorem IsCorrupted_ISSUE {α : Type} (line : Nat) (b : List Byte) :
    (ISSUE line b : Res α).IsCorrupted :=
  ⟨_, _, rfl, rfl⟩

/-! ### Variant types that a row key does not admit -/

theorem readPrimaryKeyValue_bad_vt (c : Consts) (out : PrimaryKeyValue) (chk : Nat)
    (ph : List Byte) (v : Byte) (rest : List Byte) (hph : ph.length = 4)
    (h1 : v ≠ c.kVT_Integer) (h2 : v ≠ c.kVT_String) (h3 : v ≠ c.kVT_Blob) :
    impl.readPrimaryKeyValue c out chk (c.kTag_CellValue :: (ph ++ (v :: rest))) = ISSUE 175 rest
    ∨ impl.readPrimaryKeyValue c out chk (c.kTag_CellValue :: (ph ++ (v :: rest)))
        = ISSUE 224 rest := by
  unfold impl.readPrimaryKeyValue
  simp only [readTag_cons, Res.bind_ok, ne_eq, not_true_eq_false, if_false]
  rw [show impl.readUint32 (ph ++ (v :: rest)) = .ok (leValue ph) (v :: rest)
    from readUint_append 4 ph _ hph]
  simp only [Res.bind_ok, impl.readVariantType, readUint8_cons, List.find?, Consts.vt,
    Ne.symm h1, Ne.symm h2, Ne.symm h3, decide_False]
  by_cases hd : c.kVT_Double = v
  · simp [hd]
  · by_cases hb : c.kVT_Boolean = v
    · simp [hd, hb]
    · simp [hd, hb]

/-! ### The placeholder is read and dropped -/

theorem readPrimaryKeyValue_placeholder (c : Consts) (out : PrimaryKeyValue) (chk : Nat)
    (ph ph1 rest : List Byte) (h : ph.length = 4) (h1 : ph1.length = 4) :
    impl.readPrimaryKeyValue c out chk (c.kTag_CellValue :: (ph ++ rest))
      = impl.readPrimaryKeyValue c out chk (c.kTag_CellValue :: (ph1 ++ rest)) := by
  unfold impl.readPrimaryKeyValue
  simp only [readTag_cons, Res.bind_ok, ne_eq, not_true_eq_false, if_false]
  rw [show impl.readUint32 (ph ++ rest) = .ok (leValue ph) rest from readUint_append 4 ph _ h,
    show impl.readUint32 (ph1 ++ rest) = .ok (leValue ph1) rest from readUint_append 4 ph1 _ h1]
  rfl

theorem readAttrValue_placeholder (c : Consts) (out : AttributeValue) (chk : Nat)
    (ph ph1 rest : List Byte) (h : ph.length = 4) (h1 : ph1.length = 4) :
    impl.readAttrValue c out chk (c.kTag_CellValue :: (ph ++ rest))
      = impl.readAttrValue c out chk (c.kTag_CellValue :: (ph1 ++ rest)) := by
  unfold impl.readAttrValue
  simp only [readTag_cons, Res.bind_ok, ne_eq, not_true_eq_false, if_false]
  rw [show impl.readUint32 (ph ++ rest) = .ok (leValue ph) rest from readUint_append 4 ph _ h,
    show impl.readUint32 (ph1 ++ rest) = .ok (leValue ph1) rest from readUint_append 4 ph1 _ h1]
  rfl

theorem cellOpening_append (c : Consts) (name rest : List Byte) :
    cellOpening c name ++ rest
      = c.kTag_Cell :: c.kTag_CellName :: (leBytes 4 name.length
          ++ (name ++ (c.kTag_CellValue :: rest))) := by
  simp [cellOpening]

theorem readPrimaryKeyColumn_placeholder (c : Consts) (chk : Nat)
    (name ph ph1 post : List Byte) (hname : name.length < 2 ^ 32)
    (h : ph.length = 4) (h1 : ph1.length = 4) :
    impl.readPrimaryKeyColumn c {} chk (cellOpening c name ++ (ph ++ post))
      = impl.readPrimaryKeyColumn c {} chk (cellOpening c name ++ (ph1 ++ post)) := by
  rw [cellOpening_append, cellOpening_append]
  unfold impl.readPrimaryKeyColumn
  simp only [readTag_cons, Res.bind_ok, ne_eq, not_true_eq_false, if_false,
    readName_bytes c 0 name _ hname]
  rw [readPrimaryKeyValue_placeholder c _ _ ph ph1 post h h1]

theorem readAttr_placeholder (c : Consts) (chk : Nat)
    (name ph ph1 post : List Byte) (hname : name.length < 2 ^ 32)
    (h : ph.length = 4) (h1 : ph1.length = 4) :
    impl.readAttr c {} chk (cellOpening c name ++ (ph ++ post))
      = impl.readAttr c {} chk (cellOpening c name ++ (ph1 ++ post)) := by
  rw [cellOpening_append, cellOpening_append]
  unfold impl.readAttr
  simp only [readTag_cons, Res.bind_ok, ne_eq, not_true_eq_false, if_false,
    readName_bytes c 0 name _ hname]
  rw [readAttrValue_placeholder c _ _ ph ph1 post h h1]

theorem peek_cellOpening (c : Consts) (name rest : List Byte) :
    impl.peekAndCheckTag c.kTag_Cell (cellOpening c name ++ rest) = some true := by
  rw [cellOpening_append]
  simp

theorem readRowKeyLoop_placeholder (c : Consts) (fuel : Nat) (out : List PrimaryKeyColumn)
    (chk : Nat) (name ph ph1 post : List Byte) (hname : name.length < 2 ^ 32)
    (h : ph.length = 4) (h1 : ph1.length = 4) :
    impl.readRowKeyLoop c fuel out chk (cellOpening c name ++ (ph ++ post))
      = impl.readRowKeyLoop c fuel out chk (cellOpening c name ++ (ph1 ++ post)) := by
  cases fuel with
  | zero => rfl
  | succ fuel =>
    simp only [impl.readRowKeyLoop, peek_cellOpening,
      readPrimaryKeyColumn_placeholder c chk name ph ph1 post hname h h1]

theorem readAttrsLoop_placeholder (c : Consts) (fuel : Nat) (out : List Attribute)
    (chk : Nat) (name ph ph1 post : List Byte) (hname : name.length < 2 ^ 32)
    (h : ph.length = 4) (h1 : ph1.length = 4) :
    impl.readAttrsLoop c fuel out chk (cellOpening c name ++ (ph ++ post))
      = impl.readAttrsLoop c fuel out chk (cellOpening c name ++ (ph1 ++ post)) := by
  cases fuel with
  | zero => rfl
  | succ fuel =>
    simp only [impl.readAttrsLoop, peek_cellOpening,
      readAttr_placeholder c chk name ph ph1 post hname h h1]

/-- The loop of `readRowKey` over whole cells with correct checksums, followed
by anything: the cells are read and the loop goes on with the rest. -/
theorem readRowKeyLoop_cells (c : Consts) (hc : c.WF) (xs : List WireCell)
    (fuel : Nat) (out : List PrimaryKeyColumn) (chk : Nat) (rest : List Byte)
    (hxs : ∀ x ∈ xs, x.KeyWF) (hok : ∀ x ∈ xs, x.checksum.val = x.crc c) :
    impl.readRowKeyLoop c (fuel + xs.length) out chk
        ((xs.map (WireCell.bytes c)).flatten ++ rest)
      = impl.readRowKeyLoop c fuel (out ++ xs.map WireCell.column)
          (crc8Bytes chk (xs.map (·.checksum))) rest := by
  induction xs generalizing out chk with
  | nil => simp
  | cons x xs ih =>
    have hx := hxs x (List.mem_cons_self _ _)
    have hxok := hok x (List.mem_cons_self _ _)
    simp only [List.length_cons, ← Nat.add_assoc, List.map_cons, List.flatten_cons,
      List.append_assoc, impl.readRowKeyLoop, peekAndCheckTag_cell,
      readPrimaryKeyColumn_bytes c hc _ x _ hx, if_pos hxok, Res.bind_ok, Nat.add_eq]
    rw [ih _ _ (fun y hy => hxs y (List.mem_cons_of_mem _ hy))
      (fun y hy => hok y (List.mem_cons_of_mem _ hy))]
    simp [hxok]

theorem readAttrsLoop_cells (c : Consts) (hc : c.WF) (xs : List WireCell)
    (fuel : Nat) (out : List Attribute) (chk : Nat) (rest : List Byte)
    (hxs : ∀ x ∈ xs, x.WF) (hok : ∀ x ∈ xs, x.checksum.val = x.crc c) :
    impl.readAttrsLoop c (fuel + xs.length) out chk
        ((xs.map (WireCell.bytes c)).flatten ++ rest)
      = impl.readAttrsLoop c fuel (out ++ xs.map WireCell.attribute)
          (crc8Bytes chk (xs.map (·.checksum))) rest := by
  induction xs generalizing out chk with
  | nil => simp
  | cons x xs ih =>
    have hx := hxs x (List.mem_cons_self _ _)
    have hxok := hok x (List.mem_cons_self _ _)
    simp only [List.length_cons, ← Nat.add_assoc, List.map_cons, List.flatten_cons,
      List.append_assoc, impl.readAttrsLoop, peekAndCheckTag_cell,
      readAttr_bytes c hc _ x _ hx, if_pos hxok, Res.bind_ok, Nat.add_eq]
    rw [ih _ _ (fun y hy => hxs y (List.mem_cons_of_mem _ hy))
      (fun y hy => hok y (List.mem_cons_of_mem _ hy))]
    simp [hxok]

theorem exists_bad_of_not_all {xs : List WireCell} {c : Consts}
    (h : ¬ ∀ x ∈ xs, x.checksum.val = x.crc c) : ∃ x ∈ xs, x.checksum.val ≠ x.crc c := by
  by_contra hcon
  apply h
  intro x hx
  by_contra hne
  exact hcon ⟨x, hx, hne⟩

theorem outcome_ISSUE {α : Type} (line : Nat) (b b1 : List Byte) :
    (ISSUE line b : Res α).outcome = (ISSUE line b1 : Res α).outcome := rfl

theorem readRowKey_placeholder (c : Consts) (hc : c.WF) (out : List PrimaryKeyColumn)
    (chk : Nat) (key : List WireCell) (name ph ph1 post : List Byte)
    (hkey : ∀ x ∈ key, x.KeyWF) (hname : name.length < 2 ^ 32)
    (h : ph.length = 4) (h1 : ph1.length = 4) :
    (∃ line b b1,
      impl.readRowKey c out chk (c.kTag_RowKey :: ((key.map (WireCell.bytes c)).flatten
        ++ (cellOpening c name ++ (ph ++ post)))) = ISSUE line b
      ∧ impl.readRowKey c out chk (c.kTag_RowKey :: ((key.map (WireCell.bytes c)).flatten
        ++ (cellOpening c name ++ (ph1 ++ post)))) = ISSUE line b1)
    ∨ impl.readRowKey c out chk (c.kTag_RowKey :: ((key.map (WireCell.bytes c)).flatten
        ++ (cellOpening c name ++ (ph ++ post))))
      = impl.readRowKey c out chk (c.kTag_RowKey :: ((key.map (WireCell.bytes c)).flatten
        ++ (cellOpening c name ++ (ph1 ++ post)))) := by
  by_cases hok : ∀ x ∈ key, x.checksum.val = x.crc c
  · right
    unfold impl.readRowKey
    simp only [readTag_cons, Res.bind_ok, ne_eq, not_true_eq_false, if_false]
    have hl := cells_length_le c key
    have hlen : ∀ q : List Byte, q.length = 4 →
        ((key.map (WireCell.bytes c)).flatten ++ (cellOpening c name ++ (q ++ post))).length + 1
          = (((key.map (WireCell.bytes c)).flatten).length - key.length
              + (cellOpening c name).length + 4 + post.length + 1) + key.length := by
      intro q hq
      simp only [List.length_append, hq]
      omega
    rw [hlen ph h, hlen ph1 h1, readRowKeyLoop_cells c hc key _ _ _ _ hkey hok,
      readRowKeyLoop_cells c hc key _ _ _ _ hkey hok,
      readRowKeyLoop_placeholder c _ _ _ name ph ph1 post hname h h1]
  · left
    obtain ⟨b, hb⟩ := readRowKey_bad c hc out chk key (cellOpening c name ++ (ph ++ post)) hkey
      (exists_bad_of_not_all hok)
    obtain ⟨b1, hb1⟩ := readRowKey_bad c hc out chk key (cellOpening c name ++ (ph1 ++ post))
      hkey (exists_bad_of_not_all hok)
    exact ⟨255, b, b1, hb, hb1⟩

theorem readAttrs_placeholder (c : Consts) (hc : c.WF) (out : List Attribute)
    (chk : Nat) (a : List WireCell) (name ph ph1 post : List Byte)
    (ha : ∀ x ∈ a, x.WF) (hname : name.length < 2 ^ 32)
    (h : ph.length = 4) (h1 : ph1.length = 4) :
    (∃ line b b1,
      impl.readAttrs c out chk (c.kTag_RowData :: ((a.map (WireCell.bytes c)).flatten
        ++ (cellOpening c name ++ (ph ++ post)))) = ISSUE line b
      ∧ impl.readAttrs c out chk (c.kTag_RowData :: ((a.map (WireCell.bytes c)).flatten
        ++ (cellOpening c name ++ (ph1 ++ post)))) = ISSUE line b1)
    ∨ impl.readAttrs c out chk (c.kTag_RowData :: ((a.map (WireCell.bytes c)).flatten
        ++ (cellOpening c name ++ (ph ++ post))))
      = impl.readAttrs c out chk (c.kTag_RowData :: ((a.map (WireCell.bytes c)).flatten
        ++ (cellOpening c name ++ (ph1 ++ post)))) := by
  by_cases hok : ∀ x ∈ a, x.checksum.val = x.crc c
  · right
    unfold impl.readAttrs
    simp only [readTag_cons, Res.bind_ok, ne_eq, not_true_eq_false, if_false]
    have hl := cells_length_le c a
    have hlen : ∀ q : List Byte, q.length = 4 →
        ((a.map (WireCell.bytes c)).flatten ++ (cellOpening c name ++ (q ++ post))).length + 1
          = (((a.map (WireCell.bytes c)).flatten).length - a.length
              + (cellOpening c name).length + 4 + post.length + 1) + a.length := by
      intro q hq
      simp only [List.length_append, hq]
      omega
    rw [hlen ph h, hlen ph1 h1, readAttrsLoop_cells c hc a _ _ _ _ ha hok,
      readAttrsLoop_cells c hc a _ _ _ _ ha hok,
      readAttrsLoop_placeholder c _ _ _ name ph ph1 post hname h h1]
  · left
    obtain ⟨b, hb⟩ := readAttrs_bad c hc out chk a (cellOpening c name ++ (ph ++ post)) ha
      (exists_bad_of_not_all hok)
    obtain ⟨b1, hb1⟩ := readAttrs_bad c hc out chk a (cellOpening c name ++ (ph1 ++ post))
      ha (exists_bad_of_not_all hok)
    exact ⟨394, b, b1, hb, hb1⟩

theorem Agree_refl {α : Type} (r : Res α) : r.Agree r := Or.inl rfl

theorem Agree_of_eq {α : Type} {r r1 : Res α} (h : r = r1) : r.Agree r1 := Or.inl h

theorem Agree_of_ISSUE {α : Type} {r r1 : Res α}
    (h : (∃ line b b1, r = ISSUE line b ∧ r1 = ISSUE line b1) ∨ r = r1) : r.Agree r1 := by
  rcases h with ⟨line, b, b1, hr, hr1⟩ | h
  · exact Or.inr ⟨_, b, b1, hr, hr1⟩
  · exact Or.inl h

theorem Agree_bind {α β : Type} {r r1 : Res α} (k : α → List Byte → Res β)
    (h : r.Agree r1) : (r.bind k).Agree (r1.bind k) := by
  rcases h with h | ⟨e, b, b1, hr, hr1⟩
  · rw [h]
    exact Agree_refl _
  · rw [hr, hr1]
    exact Or.inr ⟨e, b, b1, rfl, rfl⟩

theorem Agree_outcome {α : Type} {r r1 : Res α} (h : r.Agree r1) : r.outcome = r1.outcome := by
  rcases h with h | ⟨e, b, b1, hr, hr1⟩
  · rw [h]
  · rw [hr, hr1]
    rfl

theorem impl_readRow_placeholder (c : Consts) (hc : c.WF) (out : Row)
    (key : List WireCell) (data : Option (List WireCell)) (name ph ph1 post : List Byte)
    (hkey : ∀ x ∈ key, x.KeyWF) (hdata : ∀ x ∈ data.getD [], x.WF)
    (hname : name.length < 2 ^ 32) (h : ph.length = 4) (h1 : ph1.length = 4) :
    (impl.readRow c out (c.kTag_RowKey :: ((key.map (WireCell.bytes c)).flatten
        ++ (dataSection c data ++ (cellOpening c name ++ (ph ++ post)))))).Agree
      (impl.readRow c out (c.kTag_RowKey :: ((key.map (WireCell.bytes c)).flatten
        ++ (dataSection c data ++ (cellOpening c name ++ (ph1 ++ post)))))) := by
  unfold impl.readRow
  cases data with
  | none =>
    simp only [dataSection, List.nil_append]
    exact Agree_bind _ (Agree_of_ISSUE
      (readRowKey_placeholder c hc out.mPkey 0 key name ph ph1 post hkey hname h h1))
  | some a =>
    simp only [Option.getD_some] at hdata
    simp only [dataSection, List.cons_append]
    by_cases hok : ∀ x ∈ key, x.checksum.val = x.crc c
    · have hp : ∀ rest : List Byte,
          impl.peekAndCheckTag c.kTag_Cell (c.kTag_RowData :: rest) = some false := by
        intro rest
        simp [hc.cell_ne_rowData]
      simp only [readRowKey_bytes c hc _ _ key _ hkey hok (hp _), Res.bind_ok,
        peekAndCheckTag_cons, decide_True, if_true]
      exact Agree_bind _ (Agree_of_ISSUE
        (readAttrs_placeholder c hc out.mAttrs _ a name ph ph1 post hdata hname h h1))
    · obtain ⟨b, hb⟩ := readRowKey_bad c hc out.mPkey 0 key
        (c.kTag_RowData :: ((a.map (WireCell.bytes c)).flatten
          ++ (cellOpening c name ++ (ph ++ post)))) hkey (exists_bad_of_not_all hok)
      obtain ⟨b1, hb1⟩ := readRowKey_bad c hc out.mPkey 0 key
        (c.kTag_RowData :: ((a.map (WireCell.bytes c)).flatten
          ++ (cellOpening c name ++ (ph1 ++ post)))) hkey (exists_bad_of_not_all hok)
      rw [hb, hb1]
      exact Or.inr ⟨_, b, b1, rfl, rfl⟩

/-- One placeholder changed: the public `readRow` has the same outcome. -/
theorem readRow_placeholderStep (c : Consts) (hc : c.WF) (out : Row) (p q : List Byte)
    (h : PlaceholderStep c p q) : (readRow c out p).outcome = (readRow c out q).outcome := by
  obtain ⟨pre, ph, ph1, post, ⟨key, data, name, hkey, hdata, hname, hpre⟩, h4, h41, hp, hq⟩ := h
  subst hp hq hpre
  apply Agree_outcome
  unfold readRow
  simp only [List.append_assoc, List.cons_append, readHeader_bytes c hc, Res.bind_ok]
  exact Agree_bind _
    (impl_readRow_placeholder c hc out key data name ph ph1 post hkey hdata hname h4 h41)

/-- Any number of placeholders changed: the public `readRow` has the same
outcome. -/
theorem readRow_placeholderVariant (c : Consts) (hc : c.WF) (out : Row) (p q : List Byte)
    (h : PlaceholderVariant c p q) : (readRow c out p).outcome = (readRow c out q).outcome := by
  induction h with
  | refl => rfl
  | tail _ hstep ih => rw [ih, readRow_placeholderStep c hc out _ _ hstep]

/-! ### CRC-8 tells single-byte changes apart -/

theorem kTable_nodup : kTable.Nodup := by
  set_option maxRecDepth 1000000 in
  decide

theorem kTable_length : kTable.length = 256 := by
  set_option maxRecDepth 100000 in
  decide

theorem kTable_inj (i j : Nat) (hi : i < 256) (hj : j < 256)
    (h : kTable.getD i 0 = kTable.getD j 0) : i = j := by
  have hi1 : i < kTable.length := by rw [kTable_length]; exact hi
  have hj1 : j < kTable.length := by rw [kTable_length]; exact hj
  rw [List.getD_eq_getElem _ _ hi1, List.getD_eq_getElem _ _ hj1] at h
  exact (List.Nodup.getElem_inj_iff kTable_nodup).mp h

theorem crc8_inj_input (s : Nat) (hs : s < 256) (x y : Byte)
    (h : crc8 s x.val = crc8 s y.val) : x = y := by
  unfold crc8 at h
  have h1 : s ^^^ x.val < 256 := Nat.xor_lt_two_pow (n := 8) hs x.isLt
  have h2 : s ^^^ y.val < 256 := Nat.xor_lt_two_pow (n := 8) hs y.isLt
  have h3 := kTable_inj _ _ h1 h2 h
  exact Fin.ext (Nat.xor_right_inj.mp h3)

theorem crc8_inj_state (s s1 : Nat) (hs : s < 256) (hs1 : s1 < 256) (x : Byte)
    (h : crc8 s x.val = crc8 s1 x.val) : s = s1 := by
  unfold crc8 at h
  have h1 : s ^^^ x.val < 256 := Nat.xor_lt_two_pow (n := 8) hs x.isLt
  have h2 : s1 ^^^ x.val < 256 := Nat.xor_lt_two_pow (n := 8) hs1 x.isLt
  have h3 := kTable_inj _ _ h1 h2 h
  exact Nat.xor_left_inj.mp h3

theorem crc8Bytes_ne_state (s s1 : Nat) (hs : s < 256) (hs1 : s1 < 256) (l : List Byte)
    (h : s ≠ s1) : crc8Bytes s l ≠ crc8Bytes s1 l := by
  induction l generalizing s s1 with
  | nil => simpa using h
  | cons x xs ih =>
    rw [crc8Bytes_cons, crc8Bytes_cons]
    apply ih _ _ (crc8_lt _ _) (crc8_lt _ _)
    intro he
    exact h (crc8_inj_state s s1 hs hs1 x he)

/-- One byte changed: the CRC-8 of the byte string changes. -/
theorem crc8Bytes_flip (s : Nat) (hs : s < 256) (pre post : List Byte) (x y : Byte)
    (h : y ≠ x) : crc8Bytes s (pre ++ y :: post) ≠ crc8Bytes s (pre ++ x :: post) := by
  rw [crc8Bytes_append, crc8Bytes_append, crc8Bytes_cons, crc8Bytes_cons]
  apply crc8Bytes_ne_state _ _ (crc8_lt _ _) (crc8_lt _ _)
  intro he
  exact h (crc8_inj_input _ (crc8Bytes_lt s pre hs) y x he)

/-! ### One byte changed in a concatenation -/

theorem Flip_decomp {bs bs1 : List Byte} {ks : List ByteKind} (h : Flip bs ks bs1) :
    ∃ pre x post y, bs = pre ++ x :: post ∧ bs1 = pre ++ y :: post ∧ y ≠ x := by
  obtain ⟨pre, x, post, y, k, h1, _, _, h4, h5⟩ := h
  exact ⟨pre, x, post, y, h1, h5, h4⟩

theorem Flip_unchecked {bs bs1 : List Byte} {ks : List ByteKind}
    (hks : ∀ k ∈ ks, ¬ k.Checked) : ¬ Flip bs ks bs1 := by
  rintro ⟨pre, x, post, y, k, _, h2, h3, _, _⟩
  exact hks k (List.getElem?_mem h2) h3

theorem Flip_append {b1 b2 bs1 : List Byte} {k1 k2 : List ByteKind}
    (hlen : b1.length = k1.length) (h : Flip (b1 ++ b2) (k1 ++ k2) bs1) :
    (∃ c1, Flip b1 k1 c1 ∧ bs1 = c1 ++ b2) ∨ (∃ c2, Flip b2 k2 c2 ∧ bs1 = b1 ++ c2) := by
  obtain ⟨pre, x, post, y, k, hbs, hk, hck, hy, hbs1⟩ := h
  rcases List.append_eq_append_iff.mp hbs with ⟨a, hpre, hb2⟩ | ⟨a, hb1, hpost⟩
  · right
    refine ⟨a ++ y :: post, ⟨a, x, post, y, k, hb2, ?_, hck, hy, rfl⟩, ?_⟩
    · rw [hpre, List.length_append, hlen] at hk
      rwa [List.getElem?_append_right (by omega), Nat.add_sub_cancel_left] at hk
    · rw [hbs1, hpre, List.append_assoc]
  · cases a with
    | nil =>
      right
      simp only [List.append_nil, List.nil_append] at hb1 hpost
      refine ⟨y :: post, ⟨[], x, post, y, k, by rw [← hpost]; rfl, ?_, hck, hy, rfl⟩, ?_⟩
      · rw [← hb1, hlen] at hk
        rwa [List.getElem?_append_right (by omega), Nat.sub_self] at hk
      · rw [hbs1, hb1]
    | cons z a =>
      left
      simp only [List.cons_append, List.cons.injEq] at hpost
      obtain ⟨hz, hpost⟩ := hpost
      subst hz
      refine ⟨pre ++ y :: a, ⟨pre, x, a, y, k, hb1, ?_, hck, hy, rfl⟩, ?_⟩
      · have hlt : pre.length < k1.length := by
          rw [← hlen, hb1, List.length_append, List.length_cons]
          omega
        rwa [List.getElem?_append_left hlt] at hk
      · rw [hbs1, hpost, List.append_assoc, List.cons_append]

theorem Flip_cons_unchecked {x : Byte} {k : ByteKind} {bs bs1 : List Byte}
    {ks : List ByteKind} (hk : ¬ k.Checked) (h : Flip (x :: bs) (k :: ks) bs1) :
    ∃ c, Flip bs ks c ∧ bs1 = x :: c := by
  have h1 : Flip ([x] ++ bs) ([k] ++ ks) bs1 := h
  rcases Flip_append rfl h1 with ⟨c1, hc1, _⟩ | ⟨c2, hc2, hbs1⟩
  · exact absurd hc1 (Flip_unchecked (by simpa using hk))
  · exact ⟨c2, hc2, hbs1⟩

theorem Flip_append_unchecked {b1 b2 bs1 : List Byte} {k1 k2 : List ByteKind}
    (hlen : b1.length = k1.length) (hk1 : ∀ k ∈ k1, ¬ k.Checked)
    (h : Flip (b1 ++ b2) (k1 ++ k2) bs1) :
    ∃ c, Flip b2 k2 c ∧ bs1 = b1 ++ c := by
  rcases Flip_append hlen h with ⟨c1, hc1, _⟩ | ⟨c2, hc2, hbs1⟩
  · exact absurd hc1 (Flip_unchecked hk1)
  · exact ⟨c2, hc2, hbs1⟩

theorem Flip_of_set {bs : List Byte} {ks : List ByteKind} {i : Nat} {y : Byte} {k : ByteKind}
    (hi : i < bs.length) (hy : y ≠ bs[i]) (hk : ks[i]? = some k) (hck : k.Checked) :
    Flip bs ks (bs.set i y) := by
  refine ⟨bs.take i, bs[i], bs.drop (i + 1), y, k, ?_, ?_, hck, hy, ?_⟩
  · rw [← List.drop_eq_getElem_cons hi, List.take_append_drop]
  · rw [List.length_take, Nat.min_eq_left (Nat.le_of_lt hi)]
    exact hk
  · rw [List.set_eq_take_append_cons_drop, if_pos hi]

theorem Flip_length {bs bs1 : List Byte} {ks : List ByteKind} (h : Flip bs ks bs1) :
    bs1.length = bs.length := by
  obtain ⟨pre, x, post, y, h1, h2, _⟩ := Flip_decomp h
  rw [h1, h2]
  simp

theorem Flip_ne {bs bs1 : List Byte} {ks : List ByteKind} (h : Flip bs ks bs1) : bs1 ≠ bs := by
  obtain ⟨pre, x, post, y, h1, h2, h3⟩ := Flip_decomp h
  rw [h1, h2]
  intro he
  have := List.append_cancel_left he
  simp only [List.cons.injEq] at this
  exact h3 this.1

/-! ### One checked byte changed inside a cell -/

theorem crc8Bytes_flip_mid (s : Nat) (hs : s < 256) (A B pre post : List Byte) (a y : Byte)
    (h : y ≠ a) :
    crc8Bytes s (A ++ ((pre ++ y :: post) ++ B)) ≠ crc8Bytes s (A ++ ((pre ++ a :: post) ++ B)) := by
  have e : ∀ z : Byte, A ++ ((pre ++ z :: post) ++ B) = (A ++ pre) ++ z :: (post ++ B) := by
    intro z
    simp [List.append_assoc]
  rw [e y, e a]
  exact crc8Bytes_flip s hs _ _ _ _ h

theorem leBytes8_flip (v : Nat) (k : ByteKind) (l1 : List Byte)
    (h : Flip (leBytes 8 v) (List.replicate 8 k) l1) :
    ∃ v1, v1 < 2 ^ 64 ∧ l1 = leBytes 8 v1
      ∧ ∃ pre a post y, leBytes 8 v = pre ++ a :: post ∧ leBytes 8 v1 = pre ++ y :: post
        ∧ y ≠ a := by
  have hlen : l1.length = 8 := by rw [Flip_length h, leBytes_length]
  obtain ⟨pre, a, post, y, h1, h2, h3⟩ := Flip_decomp h
  have hle : leBytes 8 (leValue l1) = l1 := by
    have := leBytes_leValue l1
    rwa [hlen] at this
  refine ⟨leValue l1, ?_, hle.symm, pre, a, post, y, h1, by rw [hle, h2], h3⟩
  have := leValue_lt l1
  rw [hlen] at this
  calc leValue l1 < 256 ^ 8 := this
    _ = 2 ^ 64 := by norm_num

theorem wireValue_kinds_length (v : WireValue) : v.kinds.length = v.body.length := by
  cases v <;> simp [WireValue.kinds, WireValue.body] <;> omega

theorem timestampKinds_length (c : Consts) (ts : Option Nat) :
    (timestampKinds ts).length = (timestampSection c ts).length := by
  cases ts <;> simp [timestampKinds, timestampSection]

theorem wireCell_kinds_length (c : Consts) (x : WireCell) :
    x.kinds.length = (x.bytes c).length := by
  simp [WireCell.kinds, WireCell.bytes, wireValue_kinds_length, timestampKinds_length c]
  omega

theorem replicate_unchecked (n : Nat) (k : ByteKind) (hk : ¬ k.Checked) :
    ∀ j ∈ List.replicate n k, ¬ j.Checked := by
  intro j hj
  rw [List.eq_of_mem_replicate hj]
  exact hk

theorem wireValue_flip (v : WireValue) (l1 : List Byte) (hv : v.WF)
    (h : Flip v.body v.kinds l1) :
    ∃ w : WireValue, w.WF ∧ w.isKey = v.isKey ∧ w.vt = v.vt ∧ l1 = w.body
      ∧ ∃ pre a post y, v.crcBody = pre ++ a :: post ∧ w.crcBody = pre ++ y :: post
        ∧ y ≠ a := by
  cases v with
  | integer x =>
    obtain ⟨v1, hv1, hl1, hd⟩ := leBytes8_flip x _ l1 h
    exact ⟨.integer v1, hv1, rfl, rfl, hl1, hd⟩
  | double x =>
    obtain ⟨v1, hv1, hl1, hd⟩ := leBytes8_flip x _ l1 h
    exact ⟨.double v1, hv1, rfl, rfl, hl1, hd⟩
  | boolean x =>
    exact absurd h (Flip_unchecked (by simp [WireValue.kinds, ByteKind.Checked]))
  | string s =>
    simp only [WireValue.body, WireValue.kinds] at h
    obtain ⟨s1, hs1, rfl⟩ := Flip_append_unchecked (by simp)
      (replicate_unchecked _ _ (by simp [ByteKind.Checked])) h
    have hlen := Flip_length hs1
    obtain ⟨pre, a, post, y, h1, h2, h3⟩ := Flip_decomp hs1
    refine ⟨.string s1, by simpa [WireValue.WF, hlen] using hv, rfl, rfl, ?_, ?_⟩
    · simp [WireValue.body, hlen]
    · refine ⟨leBytes 4 s.length ++ pre, a, post, y, ?_, ?_, h3⟩
      · show leBytes 4 s.length ++ s = _
        rw [List.append_assoc, ← h1]
      · show leBytes 4 s1.length ++ s1 = _
        rw [hlen, List.append_assoc, ← h2]
  | blob s =>
    simp only [WireValue.body, WireValue.kinds] at h
    obtain ⟨s1, hs1, rfl⟩ := Flip_append_unchecked (by simp)
      (replicate_unchecked _ _ (by simp [ByteKind.Checked])) h
    have hlen := Flip_length hs1
    obtain ⟨pre, a, post, y, h1, h2, h3⟩ := Flip_decomp hs1
    refine ⟨.blob s1, by simpa [WireValue.WF, hlen] using hv, rfl, rfl, ?_, ?_⟩
    · simp [WireValue.body, hlen]
    · refine ⟨leBytes 4 s.length ++ pre, a, post, y, ?_, ?_, h3⟩
      · show leBytes 4 s.length ++ s = _
        rw [List.append_assoc, ← h1]
      · show leBytes 4 s1.length ++ s1 = _
        rw [hlen, List.append_assoc, ← h2]

theorem timestamp_flip (c : Consts) (ts : Option Nat) (l1 : List Byte)
    (h : Flip (timestampSection c ts) (timestampKinds ts) l1) :
    ∃ ts1 : Option Nat, (∀ t ∈ ts1, t < 2 ^ 64) ∧ (ts = none → ts1 = none)
      ∧ l1 = timestampSection c ts1
      ∧ ∃ pre a post y, timestampBytes ts = pre ++ a :: post
        ∧ timestampBytes ts1 = pre ++ y :: post ∧ y ≠ a := by
  cases ts with
  | none => exact absurd h (Flip_unchecked (by simp [timestampKinds]))
  | some t =>
    simp only [timestampSection, timestampKinds] at h
    obtain ⟨l2, h2, rfl⟩ := Flip_cons_unchecked (by simp [ByteKind.Checked]) h
    obtain ⟨v1, hv1, hl1, hd⟩ := leBytes8_flip t _ l2 h2
    refine ⟨some v1, ?_, by simp, by simp [timestampSection, hl1], ?_⟩
    · intro u hu
      simp only [Option.mem_def, Option.some.injEq] at hu
      omega
    · simpa [timestampBytes] using hd

theorem wireCell_bytes_nested (c : Consts) (x : WireCell) :
    x.bytes c = [c.kTag_Cell, c.kTag_CellName] ++ (leBytes 4 x.name.length ++ (x.name
      ++ ([c.kTag_CellValue] ++ (x.placeholder ++ ([c.vt x.value.vt] ++ (x.value.body
      ++ (timestampSection c x.timestamp ++ [c.kTag_CellChecksum, x.checksum]))))))) := by
  simp [WireCell.bytes]

theorem wireCell_kinds_nested (x : WireCell) :
    x.kinds = [ByteKind.tag, ByteKind.tag] ++ (List.replicate 4 ByteKind.nameLength
      ++ (List.replicate x.name.length ByteKind.name
      ++ ([ByteKind.tag] ++ (List.replicate x.placeholder.length ByteKind.placeholder
      ++ ([ByteKind.variantType] ++ (x.value.kinds
      ++ (timestampKinds x.timestamp ++ [ByteKind.tag, ByteKind.cellChecksum]))))))) := by
  simp [WireCell.kinds]

theorem WireCell.crc_nested (c : Consts) (x : WireCell) :
    x.crc c = crc8Bytes 0 (x.name ++ ([c.vt x.value.vt] ++ (x.value.crcBody
      ++ timestampBytes x.timestamp))) := by
  simp [WireCell.crc]

/-- One checked byte of a cell changed: the bytes are those of a cell of the
same shape whose stored checksum is not the computed one. -/
theorem wireCell_flip (c : Consts) (x : WireCell) (l1 : List Byte) (hx : x.WF)
    (hok : x.checksum.val = x.crc c) (h : Flip (x.bytes c) x.kinds l1) :
    ∃ x1 : WireCell, x1.WF ∧ x1.value.isKey = x.value.isKey
      ∧ (x.timestamp = none → x1.timestamp = none)
      ∧ l1 = x1.bytes c ∧ x1.checksum.val ≠ x1.crc c := by
  obtain ⟨hname, hph, hv, hts⟩ := hx
  rw [wireCell_bytes_nested, wireCell_kinds_nested] at h
  obtain ⟨l2, h2, rfl⟩ := Flip_append_unchecked (by simp) (by simp [ByteKind.Checked]) h
  obtain ⟨l3, h3, rfl⟩ := Flip_append_unchecked (by simp)
    (replicate_unchecked _ _ (by simp [ByteKind.Checked])) h2
  rcases Flip_append (by simp) h3 with ⟨n1, hn1, rfl⟩ | ⟨l4, h4, rfl⟩
  · -- a name byte
    have hlen := Flip_length hn1
    obtain ⟨pre, a, post, y, e1, e2, e3⟩ := Flip_decomp hn1
    refine ⟨{ x with name := n1 }, ⟨by simpa [hlen] using hname, hph, hv, hts⟩, rfl,
      fun ht => ht, ?_, ?_⟩
    · rw [wireCell_bytes_nested]
      simp [hlen]
    · rw [WireCell.crc_nested]
      simp only
      rw [hok, WireCell.crc_nested, e1, e2]
      have := crc8Bytes_flip_mid 0 (by decide) [] ([c.vt x.value.vt] ++ (x.value.crcBody
        ++ timestampBytes x.timestamp)) pre post a y e3
      simpa [List.append_assoc] using this.symm
  · obtain ⟨l5, h5, rfl⟩ := Flip_append_unchecked (by simp) (by simp [ByteKind.Checked]) h4
    obtain ⟨l6, h6, rfl⟩ := Flip_append_unchecked (by simp)
      (replicate_unchecked _ _ (by simp [ByteKind.Checked])) h5
    obtain ⟨l7, h7, rfl⟩ := Flip_append_unchecked (by simp) (by simp [ByteKind.Checked]) h6
    rcases Flip_append (wireValue_kinds_length _).symm h7 with ⟨v1, hv1, rfl⟩ | ⟨l8, h8, rfl⟩
    · -- a value byte
      obtain ⟨w, hw, hkey, hvt, rfl, pre, a, post, y, e1, e2, e3⟩ :=
        wireValue_flip x.value v1 hv hv1
      refine ⟨{ x with value := w }, ⟨hname, hph, hw, hts⟩, hkey, fun ht => ht, ?_, ?_⟩
      · rw [wireCell_bytes_nested]
        simp [hvt]
      · rw [WireCell.crc_nested]
        simp only
        rw [hok, WireCell.crc_nested, e1, e2, hvt]
        have := crc8Bytes_flip_mid 0 (by decide) (x.name ++ [c.vt x.value.vt])
          (timestampBytes x.timestamp) pre post a y e3
        simpa [List.append_assoc] using this.symm
    · rcases Flip_append (timestampKinds_length c _).symm h8 with ⟨t1, ht1, rfl⟩ | ⟨l9, h9, rfl⟩
      · -- a timestamp byte
        obtain ⟨ts1, hts1, hnone, rfl, pre, a, post, y, e1, e2, e3⟩ :=
          timestamp_flip c x.timestamp t1 ht1
        refine ⟨{ x with timestamp := ts1 }, ⟨hname, hph, hv, hts1⟩, rfl, hnone, ?_, ?_⟩
        · rw [wireCell_bytes_nested]
        · rw [WireCell.crc_nested]
          simp only
          rw [hok, WireCell.crc_nested, e1, e2]
          have := crc8Bytes_flip_mid 0 (by decide)
            (x.name ++ ([c.vt x.value.vt] ++ x.value.crcBody)) [] pre post a y e3
          simpa [List.append_assoc] using this.symm
      · -- the cell checksum byte
        obtain ⟨l10, h10, rfl⟩ := Flip_cons_unchecked (by simp [ByteKind.Checked]) h9
        obtain ⟨pre, a, post, y, e1, e2, e3⟩ := Flip_decomp h10
        have hpre : pre = [] := by
          cases pre with
          | nil => rfl
          | cons z zs =>
            have := congrArg List.length e1
            simp at this
        subst hpre
        simp only [List.nil_append, List.cons.injEq] at e1
        obtain ⟨ha, hpost⟩ := e1
        subst ha hpost
        subst e2
        refine ⟨{ x with checksum := y }, ⟨hname, hph, hv, hts⟩, rfl, fun ht => ht, ?_, ?_⟩
        · rw [wireCell_bytes_nested]
          rfl
        · have hcrc : WireCell.crc c { x with checksum := y } = x.crc c := rfl
          rw [hcrc, ← hok]
          intro he
          exact e3 (Fin.ext he)

/-! ### One checked byte changed inside a frame -/

theorem cells_kinds_length (c : Consts) (xs : List WireCell) :
    ((xs.map (WireCell.bytes c)).flatten).length = ((xs.map WireCell.kinds).flatten).length := by
  induction xs with
  | nil => rfl
  | cons x xs ih => simp [ih, wireCell_kinds_length c]

theorem cells_flip (c : Consts) (xs : List WireCell) (l1 : List Byte)
    (hxs : ∀ x ∈ xs, x.WF) (hok : ∀ x ∈ xs, x.checksum.val = x.crc c)
    (h : Flip ((xs.map (WireCell.bytes c)).flatten) ((xs.map WireCell.kinds).flatten) l1) :
    ∃ xs1 : List WireCell, l1 = (xs1.map (WireCell.bytes c)).flatten ∧ (∀ x ∈ xs1, x.WF)
      ∧ ((∀ x ∈ xs, x.KeyWF) → ∀ x ∈ xs1, x.KeyWF)
      ∧ ∃ x ∈ xs1, x.checksum.val ≠ x.crc c := by
  induction xs generalizing l1 with
  | nil => exact absurd h (Flip_unchecked (by simp))
  | cons x xs ih =>
    simp only [List.map_cons, List.flatten_cons] at h
    have hx := hxs x (List.mem_cons_self _ _)
    have hxok := hok x (List.mem_cons_self _ _)
    have hxs1 : ∀ y ∈ xs, y.WF := fun y hy => hxs y (List.mem_cons_of_mem _ hy)
    rcases Flip_append (wireCell_kinds_length c x).symm h with ⟨c1, hc1, rfl⟩ | ⟨c2, hc2, rfl⟩
    · obtain ⟨x1, hx1, hkey, hts, rfl, hbad⟩ := wireCell_flip c x c1 hx hxok hc1
      refine ⟨x1 :: xs, by simp, ?_, ?_, x1, List.mem_cons_self _ _, hbad⟩
      · intro y hy
        rcases List.mem_cons.mp hy with rfl | hy
        · exact hx1
        · exact hxs1 y hy
      · intro hk y hy
        rcases List.mem_cons.mp hy with rfl | hy
        · have hxk := hk x (List.mem_cons_self _ _)
          exact ⟨hx1, by rw [hkey]; exact hxk.2.1, hts hxk.2.2⟩
        · exact hk y (List.mem_cons_of_mem _ hy)
    · obtain ⟨xs1, rfl, hwf, hkey, y, hy, hbad⟩ := ih c2 hxs1
        (fun y hy => hok y (List.mem_cons_of_mem _ hy)) hc2
      refine ⟨x :: xs1, by simp, ?_, ?_, y, List.mem_cons_of_mem _ hy, hbad⟩
      · intro z hz
        rcases List.mem_cons.mp hz with rfl | hz
        · exact hx
        · exact hwf z hz
      · intro hk z hz
        rcases List.mem_cons.mp hz with rfl | hz
        · exact hk z (List.mem_cons_self _ _)
        · exact hkey (fun u hu => hk u (List.mem_cons_of_mem _ hu)) z hz

theorem wireRow_bytes_nested (c : Consts) (r : WireRow) :
    r.bytes c = [c.kTag_RowKey] ++ ((r.key.map (WireCell.bytes c)).flatten
      ++ (dataSection c r.data ++ [c.kTag_RowChecksum, r.checksum])) := by
  simp [WireRow.bytes]

theorem wireRow_kinds_nested (r : WireRow) :
    r.kinds = [ByteKind.tag] ++ ((r.key.map WireCell.kinds).flatten
      ++ (dataKinds r.data ++ [ByteKind.tag, ByteKind.rowChecksum])) := by
  simp [WireRow.kinds]

theorem dataKinds_length (c : Consts) (data : Option (List WireCell)) :
    (dataSection c data).length = (dataKinds data).length := by
  cases data with
  | none => rfl
  | some a => simp [dataSection, dataKinds, cells_kinds_length c]

/-- One checked byte of a row changed: the bytes are those of a row in which a
stored cell checksum is not the computed one. -/
theorem wireRow_flip (c : Consts) (r : WireRow) (l1 : List Byte) (hr : r.WF)
    (hok : r.ChecksumsOk c) (h : Flip (r.bytes c) r.kinds l1) :
    ∃ r1 : WireRow, r1.WF ∧ ¬ r1.ChecksumsOk c ∧ l1 = r1.bytes c := by
  obtain ⟨hkey, hdata⟩ := hr
  obtain ⟨hcells, _⟩ := hok
  have hkok : ∀ x ∈ r.key, x.checksum.val = x.crc c := fun x hx =>
    hcells x (by simp [WireRow.cells, hx])
  have hdok : ∀ x ∈ r.data.getD [], x.checksum.val = x.crc c := fun x hx =>
    hcells x (by simp [WireRow.cells, hx])
  rw [wireRow_bytes_nested, wireRow_kinds_nested] at h
  obtain ⟨l2, h2, rfl⟩ := Flip_append_unchecked (by simp) (by simp [ByteKind.Checked]) h
  rcases Flip_append (cells_kinds_length c _) h2 with ⟨k1, hk1, rfl⟩ | ⟨l3, h3, rfl⟩
  · obtain ⟨xs1, rfl, hwf, hk, y, hy, hbad⟩ := cells_flip c r.key k1
      (fun x hx => (hkey x hx).1) hkok hk1
    refine ⟨{ r with key := xs1 }, ⟨hk hkey, hdata⟩, ?_, ?_⟩
    · intro hcon
      exact hbad (hcon.1 y (by simp [WireRow.cells, hy]))
    · rw [wireRow_bytes_nested]
  · rcases Flip_append (dataKinds_length c _) h3 with ⟨d1, hd1, rfl⟩ | ⟨l4, h4, rfl⟩
    · cases hd : r.data with
      | none =>
        rw [hd] at hd1
        exact absurd hd1 (Flip_unchecked (by simp [dataKinds]))
      | some a =>
        rw [hd] at hd1 hdata hdok
        simp only [dataSection, dataKinds, Option.getD_some] at hd1 hdata hdok
        obtain ⟨l5, h5, rfl⟩ := Flip_cons_unchecked (by simp [ByteKind.Checked]) hd1
        obtain ⟨xs1, rfl, hwf, _, y, hy, hbad⟩ := cells_flip c a l5 hdata hdok h5
        refine ⟨{ r with data := some xs1 }, ⟨hkey, by simpa using hwf⟩, ?_, ?_⟩
        · intro hcon
          exact hbad (hcon.1 y (by simp [WireRow.cells, hy]))
        · rw [wireRow_bytes_nested]
          simp [dataSection]
    · exact absurd h4 (Flip_unchecked (by simp [ByteKind.Checked]))

theorem readRow_bad_header (c : Consts) (out : Row) (hdr rest : List Byte)
    (hlen : hdr.length = 4) (hne : hdr ≠ leBytes 4 c.kHeader) :
    readRow c out (hdr ++ rest) = ISSUE 83 rest := by
  have hv : leValue hdr ≠ c.kHeader := by
    intro he
    apply hne
    have := leBytes_leValue hdr
    rw [hlen, he] at this
    exact this.symm
  have hh : impl.readHeader c (hdr ++ rest) = ISSUE 83 rest := by
    unfold impl.readHeader
    rw [show impl.readUint32 (hdr ++ rest) = .ok (leValue hdr) rest
      from readUint_append 4 hdr _ hlen]
    simp [hv]
  unfold readRow
  simp only [hh, Res.bind_ISSUE]

/-- One checked byte of a one-row frame with correct checksums changed: the
public `readRow` fails with `CorruptedResponse`. -/
theorem readRow_frame_flip (c : Consts) (hc : c.WF) (out : Row) (r : WireRow) (l1 : List Byte)
    (hr : r.WF) (hok : r.ChecksumsOk c) (h : Flip (frameBytes c [r]) (frameKinds [r]) l1) :
    (readRow c out l1).IsCorrupted := by
  have hb : frameBytes c [r] = leBytes 4 c.kHeader ++ r.bytes c := by simp [frameBytes]
  have hk : frameKinds [r] = List.replicate 4 ByteKind.header ++ r.kinds := by
    simp [frameKinds]
  rw [hb, hk] at h
  rcases Flip_append (by simp) h with ⟨h1, hh1, rfl⟩ | ⟨l2, h2, rfl⟩
  · rw [readRow_bad_header c out h1 _ (by rw [Flip_length hh1, leBytes_length]) (Flip_ne hh1)]
    exact IsCorrupted_ISSUE _ _
  · obtain ⟨r1, hr1, hbad, rfl⟩ := wireRow_flip c r l2 hr hok h2
    obtain ⟨line, b1, hres⟩ := readRow_frameBytes_bad c hc out r1 hr1 hbad
    rw [← hb] at *
    have hb1 : leBytes 4 c.kHeader ++ r1.bytes c = frameBytes c [r1] := by simp [frameBytes]
    rw [hb1, hres]
    exact IsCorrupted_ISSUE _ _

/-- The frame of a well-formed row with one checked byte replaced by another
value is rejected with `CorruptedResponse`. -/
theorem readRow_encodeFrame_flip_aux (c : Consts) (hc : c.WF) (ph : List Byte → Nat)
    (out X : Row) (hX : X.WellFormed) (frame : List Byte) (kinds : List ByteKind)
    (hframe : encodeFrame c ph X = some frame) (hkinds : encodeKinds c ph X = some kinds)
    (i : Nat) (hi : i < frame.length) (y : Byte) (hy : y ≠ frame[i]) (k : ByteKind)
    (hk : kinds[i]? = some k) (hck : k.Checked) :
    (readRow c out (frame.set i y)).IsCorrupted := by
  obtain ⟨r, hr, hwf, hok, _⟩ := layoutRow_spec c ph X hX
  simp only [encodeFrame, encodeKinds, hr, Option.map_some', Option.some.injEq] at hframe hkinds
  subst hframe hkinds
  exact readRow_frame_flip c hc out r _ hwf hok (Flip_of_set hi hy hk hck)

/-! ### The reader stays inside its input and its loops end -/

theorem NoAbort_ok {α : Type} (v : α) (b : List Byte) : (Res.ok v b).NoAbort := by
  intro a h
  simp at h

theorem NoAbort_ISSUE {α : Type} (line : Nat) (b : List Byte) :
    (ISSUE line b : Res α).NoAbort := by
  intro a h
  simp [ISSUE] at h

theorem NoAbort_bind {α β : Type} (r : Res α) (k : α → List Byte → Res β)
    (hr : r.NoAbort) (hk : ∀ v b, r = .ok v b → (k v b).NoAbort) : (r.bind k).NoAbort := by
  cases r with
  | ok v b => exact hk v b rfl
  | error e b =>
    intro a h
    simp at h
  | abort a => exact absurd rfl (hr a)

theorem NoAbort_ite {α : Type} (p : Prop) [Decidable p] (r1 r2 : Res α)
    (h1 : r1.NoAbort) (h2 : r2.NoAbort) : (if p then r1 else r2).NoAbort := by
  split
  · exact h1
  · exact h2

theorem readUint_NoAbort (n : Nat) (b : List Byte) : (impl.readUint n b).NoAbort :=
  fun a => readUint_not_abort n b a

theorem readUint8_NoAbort (b : List Byte) : (impl.readUint8 b).NoAbort := by
  cases b with
  | nil => rw [readUint8_nil]; exact NoAbort_ISSUE _ _
  | cons x xs => rw [readUint8_cons]; exact NoAbort_ok _ _

theorem readTag_NoAbort (b : List Byte) : (impl.readTag b).NoAbort := by
  cases b with
  | nil => rw [readTag_nil]; exact NoAbort_ISSUE _ _
  | cons x xs => rw [readTag_cons]; exact NoAbort_ok _ _

theorem readHeader_NoAbort (c : Consts) (b : List Byte) : (impl.readHeader c b).NoAbort := by
  unfold impl.readHeader
  refine NoAbort_bind _ _ (readUint_NoAbort _ _) fun v b1 _ => ?_
  exact NoAbort_ite _ _ _ (NoAbort_ISSUE _ _) (NoAbort_ok _ _)

theorem readBlob_NoAbort (chk : Nat) (b : List Byte) : (impl.readBlob chk b).NoAbort := by
  unfold impl.readBlob
  refine NoAbort_bind _ _ (readUint_NoAbort _ _) fun v b1 _ => ?_
  by_cases hlen : b1.length < v
  · rw [if_pos hlen]
    exact NoAbort_ISSUE _ _
  · rw [if_neg hlen]
    simp only [impl.memPiece, if_pos (Nat.le_of_not_lt hlen)]
    exact NoAbort_ok _ _

theorem readName_NoAbort (c : Consts) (chk : Nat) (b : List Byte) :
    (impl.readName c chk b).NoAbort := by
  unfold impl.readName
  refine NoAbort_bind _ _ (readTag_NoAbort _) fun t b1 _ => ?_
  refine NoAbort_ite _ _ _ (NoAbort_ISSUE _ _) ?_
  refine NoAbort_bind _ _ (readUint_NoAbort _ _) fun v b2 _ => ?_
  by_cases hlen : b2.length < v
  · rw [if_pos hlen]
    exact NoAbort_ISSUE _ _
  · rw [if_neg hlen]
    simp only [impl.memPiece, if_pos (Nat.le_of_not_lt hlen)]
    exact NoAbort_ok _ _

theorem readVariantType_NoAbort (c : Consts) (b : List Byte) :
    (impl.readVariantType c b).NoAbort := by
  unfold impl.readVariantType
  refine NoAbort_bind _ _ (readUint8_NoAbort _) fun v b1 _ => ?_
  split
  · exact NoAbort_ok _ _
  · exact NoAbort_ISSUE _ _

theorem readPrimaryKeyValue_NoAbort (c : Consts) (out : PrimaryKeyValue) (chk : Nat)
    (b : List Byte) : (impl.readPrimaryKeyValue c out chk b).NoAbort := by
  unfold impl.readPrimaryKeyValue
  refine NoAbort_bind _ _ (readTag_NoAbort _) fun t b1 _ => ?_
  refine NoAbort_ite _ _ _ (NoAbort_ISSUE _ _) ?_
  refine NoAbort_bind _ _ (readUint_NoAbort _ _) fun v b2 _ => ?_
  refine NoAbort_bind _ _ (readVariantType_NoAbort _ _) fun vt b3 _ => ?_
  cases vt
  · exact NoAbort_bind _ _ (readUint_NoAbort _ _) fun _ _ _ => NoAbort_ok _ _
  · exact NoAbort_ISSUE _ _
  · exact NoAbort_ISSUE _ _
  · exact NoAbort_bind _ _ (readBlob_NoAbort _ _) fun _ _ _ => NoAbort_ok _ _
  · exact NoAbort_ISSUE _ _
  · exact NoAbort_bind _ _ (readBlob_NoAbort _ _) fun _ _ _ => NoAbort_ok _ _
  · exact NoAbort_ISSUE _ _
  · exact NoAbort_ISSUE _ _
  · exact NoAbort_ISSUE _ _

theorem readAttrValue_NoAbort (c : Consts) (out : AttributeValue) (chk : Nat)
    (b : List Byte) : (impl.readAttrValue c out chk b).NoAbort := by
  unfold impl.readAttrValue
  refine NoAbort_bind _ _ (readTag_NoAbort _) fun t b1 _ => ?_
  refine NoAbort_ite _ _ _ (NoAbort_ISSUE _ _) ?_
  refine NoAbort_bind _ _ (readUint_NoAbort _ _) fun v b2 _ => ?_
  refine NoAbort_bind _ _ (readVariantType_NoAbort _ _) fun vt b3 _ => ?_
  cases vt
  · exact NoAbort_bind _ _ (readUint_NoAbort _ _) fun _ _ _ => NoAbort_ok _ _
  · exact NoAbort_bind _ _ (readUint_NoAbort _ _) fun _ _ _ => NoAbort_ok _ _
  · exact NoAbort_bind _ _ (readUint8_NoAbort _) fun _ _ _ => NoAbort_ok _ _
  · exact NoAbort_bind _ _ (readBlob_NoAbort _ _) fun _ _ _ => NoAbort_ok _ _
  · exact NoAbort_ISSUE _ _
  · exact NoAbort_bind _ _ (readBlob_NoAbort _ _) fun _ _ _ => NoAbort_ok _ _
  · exact NoAbort_ISSUE _ _
  · exact NoAbort_ISSUE _ _
  · exact NoAbort_ISSUE _ _

theorem readOptionalCellTimestamp_NoAbort (c : Consts) (out : Option UtcTime) (chk : Nat)
    (b : List Byte) : (impl.readOptionalCellTimestamp c out chk b).NoAbort := by
  unfold impl.readOptionalCellTimestamp
  cases hp : impl.peekAndCheckTag c.kTag_CellTimestamp b with
  | none => exact absurd hp (peekAndCheckTag_ne_none _ _)
  | some p =>
    cases p with
    | false => exact NoAbort_ok _ _
    | true =>
      refine NoAbort_bind _ _ (readTag_NoAbort _) fun t b1 _ => ?_
      exact NoAbort_bind _ _ (readUint_NoAbort _ _) fun _ _ _ => NoAbort_ok _ _

theorem cellTail_NoAbort {α : Type} (c : Consts) (l1 l2 : Nat) (col : Nat) (v : α)
    (b : List Byte) :
    ((impl.readTag b).bind fun tag b =>
      if tag ≠ c.kTag_CellChecksum then ISSUE l1 b
      else (impl.readUint8 b).bind fun oracle b =>
        if col ≠ oracle.val then ISSUE l2 b else Res.ok v b).NoAbort := by
  refine NoAbort_bind _ _ (readTag_NoAbort _) fun t b1 _ => ?_
  refine NoAbort_ite _ _ _ (NoAbort_ISSUE _ _) ?_
  refine NoAbort_bind _ _ (readUint8_NoAbort _) fun o b2 _ => ?_
  exact NoAbort_ite _ _ _ (NoAbort_ISSUE _ _) (NoAbort_ok _ _)

theorem readPrimaryKeyColumn_NoAbort (c : Consts) (out : PrimaryKeyColumn) (chk : Nat)
    (b : List Byte) : (impl.readPrimaryKeyColumn c out chk b).NoAbort := by
  unfold impl.readPrimaryKeyColumn
  refine NoAbort_bind _ _ (readTag_NoAbort _) fun t b1 _ => ?_
  refine NoAbort_ite _ _ _ (NoAbort_ISSUE _ _) ?_
  refine NoAbort_bind _ _ (readName_NoAbort _ _ _) fun r1 b2 _ => ?_
  refine NoAbort_bind _ _ (readPrimaryKeyValue_NoAbort _ _ _ _) fun r2 b3 _ => ?_
  exact cellTail_NoAbort c 250 255 _ _ _

theorem readAttr_NoAbort (c : Consts) (out : Attribute) (chk : Nat)
    (b : List Byte) : (impl.readAttr c out chk b).NoAbort := by
  unfold impl.readAttr
  refine NoAbort_bind _ _ (readTag_NoAbort _) fun t b1 _ => ?_
  refine NoAbort_ite _ _ _ (NoAbort_ISSUE _ _) ?_
  refine NoAbort_bind _ _ (readName_NoAbort _ _ _) fun r1 b2 _ => ?_
  refine NoAbort_bind _ _ (readAttrValue_NoAbort _ _ _ _) fun r2 b3 _ => ?_
  refine NoAbort_bind _ _ (readOptionalCellTimestamp_NoAbort _ _ _ _) fun r3 b4 _ => ?_
  exact cellTail_NoAbort c 389 394 _ _ _

theorem wireCell_bytes_length_pos (c : Consts) (x : WireCell) : 0 < (x.bytes c).length := by
  simp [WireCell.bytes]

theorem wireRow_bytes_length_pos (c : Consts) (r : WireRow) : 0 < (r.bytes c).length := by
  simp [WireRow.bytes]

theorem readRowKeyLoop_NoAbort (c : Consts) (fuel : Nat) (out : List PrimaryKeyColumn)
    (chk : Nat) (b : List Byte) (hfuel : b.length < fuel) :
    (impl.readRowKeyLoop c fuel out chk b).NoAbort := by
  induction fuel generalizing out chk b with
  | zero => exact absurd hfuel (Nat.not_lt_zero _)
  | succ fuel ih =>
    unfold impl.readRowKeyLoop
    cases hp : impl.peekAndCheckTag c.kTag_Cell b with
    | none => exact absurd hp (peekAndCheckTag_ne_none _ _)
    | some p =>
      cases p with
      | false => exact NoAbort_ok _ _
      | true =>
        refine NoAbort_bind _ _ (readPrimaryKeyColumn_NoAbort _ _ _ _) fun r b1 hr => ?_
        obtain ⟨x, _, _, hb, _, _⟩ := readPrimaryKeyColumn_ok hr
        apply ih
        have := wireCell_bytes_length_pos c x
        rw [hb, List.length_append] at hfuel
        omega

theorem readAttrsLoop_NoAbort (c : Consts) (fuel : Nat) (out : List Attribute)
    (chk : Nat) (b : List Byte) (hfuel : b.length < fuel) :
    (impl.readAttrsLoop c fuel out chk b).NoAbort := by
  induction fuel generalizing out chk b with
  | zero => exact absurd hfuel (Nat.not_lt_zero _)
  | succ fuel ih =>
    unfold impl.readAttrsLoop
    cases hp : impl.peekAndCheckTag c.kTag_Cell b with
    | none => exact absurd hp (peekAndCheckTag_ne_none _ _)
    | some p =>
      cases p with
      | false => exact NoAbort_ok _ _
      | true =>
        refine NoAbort_bind _ _ (readAttr_NoAbort _ _ _ _) fun r b1 hr => ?_
        obtain ⟨x, _, _, hb, _, _⟩ := readAttr_ok hr
        apply ih
        have := wireCell_bytes_length_pos c x
        rw [hb, List.length_append] at hfuel
        omega

theorem readRowKey_NoAbort (c : Consts) (out : List PrimaryKeyColumn) (chk : Nat)
    (b : List Byte) : (impl.readRowKey c out chk b).NoAbort := by
  unfold impl.readRowKey
  refine NoAbort_bind _ _ (readTag_NoAbort _) fun t b1 _ => ?_
  exact NoAbort_ite _ _ _ (NoAbort_ISSUE _ _)
    (readRowKeyLoop_NoAbort _ _ _ _ _ (Nat.lt_succ_self _))

theorem readAttrs_NoAbort (c : Consts) (out : List Attribute) (chk : Nat)
    (b : List Byte) : (impl.readAttrs c out chk b).NoAbort := by
  unfold impl.readAttrs
  refine NoAbort_bind _ _ (readTag_NoAbort _) fun t b1 _ => ?_
  exact NoAbort_ite _ _ _ (NoAbort_ISSUE _ _)
    (readAttrsLoop_NoAbort _ _ _ _ _ (Nat.lt_succ_self _))

theorem impl_readRow_NoAbort (c : Consts) (out : Row) (b : List Byte) :
    (impl.readRow c out b).NoAbort := by
  unfold impl.readRow
  refine NoAbort_bind _ _ (readRowKey_NoAbort _ _ _ _) fun r b1 _ => ?_
  cases hp : impl.peekAndCheckTag c.kTag_RowData b1 with
  | none => exact absurd hp (peekAndCheckTag_ne_none _ _)
  | some p =>
    refine NoAbort_bind _ _ ?_ fun r2 b2 _ => ?_
    · exact NoAbort_ite _ _ _ (readAttrs_NoAbort _ _ _ _) (NoAbort_ok _ _)
    · refine NoAbort_bind _ _ (readTag_NoAbort _) fun t b3 _ => ?_
      refine NoAbort_ite _ _ _ (NoAbort_ISSUE _ _) ?_
      refine NoAbort_bind _ _ (readUint8_NoAbort _) fun o b4 _ => ?_
      exact NoAbort_ite _ _ _ (NoAbort_ISSUE _ _) (NoAbort_ok _ _)

theorem readRowsLoop_NoAbort (c : Consts) (fuel : Nat) (out : List Row) (b : List Byte)
    (hfuel : b.length < fuel) : (impl.readRowsLoop c fuel out b).NoAbort := by
  induction fuel generalizing out b with
  | zero => exact absurd hfuel (Nat.not_lt_zero _)
  | succ fuel ih =>
    unfold impl.readRowsLoop
    refine NoAbort_ite _ _ _ ?_ (NoAbort_ok _ _)
    refine NoAbort_bind _ _ (impl_readRow_NoAbort _ _ _) fun r b1 hr => ?_
    obtain ⟨x, _, _, hb, _⟩ := impl_readRow_ok hr
    apply ih
    have := wireRow_bytes_length_pos c x
    rw [hb, List.length_append] at hfuel
    omega

/-- The public `readRow` never leaves the defined behaviour. -/
theorem readRow_NoAbort (c : Consts) (out : Row) (p : List Byte) :
    (readRow c out p).NoAbort := by
  unfold readRow
  refine NoAbort_bind _ _ (readHeader_NoAbort _ _) fun _ b1 _ => ?_
  refine NoAbort_bind _ _ (impl_readRow_NoAbort _ _ _) fun r b2 _ => ?_
  exact NoAbort_ite _ _ _ (NoAbort_ISSUE _ _) (NoAbort_ok _ _)

/-- The public `readRows` never leaves the defined behaviour. -/
theorem readRows_NoAbort (c : Consts) (out : List Row) (p : List Byte) :
    (readRows c out p).NoAbort := by
  unfold readRows
  refine NoAbort_bind _ _ (readHeader_NoAbort _ _) fun _ b1 _ => ?_
  refine NoAbort_bind _ _ ?_ fun r b2 _ => ?_
  · exact readRowsLoop_NoAbort _ _ _ _ (Nat.lt_succ_self _)
  · exact NoAbort_ite _ _ _ (NoAbort_ISSUE _ _) (NoAbort_ok _ _)

/-- A result that is no abort and whose errors are all `CorruptedResponse` is a
success or a `CorruptedResponse` error. -/
theorem ok_or_IsCorrupted {α : Type} (r : Res α) (h1 : r.NoAbort) (h2 : r.OnlyCorrupted) :
    (∃ v b, r = .ok v b) ∨ r.IsCorrupted := by
  cases r with
  | ok v b => exact Or.inl ⟨v, b, rfl⟩
  | error e b => exact Or.inr ⟨e, b, rfl, h2 e b rfl⟩
  | abort a => exact absurd rfl (h1 a)

theorem IsCorrupted_not_ok {α : Type} {r : Res α} (h : r.IsCorrupted) (v : α) (b : List Byte) :
    r ≠ .ok v b := by
  obtain ⟨e, b1, hr, _⟩ := h
  rw [hr]
  simp

/-! ### Whole frames -/

theorem readRow_frameBytes_out (c : Consts) (hc : c.WF) (out : Row) (r : WireRow)
    (extra : List Byte) (hr : r.WF) (hok : r.ChecksumsOk c) :
    readRow c out (frameBytes c [r] ++ extra)
      = (if extra ≠ [] then ISSUE 466 extra
          else .ok { mPkey := out.mPkey ++ r.row.mPkey,
                     mAttrs := out.mAttrs ++ r.row.mAttrs } extra) := by
  unfold readRow
  simp only [frameBytes, List.map_cons, List.map_nil, List.flatten_cons, List.flatten_nil,
    List.append_nil, List.append_assoc, readHeader_bytes c hc, Res.bind_ok,
    impl_readRow_bytes c hc out r extra hr hok]

theorem readRowsLoop_bytes (c : Consts) (hc : c.WF) (rs : List WireRow) (fuel : Nat)
    (out : List Row) (hrs : ∀ r ∈ rs, r.WF ∧ r.ChecksumsOk c)
    (hfuel : ((rs.map (WireRow.bytes c)).flatten).length < fuel) :
    impl.readRowsLoop c fuel out ((rs.map (WireRow.bytes c)).flatten)
      = .ok (out ++ rs.map WireRow.row) [] := by
  induction rs generalizing fuel out with
  | nil =>
    cases fuel with
    | zero => exact absurd hfuel (Nat.not_lt_zero _)
    | succ fuel => simp [impl.readRowsLoop]
  | cons r rs ih =>
    cases fuel with
    | zero => exact absurd hfuel (Nat.not_lt_zero _)
    | succ fuel =>
      have hr := hrs r (List.mem_cons_self _ _)
      have hpos := wireRow_bytes_length_pos c r
      simp only [List.map_cons, List.flatten_cons, List.length_append] at hfuel ⊢
      unfold impl.readRowsLoop
      rw [if_pos (by rw [List.length_append]; omega),
        impl_readRow_bytes c hc {} r _ hr.1 hr.2, Res.bind_ok,
        ih fuel _ (fun x hx => hrs x (List.mem_cons_of_mem _ hx)) (by omega)]
      simp

theorem readRows_frameBytes (c : Consts) (hc : c.WF) (out : List Row) (rs : List WireRow)
    (hrs : ∀ r ∈ rs, r.WF ∧ r.ChecksumsOk c) :
    readRows c out (frameBytes c rs) = .ok (out ++ rs.map WireRow.row) [] := by
  unfold readRows impl.readRows
  simp only [frameBytes, readHeader_bytes c hc, Res.bind_ok]
  rw [readRowsLoop_bytes c hc rs _ out hrs (Nat.lt_succ_self _)]
  simp

/-! ### Particular failures -/

theorem IsCorrupted_bind {α β : Type} {r : Res α} (k : α → List Byte → Res β)
    (h : r.IsCorrupted) : (r.bind k).IsCorrupted := by
  obtain ⟨e, b, hr, he⟩ := h
  rw [hr]
  exact ⟨e, b, rfl, he⟩

theorem readRowKey_bad_tag (c : Consts) (out : List PrimaryKeyColumn) (chk : Nat) (t : Byte)
    (rest : List Byte) (h : t ≠ c.kTag_RowKey) :
    impl.readRowKey c out chk (t :: rest) = ISSUE 273 rest := by
  simp [impl.readRowKey, h]

theorem readPrimaryKeyColumn_bad_tag (c : Consts) (out : PrimaryKeyColumn) (chk : Nat)
    (t : Byte) (rest : List Byte) (h : t ≠ c.kTag_Cell) :
    impl.readPrimaryKeyColumn c out chk (t :: rest) = ISSUE 239 rest := by
  simp [impl.readPrimaryKeyColumn, h]

theorem readName_bad_tag (c : Consts) (chk : Nat) (t : Byte) (rest : List Byte)
    (h : t ≠ c.kTag_CellName) : impl.readName c chk (t :: rest) = ISSUE 136 rest := by
  simp [impl.readName, h]

theorem readPrimaryKeyValue_bad_tag (c : Consts) (out : PrimaryKeyValue) (chk : Nat)
    (t : Byte) (rest : List Byte) (h : t ≠ c.kTag_CellValue) :
    impl.readPrimaryKeyValue c out chk (t :: rest) = ISSUE 188 rest := by
  simp [impl.readPrimaryKeyValue, h]

theorem readAttrs_bad_tag (c : Consts) (out : List Attribute) (chk : Nat) (t : Byte)
    (rest : List Byte) (h : t ≠ c.kTag_RowData) :
    impl.readAttrs c out chk (t :: rest) = ISSUE 412 rest := by
  simp [impl.readAttrs, h]

theorem readAttr_bad_tag (c : Consts) (out : Attribute) (chk : Nat) (t : Byte)
    (rest : List Byte) (h : t ≠ c.kTag_Cell) :
    impl.readAttr c out chk (t :: rest) = ISSUE 377 rest := by
  simp [impl.readAttr, h]

theorem readAttrValue_bad_tag (c : Consts) (out : AttributeValue) (chk : Nat)
    (t : Byte) (rest : List Byte) (h : t ≠ c.kTag_CellValue) :
    impl.readAttrValue c out chk (t :: rest) = ISSUE 292 rest := by
  simp [impl.readAttrValue, h]

theorem readName_overflow (c : Consts) (chk : Nat) (len rest : List Byte)
    (hlen : len.length = 4) (h : rest.length < leValue len) :
    impl.readName c chk (c.kTag_CellName :: (len ++ rest)) = ISSUE 143 rest := by
  unfold impl.readName
  simp only [readTag_cons, Res.bind_ok, ne_eq, not_true_eq_false, if_false]
  rw [show impl.readUint32 (len ++ rest) = .ok (leValue len) rest
    from readUint_append 4 len _ hlen]
  simp [h]

theorem readBlob_overflow (chk : Nat) (len rest : List Byte)
    (hlen : len.length = 4) (h : rest.length < leValue len) :
    impl.readBlob chk (len ++ rest) = ISSUE 114 rest := by
  unfold impl.readBlob
  rw [show impl.readUint32 (len ++ rest) = .ok (leValue len) rest
    from readUint_append 4 len _ hlen]
  simp [h]

/-- A row-key cell whose tag after the value is not `CellChecksum`. -/
theorem readPrimaryKeyColumn_bad_checksum_tag (c : Consts) (hc : c.WF) (chk : Nat)
    (name ph : List Byte) (v : WireValue) (t : Byte) (rest : List Byte)
    (hname : name.length < 2 ^ 32) (hph : ph.length = 4) (hv : v.WF) (hk : v.isKey = true)
    (ht : t ≠ c.kTag_CellChecksum) :
    impl.readPrimaryKeyColumn c {} chk
        (cellOpening c name ++ (ph ++ (c.vt v.vt :: (v.body ++ t :: rest))))
      = ISSUE 250 rest := by
  rw [cellOpening_append]
  unfold impl.readPrimaryKeyColumn
  simp only [readTag_cons, Res.bind_ok, ne_eq, not_true_eq_false, if_false,
    readName_bytes c 0 name _ hname,
    readPrimaryKeyValue_bytes c hc _ _ ph v _ hph hv hk, ht, not_false_eq_true, if_true]

/-- The optional timestamp section followed by a byte that is no
`CellTimestamp` tag. -/
theorem readOptionalCellTimestamp_section (c : Consts) (chk : Nat)
    (ts : Option Nat) (t : Byte) (rest : List Byte) (hts : ∀ x ∈ ts, x < 2 ^ 64)
    (ht : ts = none → t ≠ c.kTag_CellTimestamp) :
    impl.readOptionalCellTimestamp c none chk (timestampSection c ts ++ (t :: rest))
      = .ok (ts.map fun x => UtcTime.fromMsec (toInt64 x),
          crc8Bytes chk (timestampBytes ts)) (t :: rest) := by
  cases ts with
  | none =>
    simp [impl.readOptionalCellTimestamp, timestampSection, timestampBytes, Ne.symm (ht rfl)]
  | some x =>
    have hx : x < 2 ^ 64 := hts x rfl
    simp only [impl.readOptionalCellTimestamp, timestampSection, timestampBytes,
      List.cons_append, peekAndCheckTag_cons, decide_True, readTag_cons, Res.bind_ok,
      readUint64_leBytes x _ hx, Option.map_some', crc8U64_eq]

/-- An attribute cell whose tag after the value and the optional timestamp is
not `CellChecksum`. -/
theorem readAttr_bad_checksum_tag (c : Consts) (hc : c.WF) (chk : Nat)
    (name ph : List Byte) (v : WireValue) (ts : Option Nat) (t : Byte) (rest : List Byte)
    (hname : name.length < 2 ^ 32) (hph : ph.length = 4) (hv : v.WF)
    (hts : ∀ x ∈ ts, x < 2 ^ 64)
    (ht : t ≠ c.kTag_CellChecksum) (ht1 : ts = none → t ≠ c.kTag_CellTimestamp) :
    impl.readAttr c {} chk
        (cellOpening c name ++ (ph ++ (c.vt v.vt :: (v.body
          ++ (timestampSection c ts ++ t :: rest)))))
      = ISSUE 389 rest := by
  rw [cellOpening_append]
  unfold impl.readAttr
  simp only [readTag_cons, Res.bind_ok, ne_eq, not_true_eq_false, if_false,
    readName_bytes c 0 name _ hname,
    readAttrValue_bytes c hc _ _ ph v _ hph hv,
    readOptionalCellTimestamp_section c _ ts t rest hts ht1, ht, not_false_eq_true, if_true]

/-- A row whose tag after the cells is not `RowChecksum`. -/
theorem impl_readRow_bad_checksum_tag (c : Consts) (hc : c.WF) (out : Row)
    (key : List WireCell) (data : Option (List WireCell)) (t : Byte) (rest : List Byte)
    (hkey : ∀ x ∈ key, x.KeyWF) (hdata : ∀ x ∈ data.getD [], x.WF)
    (hok : ∀ x ∈ key ++ data.getD [], x.checksum.val = x.crc c)
    (ht : t ≠ c.kTag_RowChecksum) (ht1 : t ≠ c.kTag_Cell)
    (ht2 : data = none → t ≠ c.kTag_RowData) :
    impl.readRow c out (c.kTag_RowKey :: ((key.map (WireCell.bytes c)).flatten
        ++ (dataSection c data ++ t :: rest)))
      = ISSUE 437 rest := by
  have hkok : ∀ x ∈ key, x.checksum.val = x.crc c := fun x hx =>
    hok x (List.mem_append_left _ hx)
  have hdok : ∀ x ∈ data.getD [], x.checksum.val = x.crc c := fun x hx =>
    hok x (List.mem_append_right _ hx)
  have hp : impl.peekAndCheckTag c.kTag_Cell (t :: rest) = some false := by
    simp [Ne.symm ht1]
  unfold impl.readRow
  cases data with
  | none =>
    have ht3 := ht2 rfl
    simp only [dataSection, List.nil_append,
      readRowKey_bytes c hc _ _ key _ hkey hkok hp, Res.bind_ok]
    simp [Ne.symm ht3, ht]
  | some a =>
    simp only [Option.getD_some] at hdata hdok
    have hp1 : impl.peekAndCheckTag c.kTag_Cell
        (c.kTag_RowData :: ((a.map (WireCell.bytes c)).flatten ++ t :: rest)) = some false := by
      simp [hc.cell_ne_rowData]
    simp only [dataSection, List.cons_append,
      readRowKey_bytes c hc _ _ key _ hkey hkok hp1, Res.bind_ok]
    simp [readAttrs_bytes c hc _ _ a _ hdata hdok hp, ht]

/-! ### Values of a row key -/

theorem readPrimaryKeyValue_bad_vt_corrupted (c : Consts) (out : PrimaryKeyValue) (chk : Nat)
    (ph : List Byte) (v : Byte) (rest : List Byte) (hph : ph.length = 4)
    (h1 : v ≠ c.kVT_Integer) (h2 : v ≠ c.kVT_String) (h3 : v ≠ c.kVT_Blob) :
    (impl.readPrimaryKeyValue c out chk
      (c.kTag_CellValue :: (ph ++ (v :: rest)))).IsCorrupted := by
  rcases readPrimaryKeyValue_bad_vt c out chk ph v rest hph h1 h2 h3 with h | h
  · rw [h]
    exact IsCorrupted_ISSUE _ _
  · rw [h]
    exact IsCorrupted_ISSUE _ _

theorem readPrimaryKeyColumn_bad_vt (c : Consts) (chk : Nat) (name ph : List Byte) (v : Byte)
    (rest : List Byte) (hname : name.length < 2 ^ 32) (hph : ph.length = 4)
    (h1 : v ≠ c.kVT_Integer) (h2 : v ≠ c.kVT_String) (h3 : v ≠ c.kVT_Blob) :
    (impl.readPrimaryKeyColumn c {} chk
      (cellOpening c name ++ (ph ++ (v :: rest)))).IsCorrupted := by
  rw [cellOpening_append]
  unfold impl.readPrimaryKeyColumn
  simp only [readTag_cons, Res.bind_ok, ne_eq, not_true_eq_false, if_false,
    readName_bytes c 0 name _ hname]
  exact IsCorrupted_bind _ (readPrimaryKeyValue_bad_vt_corrupted c _ _ ph v rest hph h1 h2 h3)

theorem readRowKeyLoop_fail (c : Consts) (hc : c.WF) (xs : List WireCell)
    (fuel : Nat) (out : List PrimaryKeyColumn) (chk : Nat) (rest : List Byte)
    (hfuel : xs.length < fuel) (hxs : ∀ x ∈ xs, x.KeyWF)
    (hpeek : impl.peekAndCheckTag c.kTag_Cell rest = some true)
    (hfail : ∀ chk1, (impl.readPrimaryKeyColumn c {} chk1 rest).IsCorrupted) :
    (impl.readRowKeyLoop c fuel out chk
      ((xs.map (WireCell.bytes c)).flatten ++ rest)).IsCorrupted := by
  induction xs generalizing fuel out chk with
  | nil =>
    cases fuel with
    | zero => simp at hfuel
    | succ fuel =>
      simp only [List.map_nil, List.flatten_nil, List.nil_append, impl.readRowKeyLoop, hpeek]
      exact IsCorrupted_bind _ (hfail chk)
  | cons x xs ih =>
    cases fuel with
    | zero => simp at hfuel
    | succ fuel =>
      simp only [List.length_cons, Nat.add_lt_add_iff_right] at hfuel
      have hx := hxs x (List.mem_cons_self _ _)
      simp only [List.map_cons, List.flatten_cons, List.append_assoc, impl.readRowKeyLoop,
        peekAndCheckTag_cell, readPrimaryKeyColumn_bytes c hc _ x _ hx]
      by_cases hxok : x.checksum.val = x.crc c
      · rw [if_pos hxok, Res.bind_ok]
        exact ih fuel _ _ hfuel (fun y hy => hxs y (List.mem_cons_of_mem _ hy))
      · rw [if_neg hxok]
        exact IsCorrupted_bind _ (IsCorrupted_ISSUE _ _)

/-- Whole row-key cells followed by a cell that `readPrimaryKeyColumn` rejects:
the public `readRow` fails with `CorruptedResponse`. -/
theorem readRow_key_fail (c : Consts) (hc : c.WF) (out : Row) (xs : List WireCell)
    (rest : List Byte) (hxs : ∀ x ∈ xs, x.KeyWF)
    (hpeek : impl.peekAndCheckTag c.kTag_Cell rest = some true)
    (hfail : ∀ chk1, (impl.readPrimaryKeyColumn c {} chk1 rest).IsCorrupted) :
    (readRow c out (leBytes 4 c.kHeader
      ++ (c.kTag_RowKey :: ((xs.map (WireCell.bytes c)).flatten ++ rest)))).IsCorrupted := by
  unfold readRow
  simp only [readHeader_bytes c hc, Res.bind_ok]
  apply IsCorrupted_bind
  unfold impl.readRow
  apply IsCorrupted_bind
  unfold impl.readRowKey
  simp only [readTag_cons, Res.bind_ok, ne_eq, not_true_eq_false, if_false]
  apply readRowKeyLoop_fail c hc xs _ _ _ rest _ hxs hpeek hfail
  have := cells_length_le c xs
  rw [List.length_append]
  omega

theorem readRows_bad_header (c : Consts) (out : List Row) (hdr rest : List Byte)
    (hlen : hdr.length = 4) (hne : hdr ≠ leBytes 4 c.kHeader) :
    readRows c out (hdr ++ rest) = ISSUE 83 rest := by
  have hv : leValue hdr ≠ c.kHeader := by
    intro he
    apply hne
    have := leBytes_leValue hdr
    rw [hlen, he] at this
    exact this.symm
  have hh : impl.readHeader c (hdr ++ rest) = ISSUE 83 rest := by
    unfold impl.readHeader
    rw [show impl.readUint32 (hdr ++ rest) = .ok (leValue hdr) rest
      from readUint_append 4 hdr _ hlen]
    simp [hv]
  unfold readRows
  simp only [hh, Res.bind_ISSUE]

theorem WireValue.pkValue_category (w : WireValue) (h : w.isKey = true) :
    w.pkValue.mCategory = .kInteger ∨ w.pkValue.mCategory = .kString
      ∨ w.pkValue.mCategory = .kBinary := by
  cases w with
  | integer v => exact Or.inl rfl
  | string s => exact Or.inr (Or.inl rfl)
  | blob s => exact Or.inr (Or.inr rfl)
  | double v => simp [WireValue.isKey] at h
  | boolean x => simp [WireValue.isKey] at h

theorem WireRow.row_category (r : WireRow) (hr : r.WF) (col : PrimaryKeyColumn)
    (hcol : col ∈ r.row.mPkey) :
    col.mValue.mCategory = .kInteger ∨ col.mValue.mCategory = .kString
      ∨ col.mValue.mCategory = .kBinary := by
  simp only [WireRow.row, List.mem_map] at hcol
  obtain ⟨x, hx, rfl⟩ := hcol
  exact WireValue.pkValue_category x.value (hr.1 x hx).2.1

/-! ## The claims -/

/-- C1: for every well-formed row `X` (key values Integer, String or Blob; values
of attributes String, Integer, Blob, Boolean or a finite Double; timestamps of
whole non-negative milliseconds inside `int64_t`; names and blobs shorter than
`2 ^ 32` bytes) the encoding rules produce a frame, and the public `readRow` on
that frame returns no error, consumes every byte and leaves an output row equal
to `X` when the output row starts empty; an output row that already holds
columns gets those of `X` appended. -/
theorem readRow_encodeFrame (c : Consts) (hc : c.WF) (ph : List Byte → Nat) (X : Row)
    (hX : X.WellFormed) :
    ∃ frame, encodeFrame c ph X = some frame ∧ readRow c {} frame = .ok X []
      ∧ ∀ out : Row, readRow c out frame
          = .ok { mPkey := out.mPkey ++ X.mPkey, mAttrs := out.mAttrs ++ X.mAttrs } [] := by
  obtain ⟨r, hr, hwf, hok, hrow⟩ := layoutRow_spec c ph X hX
  have hall : ∀ out : Row, readRow c out (frameBytes c [r])
      = .ok { mPkey := out.mPkey ++ X.mPkey, mAttrs := out.mAttrs ++ X.mAttrs } [] := by
    intro out
    have h := readRow_frameBytes_out c hc out r [] hwf hok
    rw [List.append_nil, hrow] at h
    rw [h]
    simp
  refine ⟨frameBytes c [r], by simp [encodeFrame, hr], ?_, hall⟩
  rw [hall {}]
  simp

/-- Instance of C1: under the constants `wire` the frame of `sampleRow` is
`sampleFrame`, and `readRow` decodes it to `sampleRow`. -/
theorem readRow_encodeFrame_witness :
    wire.WF ∧ sampleRow.WellFormed
      ∧ encodeFrame wire (fun _ => 0) sampleRow = some sampleFrame
      ∧ readRow wire {} sampleFrame = .ok sampleRow [] := by
  obtain ⟨frame, h1, h2, _⟩ :=
    readRow_encodeFrame wire (by decide) (fun _ => 0) sampleRow (by decide)
  have h3 : encodeFrame wire (fun _ => 0) sampleRow = some sampleFrame := by
    set_option maxRecDepth 100000 in
    decide
  rw [h3] at h1
  cases h1
  exact ⟨by decide, by decide, h3, h2⟩

/-- Counterexample to C2 as stated: byte 14 of the frame of `sampleRow` is a
placeholder byte, not the trailing row checksum, and with 1 in place of its 0
`readRow` still succeeds with `sampleRow`; byte 43 of the frame of
`sampleBoolRow` is the byte of a Boolean, and with 2 in place of its 1 `readRow`
still succeeds with `sampleBoolRow`. Neither call fails with
`CorruptedResponse`. -/
theorem readRow_flip_undetected :
    (sampleRow.WellFormed ∧ encodeFrame wire (fun _ => 0) sampleRow = some sampleFrame
      ∧ 14 < sampleFrame.length - 1 ∧ sampleFrame[14]? = some 0
      ∧ readRow wire {} (sampleFrame.set 14 1) = .ok sampleRow []
      ∧ ¬ (readRow wire {} (sampleFrame.set 14 1)).IsCorrupted)
    ∧ (sampleBoolRow.WellFormed
      ∧ encodeFrame wire (fun _ => 0) sampleBoolRow = some sampleBoolFrame
      ∧ 43 < sampleBoolFrame.length - 1 ∧ sampleBoolFrame[43]? = some 1
      ∧ readRow wire {} (sampleBoolFrame.set 43 2) = .ok sampleBoolRow []
      ∧ ¬ (readRow wire {} (sampleBoolFrame.set 43 2)).IsCorrupted) := by
  have h1 : readRow wire {} (sampleFrame.set 14 1) = .ok sampleRow [] := by
    set_option maxRecDepth 100000 in
    decide
  have h2 : readRow wire {} (sampleBoolFrame.set 43 2) = .ok sampleBoolRow [] := by
    set_option maxRecDepth 100000 in
    decide
  refine ⟨⟨by decide, ?_, by decide, by decide, h1, ?_⟩,
    ⟨by decide, ?_, by decide, by decide, h2, ?_⟩⟩
  · set_option maxRecDepth 100000 in
    decide
  · exact fun h => IsCorrupted_not_ok h _ _ h1
  · set_option maxRecDepth 100000 in
    decide
  · exact fun h => IsCorrupted_not_ok h _ _ h2

/-- C2 (amended): for every well-formed row `X` and every position `i` of its
encoded frame that holds a header byte, a byte of a cell name, one of the eight
bytes of an Integer or a Double, a content byte of a String or a Blob, a
timestamp byte or a cell-checksum byte, the frame with the byte at `i` replaced
by any different value makes `readRow` fail with `CorruptedResponse`. -/
theorem readRow_encodeFrame_flip (c : Consts) (hc : c.WF) (ph : List Byte → Nat)
    (out X : Row) (hX : X.WellFormed) (frame : List Byte) (kinds : List ByteKind)
    (hframe : encodeFrame c ph X = some frame) (hkinds : encodeKinds c ph X = some kinds)
    (i : Nat) (hi : i < frame.length) (y : Byte) (hy : y ≠ frame[i]) (k : ByteKind)
    (hk : kinds[i]? = some k) (hck : k.Checked) :
    (readRow c out (frame.set i y)).IsCorrupted :=
  readRow_encodeFrame_flip_aux c hc ph out X hX frame kinds hframe hkinds i hi y hy k hk hck

/-- Instance of C2 (amended): byte 19 of `sampleFrame` is the low byte of the
Integer of the key cell; with 2 in place of its 1 `readRow` fails with
`CorruptedResponse`. -/
theorem readRow_encodeFrame_flip_witness :
    (readRow wire {} (sampleFrame.set 19 2)).IsCorrupted :=
  readRow_encodeFrame_flip wire (by decide) (fun _ => 0) {} sampleRow (by decide)
    sampleFrame (frameKinds [sampleWire])
    (by set_option maxRecDepth 100000 in decide)
    (by set_option maxRecDepth 100000 in decide)
    19 (by decide) 2 (by decide) ByteKind.value (by decide) (by decide)

/-- C3: whenever the public `readRow` succeeds, the input is the header and one
row in which every cell's `CellChecksum` byte equals the CRC-8 from 0 over the
cell's name bytes, variant tag, value bytes and, when present, its 8 timestamp
bytes, and the `RowChecksum` byte equals the CRC-8 from 0 over the cell
checksums in order followed by one 0 byte; and on a frame in which some stored
checksum byte differs from the recomputed one `readRow` returns
`CorruptedResponse`. -/
theorem readRow_checksums (c : Consts) (hc : c.WF) (out : Row) :
    (∀ (p : List Byte) (R : Row) (b1 : List Byte), readRow c out p = .ok R b1 →
      ∃ r : WireRow, r.WF ∧ p = frameBytes c [r]
        ∧ (∀ x ∈ r.cells, x.checksum.val
            = crc8Bytes 0 (x.name ++ [c.vt x.value.vt] ++ x.value.crcBody
                ++ timestampBytes x.timestamp))
        ∧ r.checksum.val = crc8 (crc8Bytes 0 (r.cells.map (·.checksum))) 0
        ∧ R = { mPkey := out.mPkey ++ r.row.mPkey, mAttrs := out.mAttrs ++ r.row.mAttrs })
    ∧ (∀ r : WireRow, r.WF → ¬ r.ChecksumsOk c →
        (readRow c out (frameBytes c [r])).IsCorrupted) := by
  refine ⟨?_, ?_⟩
  · intro p R b1 h
    obtain ⟨_, r, hr, hok, hp, hR⟩ := readRow_ok h
    exact ⟨r, hr, hp, hok.1, hok.2, hR⟩
  · intro r hr hbad
    obtain ⟨line, b1, h⟩ := readRow_frameBytes_bad c hc out r hr hbad
    rw [h]
    exact IsCorrupted_ISSUE _ _

/-- Instance of C3: `sampleFrame` is accepted, so its checksum bytes are the
recomputed ones; the same frame with 0 as row checksum is rejected with
`CorruptedResponse`. -/
theorem readRow_checksums_witness :
    wire.WF
    ∧ (∃ r : WireRow, r.WF ∧ sampleFrame = frameBytes wire [r]
        ∧ (∀ x ∈ r.cells, x.checksum.val
            = crc8Bytes 0 (x.name ++ [wire.vt x.value.vt] ++ x.value.crcBody
                ++ timestampBytes x.timestamp))
        ∧ r.checksum.val = crc8 (crc8Bytes 0 (r.cells.map (·.checksum))) 0
        ∧ sampleRow = { mPkey := ({} : Row).mPkey ++ r.row.mPkey,
                        mAttrs := ({} : Row).mAttrs ++ r.row.mAttrs })
    ∧ (readRow wire {} (frameBytes wire [{ sampleWire with checksum := 0 }])).IsCorrupted :=
  ⟨by decide,
    (readRow_checksums wire (by decide) {}).1 sampleFrame sampleRow []
      (by set_option maxRecDepth 100000 in decide),
    (readRow_checksums wire (by decide) {}).2 { sampleWire with checksum := 0 }
      (by decide) (by set_option maxRecDepth 100000 in decide)⟩

/-- C4: the public `readRow` returns no error only if the header and exactly one
row account for every byte of the input, nothing being left at the cursor; and
when a valid header and row are followed by one or more extra bytes it returns
`CorruptedResponse`. -/
theorem readRow_consumes_all (c : Consts) (hc : c.WF) (out : Row) :
    (∀ (p : List Byte) (R : Row) (b1 : List Byte), readRow c out p = .ok R b1 →
      b1 = [] ∧ ∃ r : WireRow, r.WF ∧ r.ChecksumsOk c
        ∧ p = leBytes 4 c.kHeader ++ r.bytes c
        ∧ R = { mPkey := out.mPkey ++ r.row.mPkey, mAttrs := out.mAttrs ++ r.row.mAttrs })
    ∧ (∀ (r : WireRow) (extra : List Byte), r.WF → r.ChecksumsOk c → extra ≠ [] →
        (readRow c out (leBytes 4 c.kHeader ++ r.bytes c ++ extra)).IsCorrupted) := by
  refine ⟨?_, ?_⟩
  · intro p R b1 h
    obtain ⟨hb1, r, hr, hok, hp, hR⟩ := readRow_ok h
    exact ⟨hb1, r, hr, hok, by rw [hp]; simp [frameBytes], hR⟩
  · intro r extra hr hok hextra
    have h := readRow_frameBytes_out c hc out r extra hr hok
    rw [if_pos hextra] at h
    have hb : leBytes 4 c.kHeader ++ r.bytes c = frameBytes c [r] := by simp [frameBytes]
    rw [hb, h]
    exact IsCorrupted_ISSUE _ _

/-- Instance of C4: `sampleFrame` is accepted with nothing left, and it is the
header and the row `sampleWire`; with one more byte after it, it is rejected
with `CorruptedResponse`. -/
theorem readRow_consumes_all_witness :
    wire.WF
    ∧ (([] : List Byte) = [] ∧ ∃ r : WireRow, r.WF ∧ r.ChecksumsOk wire
        ∧ sampleFrame = leBytes 4 wire.kHeader ++ r.bytes wire
        ∧ sampleRow = { mPkey := ({} : Row).mPkey ++ r.row.mPkey,
                        mAttrs := ({} : Row).mAttrs ++ r.row.mAttrs })
    ∧ (readRow wire {} (leBytes 4 wire.kHeader ++ sampleWire.bytes wire ++ [0])).IsCorrupted :=
  ⟨by decide,
    (readRow_consumes_all wire (by decide) {}).1 sampleFrame sampleRow []
      (by set_option maxRecDepth 100000 in decide),
    (readRow_consumes_all wire (by decide) {}).2 sampleWire [0]
      (by decide) (by set_option maxRecDepth 100000 in decide) (by decide)⟩

/-- C5: every call of the public `readRow` or `readRows` ends in a success or
in an error whose code is `CorruptedResponse`, and no error carries another
code; in particular (3) a wrong 4-byte header, (4 to 13) a tag byte other than
the one expected at each of the ten places where a tag is required, and (14, 15)
a declared name or blob length that runs past the end of the input each produce
`CorruptedResponse`. -/
theorem readRow_errors_corrupted (c : Consts) (hc : c.WF) :
    (∀ (out : Row) (p : List Byte),
      ((∃ R, readRow c out p = .ok R []) ∨ (readRow c out p).IsCorrupted)
        ∧ (readRow c out p).OnlyCorrupted)
    ∧ (∀ (out : List Row) (p : List Byte),
      ((∃ R, readRows c out p = .ok R []) ∨ (readRows c out p).IsCorrupted)
        ∧ (readRows c out p).OnlyCorrupted)
    ∧ (∀ (out : Row) (outs : List Row) (hdr rest : List Byte), hdr.length = 4 →
        hdr ≠ leBytes 4 c.kHeader →
        (readRow c out (hdr ++ rest)).IsCorrupted ∧ (readRows c outs (hdr ++ rest)).IsCorrupted)
    ∧ (∀ (out : Row) (t : Byte) (rest : List Byte), t ≠ c.kTag_RowKey →
        (readRow c out (leBytes 4 c.kHeader ++ t :: rest)).IsCorrupted)
    ∧ (∀ (out : PrimaryKeyColumn) (chk : Nat) (t : Byte) (rest : List Byte), t ≠ c.kTag_Cell →
        (impl.readPrimaryKeyColumn c out chk (t :: rest)).IsCorrupted)
    ∧ (∀ (chk : Nat) (t : Byte) (rest : List Byte), t ≠ c.kTag_CellName →
        (impl.readName c chk (t :: rest)).IsCorrupted)
    ∧ (∀ (out : PrimaryKeyValue) (chk : Nat) (t : Byte) (rest : List Byte),
        t ≠ c.kTag_CellValue → (impl.readPrimaryKeyValue c out chk (t :: rest)).IsCorrupted)
    ∧ (∀ (chk : Nat) (name ph : List Byte) (v : WireValue) (t : Byte) (rest : List Byte),
        name.length < 2 ^ 32 → ph.length = 4 → v.WF → v.isKey = true →
        t ≠ c.kTag_CellChecksum →
        (impl.readPrimaryKeyColumn c {} chk
          (cellOpening c name ++ (ph ++ (c.vt v.vt :: (v.body ++ t :: rest))))).IsCorrupted)
    ∧ (∀ (out : List Attribute) (chk : Nat) (t : Byte) (rest : List Byte),
        t ≠ c.kTag_RowData → (impl.readAttrs c out chk (t :: rest)).IsCorrupted)
    ∧ (∀ (out : Attribute) (chk : Nat) (t : Byte) (rest : List Byte), t ≠ c.kTag_Cell →
        (impl.readAttr c out chk (t :: rest)).IsCorrupted)
    ∧ (∀ (out : AttributeValue) (chk : Nat) (t : Byte) (rest : List Byte),
        t ≠ c.kTag_CellValue → (impl.readAttrValue c out chk (t :: rest)).IsCorrupted)
    ∧ (∀ (chk : Nat) (name ph : List Byte) (v : WireValue) (ts : Option Nat) (t : Byte)
        (rest : List Byte), name.length < 2 ^ 32 → ph.length = 4 → v.WF →
        (∀ x ∈ ts, x < 2 ^ 64) → t ≠ c.kTag_CellChecksum →
        (ts = none → t ≠ c.kTag_CellTimestamp) →
        (impl.readAttr c {} chk
          (cellOpening c name ++ (ph ++ (c.vt v.vt :: (v.body
            ++ (timestampSection c ts ++ t :: rest)))))).IsCorrupted)
    ∧ (∀ (out : Row) (key : List WireCell) (data : Option (List WireCell)) (t : Byte)
        (rest : List Byte), (∀ x ∈ key, x.KeyWF) → (∀ x ∈ data.getD [], x.WF) →
        (∀ x ∈ key ++ data.getD [], x.checksum.val = x.crc c) →
        t ≠ c.kTag_RowChecksum → t ≠ c.kTag_Cell → (data = none → t ≠ c.kTag_RowData) →
        (readRow c out (leBytes 4 c.kHeader ++ (c.kTag_RowKey
          :: ((key.map (WireCell.bytes c)).flatten
            ++ (dataSection c data ++ t :: rest))))).IsCorrupted)
    ∧ (∀ (chk : Nat) (len rest : List Byte), len.length = 4 → rest.length < leValue len →
        (impl.readName c chk (c.kTag_CellName :: (len ++ rest))).IsCorrupted)
    ∧ (∀ (chk : Nat) (len rest : List Byte), len.length = 4 → rest.length < leValue len →
        (impl.readBlob chk (len ++ rest)).IsCorrupted) := by
  refine ⟨?_, ?_, ?_, ?_, ?_, ?_, ?_, ?_, ?_, ?_, ?_, ?_, ?_, ?_, ?_⟩
  · intro out p
    refine ⟨?_, readRow_OnlyCorrupted c out p⟩
    rcases ok_or_IsCorrupted _ (readRow_NoAbort c out p) (readRow_OnlyCorrupted c out p)
      with ⟨R, b, h⟩ | h
    · have hb := (readRow_ok h).1
      subst hb
      exact Or.inl ⟨R, h⟩
    · exact Or.inr h
  · intro out p
    refine ⟨?_, readRows_OnlyCorrupted c out p⟩
    rcases ok_or_IsCorrupted _ (readRows_NoAbort c out p) (readRows_OnlyCorrupted c out p)
      with ⟨R, b, h⟩ | h
    · have hb := (readRows_ok h).1
      subst hb
      exact Or.inl ⟨R, h⟩
    · exact Or.inr h
  · intro out outs hdr rest hlen hne
    refine ⟨?_, ?_⟩
    · rw [readRow_bad_header c out hdr rest hlen hne]
      exact IsCorrupted_ISSUE _ _
    · rw [readRows_bad_header c outs hdr rest hlen hne]
      exact IsCorrupted_ISSUE _ _
  · intro out t rest ht
    unfold readRow
    simp only [readHeader_bytes c hc, Res.bind_ok]
    apply IsCorrupted_bind
    unfold impl.readRow
    apply IsCorrupted_bind
    rw [readRowKey_bad_tag c _ _ t rest ht]
    exact IsCorrupted_ISSUE _ _
  · intro out chk t rest ht
    rw [readPrimaryKeyColumn_bad_tag c out chk t rest ht]
    exact IsCorrupted_ISSUE _ _
  · intro chk t rest ht
    rw [readName_bad_tag c chk t rest ht]
    exact IsCorrupted_ISSUE _ _
  · intro out chk t rest ht
    rw [readPrimaryKeyValue_bad_tag c out chk t rest ht]
    exact IsCorrupted_ISSUE _ _
  · intro chk name ph v t rest hname hph hv hk ht
    rw [readPrimaryKeyColumn_bad_checksum_tag c hc chk name ph v t rest hname hph hv hk ht]
    exact IsCorrupted_ISSUE _ _
  · intro out chk t rest ht
    rw [readAttrs_bad_tag c out chk t rest ht]
    exact IsCorrupted_ISSUE _ _
  · intro out chk t rest ht
    rw [readAttr_bad_tag c out chk t rest ht]
    exact IsCorrupted_ISSUE _ _
  · intro out chk t rest ht
    rw [readAttrValue_bad_tag c out chk t rest ht]
    exact IsCorrupted_ISSUE _ _
  · intro chk name ph v ts t rest hname hph hv hts ht ht1
    rw [readAttr_bad_checksum_tag c hc chk name ph v ts t rest hname hph hv hts ht ht1]
    exact IsCorrupted_ISSUE _ _
  · intro out key data t rest hkey hdata hok ht ht1 ht2
    unfold readRow
    simp only [readHeader_bytes c hc, Res.bind_ok]
    apply IsCorrupted_bind
    rw [impl_readRow_bad_checksum_tag c hc out key data t rest hkey hdata hok ht ht1 ht2]
    exact IsCorrupted_ISSUE _ _
  · intro chk len rest hlen h
    rw [readName_overflow c chk len rest hlen h]
    exact IsCorrupted_ISSUE _ _
  · intro chk len rest hlen h
    rw [readBlob_overflow chk len rest hlen h]
    exact IsCorrupted_ISSUE _ _

/-- Instance of C5: under the constants `wire`, the input `[0x76, 0, 0, 0]`,
whose header is wrong, makes `readRow` fail with `CorruptedResponse`, and so
does a name length of 2 with a single byte left. -/
theorem readRow_errors_corrupted_witness :
    wire.WF ∧ (readRow wire {} ([0x76, 0, 0, 0] ++ [])).IsCorrupted
      ∧ (impl.readName wire 0 (wire.kTag_CellName :: ([2, 0, 0, 0] ++ [0x70]))).IsCorrupted :=
  ⟨by decide,
    ((readRow_errors_corrupted wire (by decide)).2.2.1 {} [] [0x76, 0, 0, 0] []
      (by decide) (by decide)).1,
    (readRow_errors_corrupted wire (by decide)).2.2.2.2.2.2.2.2.2.2.2.2.2.1 0 [2, 0, 0, 0] [0x70]
      (by decide) (by decide)⟩

/-- C6: reading the value of a row-key cell whose variant-type byte is not that
of Integer, String or Blob fails with `CorruptedResponse`, whatever follows; in
particular for the bytes of Double and of Boolean; the public `readRow` fails in
the same way when it reaches such a cell in the row key; and every primary-key
column that `readPrimaryKeyValue`, `readRow` or `readRows` decodes holds a value
of category Integer, String or Binary. -/
theorem readPrimaryKeyValue_rejects (c : Consts) (hc : c.WF) :
    (∀ (out : PrimaryKeyValue) (chk : Nat) (ph : List Byte) (v : Byte) (rest : List Byte),
        ph.length = 4 → v ≠ c.kVT_Integer → v ≠ c.kVT_String → v ≠ c.kVT_Blob →
        (impl.readPrimaryKeyValue c out chk
          (c.kTag_CellValue :: (ph ++ (v :: rest)))).IsCorrupted)
    ∧ (∀ (out : PrimaryKeyValue) (chk : Nat) (ph rest : List Byte), ph.length = 4 →
        (impl.readPrimaryKeyValue c out chk
          (c.kTag_CellValue :: (ph ++ (c.kVT_Double :: rest)))).IsCorrupted
        ∧ (impl.readPrimaryKeyValue c out chk
          (c.kTag_CellValue :: (ph ++ (c.kVT_Boolean :: rest)))).IsCorrupted)
    ∧ (∀ (out : Row) (key : List WireCell) (name ph : List Byte) (v : Byte)
        (rest : List Byte), (∀ x ∈ key, x.KeyWF) → name.length < 2 ^ 32 → ph.length = 4 →
        v ≠ c.kVT_Integer → v ≠ c.kVT_String → v ≠ c.kVT_Blob →
        (readRow c out (leBytes 4 c.kHeader ++ (c.kTag_RowKey
          :: ((key.map (WireCell.bytes c)).flatten
            ++ (cellOpening c name ++ (ph ++ (v :: rest))))))).IsCorrupted)
    ∧ (∀ (out val : PrimaryKeyValue) (chk chk1 : Nat) (b b1 : List Byte),
        impl.readPrimaryKeyValue c out chk b = .ok (val, chk1) b1 →
        val.mCategory = .kInteger ∨ val.mCategory = .kString ∨ val.mCategory = .kBinary)
    ∧ (∀ (p : List Byte) (R : Row) (b1 : List Byte), readRow c {} p = .ok R b1 →
        ∀ col ∈ R.mPkey, col.mValue.mCategory = .kInteger
          ∨ col.mValue.mCategory = .kString ∨ col.mValue.mCategory = .kBinary)
    ∧ (∀ (p : List Byte) (Rs : List Row) (b1 : List Byte), readRows c [] p = .ok Rs b1 →
        ∀ R ∈ Rs, ∀ col ∈ R.mPkey, col.mValue.mCategory = .kInteger
          ∨ col.mValue.mCategory = .kString ∨ col.mValue.mCategory = .kBinary) := by
  have hnd := hc.vt_nodup
  simp only [List.nodup_cons, List.mem_cons, List.mem_singleton, not_or, List.not_mem_nil,
    not_false_eq_true, List.nodup_nil, and_true] at hnd
  obtain ⟨⟨hID, hIB, hIS, hIL⟩, ⟨hDB, hDS, hDL⟩, ⟨hBS, hBL⟩, hSL⟩ := hnd
  refine ⟨?_, ?_, ?_, ?_, ?_, ?_⟩
  · intro out chk ph v rest hph h1 h2 h3
    exact readPrimaryKeyValue_bad_vt_corrupted c out chk ph v rest hph h1 h2 h3
  · intro out chk ph rest hph
    exact ⟨readPrimaryKeyValue_bad_vt_corrupted c out chk ph _ rest hph (Ne.symm hID) hDS hDL,
      readPrimaryKeyValue_bad_vt_corrupted c out chk ph _ rest hph (Ne.symm hIB) hBS hBL⟩
  · intro out key name ph v rest hkey hname hph h1 h2 h3
    exact readRow_key_fail c hc out key _ hkey (peek_cellOpening c name _)
      (fun chk1 => readPrimaryKeyColumn_bad_vt c chk1 name ph v rest hname hph h1 h2 h3)
  · intro out val chk chk1 b b1 h
    obtain ⟨ph, w, _, _, hk, _, hval, _⟩ := readPrimaryKeyValue_ok h
    rw [hval]
    exact WireValue.pkValue_category w hk
  · intro p R b1 h col hcol
    obtain ⟨_, r, hr, _, _, hR⟩ := readRow_ok h
    rw [hR] at hcol
    simp only [List.nil_append] at hcol
    exact WireRow.row_category r hr col hcol
  · intro p Rs b1 h R hR col hcol
    obtain ⟨_, rs, hrs, _, hout⟩ := readRows_ok h
    rw [hout] at hR
    simp only [List.nil_append, List.mem_map] at hR
    obtain ⟨r, hr, rfl⟩ := hR
    exact WireRow.row_category r (hrs r hr).1 col hcol

/-- Instance of C6: under the constants `wire`, a row-key value with the
variant-type byte 1 of Double is rejected with `CorruptedResponse`, and the key
column of the accepted `sampleFrame` is an Integer. -/
theorem readPrimaryKeyValue_rejects_witness :
    wire.WF
    ∧ (impl.readPrimaryKeyValue wire {} 0
        (wire.kTag_CellValue :: ([0, 0, 0, 0] ++ (1 :: [1, 0, 0, 0, 0, 0, 0, 0])))).IsCorrupted
    ∧ (∀ col ∈ sampleRow.mPkey, col.mValue.mCategory = .kInteger
        ∨ col.mValue.mCategory = .kString ∨ col.mValue.mCategory = .kBinary) :=
  ⟨by decide,
    (readPrimaryKeyValue_rejects wire (by decide)).1 {} 0 [0, 0, 0, 0] 1
      [1, 0, 0, 0, 0, 0, 0, 0] (by decide) (by decide) (by decide) (by decide),
    (readPrimaryKeyValue_rejects wire (by decide)).2.2.2.2.1 sampleFrame sampleRow []
      (by set_option maxRecDepth 100000 in decide)⟩

/-- C7: two inputs that differ only in the 4 placeholder bytes that follow
`CellValue` tags give the public `readRow` the same outcome: the same error, or
success with equal rows; and `readPrimaryKeyValue` and `readAttrValue` return
the same value, the same checksum and the same cursor whatever the 4
placeholder bytes are. -/
theorem readRow_placeholder_irrelevant (c : Consts) (hc : c.WF) :
    (∀ (out : Row) (p q : List Byte), PlaceholderVariant c p q →
        (readRow c out p).outcome = (readRow c out q).outcome)
    ∧ (∀ (out : PrimaryKeyValue) (chk : Nat) (ph ph1 rest : List Byte),
        ph.length = 4 → ph1.length = 4 →
        impl.readPrimaryKeyValue c out chk (c.kTag_CellValue :: (ph ++ rest))
          = impl.readPrimaryKeyValue c out chk (c.kTag_CellValue :: (ph1 ++ rest)))
    ∧ (∀ (out : AttributeValue) (chk : Nat) (ph ph1 rest : List Byte),
        ph.length = 4 → ph1.length = 4 →
        impl.readAttrValue c out chk (c.kTag_CellValue :: (ph ++ rest))
          = impl.readAttrValue c out chk (c.kTag_CellValue :: (ph1 ++ rest))) :=
  ⟨fun out p q h => readRow_placeholderVariant c hc out p q h,
    fun out chk ph ph1 rest h h1 => readPrimaryKeyValue_placeholder c out chk ph ph1 rest h h1,
    fun out chk ph ph1 rest h h1 => readAttrValue_placeholder c out chk ph ph1 rest h h1⟩

/-- Instance of C7: `sampleFrame` with the placeholder `[1, 2, 3, 4]` in its key
cell has the outcome of `sampleFrame`, the row `sampleRow`. -/
theorem readRow_placeholder_irrelevant_witness :
    wire.WF
    ∧ (readRow wire {} sampleFrame).outcome
        = (readRow wire {} (sampleFrame.take 14 ++ ([1, 2, 3, 4] ++ sampleFrame.drop 18))).outcome
    ∧ (readRow wire {} sampleFrame).outcome = .ok sampleRow :=
  ⟨by decide,
    (readRow_placeholder_irrelevant wire (by decide)).1 {} sampleFrame
      (sampleFrame.take 14 ++ ([1, 2, 3, 4] ++ sampleFrame.drop 18))
      (Relation.ReflTransGen.single
        ⟨sampleFrame.take 14, [0, 0, 0, 0], [1, 2, 3, 4], sampleFrame.drop 18,
          ⟨[], none, [0x70, 0x6B], by simp, by simp, by decide, by decide⟩,
          rfl, rfl, by decide, rfl⟩),
    by set_option maxRecDepth 100000 in decide⟩

/-- Counterexample to C10 as stated: the input that holds the header and no row
is accepted by `readRows`, which appends no row. -/
theorem readRows_header_only :
    frameBytes wire [] = [0x75, 0, 0, 0] ∧ readRows wire [] [0x75, 0, 0, 0] = .ok [] [] := by
  refine ⟨by decide, ?_⟩
  set_option maxRecDepth 100000 in
  decide

/-- C10 (amended): the public `readRows` accepts an input only if it consists of
the 4-byte little-endian header followed by zero or more rows, each with its
stored checksums equal to the recomputed ones; it accepts every such input and
appends the decoded rows to the output; the input that holds the header and no
row is accepted and appends nothing. -/
theorem readRows_accepts (c : Consts) (hc : c.WF) (out : List Row) :
    (∀ (p : List Byte) (out1 : List Row) (b1 : List Byte), readRows c out p = .ok out1 b1 →
      b1 = [] ∧ ∃ rs : List WireRow, (∀ r ∈ rs, r.WF ∧ r.ChecksumsOk c)
        ∧ p = leBytes 4 c.kHeader ++ (rs.map (WireRow.bytes c)).flatten
        ∧ out1 = out ++ rs.map WireRow.row)
    ∧ (∀ rs : List WireRow, (∀ r ∈ rs, r.WF ∧ r.ChecksumsOk c) →
        readRows c out (leBytes 4 c.kHeader ++ (rs.map (WireRow.bytes c)).flatten)
          = .ok (out ++ rs.map WireRow.row) [])
    ∧ readRows c out (leBytes 4 c.kHeader) = .ok out [] := by
  refine ⟨?_, ?_, ?_⟩
  · intro p out1 b1 h
    obtain ⟨hb1, rs, hrs, hp, hout⟩ := readRows_ok h
    exact ⟨hb1, rs, hrs, hp, hout⟩
  · intro rs hrs
    exact readRows_frameBytes c hc out rs hrs
  · have h := readRows_frameBytes c hc out [] (by simp)
    simpa [frameBytes] using h

/-- Instance of C10 (amended): under the constants `wire`, `readRows` accepts
the header alone, the one-row frame `sampleFrame`, and the frame of two rows
`sampleWire`. -/
theorem readRows_accepts_witness :
    wire.WF
    ∧ readRows wire [] (leBytes 4 wire.kHeader) = .ok [] []
    ∧ readRows wire [] (leBytes 4 wire.kHeader
        ++ ([sampleWire, sampleWire].map (WireRow.bytes wire)).flatten)
      = .ok ([] ++ [sampleWire, sampleWire].map WireRow.row) [] :=
  ⟨by decide, (readRows_accepts wire (by decide) []).2.2,
    (readRows_accepts wire (by decide) []).2.1 [sampleWire, sampleWire]
      (by set_option maxRecDepth 100000 in decide)⟩

/-! ## Lemmas on validation -/

@[simp] theorem onlyInvalid_ok : Verdict.ok.OnlyInvalid := trivial

@[simp] theorem onlyInvalid_assertFailed : Verdict.assertFailed.OnlyInvalid := trivial

@[simp] theorem onlyInvalid_invalid (msg : String) : (invalid msg).OnlyInvalid := rfl

theorem onlyInvalid_andThen {v k : Verdict} (hv : v.OnlyInvalid) (hk : k.OnlyInvalid) :
    (v.andThen k).OnlyInvalid := by
  cases v with
  | ok => exact hk
  | error e => exact hv
  | assertFailed => trivial

theorem onlyInvalid_forEach {α : Type} {body : α → Verdict} (l : List α)
    (h : ∀ x ∈ l, (body x).OnlyInvalid) : (Verdict.forEach body l).OnlyInvalid := by
  induction l with
  | nil => trivial
  | cons x xs ih =>
    exact onlyInvalid_andThen (h x (List.mem_cons_self _ _))
      (ih fun y hy => h y (List.mem_cons_of_mem _ hy))

theorem onlyInvalid_mapMessage {v : Verdict} (f : String → String) (hv : v.OnlyInvalid) :
    (v.mapMessage f).OnlyInvalid := by
  cases v with
  | ok => trivial
  | error e => exact hv
  | assertFailed => trivial

theorem onlyInvalid_iff (v : Verdict) :
    v.OnlyInvalid ↔ ∀ e, v = .error e → e.code = .kPredefined_OTSParameterInvalid := by
  cases v with
  | ok => simp [Verdict.OnlyInvalid]
  | error e => simp [Verdict.OnlyInvalid]
  | assertFailed => simp [Verdict.OnlyInvalid]

theorem endpoint_onlyInvalid (x : Endpoint) : x.validate.OnlyInvalid := by
  unfold Endpoint.validate
  split_ifs <;> simp

theorem credential_onlyInvalid (x : Credential) : x.validate.OnlyInvalid := by
  unfold Credential.validate
  split_ifs <;> simp

theorem tracker_onlyInvalid (x : Tracker) : x.validate.OnlyInvalid := trivial

theorem clientOptions_onlyInvalid (x : ClientOptions) : x.validate.OnlyInvalid := by
  unfold ClientOptions.validate
  split_ifs <;> simp

theorem primaryKeyColumnSchema_onlyInvalid (x : PrimaryKeyColumnSchema) :
    x.validate.OnlyInvalid := by
  unfold PrimaryKeyColumnSchema.validate
  split_ifs <;> (try split) <;> (try split_ifs) <;> simp

theorem schema_onlyInvalid (x : Schema) : (Schema.validate x).OnlyInvalid := by
  unfold Schema.validate
  split_ifs
  · simp
  · exact onlyInvalid_forEach _ fun c _ => primaryKeyColumnSchema_onlyInvalid c

theorem primaryKeyValue_onlyInvalid (x : PrimaryKeyValue) : x.validate.OnlyInvalid := by
  unfold PrimaryKeyValue.validate
  split_ifs <;> simp

theorem primaryKeyColumn_onlyInvalid (x : PrimaryKeyColumn) : x.validate.OnlyInvalid := by
  unfold PrimaryKeyColumn.validate
  split_ifs
  · simp
  · exact onlyInvalid_mapMessage _ (primaryKeyValue_onlyInvalid _)

theorem primaryKey_onlyInvalid (x : PrimaryKey) : (PrimaryKey.validate x).OnlyInvalid := by
  unfold PrimaryKey.validate
  split_ifs
  · simp
  · exact onlyInvalid_forEach _ fun c _ => primaryKeyColumn_onlyInvalid c

theorem tableMeta_onlyInvalid (x : TableMeta) : x.validate.OnlyInvalid := by
  unfold TableMeta.validate
  split_ifs
  · simp
  · exact schema_onlyInvalid _

theorem capacityUnit_onlyInvalid (x : CapacityUnit) : x.validate.OnlyInvalid := by
  unfold CapacityUnit.validate
  apply onlyInvalid_andThen <;> split <;> (try split_ifs) <;> simp

theorem tableOptions_onlyInvalid (x : TableOptions) : x.validate.OnlyInvalid := by
  unfold TableOptions.validate
  refine onlyInvalid_andThen ?_ (onlyInvalid_andThen ?_ (onlyInvalid_andThen ?_
    (onlyInvalid_andThen ?_ ?_)))
  · split
    · refine onlyInvalid_andThen (capacityUnit_onlyInvalid _) ?_
      split_ifs <;> simp
    · simp
  all_goals (split <;> (try split_ifs) <;> simp)

theorem attributeValue_onlyInvalid (x : AttributeValue) : x.validate.OnlyInvalid := by
  unfold AttributeValue.validate
  split_ifs
  · simp
  · split
    · simp
    · split_ifs <;> simp
  · simp

theorem attribute_onlyInvalid (x : Attribute) : x.validate.OnlyInvalid := by
  unfold Attribute.validate
  split_ifs
  · simp
  · refine onlyInvalid_andThen (onlyInvalid_mapMessage _ (attributeValue_onlyInvalid _)) ?_
    split <;> (try split_ifs) <;> simp

theorem row_onlyInvalid (x : Row) : x.validate.OnlyInvalid := by
  unfold Row.validate
  exact onlyInvalid_andThen (primaryKey_onlyInvalid _)
    (onlyInvalid_forEach _ fun a _ => attribute_onlyInvalid a)

theorem timeRange_onlyInvalid (x : TimeRange) : x.validate.OnlyInvalid := by
  unfold TimeRange.validate
  split_ifs <;> simp

theorem validateColumns_onlyInvalid (l u : List PrimaryKeyColumn) :
    (Split.validateColumns l u).OnlyInvalid := by
  induction l generalizing u with
  | nil => simp [Split.validateColumns]
  | cons x xs ih =>
    cases u with
    | nil => simp [Split.validateColumns]
    | cons y ys =>
      unfold Split.validateColumns
      split_ifs
      · simp
      · simp
      · exact ih ys

theorem split_onlyInvalid (x : Split) : x.validate.OnlyInvalid := by
  unfold Split.validate
  split
  · simp
  · simp
  · refine onlyInvalid_andThen (primaryKey_onlyInvalid _)
      (onlyInvalid_andThen (primaryKey_onlyInvalid _) ?_)
    split_ifs
    · simp
    · refine onlyInvalid_andThen (validateColumns_onlyInvalid _ _) ?_
      split
      · simp
      · split_ifs <;> simp

theorem singleColumnCondition_onlyInvalid (x : SingleColumnCondition) :
    x.validate.OnlyInvalid := by
  unfold SingleColumnCondition.validate
  split
  · simp
  · refine onlyInvalid_andThen (attributeValue_onlyInvalid _) ?_
    split <;> simp

mutual
theorem columnCondition_onlyInvalid : ∀ c : ColumnCondition, c.validate.OnlyInvalid
  | .kSingle c => by
    rw [ColumnCondition.validate]
    exact singleColumnCondition_onlyInvalid c
  | .kComposite _ mChildren => by
    rw [ColumnCondition.validate]
    exact compositeColumnCondition_onlyInvalid mChildren
theorem compositeColumnCondition_onlyInvalid :
    ∀ l : List (Option ColumnCondition), (CompositeColumnCondition.validate l).OnlyInvalid
  | [] => by
    rw [CompositeColumnCondition.validate]
    trivial
  | none :: _ => by
    rw [CompositeColumnCondition.validate]
    exact onlyInvalid_invalid _
  | some c :: rest => by
    rw [CompositeColumnCondition.validate]
    exact onlyInvalid_andThen (columnCondition_onlyInvalid c)
      (compositeColumnCondition_onlyInvalid rest)
end

theorem condition_onlyInvalid (x : Condition) : x.validate.OnlyInvalid := by
  unfold Condition.validate
  split
  · exact columnCondition_onlyInvalid _
  · simp

theorem rowChange_onlyInvalid (x : RowChange) : x.validate.OnlyInvalid := by
  unfold RowChange.validate
  split
  · simp
  · refine onlyInvalid_andThen (primaryKey_onlyInvalid _)
      (onlyInvalid_andThen (onlyInvalid_forEach _ fun c _ => ?_) (condition_onlyInvalid _))
    split <;> simp

theorem rowPutChange_onlyInvalid (x : RowPutChange) : x.validate.OnlyInvalid := by
  unfold RowPutChange.validate
  exact onlyInvalid_andThen (rowChange_onlyInvalid _)
    (onlyInvalid_forEach _ fun a _ => attribute_onlyInvalid a)

theorem update_onlyInvalid (x : RowUpdateChange.Update) : x.validate.OnlyInvalid := by
  unfold RowUpdateChange.Update.validate
  split
  · simp
  · refine onlyInvalid_andThen ?_ ?_
    · split
      · exact attributeValue_onlyInvalid _
      · simp
    · split <;> (try split) <;> (try split) <;> simp

theorem rowUpdateChange_onlyInvalid (x : RowUpdateChange) : x.validate.OnlyInvalid := by
  unfold RowUpdateChange.validate
  exact onlyInvalid_andThen (rowChange_onlyInvalid _)
    (onlyInvalid_forEach _ fun a _ => update_onlyInvalid a)

theorem rowDeleteChange_onlyInvalid (x : RowDeleteChange) : x.validate.OnlyInvalid := by
  unfold RowDeleteChange.validate
  exact onlyInvalid_andThen (rowChange_onlyInvalid _) onlyInvalid_ok

theorem optionRow_onlyInvalid (r : Option Row) :
    (match r with
      | some row => row.validate
      | none => Verdict.ok).OnlyInvalid := by
  cases r with
  | none => trivial
  | some row => exact row_onlyInvalid row

theorem queryCriterion_onlyInvalid (x : QueryCriterion) : x.validate.OnlyInvalid := by
  unfold QueryCriterion.validate
  split
  · simp
  · refine onlyInvalid_andThen (onlyInvalid_forEach _ fun c _ => ?_) ?_
    · split <;> simp
    · split
      · simp
      · split
        · simp
        · refine onlyInvalid_andThen ?_ ?_
          · split
            · exact timeRange_onlyInvalid _
            · simp
          · split
            · exact columnCondition_onlyInvalid _
            · simp

theorem pointQueryCriterion_onlyInvalid (x : PointQueryCriterion) :
    x.validate.OnlyInvalid := by
  unfold PointQueryCriterion.validate
  exact onlyInvalid_andThen (queryCriterion_onlyInvalid _)
    (onlyInvalid_andThen (primaryKey_onlyInvalid _) onlyInvalid_ok)

theorem rangeQueryCriterion_onlyInvalid (x : RangeQueryCriterion) :
    x.validate.OnlyInvalid := by
  unfold RangeQueryCriterion.validate
  refine onlyInvalid_andThen (queryCriterion_onlyInvalid _)
    (onlyInvalid_andThen (primaryKey_onlyInvalid _)
      (onlyInvalid_andThen (primaryKey_onlyInvalid _) ?_))
  split
  · simp
  · split
    · simp
    · split
      · simp
      · refine onlyInvalid_andThen ?_ ?_
        · split
          · simp
          · split <;> split <;> simp
        · split
          · split <;> simp
          · simp

theorem multiPointQueryCriterion_onlyInvalid (x : MultiPointQueryCriterion) :
    x.validate.OnlyInvalid := by
  unfold MultiPointQueryCriterion.validate
  exact onlyInvalid_andThen (queryCriterion_onlyInvalid _)
    (onlyInvalid_forEach _ fun k _ => primaryKey_onlyInvalid _)

theorem validateRowResult_onlyInvalid
    (res : PairWithUserData (Result (Option Row) OTSError)) :
    (validateRowResult res).OnlyInvalid := by
  unfold validateRowResult
  split
  · split
    · simp
    · simp
    · exact row_onlyInvalid _
  · simp

theorem validateSplitPoint_onlyInvalid (schema : Schema) (pk : PrimaryKey) :
    (CreateTableRequest.validateSplitPoint schema pk).OnlyInvalid := by
  unfold CreateTableRequest.validateSplitPoint
  split
  · simp
  · split
    · simp
    · split
      · simp
      · split
        · simp
        · split
          · simp
          · split <;> simp

theorem createTableRequest_onlyInvalid (x : CreateTableRequest) : x.validate.OnlyInvalid := by
  unfold CreateTableRequest.validate
  refine onlyInvalid_andThen (tableMeta_onlyInvalid _)
    (onlyInvalid_andThen (tableOptions_onlyInvalid _) ?_)
  split
  · simp
  · split
    · simp
    · simp
    · split
      · simp
      · split
        · simp
        · split
          · simp
          · refine onlyInvalid_andThen
              (onlyInvalid_forEach _ fun _ _ => primaryKey_onlyInvalid _)
              (onlyInvalid_andThen (onlyInvalid_forEach _ fun _ _ => ?_)
                (onlyInvalid_forEach _ fun _ _ => validateSplitPoint_onlyInvalid _ _))
            split <;> simp

theorem batchWriterConfig_onlyInvalid (x : BatchWriterConfig) : x.validate.OnlyInvalid := by
  unfold BatchWriterConfig.validate
  split_ifs <;> simp

theorem rowResponse_onlyInvalid (cu : CapacityUnit) (r : Option Row) :
    (cu.validate.andThen
      (match r with
        | some row => row.validate
        | none => Verdict.ok)).OnlyInvalid :=
  onlyInvalid_andThen (capacityUnit_onlyInvalid _) (optionRow_onlyInvalid r)

theorem validated_onlyInvalid (x : Validated) : x.validate.OnlyInvalid := by
  cases x with
  | ofEndpoint x => exact endpoint_onlyInvalid x
  | ofCredential x => exact credential_onlyInvalid x
  | ofTracker x => exact tracker_onlyInvalid x
  | ofClientOptions x => exact clientOptions_onlyInvalid x
  | ofPrimaryKeyColumnSchema x => exact primaryKeyColumnSchema_onlyInvalid x
  | ofSchema x => exact schema_onlyInvalid x
  | ofPrimaryKeyValue x => exact primaryKeyValue_onlyInvalid x
  | ofPrimaryKeyColumn x => exact primaryKeyColumn_onlyInvalid x
  | ofPrimaryKey x => exact primaryKey_onlyInvalid x
  | ofTableMeta x => exact tableMeta_onlyInvalid x
  | ofTableOptions x => exact tableOptions_onlyInvalid x
  | ofCapacityUnit x => exact capacityUnit_onlyInvalid x
  | ofAttributeValue x => exact attributeValue_onlyInvalid x
  | ofAttribute x => exact attribute_onlyInvalid x
  | ofRow x => exact row_onlyInvalid x
  | ofTimeRange x => exact timeRange_onlyInvalid x
  | ofSplit x => exact split_onlyInvalid x
  | ofCreateTableRequest x => exact createTableRequest_onlyInvalid x
  | ofCreateTableResponse x => trivial
  | ofListTableRequest x => trivial
  | ofListTableResponse x => trivial
  | ofDeleteTableRequest x =>
    show (DeleteTableRequest.validate x).OnlyInvalid
    unfold DeleteTableRequest.validate
    split <;> simp
  | ofDeleteTableResponse x => trivial
  | ofDescribeTableRequest x =>
    show (DescribeTableRequest.validate x).OnlyInvalid
    unfold DescribeTableRequest.validate
    split <;> simp
  | ofDescribeTableResponse x =>
    exact onlyInvalid_andThen (tableMeta_onlyInvalid _)
      (onlyInvalid_andThen (tableOptions_onlyInvalid _)
        (onlyInvalid_forEach _ fun _ _ => primaryKey_onlyInvalid _))
  | ofUpdateTableRequest x =>
    show (UpdateTableRequest.validate x).OnlyInvalid
    unfold UpdateTableRequest.validate
    split
    · simp
    · exact onlyInvalid_andThen (tableOptions_onlyInvalid _) onlyInvalid_ok
  | ofUpdateTableResponse x => trivial
  | ofComputeSplitsBySizeRequest x =>
    show (ComputeSplitsBySizeRequest.validate x).OnlyInvalid
    unfold ComputeSplitsBySizeRequest.validate
    split
    · simp
    · split <;> simp
  | ofComputeSplitsBySizeResponse x =>
    exact onlyInvalid_andThen (capacityUnit_onlyInvalid _)
      (onlyInvalid_andThen (schema_onlyInvalid _)
        (onlyInvalid_forEach _ fun _ _ => split_onlyInvalid _))
  | ofCondition x => exact condition_onlyInvalid x
  | ofSingleColumnCondition x => exact singleColumnCondition_onlyInvalid x
  | ofCompositeColumnCondition _ mChildren =>
    exact compositeColumnCondition_onlyInvalid mChildren
  | ofRowChange x => exact rowChange_onlyInvalid x
  | ofRowPutChange x => exact rowPutChange_onlyInvalid x
  | ofPutRowRequest x => exact rowPutChange_onlyInvalid _
  | ofPutRowResponse x => exact rowResponse_onlyInvalid _ _
  | ofQueryCriterion x => exact queryCriterion_onlyInvalid x
  | ofPointQueryCriterion x => exact pointQueryCriterion_onlyInvalid x
  | ofGetRowRequest x => exact pointQueryCriterion_onlyInvalid _
  | ofGetRowResponse x => exact rowResponse_onlyInvalid _ _
  | ofRangeQueryCriterion x => exact rangeQueryCriterion_onlyInvalid x
  | ofGetRangeRequest x =>
    exact onlyInvalid_andThen (rangeQueryCriterion_onlyInvalid _) onlyInvalid_ok
  | ofGetRangeResponse x =>
    refine onlyInvalid_andThen (capacityUnit_onlyInvalid _)
      (onlyInvalid_andThen (onlyInvalid_forEach _ fun _ _ => row_onlyInvalid _) ?_)
    split
    · exact onlyInvalid_andThen (primaryKey_onlyInvalid _) onlyInvalid_ok
    · trivial
  | ofUpdate x => exact update_onlyInvalid x
  | ofRowUpdateChange x => exact rowUpdateChange_onlyInvalid x
  | ofUpdateRowRequest x =>
    exact onlyInvalid_andThen (rowUpdateChange_onlyInvalid _) onlyInvalid_ok
  | ofUpdateRowResponse x => exact rowResponse_onlyInvalid _ _
  | ofRowDeleteChange x => exact rowDeleteChange_onlyInvalid x
  | ofDeleteRowRequest x =>
    exact onlyInvalid_andThen (rowDeleteChange_onlyInvalid _) onlyInvalid_ok
  | ofDeleteRowResponse x => exact rowResponse_onlyInvalid _ _
  | ofMultiPointQueryCriterion x => exact multiPointQueryCriterion_onlyInvalid x
  | ofBatchGetRowRequest x =>
    exact onlyInvalid_forEach _ fun _ _ => multiPointQueryCriterion_onlyInvalid _
  | ofBatchGetRowResponse x =>
    exact onlyInvalid_andThen (capacityUnit_onlyInvalid _)
      (onlyInvalid_forEach _ fun _ _ => validateRowResult_onlyInvalid _)
  | ofBatchWriteRowRequest x =>
    exact onlyInvalid_andThen (onlyInvalid_forEach _ fun _ _ => rowPutChange_onlyInvalid _)
      (onlyInvalid_andThen (onlyInvalid_forEach _ fun _ _ => rowUpdateChange_onlyInvalid _)
        (onlyInvalid_forEach _ fun _ _ => rowDeleteChange_onlyInvalid _))
  | ofBatchWriteRowResponse x =>
    exact onlyInvalid_andThen (capacityUnit_onlyInvalid _)
      (onlyInvalid_andThen (onlyInvalid_forEach _ fun _ _ => validateRowResult_onlyInvalid _)
        (onlyInvalid_andThen
          (onlyInvalid_forEach _ fun _ _ => validateRowResult_onlyInvalid _)
          (onlyInvalid_forEach _ fun _ _ => validateRowResult_onlyInvalid _)))
  | ofBatchWriterConfig x => exact batchWriterConfig_onlyInvalid x

/-! ## The claims on validation -/

/-- C11: every error that `validate()` returns, on a request, a response, a value
of the data model or a `BatchWriterConfig`, has the code `OTSParameterInvalid`.
`Validated` ranges over the objects of all 56 classes with a `validate()`; of
`ColumnCondition` over the two subclasses that the sources define. -/
theorem validate_code (x : Validated) (e : OTSError) (h : x.validate = .error e) :
    e.code = .kPredefined_OTSParameterInvalid :=
  (onlyInvalid_iff _).1 (validated_onlyInvalid x) e h

/-- Instance of C11: a `DeleteTableRequest` without a table name is refused, and
the code of the error is `OTSParameterInvalid`. -/
theorem validate_code_witness :
    (Validated.ofDeleteTableRequest {}).validate
        = .error { code := .kPredefined_OTSParameterInvalid,
                   message := "Table name must be nonempty." }
    ∧ ({ code := .kPredefined_OTSParameterInvalid,
         message := "Table name must be nonempty." } : OTSError).code
        = .kPredefined_OTSParameterInvalid :=
  ⟨by decide,
    validate_code (.ofDeleteTableRequest {})
      { code := .kPredefined_OTSParameterInvalid, message := "Table name must be nonempty." }
      (by decide)⟩

/-! ## The asynchronous client -/

theorem resetResponse_eq_default (kAction : Action) (r : ApiTraits.ApiResponse kAction) :
    ApiTraits.resetResponse kAction r = ApiTraits.defaultResponse kAction := by
  cases kAction <;> rfl

/-- C12: in `go`, for every action, request and `build`: when `build` returns an
error, the only step of `go` is one call of the user callback, with the request
of the context, that error and a default-constructed response, which is the
response that `reset` leaves, and `issue()` is not called; when `build` returns
no error, the only step is one call of `issue()` and the callback is not
called. -/
theorem go_steps (kAction : Action)
    (build : Context kAction → Option OTSError × Context kAction)
    (tracker : Tracker) (req : ApiTraits.ApiRequest kAction) :
    (∀ err : OTSError, (build { mTracker := tracker, mApiRequest := req }).1 = some err →
      go kAction build tracker req
          = [GoStep.userCb (build { mTracker := tracker, mApiRequest := req }).2.mApiRequest
              (some err) (ApiTraits.defaultResponse kAction)]
        ∧ (∀ r, ApiTraits.resetResponse kAction r = ApiTraits.defaultResponse kAction)
        ∧ (go kAction build tracker req).countP GoStep.isUserCb = 1
        ∧ (go kAction build tracker req).countP GoStep.isIssue = 0)
    ∧ ((build { mTracker := tracker, mApiRequest := req }).1 = none →
      go kAction build tracker req
          = [GoStep.issue (build { mTracker := tracker, mApiRequest := req }).2]
        ∧ (go kAction build tracker req).countP GoStep.isIssue = 1
        ∧ (go kAction build tracker req).countP GoStep.isUserCb = 0) := by
  refine ⟨fun err h => ?_, fun h => ?_⟩
  · have hgo : go kAction build tracker req
        = [GoStep.userCb (build { mTracker := tracker, mApiRequest := req }).2.mApiRequest
            (some err) (ApiTraits.defaultResponse kAction)] := by
      simp only [go, h]
    refine ⟨hgo, resetResponse_eq_default kAction, ?_, ?_⟩ <;> rw [hgo] <;> rfl
  · have hgo : go kAction build tracker req
        = [GoStep.issue (build { mTracker := tracker, mApiRequest := req }).2] := by
      simp only [go, h]
    refine ⟨hgo, ?_, ?_⟩ <;> rw [hgo] <;> rfl

/-- Instance of C12, with a `build` that only validates: a `DeleteTableRequest`
without a table name goes to the callback with the error of `validate` and an
empty response; one with the table name `t` goes to `issue()`. -/
theorem go_steps_witness :
    go .kApi_DeleteTable (validateOnly .kApi_DeleteTable) {} ({} : DeleteTableRequest)
        = [GoStep.userCb ({} : DeleteTableRequest)
            (some { code := .kPredefined_OTSParameterInvalid,
                    message := "Table name must be nonempty." })
            ({ mRequestId := [], mTraceId := [] } : DeleteTableResponse)]
    ∧ go .kApi_DeleteTable (validateOnly .kApi_DeleteTable) {}
          ({ mTable := [0x74] } : DeleteTableRequest)
        = [GoStep.issue
            { mTracker := {}, mApiRequest := ({ mTable := [0x74] } : DeleteTableRequest) }] :=
  ⟨((go_steps .kApi_DeleteTable (validateOnly .kApi_DeleteTable) {}
        ({} : DeleteTableRequest)).1
      { code := .kPredefined_OTSParameterInvalid, message := "Table name must be nonempty." }
      rfl).1,
    ((go_steps .kApi_DeleteTable (validateOnly .kApi_DeleteTable) {}
        ({ mTable := [0x74] } : DeleteTableRequest)).2 rfl).1⟩

/-! ## Lemmas on `TRY`, the loops and the verdicts -/

@[simp] theorem andThen_ok_left (k : Verdict) : Verdict.ok.andThen k = k := rfl

@[simp] theorem andThen_error_left (e : OTSError) (k : Verdict) :
    (Verdict.error e).andThen k = .error e := rfl

@[simp] theorem andThen_assertFailed_left (k : Verdict) :
    Verdict.assertFailed.andThen k = .assertFailed := rfl

@[simp] theorem andThen_ok_right (v : Verdict) : v.andThen .ok = v := by
  cases v <;> rfl

theorem andThen_eq_ok {v k : Verdict} : v.andThen k = .ok ↔ v = .ok ∧ k = .ok := by
  cases v <;> simp

@[simp] theorem invalid_ne_ok (msg : String) : invalid msg ≠ .ok := by
  simp [invalid]

@[simp] theorem invalid_ne_assertFailed (msg : String) : invalid msg ≠ .assertFailed := by
  simp [invalid]

@[simp] theorem forEach_nil {α : Type} (body : α → Verdict) :
    Verdict.forEach body [] = .ok := rfl

@[simp] theorem forEach_cons {α : Type} (body : α → Verdict) (x : α) (xs : List α) :
    Verdict.forEach body (x :: xs) = (body x).andThen (Verdict.forEach body xs) := rfl

theorem forEach_eq_ok {α : Type} {body : α → Verdict} {l : List α} :
    Verdict.forEach body l = .ok ↔ ∀ x ∈ l, body x = .ok := by
  induction l with
  | nil => simp
  | cons x xs ih => simp [andThen_eq_ok, ih]

theorem mapMessage_eq_ok {v : Verdict} {f : String → String} :
    v.mapMessage f = .ok ↔ v = .ok := by
  cases v <;> simp [Verdict.mapMessage]

@[simp] theorem returns_ok : Verdict.ok.Returns := trivial

@[simp] theorem returns_error (e : OTSError) : (Verdict.error e).Returns := trivial

@[simp] theorem returns_invalid (msg : String) : (invalid msg).Returns := trivial

theorem returns_iff (v : Verdict) : v.Returns ↔ v ≠ .assertFailed := by
  cases v <;> simp [Verdict.Returns]

theorem returns_andThen {v k : Verdict} (hv : v.Returns) (hk : k.Returns) :
    (v.andThen k).Returns := by
  cases v with
  | ok => exact hk
  | error e => trivial
  | assertFailed => exact hv

theorem returns_forEach {α : Type} {body : α → Verdict} (l : List α)
    (h : ∀ x ∈ l, (body x).Returns) : (Verdict.forEach body l).Returns := by
  induction l with
  | nil => trivial
  | cons x xs ih =>
    exact returns_andThen (h x (List.mem_cons_self _ _))
      (ih fun y hy => h y (List.mem_cons_of_mem _ hy))

theorem returns_mapMessage {v : Verdict} (f : String → String) (hv : v.Returns) :
    (v.mapMessage f).Returns := by
  cases v with
  | ok => trivial
  | error e => trivial
  | assertFailed => exact hv

/-- A verdict that is neither `ok` nor a failed assertion is an error. -/
theorem error_of_returns_of_ne_ok {v : Verdict} (hr : v.Returns) (hne : v ≠ .ok) :
    ∃ e, v = .error e := by
  cases v with
  | ok => exact absurd rfl hne
  | error e => exact ⟨e, rfl⟩
  | assertFailed => exact hr.elim

theorem primaryKeyValue_returns (x : PrimaryKeyValue) : x.validate.Returns := by
  unfold PrimaryKeyValue.validate
  split <;> simp

theorem primaryKeyColumn_returns (x : PrimaryKeyColumn) : x.validate.Returns := by
  unfold PrimaryKeyColumn.validate
  split
  · simp
  · exact returns_mapMessage _ (primaryKeyValue_returns _)

theorem primaryKey_returns (x : PrimaryKey) : (PrimaryKey.validate x).Returns := by
  unfold PrimaryKey.validate
  split
  · simp
  · exact returns_forEach _ fun c _ => primaryKeyColumn_returns c

theorem attributeValue_returns (x : AttributeValue) : x.validate.Returns := by
  unfold AttributeValue.validate AttributeValue.floatPoint
  split
  · simp
  · split
    · rename_i h
      simp only [h, if_true]
      split <;> (try split) <;> simp
    · simp

theorem attribute_returns (x : Attribute) : x.validate.Returns := by
  unfold Attribute.validate
  split
  · simp
  · refine returns_andThen (returns_mapMessage _ (attributeValue_returns _)) ?_
    split <;> (try split) <;> (try split) <;> simp

theorem singleColumnCondition_returns (x : SingleColumnCondition) : x.validate.Returns := by
  unfold SingleColumnCondition.validate
  split
  · simp
  · refine returns_andThen (attributeValue_returns _) ?_
    split <;> simp

mutual
theorem columnCondition_returns : ∀ c : ColumnCondition, c.validate.Returns
  | .kSingle c => by
    rw [ColumnCondition.validate]
    exact singleColumnCondition_returns c
  | .kComposite _ mChildren => by
    rw [ColumnCondition.validate]
    exact compositeColumnCondition_returns mChildren
theorem compositeColumnCondition_returns :
    ∀ l : List (Option ColumnCondition), (CompositeColumnCondition.validate l).Returns
  | [] => by
    rw [CompositeColumnCondition.validate]
    trivial
  | none :: _ => by
    rw [CompositeColumnCondition.validate]
    exact returns_invalid _
  | some c :: rest => by
    rw [CompositeColumnCondition.validate]
    exact returns_andThen (columnCondition_returns c) (compositeColumnCondition_returns rest)
end

theorem condition_returns (x : Condition) : x.validate.Returns := by
  unfold Condition.validate
  split
  · exact columnCondition_returns _
  · simp

theorem rowChange_returns (x : RowChange) : x.validate.Returns := by
  unfold RowChange.validate
  split
  · simp
  · refine returns_andThen (primaryKey_returns _)
      (returns_andThen (returns_forEach _ fun c _ => ?_) (condition_returns _))
    split <;> simp

/-! ## Row changes -/

theorem isInfinity_iff (v : PrimaryKeyValue) :
    v.isInfinity = true ↔ v.mCategory = .kInfMin ∨ v.mCategory = .kInfMax := by
  unfold PrimaryKeyValue.isInfinity
  cases v.mCategory <;> simp

theorem primaryKey_validate_nil : PrimaryKey.validate [] = invalid "Primary key is required." :=
  rfl

theorem rowChange_ok_iff (c : RowChange) :
    c.validate = .ok ↔
      c.mTable ≠ [] ∧ PrimaryKey.validate c.mPrimaryKey = .ok
        ∧ (∀ col ∈ c.mPrimaryKey, col.mValue.isInfinity = false)
        ∧ c.mCondition.validate = .ok := by
  unfold RowChange.validate
  split
  · rename_i h
    simp [h]
  · rename_i h
    rw [andThen_eq_ok, andThen_eq_ok, forEach_eq_ok]
    refine ⟨fun ⟨h1, h2, h3⟩ => ⟨h, h1, fun col hc => ?_, h3⟩,
      fun ⟨_, h1, h2, h3⟩ => ⟨h1, fun col hc => ?_, h3⟩⟩
    · have := h2 col hc
      by_cases hi : col.mValue.isInfinity = true
      · simp [hi] at this
      · simpa using hi
    · simp [h2 col hc]

theorem rowChange_rejects (c : RowChange)
    (h : c.mTable = [] ∨ c.mPrimaryKey = []
      ∨ ∃ col ∈ c.mPrimaryKey,
          col.mValue.mCategory = .kInfMin ∨ col.mValue.mCategory = .kInfMax) :
    ∃ e, c.validate = .error e := by
  refine error_of_returns_of_ne_ok (rowChange_returns c) fun hok => ?_
  obtain ⟨ht, hpk, hinf, _⟩ := (rowChange_ok_iff c).1 hok
  rcases h with h | h | ⟨col, hmem, hcat⟩
  · exact ht h
  · rw [h, primaryKey_validate_nil] at hpk
    exact invalid_ne_ok _ hpk
  · have h1 := hinf col hmem
    rw [(isInfinity_iff _).2 hcat] at h1
    exact Bool.noConfusion h1

theorem andThen_error_of_left {v : Verdict} (k : Verdict) (h : ∃ e, v = .error e) :
    ∃ e, v.andThen k = .error e := by
  obtain ⟨e, rfl⟩ := h
  exact ⟨e, rfl⟩

/-- C13: a `PutRowRequest`, an `UpdateRowRequest` or a `DeleteRowRequest` whose
table name is empty, or whose primary key has no column, or one of whose
primary-key columns holds `InfMin` or `InfMax`, is refused by `validate()` with
an error. `c` is the `RowChange` part of the row change of the request. -/
theorem write_validate_rejects (c : RowChange)
    (h : c.mTable = [] ∨ c.mPrimaryKey = []
      ∨ ∃ col ∈ c.mPrimaryKey,
          col.mValue.mCategory = .kInfMin ∨ col.mValue.mCategory = .kInfMax) :
    (∀ r : PutRowRequest, r.mRowChange.toRowChange = c → ∃ e, r.validate = .error e)
    ∧ (∀ r : UpdateRowRequest, r.mRowChange.toRowChange = c → ∃ e, r.validate = .error e)
    ∧ (∀ r : DeleteRowRequest, r.mRowChange.toRowChange = c → ∃ e, r.validate = .error e) := by
  refine ⟨fun r hr => ?_, fun r hr => ?_, fun r hr => ?_⟩
  · subst hr
    exact andThen_error_of_left _ (rowChange_rejects _ h)
  · subst hr
    exact andThen_error_of_left _ (andThen_error_of_left _ (rowChange_rejects _ h))
  · subst hr
    exact andThen_error_of_left _ (andThen_error_of_left _ (rowChange_rejects _ h))

/-- Instance of C13: a `PutRowRequest` on table `t` whose key column `k` holds
`InfMin` is refused. -/
theorem write_validate_rejects_witness :
    ∃ e, PutRowRequest.validate
      { mRowChange :=
          { mTable := [0x74]
            mPrimaryKey := [{ mName := [0x6B], mValue := PrimaryKeyValue.toInfMin }] } }
      = .error e :=
  (write_validate_rejects
      { mTable := [0x74]
        mPrimaryKey := [{ mName := [0x6B], mValue := PrimaryKeyValue.toInfMin }] }
      (Or.inr (Or.inr ⟨_, List.mem_singleton.2 rfl, Or.inl rfl⟩))).1 _ rfl

/-! ## Updates and their timestamps -/

/-- C14, evaluated where it fails: `sampleUpdateRowRequest` holds a Put update
whose timestamp is 1 microsecond, no whole multiple of a millisecond, and
`validate()` returns no error; the attribute of the same name, value and
timestamp is refused in a `PutRowRequest`. -/
theorem updateRow_timestamp_unchecked :
    sampleUpdateRowRequest.validate = .ok
    ∧ (∃ u ∈ sampleUpdateRowRequest.mRowChange.mUpdates, ∃ ts, u.mTimestamp = some ts
        ∧ ts.toUsec.tmod kUsecPerMsec ≠ 0)
    ∧ PutRowRequest.validate
        { mRowChange :=
            { toRowChange := sampleUpdateRowRequest.mRowChange.toRowChange
              mAttrs := [{ mName := [0x61], mValue := AttributeValue.toInteger 1,
                           mTimestamp := some { mValue := 1 } }] } }
      = invalid "Timestamp of column \"a\" must be multiple of milliseconds." := by
  refine ⟨?_, ⟨_, List.mem_singleton.2 rfl, _, rfl, by decide⟩, ?_⟩
  · set_option maxRecDepth 100000 in decide
  · set_option maxRecDepth 100000 in decide

/-! ## Attributes and their timestamps -/

theorem tmod_eq_zero_iff (t : Int) : t.tmod kUsecPerMsec = 0 ↔ (1000 : Int) ∣ t :=
  ⟨Int.dvd_of_tmod_eq_zero, Int.tmod_eq_zero_of_dvd⟩

/-- With the truncating division and remainder of C++, a number of microseconds
has a non-negative number of milliseconds and no remainder exactly when it is
non-negative and a multiple of 1000. -/
theorem whole_msec_iff (t : Int) :
    (¬ t.tdiv kUsecPerMsec < 0 ∧ ¬ t.tmod kUsecPerMsec ≠ 0) ↔ (0 ≤ t ∧ (1000 : Int) ∣ t) := by
  rw [not_not, tmod_eq_zero_iff]
  constructor
  · rintro ⟨h1, h2⟩
    refine ⟨?_, h2⟩
    have h3 := Int.tmod_add_tdiv t kUsecPerMsec
    rw [(tmod_eq_zero_iff t).2 h2] at h3
    unfold kUsecPerMsec at h1 h3
    omega
  · rintro ⟨h1, h2⟩
    refine ⟨?_, h2⟩
    have := Int.tdiv_nonneg h1 (show (0 : Int) ≤ kUsecPerMsec by decide)
    omega

theorem attribute_ok_iff (a : Attribute) :
    a.validate = .ok ↔
      a.mName ≠ [] ∧ a.mValue.validate = .ok
        ∧ ∀ ts, a.mTimestamp = some ts → 0 ≤ ts.toUsec ∧ (1000 : Int) ∣ ts.toUsec := by
  unfold Attribute.validate
  split
  · rename_i h
    simp [h]
  · rename_i h
    rw [andThen_eq_ok, mapMessage_eq_ok]
    simp only [ne_eq, h, not_false_eq_true, true_and]
    refine and_congr_right fun _ => ?_
    cases hts : a.mTimestamp with
    | none => simp
    | some ts =>
      simp only [Option.some.injEq, forall_eq']
      rw [← whole_msec_iff]
      unfold UtcTime.toMsec UtcTime.toUsec
      by_cases h1 : ts.mValue.tdiv kUsecPerMsec < 0
      · simp [h1]
      · by_cases h2 : ts.mValue.tmod kUsecPerMsec ≠ 0
        · simp [h1, h2]
        · simp [h1, h2]

/-- C15: a `PutRowRequest` whose table name, primary key and condition pass the
checks of `RowChange::validate` is accepted by `validate()` exactly when each
of its attributes has a non-empty name, a value that `validate()` accepts, and
no timestamp or one of `t` microseconds with `0 ≤ t` and `t` a multiple of
1000. -/
theorem putRow_validate_iff (r : PutRowRequest)
    (h : r.mRowChange.toRowChange.validate = .ok) :
    r.validate = .ok ↔
      ∀ a ∈ r.mRowChange.mAttrs,
        a.mName ≠ [] ∧ a.mValue.validate = .ok
          ∧ ∀ ts, a.mTimestamp = some ts → 0 ≤ ts.toUsec ∧ (1000 : Int) ∣ ts.toUsec := by
  unfold PutRowRequest.validate RowPutChange.validate
  rw [h, andThen_ok_left, forEach_eq_ok]
  exact forall₂_congr fun a _ => attribute_ok_iff a

/-- Instance of C15: `samplePutRowRequest` passes the checks on the row change,
and of its two attributes the second has a timestamp of -1000 microseconds. -/
theorem putRow_validate_iff_witness :
    samplePutRowRequest.mRowChange.toRowChange.validate = .ok
    ∧ (samplePutRowRequest.validate = .ok ↔
        ∀ a ∈ samplePutRowRequest.mRowChange.mAttrs,
          a.mName ≠ [] ∧ a.mValue.validate = .ok
            ∧ ∀ ts, a.mTimestamp = some ts → 0 ≤ ts.toUsec ∧ (1000 : Int) ∣ ts.toUsec)
    ∧ samplePutRowRequest.validate
        = invalid "Timestamp of column \"b\" must be positive." :=
  ⟨by set_option maxRecDepth 100000 in decide,
    putRow_validate_iff samplePutRowRequest (by set_option maxRecDepth 100000 in decide),
    by set_option maxRecDepth 100000 in decide⟩

/-! ## Comparison of primary keys -/

theorem primaryKeyValue_compare_isSome (a b : PrimaryKeyValue)
    (ha : a.mCategory ≠ .kNone) (hb : b.mCategory ≠ .kNone) :
    ∃ r, a.compare b = some r := by
  obtain ⟨ca, ia, sa⟩ := a
  obtain ⟨cb, ib, sb⟩ := b
  simp only at ha hb
  unfold PrimaryKeyValue.compare PrimaryKeyValue.integer PrimaryKeyValue.str
    PrimaryKeyValue.blob
  cases ca <;> cases cb <;> simp at ha hb ⊢
  split <;> (try split) <;> simp

theorem primaryKeyColumn_ok_category (c : PrimaryKeyColumn) (h : c.validate = .ok) :
    c.mValue.mCategory ≠ .kNone := by
  unfold PrimaryKeyColumn.validate at h
  split at h
  · exact absurd h (invalid_ne_ok _)
  · rw [mapMessage_eq_ok] at h
    unfold PrimaryKeyValue.validate at h
    split at h
    · exact absurd h (invalid_ne_ok _)
    · assumption

theorem primaryKeyColumn_ok_name (c : PrimaryKeyColumn) (h : c.validate = .ok) :
    c.mName ≠ [] := by
  unfold PrimaryKeyColumn.validate at h
  split at h
  · exact absurd h (invalid_ne_ok _)
  · assumption

theorem primaryKey_ok_iff (pk : PrimaryKey) :
    PrimaryKey.validate pk = .ok ↔ pk ≠ [] ∧ ∀ c ∈ pk, c.validate = .ok := by
  unfold PrimaryKey.validate
  cases pk with
  | nil => simp
  | cons x xs => simp [andThen_eq_ok, forEach_eq_ok]

theorem compareLoop_isSome (a b : List PrimaryKeyColumn) (hlen : a.length = b.length)
    (ha : ∀ c ∈ a, c.mValue.mCategory ≠ .kNone) (hb : ∀ c ∈ b, c.mValue.mCategory ≠ .kNone) :
    ∃ r, PrimaryKey.compareLoop a b = some r := by
  induction a generalizing b with
  | nil => exact ⟨_, rfl⟩
  | cons x xs ih =>
    cases b with
    | nil => simp at hlen
    | cons y ys =>
      obtain ⟨r, hr⟩ := primaryKeyValue_compare_isSome x.mValue y.mValue
        (ha x (List.mem_cons_self _ _)) (hb y (List.mem_cons_self _ _))
      unfold PrimaryKey.compareLoop
      rw [hr]
      simp only
      split
      · exact ⟨_, rfl⟩
      · exact ih ys (by simpa using hlen) (fun c hc => ha c (List.mem_cons_of_mem _ hc))
          (fun c hc => hb c (List.mem_cons_of_mem _ hc))

theorem primaryKey_compare_isSome (a b : PrimaryKey)
    (ha : PrimaryKey.validate a = .ok) (hb : PrimaryKey.validate b = .ok) :
    ∃ r, PrimaryKey.compare a b = some r := by
  unfold PrimaryKey.compare
  split
  · exact ⟨_, rfl⟩
  · rename_i hlen
    exact compareLoop_isSome a b (by simpa using hlen)
      (fun c hc => primaryKeyColumn_ok_category c (((primaryKey_ok_iff a).1 ha).2 c hc))
      (fun c hc => primaryKeyColumn_ok_category c (((primaryKey_ok_iff b).1 hb).2 c hc))

/-! ## Range queries -/

/-- C16: a `RangeQueryCriterion` whose base fields pass `QueryCriterion::
validate` and whose start and end keys are valid and of the same length, not
zero, is accepted by `validate()` exactly when its limit is absent or positive
and either its direction is `FORWARD` and the start compares `Smaller` or
`Equivalent` to the end, or its direction is `BACKWARD` and the start compares
`Larger` or `Equivalent` to the end; and the comparison does return, so that
`validate()` fails no assertion. -/
theorem rangeQuery_validate_iff (c : RangeQueryCriterion)
    (hq : c.toQueryCriterion.validate = .ok)
    (hs : PrimaryKey.validate c.mInclusiveStart = .ok)
    (he : PrimaryKey.validate c.mExclusiveEnd = .ok)
    (hlen : c.mInclusiveStart.length = c.mExclusiveEnd.length)
    (hne : c.mInclusiveStart.length ≠ 0) :
    (c.validate = .ok ↔
      (c.mLimit = none ∨ ∃ limit, c.mLimit = some limit ∧ 0 < limit)
      ∧ ((c.mDirection = .FORWARD
            ∧ (PrimaryKey.compare c.mInclusiveStart c.mExclusiveEnd = some .kCR_Smaller
              ∨ PrimaryKey.compare c.mInclusiveStart c.mExclusiveEnd = some .kCR_Equivalent))
        ∨ (c.mDirection = .BACKWARD
            ∧ (PrimaryKey.compare c.mInclusiveStart c.mExclusiveEnd = some .kCR_Larger
              ∨ PrimaryKey.compare c.mInclusiveStart c.mExclusiveEnd
                  = some .kCR_Equivalent))))
    ∧ c.validate ≠ .assertFailed := by
  obtain ⟨r, hr⟩ := primaryKey_compare_isSome _ _ hs he
  have hne2 : c.mExclusiveEnd.length ≠ 0 := hlen ▸ hne
  unfold RangeQueryCriterion.validate
  rw [hq, hs, he]
  simp only [andThen_ok_left, hne, hne2, if_false, hlen, ne_eq, not_true_eq_false, hr]
  cases hd : c.mDirection <;> cases r <;> cases hl : c.mLimit <;>
    simp [andThen_eq_ok, Verdict.andThen] <;>
    split <;> simp_all [invalid]

/-- Instance of C16: `sampleRangeQueryCriterion` meets the hypotheses, its start
compares `Smaller` to its end, and `validate()` accepts it. -/
theorem rangeQuery_validate_iff_witness :
    PrimaryKey.compare sampleRangeQueryCriterion.mInclusiveStart
        sampleRangeQueryCriterion.mExclusiveEnd = some .kCR_Smaller
    ∧ sampleRangeQueryCriterion.validate = .ok :=
  ⟨by decide,
    (rangeQuery_validate_iff sampleRangeQueryCriterion
        (by set_option maxRecDepth 100000 in decide)
        (by set_option maxRecDepth 100000 in decide)
        (by set_option maxRecDepth 100000 in decide)
        (by decide) (by decide)).1.2
      ⟨Or.inr ⟨10, rfl, by decide⟩, Or.inl ⟨rfl, Or.inl (by decide)⟩⟩⟩

/-! ## Shard split points -/

theorem schema_ok_head (schema : Schema) (h : Schema.validate schema = .ok) :
    ∃ s rest, schema = s :: rest ∧ s.mName ≠ [] := by
  unfold Schema.validate at h
  cases schema with
  | nil => simp at h
  | cons s rest =>
    refine ⟨s, rest, rfl, ?_⟩
    simp only [List.length_cons, Nat.add_one_ne_zero, if_false, forEach_cons,
      andThen_eq_ok] at h
    have h1 := h.1
    unfold PrimaryKeyColumnSchema.validate at h1
    split at h1
    · exact absurd h1 (invalid_ne_ok _)
    · assumption

theorem isReal_category (v : PrimaryKeyValue) (h : v.isReal = true) :
    v.mCategory ≠ .kNone := by
  unfold PrimaryKeyValue.isReal at h
  intro hc
  rw [hc] at h
  exact Bool.noConfusion h

theorem primaryKeyColumn_ok_iff (c : PrimaryKeyColumn) :
    c.validate = .ok ↔ c.mName ≠ [] ∧ c.mValue.mCategory ≠ .kNone := by
  refine ⟨fun h => ⟨primaryKeyColumn_ok_name c h, primaryKeyColumn_ok_category c h⟩, ?_⟩
  rintro ⟨h1, h2⟩
  unfold PrimaryKeyColumn.validate PrimaryKeyValue.validate
  simp [h1, h2, Verdict.mapMessage]

theorem validateSplitPoint_ok_iff (s : PrimaryKeyColumnSchema) (rest : Schema)
    (col : PrimaryKeyColumn) :
    CreateTableRequest.validateSplitPoint (s :: rest) [col] = .ok ↔
      col.mValue.isReal = true ∧ col.mName = s.mName
        ∧ PrimaryKeyValue.toPrimaryKeyType col.mValue.mCategory = some s.mType := by
  unfold CreateTableRequest.validateSplitPoint
  simp only
  by_cases hreal : col.mValue.isReal = true
  · by_cases hname : col.mName = s.mName
    · cases ht : PrimaryKeyValue.toPrimaryKeyType col.mValue.mCategory with
      | none => simp [hreal, hname]
      | some t =>
        by_cases hty : t = s.mType
        · simp [hreal, hname, hty]
        · simp [hreal, hname, hty]
    · simp [hreal, hname]
  · simp [hreal]

theorem splitPoint_ok_iff (schema : Schema) (hs : Schema.validate schema = .ok)
    (pk : PrimaryKey) :
    (PrimaryKey.validate pk = .ok
      ∧ (if pk.length ≠ 1 then invalid "Length of shard split points must be exactly one."
          else Verdict.ok) = .ok
      ∧ CreateTableRequest.validateSplitPoint schema pk = .ok) ↔
    ∃ col, pk = [col] ∧ col.mValue.isReal = true
      ∧ ∃ s, schema.head? = some s ∧ col.mName = s.mName
        ∧ PrimaryKeyValue.toPrimaryKeyType col.mValue.mCategory = some s.mType := by
  obtain ⟨s, rest, rfl, hname⟩ := schema_ok_head schema hs
  constructor
  · rintro ⟨_, hlen, hsp⟩
    split at hlen
    · exact absurd hlen (invalid_ne_ok _)
    · rename_i h1
      obtain ⟨col, rfl⟩ := List.length_eq_one.1 (not_not.1 h1)
      obtain ⟨h2, h3, h4⟩ := (validateSplitPoint_ok_iff s rest col).1 hsp
      exact ⟨col, rfl, h2, s, rfl, h3, h4⟩
  · rintro ⟨col, rfl, h2, s2, hs2, h3, h4⟩
    simp only [List.head?_cons, Option.some.injEq] at hs2
    subst hs2
    refine ⟨?_, by simp, (validateSplitPoint_ok_iff s rest col).2 ⟨h2, h3, h4⟩⟩
    rw [primaryKey_ok_iff]
    refine ⟨by simp, fun c hc => ?_⟩
    rw [List.mem_singleton] at hc
    subst hc
    exact (primaryKeyColumn_ok_iff c).2 ⟨h3 ▸ hname, isReal_category _ h2⟩

theorem forEach3_eq_ok {α : Type} (f g k : α → Verdict) (l : List α) :
    (Verdict.forEach f l).andThen ((Verdict.forEach g l).andThen (Verdict.forEach k l)) = .ok
      ↔ ∀ x ∈ l, f x = .ok ∧ g x = .ok ∧ k x = .ok := by
  rw [andThen_eq_ok, andThen_eq_ok, forEach_eq_ok, forEach_eq_ok, forEach_eq_ok]
  exact ⟨fun ⟨h1, h2, h3⟩ x hx => ⟨h1 x hx, h2 x hx, h3 x hx⟩,
    fun h => ⟨fun x hx => (h x hx).1, fun x hx => (h x hx).2.1, fun x hx => (h x hx).2.2⟩⟩

/-- C17: a `CreateTableRequest` whose table meta and options are valid, whose
reserved read and write capacity units are given and not negative and whose
`MaxVersions` is present is accepted by `validate()` exactly when every shard
split point has exactly one column, whose value is real (`Integer`, `String` or
`Binary`), whose name is the name of the first column of the schema, and whose
type is the type of that column. -/
theorem createTable_validate_iff (r : CreateTableRequest) (rd wr : Int)
    (hm : r.mMeta.validate = .ok) (ho : r.mOptions.validate = .ok)
    (hcu : r.mOptions.mReservedThroughput = some { mRead := some rd, mWrite := some wr })
    (hrd : 0 ≤ rd) (hwr : 0 ≤ wr) (hmv : r.mOptions.mMaxVersions ≠ none) :
    r.validate = .ok ↔
      ∀ pk ∈ r.mShardSplitPoints,
        ∃ col, pk = [col] ∧ col.mValue.isReal = true
          ∧ ∃ s, r.mMeta.mSchema.head? = some s ∧ col.mName = s.mName
            ∧ PrimaryKeyValue.toPrimaryKeyType col.mValue.mCategory = some s.mType := by
  have hs : Schema.validate r.mMeta.mSchema = .ok := by
    unfold TableMeta.validate at hm
    split at hm
    · exact absurd hm (invalid_ne_ok _)
    · exact hm
  unfold CreateTableRequest.validate
  rw [hm, ho, hcu]
  simp only [andThen_ok_left, not_lt.2 hrd, not_lt.2 hwr, hmv, if_false]
  rw [forEach3_eq_ok]
  exact forall₂_congr fun pk _ => splitPoint_ok_iff _ hs pk

/-- Instance of C17: `sampleCreateTableRequest` meets the hypotheses with
capacity units `(0, 0)`, its one split point is the column `k` of the schema
with an integer, and `validate()` accepts it. -/
theorem createTable_validate_iff_witness :
    sampleCreateTableRequest.mMeta.validate = .ok
    ∧ sampleCreateTableRequest.mOptions.validate = .ok
    ∧ sampleCreateTableRequest.validate = .ok :=
  ⟨by set_option maxRecDepth 100000 in decide,
    by set_option maxRecDepth 100000 in decide,
    (createTable_validate_iff sampleCreateTableRequest 0 0
        (by set_option maxRecDepth 100000 in decide)
        (by set_option maxRecDepth 100000 in decide)
        rfl (by decide) (by decide) (by decide)).2
      fun _ hpk => ⟨_, List.mem_singleton.1 hpk, rfl, _, rfl, rfl, rfl⟩⟩

/-! ## Time ranges and credentials -/

/-- C18: `TimeRange::validate` returns no error exactly when the start and the
end are whole multiples of 1000 microseconds and the start is not after the
end. -/
theorem timeRange_validate_iff (t : TimeRange) :
    t.validate = .ok ↔
      (1000 : Int) ∣ t.mStart.toUsec ∧ (1000 : Int) ∣ t.mEnd.toUsec
        ∧ t.mStart.toUsec ≤ t.mEnd.toUsec := by
  unfold TimeRange.validate
  rw [← tmod_eq_zero_iff, ← tmod_eq_zero_iff]
  unfold UtcTime.toUsec
  by_cases h1 : t.mStart.mValue.tmod kUsecPerMsec = 0
  · by_cases h2 : t.mEnd.mValue.tmod kUsecPerMsec = 0
    · by_cases h3 : t.mStart.mValue > t.mEnd.mValue
      · simp [h1, h2, h3]
      · simp only [h1, h2, h3, ne_eq, not_true_eq_false, if_false, true_and, true_iff]
        omega
    · simp [h1, h2]
  · simp [h1]

theorem containsCrlf_eq_false (s : List Byte) :
    ContainsCrlf s = false ↔ (13 : Byte) ∉ s ∧ (10 : Byte) ∉ s := by
  unfold ContainsCrlf
  simp [and_comm]

/-- C19: `Credential::validate` returns no error exactly when the access-key id
and the access-key secret are not empty and none of the access-key id, the
access-key secret and the security token holds a CR (13) or an LF (10). -/
theorem credential_validate_iff (c : Credential) :
    c.validate = .ok ↔
      c.mAccessKeyId ≠ [] ∧ c.mAccessKeySecret ≠ []
        ∧ ∀ s ∈ [c.mAccessKeyId, c.mAccessKeySecret, c.mSecurityToken],
            (13 : Byte) ∉ s ∧ (10 : Byte) ∉ s := by
  simp only [List.mem_cons, List.mem_singleton, List.not_mem_nil, or_false, forall_eq_or_imp,
    forall_eq, ← containsCrlf_eq_false]
  unfold Credential.validate
  by_cases h1 : c.mAccessKeyId = []
  · simp [h1]
  · by_cases h2 : ContainsCrlf c.mAccessKeyId = true
    · simp [h1, h2]
    · by_cases h3 : c.mAccessKeySecret = []
      · simp [h1, h2, h3]
      · by_cases h4 : ContainsCrlf c.mAccessKeySecret = true
        · simp [h1, h2, h3, h4]
        · by_cases h5 : ContainsCrlf c.mSecurityToken = true
          · simp [h1, h2, h3, h4, h5]
          · simp [h1, h2, h3, h4, h5]

/-! ## Comparison with `AutoIncrement` -/

/-- C20 as stated fails: `InfMin` is not absent, and an `AutoIncrement` value
compares `Larger` to it, not `Uncomparable`; in the other order `InfMin` is
`Smaller`. -/
theorem compare_autoIncr_infMin :
    PrimaryKeyValue.toInfMin.mCategory ≠ .kNone
    ∧ PrimaryKeyValue.toAutoIncrement.compare PrimaryKeyValue.toInfMin = some .kCR_Larger
    ∧ PrimaryKeyValue.toInfMin.compare PrimaryKeyValue.toAutoIncrement = some .kCR_Smaller
    ∧ PrimaryKeyValue.toAutoIncrement.compare PrimaryKeyValue.toInfMin
        ≠ some .kCR_Uncomparable := by
  decide

/-- C20, amended: for a value `v` that is not absent, `compare` of an
`AutoIncrement` value with `v` returns `Uncomparable` in either order unless `v`
is an infinity, which is tested first: an `AutoIncrement` value is `Larger`
than `InfMin` and `Smaller` than `InfMax`, and `InfMin` is `Smaller`, `InfMax`
`Larger` than it. -/
theorem compare_autoIncr (a v : PrimaryKeyValue) (ha : a.mCategory = .kAutoIncr)
    (hv : v.mCategory ≠ .kNone) :
    a.compare v
        = some (if v.mCategory = .kInfMin then .kCR_Larger
            else if v.mCategory = .kInfMax then .kCR_Smaller
            else .kCR_Uncomparable)
    ∧ v.compare a
        = some (if v.mCategory = .kInfMin then .kCR_Smaller
            else if v.mCategory = .kInfMax then .kCR_Larger
            else .kCR_Uncomparable) := by
  obtain ⟨ca, ia, sa⟩ := a
  obtain ⟨cv, iv, sv⟩ := v
  simp only at ha hv
  subst ha
  unfold PrimaryKeyValue.compare
  cases cv <;> simp at hv ⊢

/-- Instance of C20 as amended: an `AutoIncrement` value and the integer 3 are
`Uncomparable` in both orders. -/
theorem compare_autoIncr_witness :
    PrimaryKeyValue.toAutoIncrement.compare (PrimaryKeyValue.toInteger 3)
        = some .kCR_Uncomparable
    ∧ (PrimaryKeyValue.toInteger 3).compare PrimaryKeyValue.toAutoIncrement
        = some .kCR_Uncomparable :=
  compare_autoIncr PrimaryKeyValue.toAutoIncrement (PrimaryKeyValue.toInteger 3) rfl
    (by decide)

/-! ## Comparison of primary-key values -/

/-! ## Comparison of primary-key values -/

theorem isReal_iff (v : PrimaryKeyValue) :
    v.isReal = true ↔
      v.mCategory = .kInteger ∨ v.mCategory = .kString ∨ v.mCategory = .kBinary := by
  unfold PrimaryKeyValue.isReal
  cases v.mCategory <;> simp

/-- C21: for every real primary-key value `r` (`Integer`, `String` or `Binary`),
`InfMax` compares `Larger` to `r` and `r` `Smaller` to `InfMax`, `InfMin`
compares `Smaller` to `r` and `r` `Larger` to `InfMin`; `InfMax` with `InfMax`
and `InfMin` with `InfMin` are `Uncomparable`. -/
theorem compare_infinity (r : PrimaryKeyValue) (hr : r.isReal = true) :
    PrimaryKeyValue.toInfMax.compare r = some .kCR_Larger
    ∧ r.compare PrimaryKeyValue.toInfMax = some .kCR_Smaller
    ∧ PrimaryKeyValue.toInfMin.compare r = some .kCR_Smaller
    ∧ r.compare PrimaryKeyValue.toInfMin = some .kCR_Larger
    ∧ PrimaryKeyValue.toInfMax.compare PrimaryKeyValue.toInfMax = some .kCR_Uncomparable
    ∧ PrimaryKeyValue.toInfMin.compare PrimaryKeyValue.toInfMin = some .kCR_Uncomparable := by
  obtain ⟨c, i, s⟩ := r
  rw [isReal_iff] at hr
  simp only at hr
  unfold PrimaryKeyValue.compare PrimaryKeyValue.toInfMax PrimaryKeyValue.toInfMin
  rcases hr with h | h | h <;> subst h <;> simp

/-- Instance of C21: the integer 7 against both infinities. -/
theorem compare_infinity_witness :
    PrimaryKeyValue.toInfMax.compare (PrimaryKeyValue.toInteger 7) = some .kCR_Larger
    ∧ (PrimaryKeyValue.toInteger 7).compare PrimaryKeyValue.toInfMax = some .kCR_Smaller
    ∧ PrimaryKeyValue.toInfMin.compare (PrimaryKeyValue.toInteger 7) = some .kCR_Smaller
    ∧ (PrimaryKeyValue.toInteger 7).compare PrimaryKeyValue.toInfMin = some .kCR_Larger
    ∧ PrimaryKeyValue.toInfMax.compare PrimaryKeyValue.toInfMax = some .kCR_Uncomparable
    ∧ PrimaryKeyValue.toInfMin.compare PrimaryKeyValue.toInfMin = some .kCR_Uncomparable :=
  compare_infinity (PrimaryKeyValue.toInteger 7) rfl

theorem lexicographicOrder_neg_iff (x y : List Byte) :
    lexicographicOrder x y < 0 ↔ List.Lex (· < ·) x y := by
  induction x generalizing y with
  | nil =>
    cases y with
    | nil => simp [lexicographicOrder]
    | cons b ys => simp [lexicographicOrder, List.Lex.nil]
  | cons a xs ih =>
    cases y with
    | nil => simp [lexicographicOrder]
    | cons b ys =>
      unfold lexicographicOrder
      by_cases h1 : a.val < b.val
      · simp only [h1, if_true]
        exact ⟨fun _ => List.Lex.rel (Fin.lt_def.2 h1), fun _ => by decide⟩
      · by_cases h2 : a.val > b.val
        · simp only [h1, h2, if_false, if_true]
          constructor
          · intro h
            exact absurd h (by decide)
          · intro h
            cases h with
            | cons h => exact absurd h2 (lt_irrefl _)
            | rel h => exact absurd (Fin.lt_def.1 h) h1
        · have hab : a = b := Fin.ext (by omega)
          subst hab
          simp only [h1, if_false, ih]
          constructor
          · intro h
            exact List.Lex.cons h
          · intro h
            cases h with
            | cons h => exact h
            | rel h => exact absurd h (lt_irrefl _)

theorem lexicographicOrder_eq_zero_iff (x y : List Byte) :
    lexicographicOrder x y = 0 ↔ x = y := by
  induction x generalizing y with
  | nil =>
    cases y with
    | nil => simp [lexicographicOrder]
    | cons b ys => simp [lexicographicOrder]
  | cons a xs ih =>
    cases y with
    | nil => simp [lexicographicOrder]
    | cons b ys =>
      unfold lexicographicOrder
      by_cases h1 : a.val < b.val
      · have : a ≠ b := fun h => by subst h; exact lt_irrefl _ h1
        simp [h1, this]
      · by_cases h2 : a.val > b.val
        · have : a ≠ b := fun h => by subst h; exact lt_irrefl _ h2
          simp [h1, h2, this]
        · have hab : a = b := Fin.ext (by omega)
          subst hab
          simp [ih]

theorem lexicographicOrder_swap (x y : List Byte) :
    lexicographicOrder x y > 0 ↔ lexicographicOrder y x < 0 := by
  induction x generalizing y with
  | nil =>
    cases y with
    | nil => simp [lexicographicOrder]
    | cons b ys => simp [lexicographicOrder]
  | cons a xs ih =>
    cases y with
    | nil => simp [lexicographicOrder]
    | cons b ys =>
      unfold lexicographicOrder
      by_cases h1 : a.val < b.val
      · have h2 : ¬ b.val < a.val := by omega
        have h3 : b.val > a.val := h1
        simp [h1, h2, h3]
      · by_cases h2 : a.val > b.val
        · have h3 : b.val < a.val := h2
          simp [h1, h2, h3]
        · have h3 : ¬ b.val < a.val := h2
          have h4 : ¬ b.val > a.val := h1
          simp only [h1, h2, h3, h4, if_false]
          exact ih ys

theorem lexicographicOrder_pos_iff (x y : List Byte) :
    lexicographicOrder x y > 0 ↔ List.Lex (· < ·) y x := by
  rw [lexicographicOrder_swap, lexicographicOrder_neg_iff]

theorem ofInt_smaller_iff (c : Int) : CompareResult.ofInt c = .kCR_Smaller ↔ c < 0 := by
  unfold CompareResult.ofInt
  split
  · simp [*]
  · split <;> simp [*]

theorem ofInt_larger_iff (c : Int) : CompareResult.ofInt c = .kCR_Larger ↔ c > 0 := by
  unfold CompareResult.ofInt
  split
  · rename_i h
    simp only [reduceCtorEq, false_iff, gt_iff_lt, not_lt]
    omega
  · split <;> simp [*]

theorem ofInt_equivalent_iff (c : Int) : CompareResult.ofInt c = .kCR_Equivalent ↔ c = 0 := by
  unfold CompareResult.ofInt
  split
  · rename_i h
    simp only [reduceCtorEq, false_iff]
    omega
  · split
    · rename_i h1 h2
      simp only [reduceCtorEq, false_iff]
      omega
    · rename_i h1 h2
      simp only [true_iff]
      omega

theorem ofInt_ne_uncomparable (c : Int) : CompareResult.ofInt c ≠ .kCR_Uncomparable := by
  unfold CompareResult.ofInt
  split
  · simp
  · split <;> simp

theorem compare_integer (a b : PrimaryKeyValue) (ha : a.mCategory = .kInteger)
    (hb : b.mCategory = .kInteger) :
    a.compare b
      = some (if a.mIntValue < b.mIntValue then .kCR_Smaller
          else if a.mIntValue > b.mIntValue then .kCR_Larger
          else .kCR_Equivalent) := by
  obtain ⟨ca, ia, sa⟩ := a
  obtain ⟨cb, ib, sb⟩ := b
  simp only at ha hb
  subst ha hb
  unfold PrimaryKeyValue.compare PrimaryKeyValue.integer
  simp only [reduceCtorEq, if_false, ne_eq, not_true_eq_false, if_true, Option.some_bind]
  split
  · rfl
  · split <;> rfl

theorem compare_string (a b : PrimaryKeyValue) (ha : a.mCategory = .kString)
    (hb : b.mCategory = .kString) :
    a.compare b
      = some (CompareResult.ofInt (lexicographicOrder a.mStrBlobValue b.mStrBlobValue)) := by
  obtain ⟨ca, ia, sa⟩ := a
  obtain ⟨cb, ib, sb⟩ := b
  simp only at ha hb
  subst ha hb
  unfold PrimaryKeyValue.compare PrimaryKeyValue.str
  simp

theorem compare_binary (a b : PrimaryKeyValue) (ha : a.mCategory = .kBinary)
    (hb : b.mCategory = .kBinary) :
    a.compare b
      = some (CompareResult.ofInt (lexicographicOrder a.mStrBlobValue b.mStrBlobValue)) := by
  obtain ⟨ca, ia, sa⟩ := a
  obtain ⟨cb, ib, sb⟩ := b
  simp only at ha hb
  subst ha hb
  unfold PrimaryKeyValue.compare PrimaryKeyValue.blob
  simp

theorem compare_categories_differ (a b : PrimaryKeyValue) (ha : a.isReal = true) (hb : b.isReal = true)
    (h : a.mCategory ≠ b.mCategory) : a.compare b = some .kCR_Uncomparable := by
  obtain ⟨ca, ia, sa⟩ := a
  obtain ⟨cb, ib, sb⟩ := b
  rw [isReal_iff] at ha hb
  simp only at ha hb h
  unfold PrimaryKeyValue.compare
  rcases ha with h1 | h1 | h1 <;> rcases hb with h2 | h2 | h2 <;> subst h1 <;> subst h2 <;>
    simp at h ⊢

/-- C22: for two real primary-key values `a` and `b`, `compare` returns
`Uncomparable` when their categories differ; when both are `Integer` it returns
`Smaller`, `Equivalent` or `Larger` as the order of the two integers has it; when
both are `String` or both are `Binary` it returns `Smaller`, `Equivalent` or
`Larger` as the lexicographic order of the two byte strings has it. -/
theorem compare_real (a b : PrimaryKeyValue) (ha : a.isReal = true) (hb : b.isReal = true) :
    (a.mCategory ≠ b.mCategory → a.compare b = some .kCR_Uncomparable)
    ∧ (a.mCategory = .kInteger → b.mCategory = .kInteger →
        (a.mIntValue < b.mIntValue → a.compare b = some .kCR_Smaller)
        ∧ (a.mIntValue = b.mIntValue → a.compare b = some .kCR_Equivalent)
        ∧ (b.mIntValue < a.mIntValue → a.compare b = some .kCR_Larger))
    ∧ ((a.mCategory = .kString ∧ b.mCategory = .kString)
          ∨ (a.mCategory = .kBinary ∧ b.mCategory = .kBinary) →
        (a.compare b = some .kCR_Smaller ∨ a.compare b = some .kCR_Equivalent
          ∨ a.compare b = some .kCR_Larger)
        ∧ (a.compare b = some .kCR_Smaller ↔
            List.Lex (· < ·) a.mStrBlobValue b.mStrBlobValue)
        ∧ (a.compare b = some .kCR_Equivalent ↔ a.mStrBlobValue = b.mStrBlobValue)
        ∧ (a.compare b = some .kCR_Larger ↔
            List.Lex (· < ·) b.mStrBlobValue a.mStrBlobValue)) := by
  refine ⟨compare_categories_differ a b ha hb, fun h1 h2 => ?_, fun h => ?_⟩
  · rw [compare_integer a b h1 h2]
    refine ⟨fun h => by simp [h], fun h => by simp [h], fun h => ?_⟩
    have h3 : ¬ a.mIntValue < b.mIntValue := by omega
    simp [h3, h]
  · have hc : a.compare b
        = some (CompareResult.ofInt
            (lexicographicOrder a.mStrBlobValue b.mStrBlobValue)) := by
      rcases h with ⟨h1, h2⟩ | ⟨h1, h2⟩
      · exact compare_string a b h1 h2
      · exact compare_binary a b h1 h2
    rw [hc]
    simp only [Option.some.injEq, ofInt_smaller_iff, ofInt_equivalent_iff, ofInt_larger_iff,
      lexicographicOrder_neg_iff, lexicographicOrder_eq_zero_iff, lexicographicOrder_pos_iff,
      and_self, and_true]
    rw [← lexicographicOrder_neg_iff, ← lexicographicOrder_eq_zero_iff,
      ← lexicographicOrder_pos_iff]
    omega

/-- Instance of C22: the strings `ab` and `b`, the integers 3 and 3, and a
string against an integer. -/
theorem compare_real_witness :
    (PrimaryKeyValue.toStr [0x61, 0x62]).compare (PrimaryKeyValue.toStr [0x62])
        = some .kCR_Smaller
    ∧ (PrimaryKeyValue.toInteger 3).compare (PrimaryKeyValue.toInteger 3)
        = some .kCR_Equivalent
    ∧ (PrimaryKeyValue.toStr [0x61]).compare (PrimaryKeyValue.toInteger 3)
        = some .kCR_Uncomparable :=
  ⟨((compare_real (PrimaryKeyValue.toStr [0x61, 0x62]) (PrimaryKeyValue.toStr [0x62])
        rfl rfl).2.2 (Or.inl ⟨rfl, rfl⟩)).2.1.2 (List.Lex.rel (by decide)),
    ((compare_real (PrimaryKeyValue.toInteger 3) (PrimaryKeyValue.toInteger 3)
        rfl rfl).2.1 rfl rfl).2.1 rfl,
    (compare_real (PrimaryKeyValue.toStr [0x61]) (PrimaryKeyValue.toInteger 3)
        rfl rfl).1 (by decide)⟩

/-! ## The batch writer configuration and the arithmetic of time -/

/-! ## The configuration of the batch writer -/

theorem wrapInt64_of_inInt64 (x : Int) (h : InInt64 x) : wrapInt64 x = x :=
  toInt64_toUint64 x h

theorem fromMsec_one : (Duration.fromMsec 1).mValue = 1000 := by
  decide

theorem fromSec_zero : (Duration.fromSec 0).mValue = 0 := by
  decide

theorem batchWriterConfig_returns (cfg : BatchWriterConfig) : cfg.validate.Returns := by
  unfold BatchWriterConfig.validate
  split_ifs <;> simp

theorem batchWriterConfig_ok_iff (cfg : BatchWriterConfig)
    (h : cfg.mRegularNap.toUsec < 2 ^ 62) :
    cfg.validate = .ok ↔
      1 ≤ cfg.mMaxConcurrency ∧ 1 ≤ cfg.mMaxBatchSize ∧ 1000 < cfg.mRegularNap.toUsec
        ∧ 2 * cfg.mRegularNap.toUsec ≤ cfg.mMaxNap.toUsec ∧ 0 < cfg.mNapShrinkStep.toUsec
        ∧ ∀ n, cfg.mActors = some n → n ≠ 0 := by
  unfold Duration.toUsec at h ⊢
  unfold BatchWriterConfig.validate
  rw [fromMsec_one, fromSec_zero]
  by_cases h1 : cfg.mMaxConcurrency < 1
  · simp only [h1, if_true, invalid_ne_ok, false_iff]
    omega
  · by_cases h2 : cfg.mMaxBatchSize < 1
    · simp only [h1, h2, if_true, if_false, invalid_ne_ok, false_iff]
      omega
    · by_cases h3 : cfg.mRegularNap.mValue ≤ 1000
      · simp only [h1, h2, h3, if_true, if_false, invalid_ne_ok, false_iff]
        omega
      · have hw : (cfg.mRegularNap.mul 2).mValue = cfg.mRegularNap.mValue * 2 := by
          unfold Duration.mul
          exact wrapInt64_of_inInt64 _ ⟨by omega, by omega⟩
        rw [hw]
        by_cases h4 : cfg.mMaxNap.mValue < cfg.mRegularNap.mValue * 2
        · simp only [h1, h2, h3, h4, if_true, if_false, invalid_ne_ok, false_iff]
          omega
        · by_cases h5 : cfg.mNapShrinkStep.mValue ≤ 0
          · simp only [h1, h2, h3, h4, h5, if_true, if_false, invalid_ne_ok, false_iff]
            omega
          · cases ha : cfg.mActors with
            | none =>
              simp only [h1, h2, h3, h4, h5, if_false, Bool.false_eq_true, true_iff]
              refine ⟨by omega, by omega, by omega, by omega, by omega, fun n hn => ?_⟩
              exact absurd hn (by simp)
            | some n =>
              by_cases h6 : n = 0
              · simp only [h1, h2, h3, h4, h5, h6, if_false, decide_True, if_true,
                  invalid_ne_ok, false_iff]
                intro hh
                exact hh.2.2.2.2.2 0 rfl rfl
              · simp only [h1, h2, h3, h4, h5, h6, if_false, decide_False,
                  Bool.false_eq_true, true_iff]
                refine ⟨by omega, by omega, by omega, by omega, by omega, fun m hm => ?_⟩
                simp only [Option.some.injEq] at hm
                exact hm ▸ h6

/-- C23: `BatchWriterConfig::validate` tests `mMaxNap < mRegularNap * 2` with
the product taken in `int64_t` unchecked. With a regular nap of `2 ^ 62`
microseconds, which is inside `int64_t`, and the other members as the
constructor sets them, the product wraps to `-2 ^ 63`, so `validate()` returns
no error although the maximal nap of 10 seconds is shorter than twice the
regular nap, and `AsyncBatchWriter::create` sets the writer. The checked
`Duration +=` fails its assertion on the same sum of the regular nap with
itself. -/
theorem batchWriterConfig_overflow :
    sampleHugeNapConfig.validate = .ok
    ∧ ¬ (2 * sampleHugeNapConfig.mRegularNap.toUsec ≤ sampleHugeNapConfig.mMaxNap.toUsec)
    ∧ InInt64 sampleHugeNapConfig.mRegularNap.toUsec
    ∧ (sampleHugeNapConfig.mRegularNap.mul 2).toUsec = -2 ^ 63
    ∧ AsyncBatchWriter.create 1 (none : Option Nat) sampleHugeNapConfig = (.ok, some 1)
    ∧ sampleHugeNapConfig.mRegularNap.addAssign sampleHugeNapConfig.mRegularNap = none := by
  decide

/-- What `BatchWriterConfig::validate` does check: for a configuration whose
regular nap is shorter than `2 ^ 62` microseconds, so that its double is inside
`int64_t`, `validate()` returns no error exactly when
`MaxConcurrency ≥ 1`, `MaxBatchSize ≥ 1`, the regular nap is longer than 1000
microseconds, the maximal nap is at least twice the regular nap, the shrink
step is positive and the list of actors, when given, is not empty. For every
configuration `validate()` fails no assertion, `AsyncBatchWriter::create`
returns what `validate()` returns, and it sets the writer exactly when that is
no error, leaving it alone otherwise. -/
theorem batchWriterConfig_validate_iff (cfg : BatchWriterConfig) :
    (cfg.mRegularNap.toUsec < 2 ^ 62 →
      (cfg.validate = .ok ↔
        1 ≤ cfg.mMaxConcurrency ∧ 1 ≤ cfg.mMaxBatchSize ∧ 1000 < cfg.mRegularNap.toUsec
          ∧ 2 * cfg.mRegularNap.toUsec ≤ cfg.mMaxNap.toUsec
          ∧ 0 < cfg.mNapShrinkStep.toUsec
          ∧ ∀ n, cfg.mActors = some n → n ≠ 0))
    ∧ cfg.validate ≠ .assertFailed
    ∧ ∀ (W : Type) (newWriter : W) (writer : Option W),
        (AsyncBatchWriter.create newWriter writer cfg).1 = cfg.validate
        ∧ (cfg.validate = .ok →
            (AsyncBatchWriter.create newWriter writer cfg).2 = some newWriter)
        ∧ (cfg.validate ≠ .ok →
            (AsyncBatchWriter.create newWriter writer cfg).2 = writer) := by
  refine ⟨batchWriterConfig_ok_iff cfg, (returns_iff _).1 (batchWriterConfig_returns cfg),
    fun W newWriter writer => ?_⟩
  unfold AsyncBatchWriter.create
  cases hv : cfg.validate <;> simp

/-- The configuration of the constructor is
accepted and `create` sets the writer; with `MaxBatchSize` 0 the error of
`validate()` comes back and the writer stays unset. -/
theorem batchWriterConfig_validate_iff_witness :
    ({} : BatchWriterConfig).validate = .ok
    ∧ (AsyncBatchWriter.create 1 (none : Option Nat) {}).2 = some 1
    ∧ (AsyncBatchWriter.create 1 (none : Option Nat) { mMaxBatchSize := 0 })
        = (invalid "Max batch size must be positive.", none) :=
  ⟨((batchWriterConfig_validate_iff {}).1 (by decide)).2
      ⟨by decide, by decide, by decide, by decide, by decide, fun n hn => nomatch hn⟩,
    ((batchWriterConfig_validate_iff {}).2.2 Nat 1 none).2.1 (by decide),
    by decide⟩

/-! ## Arithmetic of `UtcTime` -/

theorem wrapInt64_cases (x : Int) (hx : -2 ^ 64 ≤ x ∧ x < 2 ^ 64) :
    (InInt64 x ∧ wrapInt64 x = x) ∨ (2 ^ 63 ≤ x ∧ wrapInt64 x = x - 2 ^ 64)
      ∨ (x < -2 ^ 63 ∧ wrapInt64 x = x + 2 ^ 64) := by
  unfold wrapInt64 toInt64 toUint64 InInt64
  have h3 : 0 ≤ x % 2 ^ 64 := Int.emod_nonneg x (by norm_num)
  have h4 : x % 2 ^ 64 < 2 ^ 64 := Int.emod_lt_of_pos x (by norm_num)
  have h5 : ((x % 2 ^ 64).toNat : Int) = x % 2 ^ 64 := Int.toNat_of_nonneg h3
  have h6 : (x % 2 ^ 64).toNat % 2 ^ 64 = (x % 2 ^ 64).toNat := by
    apply Nat.mod_eq_of_lt
    omega
  rw [h6]
  split
  · rename_i hlt
    rw [h5]
    have : (x % 2 ^ 64).toNat < 2 ^ 63 := hlt
    omega
  · rename_i hge
    rw [h5]
    have : ¬ (x % 2 ^ 64).toNat < 2 ^ 63 := hge
    omega

/-- The operator `+=` of `UtcTime` on values of `int64_t`: the exact sum when it
lies in `int64_t`, a failed assertion when it does not. -/
theorem addAssign_checked (a : UtcTime) (d : Duration) (ha : InInt64 a.mValue)
    (hd : InInt64 d.mValue) :
    (InInt64 (a.mValue + d.mValue) ∧ a.addAssign d = some { mValue := a.mValue + d.mValue })
    ∨ (¬ InInt64 (a.mValue + d.mValue) ∧ a.addAssign d = none) := by
  unfold UtcTime.addAssign Duration.toUsec
  unfold InInt64 at ha hd
  rcases wrapInt64_cases (a.mValue + d.mValue) ⟨by omega, by omega⟩ with
    ⟨hin, hw⟩ | ⟨hge, hw⟩ | ⟨hlt, hw⟩
  · left
    refine ⟨hin, ?_⟩
    simp only [hw]
    rw [if_pos (decide_eq_decide.2 ⟨fun h => by omega, fun h => by omega⟩)]
  · right
    refine ⟨fun h => by unfold InInt64 at h; omega, ?_⟩
    simp only [hw]
    rw [if_neg]
    rw [decide_eq_decide]
    intro h
    have := h.1 (by omega)
    omega
  · right
    refine ⟨fun h => by unfold InInt64 at h; omega, ?_⟩
    simp only [hw]
    rw [if_neg]
    rw [decide_eq_decide]
    intro h
    have := h.2 (by omega)
    omega

/-- The operator `-` of `UtcTime` on values of `int64_t`: the exact difference
when it lies in `int64_t`, a failed assertion when it does not. -/
theorem sub_checked (a b : UtcTime) (ha : InInt64 a.mValue) (hb : InInt64 b.mValue) :
    (InInt64 (a.mValue - b.mValue) ∧ a.sub b = some { mValue := a.mValue - b.mValue })
    ∨ (¬ InInt64 (a.mValue - b.mValue) ∧ a.sub b = none) := by
  unfold UtcTime.sub Duration.fromUsec
  unfold InInt64 at ha hb
  rcases wrapInt64_cases (a.mValue - b.mValue) ⟨by omega, by omega⟩ with
    ⟨hin, hw⟩ | ⟨hge, hw⟩ | ⟨hlt, hw⟩
  · left
    refine ⟨hin, ?_⟩
    simp only [hw]
    rw [if_pos (decide_eq_decide.2 ⟨fun h => by omega, fun h => by omega⟩)]
  · right
    refine ⟨fun h => by unfold InInt64 at h; omega, ?_⟩
    simp only [hw]
    rw [if_neg]
    rw [decide_eq_decide]
    intro h
    have := h.2 (by omega)
    omega
  · right
    refine ⟨fun h => by unfold InInt64 at h; omega, ?_⟩
    simp only [hw]
    rw [if_neg]
    rw [decide_eq_decide]
    intro h
    have := h.1 (by omega)
    omega

/-- C27, evaluated where it fails: 9223372036854776 milliseconds lie in
`int64_t`, their microseconds do not, and `UtcTime::fromMsec` returns the
wrapped, negative value with no assertion; the reader hands it out as the
timestamp of a cell. `fromSec`, `fromMin` and `fromHour` wrap in the same way,
whereas `+=` and `-` of the same class fail their assertion on an overflow. -/
theorem fromMsec_wraps :
    InInt64 9223372036854776
    ∧ ¬ InInt64 (9223372036854776 * kUsecPerMsec)
    ∧ UtcTime.fromMsec 9223372036854776 = { mValue := -9223372036854775616 }
    ∧ impl.readOptionalCellTimestamp wire none 0
        ([wire.kTag_CellTimestamp] ++ leBytes 8 9223372036854776)
      = .ok (some { mValue := -9223372036854775616 }, crc8U64 0 9223372036854776) []
    ∧ UtcTime.fromSec 9223372036855 = { mValue := -9223372036854551616 }
    ∧ UtcTime.fromMin 153722867281 = { mValue := -9223372036849551616 }
    ∧ UtcTime.fromHour 2562047789 = { mValue := -9223372033309551616 }
    ∧ UtcTime.addAssign { mValue := 2 ^ 63 - 1 } { mValue := 1 } = none
    ∧ UtcTime.sub { mValue := -2 ^ 63 } { mValue := 1 } = none := by
  refine ⟨by decide, by decide, by decide, ?_, by decide, by decide, by decide, by decide,
    by decide⟩
  set_option maxRecDepth 100000 in decide

/-! ## Parsing an endpoint -/

/-- A scan `for(; c < e && p(*c); ++c)` over `l ++ t` passes over `l` when all of
`l` satisfies `p` and `t` is empty or starts with a byte that does not. -/
theorem span_append {α : Type} (p : α → Bool) (l t : List α) (h1 : ∀ a ∈ l, p a = true)
    (ht : ∀ x, t.head? = some x → p x = false) :
    (l ++ t).takeWhile p = l ∧ (l ++ t).dropWhile p = t := by
  induction l with
  | nil =>
    cases t with
    | nil => simp
    | cons x t' =>
      have hx := ht x rfl
      simp [List.takeWhile, List.dropWhile, hx]
  | cons a l ih =>
    have ha := h1 a (List.mem_cons_self _ _)
    have h := ih (fun b hb => h1 b (List.mem_cons_of_mem _ hb))
    simp [List.takeWhile, List.dropWhile, ha, h]

theorem literal_ne_nil (proto : http.Endpoint.Protocol) : proto.literal ≠ [] := by
  cases proto <;> decide

theorem literal_no_colon (proto : http.Endpoint.Protocol) :
    ∀ a ∈ proto.literal, http.notColon a = true := by
  set_option maxRecDepth 100000 in
  cases proto <;> decide

theorem literal_select (proto : http.Endpoint.Protocol) :
    (if proto.literal = http.Endpoint.Protocol.literal .HTTP
      then some http.Endpoint.Protocol.HTTP
      else if proto.literal = http.Endpoint.Protocol.literal .HTTPS
        then some http.Endpoint.Protocol.HTTPS
      else none) = some proto := by
  cases proto <;> decide

theorem parseProtocol_literal (pp : List Byte → String) (proto0 proto : http.Endpoint.Protocol)
    (c3 : List Byte) :
    http.parseProtocol pp proto0 (proto.literal ++ [0x3A, 0x2F, 0x2F] ++ c3)
      = (none, proto, c3) := by
  have h := span_append http.notColon proto.literal
    ((0x3A : Byte) :: 0x2F :: 0x2F :: c3) (literal_no_colon proto)
    (fun x hx => by
      simp only [List.head?_cons, Option.some.injEq] at hx
      subst hx
      decide)
  have e : proto.literal ++ [0x3A, 0x2F, 0x2F] ++ c3
      = proto.literal ++ ((0x3A : Byte) :: 0x2F :: 0x2F :: c3) := by simp
  unfold http.parseProtocol
  rw [e, h.1, h.2]
  simp only [literal_select]
  simp [http.expect]

theorem parseHost_append (out host t : List Byte) (hne : host ≠ [])
    (hhost : ∀ x ∈ host, x ≠ (0x3A : Byte) ∧ x ≠ 0x2F)
    (ht : ∀ x, t.head? = some x → x = (0x3A : Byte) ∨ x = 0x2F) :
    http.parseHost out (host ++ t) = (none, host, t) := by
  have h := span_append http.inHost host t
    (fun a ha => by simpa [http.inHost] using hhost a ha)
    (fun x hx => by
      rcases ht x hx with h | h <;> subst h <;> decide)
  unfold http.parseHost
  rw [h.1, h.2]
  have : host.length ≠ 0 := fun h0 => hne (List.length_eq_zero.1 h0)
  simp [this]

theorem parsePort_none (path : List Byte) (hp : ∀ x, path.head? = some x → x = (0x2F : Byte)) :
    http.parsePort [] path = (none, [], path) := by
  unfold http.parsePort
  cases path with
  | nil => rfl
  | cons x rest =>
    have hx := hp x rfl
    subst hx
    simp

theorem parsePort_some (port path : List Byte) (hne : port ≠ [])
    (hport : ∀ x ∈ port, (0x30 : Byte) ≤ x ∧ x ≤ 0x39)
    (hp : ∀ x, path.head? = some x → x = (0x2F : Byte)) :
    http.parsePort [] ((0x3A : Byte) :: port ++ path) = (none, port, path) := by
  have h := span_append http.isDigit port path
    (fun a ha => by simpa [http.isDigit] using hport a ha)
    (fun x hx => by
      have := hp x hx
      subst this
      decide)
  unfold http.parsePort
  simp only [List.cons_append, ne_eq, not_true_eq_false, if_false]
  rw [h.1, h.2]
  have : port.length ≠ 0 := fun h0 => hne (List.length_eq_zero.1 h0)
  simp [this]

/-- The port that `parse` sets for a URL with the port `port`, if any. -/
theorem parse_urlOf (pp : List Byte → String) (out : http.Endpoint)
    (proto : http.Endpoint.Protocol) (host : List Byte) (port : Option (List Byte))
    (path : List Byte) (hne : host ≠ [])
    (hhost : ∀ x ∈ host, x ≠ (0x3A : Byte) ∧ x ≠ 0x2F)
    (hport : ∀ p, port = some p → p ≠ [] ∧ ∀ x ∈ p, (0x30 : Byte) ≤ x ∧ x ≤ 0x39)
    (hpath : ∀ x, path.head? = some x → x = (0x2F : Byte)) :
    http.Endpoint.parse pp out (http.urlOf proto host port path)
      = (http.validateRootPath path,
          { mProtocol := proto, mHost := host, mPort := port.getD proto.defaultPort }) := by
  have hurl : http.urlOf proto host port path ≠ [] := by
    unfold http.urlOf
    have := literal_ne_nil proto
    simp [this]
  unfold http.Endpoint.parse
  rw [if_neg hurl]
  cases port with
  | none =>
    have e : http.urlOf proto host none path
        = proto.literal ++ [0x3A, 0x2F, 0x2F] ++ (host ++ path) := by
      simp [http.urlOf]
    rw [e, parseProtocol_literal]
    simp only
    rw [parseHost_append _ host path hne hhost (fun x hx => Or.inr (hpath x hx))]
    simp only
    rw [parsePort_none path hpath]
    simp only [ne_eq, not_true_eq_false, if_false, Option.getD_none]
    cases http.validateRootPath path <;> rfl
  | some p =>
    obtain ⟨hp1, hp2⟩ := hport p rfl
    have e : http.urlOf proto host (some p) path
        = proto.literal ++ [0x3A, 0x2F, 0x2F] ++ (host ++ ((0x3A : Byte) :: p ++ path)) := by
      simp [http.urlOf]
    rw [e, parseProtocol_literal]
    simp only
    rw [parseHost_append _ host _ hne hhost (fun x hx => by
      simp only [List.cons_append, List.head?_cons, Option.some.injEq] at hx
      exact Or.inl hx.symm)]
    simp only
    rw [parsePort_some p path hp1 hp2 hpath]
    simp only [ne_eq, hp1, not_false_eq_true, if_true, Option.getD_some]
    cases http.validateRootPath path <;> rfl

theorem validateRootPath_nil : http.validateRootPath [] = none := rfl

theorem validateRootPath_eq_none_iff (path : List Byte) :
    http.validateRootPath path = none ↔ ∀ x ∈ path, x = (0x2F : Byte) := by
  unfold http.validateRootPath
  rw [ite_eq_right_iff]
  simp only [ne_eq, reduceCtorEq, imp_false, not_not, List.dropWhile_eq_nil_iff,
    http.isSlash, decide_eq_true_eq]

/-- C24: for a URL `scheme "://" host [":" port]` with scheme `http` or `https`,
a host that is not empty and holds neither `':'` nor `'/'`, and a port, when
given, of one or more decimal digits, `http::Endpoint::parse` returns no error
and sets the protocol to the scheme, the host to `host`, and the port to the
given port, or to `80` for `http` and `443` for `https` when none is given. -/
theorem parse_endpoint (pp : List Byte → String) (out : http.Endpoint)
    (proto : http.Endpoint.Protocol) (host : List Byte) (port : Option (List Byte))
    (hne : host ≠ []) (hhost : ∀ x ∈ host, x ≠ (0x3A : Byte) ∧ x ≠ 0x2F)
    (hport : ∀ p, port = some p → p ≠ [] ∧ ∀ x ∈ p, (0x30 : Byte) ≤ x ∧ x ≤ 0x39) :
    http.Endpoint.parse pp out (http.urlOf proto host port [])
      = (none,
          { mProtocol := proto
            mHost := host
            mPort := match port with
              | some p => p
              | none =>
                match proto with
                | .HTTP => [0x38, 0x30]
                | .HTTPS => [0x34, 0x34, 0x33] }) := by
  rw [parse_urlOf pp out proto host port [] hne hhost hport (fun x hx => by simp at hx),
    validateRootPath_nil]
  cases port <;> cases proto <;> rfl

/-- Instance of C24: `https://h` gives HTTPS, `h`, `443`; `http://h:81` gives
HTTP, `h`, `81`. -/
theorem parse_endpoint_witness :
    http.Endpoint.parse text {} [0x68, 0x74, 0x74, 0x70, 0x73, 0x3A, 0x2F, 0x2F, 0x68]
        = (none, { mProtocol := .HTTPS, mHost := [0x68], mPort := [0x34, 0x34, 0x33] })
    ∧ http.Endpoint.parse text {}
          [0x68, 0x74, 0x74, 0x70, 0x3A, 0x2F, 0x2F, 0x68, 0x3A, 0x38, 0x31]
        = (none, { mProtocol := .HTTP, mHost := [0x68], mPort := [0x38, 0x31] }) :=
  ⟨parse_endpoint text {} .HTTPS [0x68] none (by decide)
      (by set_option maxRecDepth 100000 in decide)
      (fun p hp => nomatch hp),
    parse_endpoint text {} .HTTP [0x68] (some [0x38, 0x31]) (by decide)
      (by set_option maxRecDepth 100000 in decide)
      (fun p hp => by
        simp only [Option.some.injEq] at hp
        subst hp
        set_option maxRecDepth 100000 in decide)⟩

theorem expect_eq_some (ch : Byte) (l r : List Byte) :
    http.expect ch l = some r ↔ l = ch :: r := by
  cases l with
  | nil => simp [http.expect]
  | cons x rest =>
    unfold http.expect
    by_cases h : x = ch
    · simp [h]
    · simp [h]

theorem parseProtocol_ok (pp : List Byte → String) (proto0 proto : http.Endpoint.Protocol)
    (b c3 : List Byte) (h : http.parseProtocol pp proto0 b = (none, proto, c3)) :
    b = proto.literal ++ [0x3A, 0x2F, 0x2F] ++ c3 := by
  have hb := List.takeWhile_append_dropWhile http.notColon b
  unfold http.parseProtocol at h
  simp only at h
  split at h
  · simp at h
  · rename_i proto1 hsel
    split at h
    · simp at h
    · rename_i c3' hexp
      simp only [Prod.mk.injEq, true_and] at h
      obtain ⟨h1, h2⟩ := h
      subst h1 h2
      have hp : b.takeWhile http.notColon = proto1.literal := by
        split at hsel
        · rename_i hh
          simp only [Option.some.injEq] at hsel
          subst hsel
          exact hh
        · split at hsel
          · rename_i hh
            simp only [Option.some.injEq] at hsel
            subst hsel
            exact hh
          · simp at hsel
      cases h1 : http.expect 0x3A (b.dropWhile http.notColon) with
      | none => simp [h1] at hexp
      | some c1 =>
        cases h2 : http.expect 0x2F c1 with
        | none => simp [h1, h2] at hexp
        | some c2 =>
          simp only [h1, h2, Option.some_bind] at hexp
          rw [expect_eq_some] at h1 h2 hexp
          rw [← hb, hp, h1, h2, hexp]
          simp

theorem parseProtocol_error (pp : List Byte → String) (proto0 proto : http.Endpoint.Protocol)
    (b c : List Byte) (msg : String)
    (hp : b.takeWhile http.notColon = http.Endpoint.Protocol.literal .HTTP
      ∨ b.takeWhile http.notColon
          = http.Endpoint.Protocol.literal .HTTPS)
    (h : http.parseProtocol pp proto0 b = (some msg, proto, c)) :
    msg = "invalid syntax of endpoint." := by
  unfold http.parseProtocol at h
  simp only at h
  split at h
  · rename_i hsel
    rcases hp with hp | hp
    · rw [hp] at hsel
      simp at hsel
    · rw [hp] at hsel
      split at hsel <;> simp at hsel
  · split at h
    · simp only [Prod.mk.injEq, Option.some.injEq] at h
      exact h.1.symm
    · simp at h

theorem parseProtocol_unsupported (pp : List Byte → String) (proto0 : http.Endpoint.Protocol)
    (b : List Byte)
    (h1 : b.takeWhile http.notColon
      ≠ http.Endpoint.Protocol.literal .HTTP)
    (h2 : b.takeWhile http.notColon
      ≠ http.Endpoint.Protocol.literal .HTTPS) :
    http.parseProtocol pp proto0 b
      = (some ("unsupported protocol: "
          ++ pp (b.takeWhile http.notColon) ++ "."), proto0, b) := by
  unfold http.parseProtocol
  simp [h1, h2]

theorem parseHost_ok (out host b c : List Byte) (h : http.parseHost out b = (none, host, c)) :
    b = host ++ c ∧ host ≠ [] ∧ ∀ x ∈ host, x ≠ (0x3A : Byte) ∧ x ≠ 0x2F := by
  have hb := List.takeWhile_append_dropWhile http.inHost b
  unfold http.parseHost at h
  simp only at h
  split at h
  · simp at h
  · rename_i hlen
    simp only [Prod.mk.injEq, true_and] at h
    obtain ⟨h1, h2⟩ := h
    subst h1 h2
    refine ⟨hb.symm, fun h0 => hlen (by rw [h0]; rfl), fun x hx => ?_⟩
    have := List.mem_takeWhile_imp hx
    simpa [http.inHost] using this

theorem parseHost_error (out host b c : List Byte) (msg : String)
    (h : http.parseHost out b = (some msg, host, c)) : msg = "invalid syntax of endpoint." := by
  unfold http.parseHost at h
  simp only at h
  split at h
  · simp only [Prod.mk.injEq, Option.some.injEq] at h
    exact h.1.symm
  · simp at h

theorem parsePort_ok (port b c : List Byte) (h : http.parsePort [] b = (none, port, c)) :
    (port = [] ∧ b = c ∧ ∀ x, c.head? = some x → x ≠ (0x3A : Byte))
    ∨ (port ≠ [] ∧ b = (0x3A : Byte) :: port ++ c
        ∧ ∀ x ∈ port, (0x30 : Byte) ≤ x ∧ x ≤ 0x39) := by
  unfold http.parsePort at h
  cases b with
  | nil =>
    simp only [Prod.mk.injEq, true_and] at h
    obtain ⟨h1, h2⟩ := h
    subst h1 h2
    exact Or.inl ⟨rfl, rfl, fun x hx => by simp at hx⟩
  | cons x b1 =>
    simp only at h
    split at h
    · rename_i hx
      simp only [Prod.mk.injEq, true_and] at h
      obtain ⟨h1, h2⟩ := h
      subst h1 h2
      refine Or.inl ⟨rfl, rfl, fun y hy => ?_⟩
      simp only [List.head?_cons, Option.some.injEq] at hy
      exact hy ▸ hx
    · rename_i hx
      have hx2 : x = 0x3A := not_not.1 hx
      subst hx2
      have hb := List.takeWhile_append_dropWhile http.isDigit b1
      split at h
      · simp at h
      · rename_i hlen
        simp only [Prod.mk.injEq, true_and] at h
        obtain ⟨h1, h2⟩ := h
        subst h1 h2
        refine Or.inr ⟨fun h0 => hlen (by rw [h0]; rfl), ?_, fun y hy => ?_⟩
        · rw [List.cons_append, hb]
        · have := List.mem_takeWhile_imp hy
          simpa [http.isDigit] using this

theorem parsePort_error (out port b c : List Byte) (msg : String)
    (h : http.parsePort out b = (some msg, port, c)) : msg = "invalid syntax of endpoint." := by
  unfold http.parsePort at h
  cases b with
  | nil => simp at h
  | cons x b1 =>
    simp only at h
    split at h
    · simp at h
    · split at h
      · simp only [Prod.mk.injEq, Option.some.injEq] at h
        exact h.1.symm
      · simp at h

theorem validateRootPath_error (b : List Byte) (msg : String)
    (h : http.validateRootPath b = some msg) : msg = "invalid syntax of endpoint." := by
  unfold http.validateRootPath at h
  split at h
  · simp only [Option.some.injEq] at h
    exact h.symm
  · simp at h

/-- C25: for a URL that is not empty, when the bytes before its first `':'` (all
of it when it has none) are neither `http` nor `https`, `http::Endpoint::parse`
returns an error whose message starts with `unsupported protocol`; otherwise
every error that `parse` returns has the message `invalid syntax of
endpoint.`. -/
theorem parse_error_messages (pp : List Byte → String) (out : http.Endpoint) (url : List Byte)
    (hurl : url ≠ []) :
    (url.takeWhile http.notColon ≠ http.Endpoint.Protocol.literal .HTTP
        ∧ url.takeWhile http.notColon
            ≠ http.Endpoint.Protocol.literal .HTTPS →
      (http.Endpoint.parse pp out url).1
        = some ("unsupported protocol"
            ++ (": " ++ pp (url.takeWhile http.notColon) ++ ".")))
    ∧ (url.takeWhile http.notColon = http.Endpoint.Protocol.literal .HTTP
        ∨ url.takeWhile http.notColon
            = http.Endpoint.Protocol.literal .HTTPS →
      ∀ msg, (http.Endpoint.parse pp out url).1 = some msg →
        msg = "invalid syntax of endpoint.") := by
  refine ⟨fun ⟨h1, h2⟩ => ?_, fun hp msg h => ?_⟩
  · unfold http.Endpoint.parse
    rw [if_neg hurl, parseProtocol_unsupported pp _ url h1 h2]
    simp only [Option.some.injEq]
    rw [← String.append_assoc, ← String.append_assoc]
    rfl
  · unfold http.Endpoint.parse at h
    rw [if_neg hurl] at h
    split at h
    · rename_i err proto c heq
      simp only [Option.some.injEq] at h
      subst h
      exact parseProtocol_error pp _ _ _ _ _ hp heq
    · split at h
      · rename_i err host c heq
        simp only [Option.some.injEq] at h
        subst h
        exact parseHost_error _ _ _ _ _ heq
      · split at h
        · rename_i err port c heq
          simp only [Option.some.injEq] at h
          subst h
          exact parsePort_error _ _ _ _ _ heq
        · simp only at h
          split at h
          · rename_i err heq
            simp only [Option.some.injEq] at h
            subst h
            exact validateRootPath_error _ _ heq
          · simp at h

/-- Instance of C25: `ftp://h` is refused with `unsupported protocol`, and
`http://h/x` with `invalid syntax of endpoint.`. -/
theorem parse_error_messages_witness :
    (http.Endpoint.parse text {} [0x66, 0x74, 0x70, 0x3A, 0x2F, 0x2F, 0x68]).1
        = some ("unsupported protocol" ++ (": " ++ text [0x66, 0x74, 0x70] ++ "."))
    ∧ (http.Endpoint.parse text {}
          [0x68, 0x74, 0x74, 0x70, 0x3A, 0x2F, 0x2F, 0x68, 0x2F, 0x78]).1
        = some "invalid syntax of endpoint." :=
  ⟨(parse_error_messages text {} [0x66, 0x74, 0x70, 0x3A, 0x2F, 0x2F, 0x68] (by decide)).1
      ⟨by set_option maxRecDepth 100000 in decide,
        by set_option maxRecDepth 100000 in decide⟩,
    by set_option maxRecDepth 100000 in decide⟩

theorem parse_ok_decompose (pp : List Byte → String) (out : http.Endpoint) (url : List Byte)
    (h : (http.Endpoint.parse pp out url).1 = none) :
    ∃ proto host port rest, url = http.urlOf proto host port rest
      ∧ host ≠ []
      ∧ (∀ x ∈ host, x ≠ (0x3A : Byte) ∧ x ≠ 0x2F)
      ∧ (∀ p, port = some p → p ≠ [] ∧ ∀ x ∈ p, (0x30 : Byte) ≤ x ∧ x ≤ 0x39)
      ∧ ∀ x ∈ rest, x = (0x2F : Byte) := by
  unfold http.Endpoint.parse at h
  split at h
  · simp at h
  · split at h
    · simp at h
    · rename_i proto b1 hproto
      split at h
      · simp at h
      · rename_i host b2 hhost
        split at h
        · simp at h
        · rename_i port b3 hport
          simp only at h
          split at h
          · simp at h
          · rename_i hroot
            have e1 := parseProtocol_ok _ _ _ _ _ hproto
            obtain ⟨e2, hne, hh⟩ := parseHost_ok _ _ _ _ hhost
            rw [validateRootPath_eq_none_iff] at hroot
            rcases parsePort_ok _ _ _ hport with ⟨_, e3, _⟩ | ⟨hp, e3, hd⟩
            · refine ⟨proto, host, none, b3, ?_, hne, hh, (fun p hp => nomatch hp), hroot⟩
              rw [e1, e2, e3]
              simp [http.urlOf]
            · refine ⟨proto, host, some port, b3, ?_, hne, hh, fun p hp1 => ?_, hroot⟩
              · rw [e1, e2, e3]
                simp [http.urlOf]
              · simp only [Option.some.injEq] at hp1
                subst hp1
                exact ⟨hp, hd⟩

/-- C26, the claim as written fails: `http://h//` has the path `//` after the
host, which is neither empty nor `/`, and `http::Endpoint::parse` returns no
error for it. -/
theorem parse_two_slashes :
    sampleUrlTwoSlashes = http.urlOf .HTTP [0x68] none [0x2F, 0x2F]
    ∧ ([0x2F, 0x2F] : List Byte) ≠ []
    ∧ ([0x2F, 0x2F] : List Byte) ≠ [0x2F]
    ∧ http.Endpoint.parse text {} sampleUrlTwoSlashes
        = (none, { mProtocol := .HTTP, mHost := [0x68], mPort := [0x38, 0x30] }) := by
  set_option maxRecDepth 100000 in
  decide

/-- C26, amended: `http::Endpoint::parse` returns no error only for a URL
`scheme "://" host [":" port] rest` whose `rest` holds nothing but `'/'` (it is
empty, `/`, `//`, and so on); and for a URL whose path after a well-formed
`host[:port]` starts with `'/'`, it returns no error exactly when the path holds
nothing but `'/'`, and the error `invalid syntax of endpoint.` when the path
holds any other byte. -/
theorem parse_root_path (pp : List Byte → String) (out : http.Endpoint) :
    (∀ url, (http.Endpoint.parse pp out url).1 = none →
      ∃ proto host port rest, url = http.urlOf proto host port rest
        ∧ host ≠ []
        ∧ (∀ x ∈ host, x ≠ (0x3A : Byte) ∧ x ≠ 0x2F)
        ∧ (∀ p, port = some p → p ≠ [] ∧ ∀ x ∈ p, (0x30 : Byte) ≤ x ∧ x ≤ 0x39)
        ∧ ∀ x ∈ rest, x = (0x2F : Byte))
    ∧ (∀ proto host port path, host ≠ [] →
        (∀ x ∈ host, x ≠ (0x3A : Byte) ∧ x ≠ 0x2F) →
        (∀ p, port = some p → p ≠ [] ∧ ∀ x ∈ p, (0x30 : Byte) ≤ x ∧ x ≤ 0x39) →
        (∀ x, path.head? = some x → x = (0x2F : Byte)) →
        ((http.Endpoint.parse pp out (http.urlOf proto host port path)).1 = none
            ↔ ∀ x ∈ path, x = (0x2F : Byte))
        ∧ ((∃ x ∈ path, x ≠ (0x2F : Byte)) →
            (http.Endpoint.parse pp out (http.urlOf proto host port path)).1
              = some "invalid syntax of endpoint.")) := by
  refine ⟨fun url h => parse_ok_decompose pp out url h,
    fun proto host port path hne hhost hport hpath => ?_⟩
  rw [parse_urlOf pp out proto host port path hne hhost hport hpath]
  refine ⟨validateRootPath_eq_none_iff path, fun ⟨x, hx, hxne⟩ => ?_⟩
  cases hv : http.validateRootPath path with
  | none => exact absurd ((validateRootPath_eq_none_iff path).1 hv x hx) hxne
  | some msg => rw [validateRootPath_error path msg hv]

/-- Instance of C26: `http://h/` is parsed without error, and `http://h/x` is
refused with `invalid syntax of endpoint.`. -/
theorem parse_root_path_witness :
    (http.Endpoint.parse text {} (http.urlOf .HTTP [0x68] none [0x2F])).1 = none
    ∧ (http.Endpoint.parse text {} (http.urlOf .HTTP [0x68] none [0x2F, 0x78])).1
        = some "invalid syntax of endpoint." :=
  ⟨(((parse_root_path text {}).2 .HTTP [0x68] none [0x2F] (by decide)
        (by set_option maxRecDepth 100000 in decide) (fun p hp => nomatch hp)
        (by set_option maxRecDepth 100000 in decide)).1).2
      (by set_option maxRecDepth 100000 in decide),
    ((parse_root_path text {}).2 .HTTP [0x68] none [0x2F, 0x78] (by decide)
        (by set_option maxRecDepth 100000 in decide) (fun p hp => nomatch hp)
        (by set_option maxRecDepth 100000 in decide)).2
      ⟨0x78, by simp, by decide⟩⟩

/-! ## The range iterator -/

theorem rowsOf_append (a b : List GetRangeResponse) : rowsOf (a ++ b) = rowsOf a ++ rowsOf b := by
  induction a with
  | nil => rfl
  | cons p ps ih => simp [rowsOf, ih]

theorem pagesOf_append (a b : List Call) : pagesOf (a ++ b) = pagesOf a ++ pagesOf b := by
  simp [pagesOf, List.filterMap_append]

theorem pagesOf_failed (c : Call) (err : OTSError) (h : c.mError = some err) :
    pagesOf [c] = [] := by
  simp [pagesOf, Call.page, h]

theorem pagesOf_page (c : Call) (h : c.mError = none) : pagesOf [c] = [c.mResponse] := by
  simp [pagesOf, Call.page, h]

theorem tallyOf_concat (ps : List GetRangeResponse) (p : GetRangeResponse) :
    tallyOf (ps ++ [p]) = (tallyOf ps).accumulate p.mConsumedCapacity := by
  simp [tallyOf, List.foldl_append]

theorem lastNextStart_concat (ps : List GetRangeResponse) (p : GetRangeResponse) :
    lastNextStart (ps ++ [p]) = p.mNextStart := by
  simp [lastNextStart]

/-- A list with an element put behind it, cut at one of its elements: the cut is
at the new element or inside the old list. -/
theorem concat_eq_append_cons {α : Type} (log pre post : List α) (c d : α)
    (h : log ++ [c] = pre ++ d :: post) :
    (post = [] ∧ pre = log ∧ d = c) ∨ (∃ post1, post = post1 ++ [c] ∧ log = pre ++ d :: post1) := by
  rcases List.eq_nil_or_concat post with hp | ⟨post1, b, hp⟩
  · subst hp
    have := List.append_inj' h rfl
    simp only [List.cons.injEq, and_true] at this
    exact Or.inl ⟨rfl, this.1.symm, this.2.symm⟩
  · rw [List.concat_eq_append] at hp
    subst hp
    have e : pre ++ d :: (post1 ++ [b]) = (pre ++ d :: post1) ++ [b] := by simp
    rw [e] at h
    have := List.append_inj' h rfl
    simp only [List.cons.injEq, and_true] at this
    exact Or.inr ⟨post1, by rw [this.2], this.1⟩

theorem inv_create (criterion : RangeQueryCriterion) (cap : Option Int) :
    RangeIterator.Inv criterion.mLimit cap (RangeIterator.create criterion cap) [] [] := by
  refine ⟨?_, rfl, rfl, rfl, rfl, fun pre c post h => ?_⟩
  · cases h : criterion.mLimit <;> simp [RangeIterator.create, pagesOf, rowsOf, h]
  · simp at h

theorem inv_pop (limit cap : Option Int) (self : RangeIterator) (log : List Call)
    (out : List Row) (r : Row) (rest : List Row) (hrows : self.mRows = r :: rest)
    (h : RangeIterator.Inv limit cap self log out) :
    RangeIterator.Inv limit cap { self with mRows := rest, mCurrent := some r } log
      (out ++ [r]) := by
  refine ⟨h.limit_eq, h.cap_eq, ?_, h.tally_eq, h.next_eq, h.requests⟩
  have := h.rows_eq
  rw [hrows] at this
  simpa using this

theorem inv_current (limit cap : Option Int) (self : RangeIterator) (log : List Call)
    (out : List Row) (h : RangeIterator.Inv limit cap self log out) :
    RangeIterator.Inv limit cap { self with mCurrent := none } log out :=
  ⟨h.limit_eq, h.cap_eq, h.rows_eq, h.tally_eq, h.next_eq, h.requests⟩

theorem inv_requests (limit cap : Option Int) (self : RangeIterator) (log : List Call)
    (out : List Row) (c : Call) (h : RangeIterator.Inv limit cap self log out)
    (hc : c.mRequest = self.request) :
    ∀ pre d post, log ++ [c] = pre ++ d :: post →
      d.mRequest.mQueryCriterion.mLimit
        = RangeIterator.requestLimit
            (limit.map fun l => l - ((rowsOf (pagesOf pre)).length : Int)) cap := by
  intro pre d post hlog
  rcases concat_eq_append_cons log pre post c d hlog with ⟨_, h2, h3⟩ | ⟨post1, _, h2⟩
  · subst h2 h3
    rw [hc]
    simp only [RangeIterator.request]
    rw [h.limit_eq, h.cap_eq]
  · exact h.requests pre d post1 h2

theorem inv_failed (limit cap : Option Int) (self : RangeIterator) (log : List Call)
    (out : List Row) (c : Call) (err : OTSError) (h : RangeIterator.Inv limit cap self log out)
    (hc : c.mRequest = self.request) (he : c.mError = some err) :
    RangeIterator.Inv limit cap { self with mCurrent := none } (log ++ [c]) out := by
  have hp : pagesOf (log ++ [c]) = pagesOf log := by
    rw [pagesOf_append, pagesOf_failed c err he, List.append_nil]
  refine ⟨?_, h.cap_eq, ?_, ?_, ?_, inv_requests limit cap self log out c h hc⟩
  · rw [hp]
    exact h.limit_eq
  · rw [hp]
    exact h.rows_eq
  · rw [hp]
    exact h.tally_eq
  · rw [hp]
    exact h.next_eq

theorem inv_refill (limit cap : Option Int) (self : RangeIterator) (log : List Call)
    (out : List Row) (c : Call) (h : RangeIterator.Inv limit cap self log out)
    (hrows : self.mRows = []) (hc : c.mRequest = self.request) (he : c.mError = none) :
    RangeIterator.Inv limit cap (self.refill c.mResponse) (log ++ [c]) out := by
  have hp : pagesOf (log ++ [c]) = pagesOf log ++ [c.mResponse] := by
    rw [pagesOf_append, pagesOf_page c he]
  have hout : out = rowsOf (pagesOf log) := by
    have := h.rows_eq
    rw [hrows, List.append_nil] at this
    exact this
  refine ⟨?_, h.cap_eq, ?_, ?_, ?_, inv_requests limit cap self log out c h hc⟩
  · rw [hp, rowsOf_append]
    simp only [RangeIterator.refill, h.limit_eq]
    cases limit with
    | none => rfl
    | some l =>
      simp only [Option.map_some', rowsOf, List.append_nil, List.length_append, Nat.cast_add,
        Option.some.injEq]
      omega
  · rw [hp, rowsOf_append, ← hout]
    simp [RangeIterator.refill, rowsOf]
  · rw [hp, tallyOf_concat, ← h.tally_eq]
    rfl
  · rw [hp, lastNextStart_concat]
    rfl

/-- The invariant through `moveNext` on a recording client: the row positioned,
if any, counts as yielded. -/
theorem moveNext_inv {σ : Type} (api : Api σ) (limit cap : Option Int) :
    ∀ (fuel : Nat) (self : RangeIterator) (s : σ) (log : List Call) (out : List Row)
      (err : Option OTSError) (self1 : RangeIterator) (client1 : σ × List Call),
      RangeIterator.Inv limit cap self log out →
      RangeIterator.moveNext (Api.recorded api) fuel self (s, log)
        = some (err, self1, client1) →
      RangeIterator.Inv limit cap self1 client1.2 (out ++ self1.mCurrent.toList)
        ∧ (self1.mCurrent = none → err = none → self1.mRows = [])
        ∧ (∀ e, err = some e → self1.mCurrent = none) := by
  intro fuel
  induction fuel with
  | zero =>
    intro self s log out err self1 client1 _ h
    simp [RangeIterator.moveNext] at h
  | succ fuel ih =>
    intro self s log out err self1 client1 hinv h
    unfold RangeIterator.moveNext at h
    split at h
    · rename_i r rest hrows
      simp only [Option.some.injEq, Prod.mk.injEq] at h
      obtain ⟨h1, h2, h3⟩ := h
      subst h1 h2 h3
      exact ⟨by simpa using inv_pop limit cap self log out r rest hrows hinv,
        fun hcur => by simp at hcur, fun e he => by simp at he⟩
    · rename_i hrows
      split at h
      · simp only [Option.some.injEq, Prod.mk.injEq] at h
        obtain ⟨h1, h2, h3⟩ := h
        subst h1 h2 h3
        exact ⟨by simpa using inv_current limit cap self log out hinv, fun _ _ => hrows,
          fun e he => by simp at he⟩
      · split at h
        · rename_i e he
          simp only [Option.some.injEq, Prod.mk.injEq] at h
          obtain ⟨h1, h2, h3⟩ := h
          subst h1 h2 h3
          exact ⟨by
            simpa [Api.recorded] using
              inv_failed limit cap self log out
                { mRequest := self.request
                  mError := (api s self.request).1
                  mResponse := (api s self.request).2.1 } e hinv rfl he,
            fun _ hn => by simp at hn, fun _ _ => rfl⟩
        · rename_i he
          exact ih _ _ _ out err self1 client1
            (inv_refill limit cap self log out
              { mRequest := self.request
                mError := (api s self.request).1
                mResponse := (api s self.request).2.1 } hinv hrows rfl he) h

/-- The invariant through `collect` on a recording client. -/
theorem collect_inv {σ : Type} (api : Api σ) (limit cap : Option Int) :
    ∀ (fuel : Nat) (rows : List Row) (self : RangeIterator) (s : σ) (log : List Call)
      (err : Option OTSError) (rows1 : List Row) (self1 : RangeIterator)
      (client1 : σ × List Call),
      RangeIterator.Inv limit cap self log rows →
      unittest.collect (Api.recorded api) fuel rows self (s, log)
        = some (err, rows1, self1, client1) →
      RangeIterator.Inv limit cap self1 client1.2 rows1
        ∧ (err = none → self1.mRows = [] ∧ self1.mCurrent = none) := by
  intro fuel
  induction fuel with
  | zero =>
    intro rows self s log err rows1 self1 client1 _ h
    simp [unittest.collect] at h
  | succ fuel ih =>
    intro rows self s log err rows1 self1 client1 hinv h
    unfold unittest.collect at h
    split at h
    · simp at h
    · rename_i e it c hmove
      simp only [Option.some.injEq, Prod.mk.injEq] at h
      obtain ⟨h1, h2, h3, h4⟩ := h
      subst h1 h2 h3 h4
      obtain ⟨hi, _, hcur⟩ := moveNext_inv api limit cap _ _ _ _ _ _ _ _ hinv hmove
      rw [hcur e rfl] at hi
      exact ⟨by simpa using hi, fun hn => by simp at hn⟩
    · rename_i it c hmove
      obtain ⟨hi, hrows, _⟩ := moveNext_inv api limit cap _ _ _ _ _ _ _ _ hinv hmove
      split at h
      · rename_i hget
        simp only [Option.some.injEq, Prod.mk.injEq] at h
        obtain ⟨h1, h2, h3, h4⟩ := h
        subst h1 h2 h3 h4
        have hcur : it.mCurrent = none := hget
        rw [hcur] at hi
        exact ⟨by simpa using hi, fun _ => ⟨hrows hcur rfl, hcur⟩⟩
      · rename_i r hget
        have hcur : it.mCurrent = some r := hget
        rw [hcur] at hi
        exact ih _ _ c.1 c.2 err rows1 self1 client1 (by simpa using hi) h

theorem received_le (L : Int) (hL : 0 ≤ L) (log : List Call)
    (hreq : ∀ pre c post, log = pre ++ c :: post →
      c.mRequest.mQueryCriterion.mLimit = some (L - ((rowsOf (pagesOf pre)).length : Int)))
    (hserver : ∀ c ∈ log, c.withinLimit = true) :
    ((rowsOf (pagesOf log)).length : Int) ≤ L := by
  induction log using List.reverseRecOn with
  | nil => simpa [pagesOf, rowsOf] using hL
  | append_singleton l a ih =>
    have ih1 := ih (fun pre c post h => hreq pre c (post ++ [a]) (by rw [h]; simp))
      (fun c hc => hserver c (List.mem_append_left _ hc))
    rw [pagesOf_append, rowsOf_append]
    cases he : a.mError with
    | some e =>
      rw [pagesOf_failed a e he]
      simpa [rowsOf] using ih1
    | none =>
      rw [pagesOf_page a he]
      have h1 := hreq l a [] rfl
      have h2 := hserver a (by simp)
      simp only [Call.withinLimit, he, h1, decide_eq_true_eq] at h2
      simp only [rowsOf, List.append_nil, List.length_append, Nat.cast_add]
      omega

theorem foldl_read_none (ps : List GetRangeResponse) (t : CapacityUnit)
    (h : ∀ p ∈ ps, p.mConsumedCapacity.mRead = none) :
    (ps.foldl (fun total p => total.accumulate p.mConsumedCapacity) t).mRead = t.mRead := by
  induction ps generalizing t with
  | nil => rfl
  | cons p ps ih =>
    rw [List.foldl_cons, ih _ (fun q hq => h q (List.mem_cons_of_mem _ hq))]
    simp [CapacityUnit.accumulate, h p (List.mem_cons_self _ _)]

theorem foldl_write_none (ps : List GetRangeResponse) (t : CapacityUnit)
    (h : ∀ p ∈ ps, p.mConsumedCapacity.mWrite = none) :
    (ps.foldl (fun total p => total.accumulate p.mConsumedCapacity) t).mWrite = t.mWrite := by
  induction ps generalizing t with
  | nil => rfl
  | cons p ps ih =>
    rw [List.foldl_cons, ih _ (fun q hq => h q (List.mem_cons_of_mem _ hq))]
    simp [CapacityUnit.accumulate, h p (List.mem_cons_self _ _)]

theorem foldl_read_getD (ps : List GetRangeResponse) (t : CapacityUnit) :
    (ps.foldl (fun total p => total.accumulate p.mConsumedCapacity) t).mRead.getD 0
      = t.mRead.getD 0 + readSum ps := by
  induction ps generalizing t with
  | nil => simp [readSum]
  | cons p ps ih =>
    rw [List.foldl_cons, ih]
    cases hp : p.mConsumedCapacity.mRead with
    | none => simp [CapacityUnit.accumulate, readSum, hp]
    | some r =>
      simp only [CapacityUnit.accumulate, readSum, hp, Option.getD_some]
      omega

theorem foldl_read_some (ps : List GetRangeResponse) (t : CapacityUnit)
    (h : t.mRead ≠ none ∨ ∃ p ∈ ps, p.mConsumedCapacity.mRead ≠ none) :
    (ps.foldl (fun total p => total.accumulate p.mConsumedCapacity) t).mRead ≠ none := by
  induction ps generalizing t with
  | nil =>
    rcases h with h | ⟨p, hp, _⟩
    · exact h
    · simp at hp
  | cons p ps ih =>
    rw [List.foldl_cons]
    apply ih
    cases hp : p.mConsumedCapacity.mRead with
    | some r => exact Or.inl (by simp [CapacityUnit.accumulate, hp])
    | none =>
      rcases h with h | ⟨q, hq, hne⟩
      · exact Or.inl (by simpa [CapacityUnit.accumulate, hp] using h)
      · rcases List.mem_cons.1 hq with rfl | hq1
        · exact absurd hp hne
        · exact Or.inr ⟨q, hq1, hne⟩

theorem tallyOf_read (ps : List GetRangeResponse)
    (h : ∃ p ∈ ps, p.mConsumedCapacity.mRead ≠ none) :
    (tallyOf ps).mRead = some (readSum ps) := by
  have h1 : (tallyOf ps).mRead ≠ none := foldl_read_some ps {} (Or.inr h)
  have h2 : (tallyOf ps).mRead.getD 0 = 0 + readSum ps := foldl_read_getD ps {}
  cases hx : (tallyOf ps).mRead with
  | none => exact absurd hx h1
  | some x =>
    rw [hx] at h2
    simp only [Option.getD_some, zero_add] at h2
    rw [h2]

/-- C30: in a run of `collect` that ends without error, the read count of
`consumedCapacity()` is the sum of the read capacity units that the pages
fetched report (and is absent when no page reports one), and the write count is
absent when no page fetched reports write units. -/
theorem rangeIterator_consumedCapacity {σ : Type} (api : Api σ)
    (criterion : RangeQueryCriterion) (cap : Option Int) (s : σ) (fuel : Nat)
    (rows : List Row) (iter : RangeIterator) (client : σ × List Call)
    (hrun : unittest.collect (Api.recorded api) fuel [] (RangeIterator.create criterion cap)
      (s, []) = some (none, rows, iter, client)) :
    ((∃ p ∈ pagesOf client.2, p.mConsumedCapacity.mRead ≠ none) →
      iter.consumedCapacity.mRead = some (readSum (pagesOf client.2)))
    ∧ ((∀ p ∈ pagesOf client.2, p.mConsumedCapacity.mRead = none) →
      iter.consumedCapacity.mRead = none)
    ∧ ((∀ p ∈ pagesOf client.2, p.mConsumedCapacity.mWrite = none) →
      iter.consumedCapacity.mWrite = none) := by
  obtain ⟨hinv, _⟩ := collect_inv api criterion.mLimit cap fuel [] _ s [] none rows iter client
    (inv_create criterion cap) hrun
  have ht : iter.consumedCapacity = tallyOf (pagesOf client.2) := hinv.tally_eq
  rw [ht]
  exact ⟨tallyOf_read _, fun h => foldl_read_none _ {} h, fun h => foldl_write_none _ {} h⟩

/-- Instance of C30, the scenario of `RangeIterator_continuation`: the pages
report 1 and 2 read units and no write units; the tally reads 3 and has no write
count. -/
theorem rangeIterator_consumedCapacity_witness :
    ∃ iter client,
      unittest.collect (Api.recorded pagesApi) 5 [] (RangeIterator.create sampleCriterion none)
          (pagesContinuation, []) = some (none, [pkRow 0, pkRow 1], iter, client)
      ∧ readSum (pagesOf client.2) = 3
      ∧ iter.consumedCapacity.mRead = some (readSum (pagesOf client.2))
      ∧ iter.consumedCapacity.mWrite = none :=
  ⟨_, _, rfl, rfl,
    (rangeIterator_consumedCapacity pagesApi sampleCriterion none pagesContinuation 5
      [pkRow 0, pkRow 1] _ _ rfl).1
      ⟨{ mRows := [pkRow 1], mConsumedCapacity := { mRead := some 2 } }, by decide, by decide⟩,
    (rangeIterator_consumedCapacity pagesApi sampleCriterion none pagesContinuation 5
      [pkRow 0, pkRow 1] _ _ rfl).2.2 (by decide)⟩

theorem moveNext_pop {σ : Type} (api : Api σ) (fuel : Nat) (self : RangeIterator) (client : σ)
    (r : Row) (rest : List Row) (h : self.mRows = r :: rest) :
    RangeIterator.moveNext api (fuel + 1) self client
      = some (none, { self with mRows := rest, mCurrent := some r }, client) := by
  unfold RangeIterator.moveNext
  simp only [h]

theorem moveNext_exhausted {σ : Type} (api : Api σ) (fuel : Nat) (self : RangeIterator)
    (client : σ) (h : self.mRows = []) (hex : self.exhausted = true) :
    RangeIterator.moveNext api (fuel + 1) self client
      = some (none, { self with mCurrent := none }, client) := by
  unfold RangeIterator.moveNext
  simp only [h, hex, if_true]

theorem moveNext_fetch {σ : Type} (api : Api σ) (fuel : Nat) (self : RangeIterator)
    (client : σ) (h : self.mRows = []) (hex : self.exhausted = false)
    (herr : (api client self.request).1 = none) :
    RangeIterator.moveNext api (fuel + 1) self client
      = RangeIterator.moveNext api fuel (self.refill (api client self.request).2.1)
          (api client self.request).2.2 := by
  conv_lhs => unfold RangeIterator.moveNext
  simp only [h, hex, herr, Bool.false_eq_true, if_false]

theorem collect_row {σ : Type} (api : Api σ) (fuel : Nat) (rows : List Row)
    (iter iter1 : RangeIterator) (client client1 : σ) (r : Row)
    (h : RangeIterator.moveNext api (fuel + 1) iter client = some (none, iter1, client1))
    (hcur : iter1.mCurrent = some r) :
    unittest.collect api (fuel + 1) rows iter client
      = unittest.collect api fuel (rows ++ [r]) iter1 client1 := by
  conv_lhs => unfold unittest.collect
  simp only [h, RangeIterator.get, hcur]

theorem collect_end {σ : Type} (api : Api σ) (fuel : Nat) (rows : List Row)
    (iter iter1 : RangeIterator) (client client1 : σ)
    (h : RangeIterator.moveNext api (fuel + 1) iter client = some (none, iter1, client1))
    (hcur : iter1.mCurrent = none) :
    unittest.collect api (fuel + 1) rows iter client = some (none, rows, iter1, client1) := by
  unfold unittest.collect
  simp only [h, RangeIterator.get, hcur]

theorem pagesState_congr (last : GetRangeResponse) (a b : RangeIterator)
    (rest : List GetRangeResponse) (h : PagesState last a rest)
    (h1 : b.mCriterion = a.mCriterion) (h2 : b.mFetched = a.mFetched)
    (h3 : b.mNextStart = a.mNextStart) : PagesState last b rest := by
  unfold PagesState at h ⊢
  rw [h1, h2, h3]
  exact h

theorem pagesState_nil (last : GetRangeResponse) (self : RangeIterator)
    (h : PagesState last self []) : self.exhausted = true := by
  rcases h.2 with ⟨_, h1, h2⟩ | ⟨init, h1, _⟩
  · simp [RangeIterator.exhausted, h1, h2]
  · simp at h1

theorem pagesState_step (last p : GetRangeResponse) (self : RangeIterator)
    (rest : List GetRangeResponse) (h : PagesState last self (p :: rest)) :
    self.exhausted = false ∧ PagesState last (self.refill p) rest := by
  obtain ⟨hl, h2⟩ := h
  rcases h2 with ⟨h1, _⟩ | ⟨init, h1, hinit, hlast, hf⟩
  · simp at h1
  · constructor
    · rcases hf with hf | hf
      · simp [RangeIterator.exhausted, hl, hf]
      · cases hn : self.mNextStart with
        | none => exact absurd hn hf
        | some k => simp [RangeIterator.exhausted, hl, hn]
    · refine ⟨by simp [RangeIterator.refill, hl], ?_⟩
      cases init with
      | nil =>
        simp only [List.nil_append, List.cons.injEq] at h1
        obtain ⟨hp, hr⟩ := h1
        subst hp
        exact Or.inl ⟨hr, rfl, hlast⟩
      | cons q init1 =>
        simp only [List.cons_append, List.cons.injEq] at h1
        obtain ⟨hp, hr⟩ := h1
        subst hp
        exact Or.inr ⟨init1, hr, fun x hx => hinit x (List.mem_cons_of_mem _ hx), hlast,
          Or.inr (hinit p (List.mem_cons_self _ _))⟩

/-- On `pagesApi`, `moveNext` with an empty buffer fetches pages up to the first
that holds a row and positions that row, or up to the last page when none holds
a row. -/
theorem moveNext_pages (last : GetRangeResponse) :
    ∀ (rest : List GetRangeResponse) (self : RangeIterator) (log : List Call) (fuel : Nat),
      PagesState last self rest → self.mRows = [] → rest.length + 2 ≤ fuel →
      ∃ self1 new rest1,
        RangeIterator.moveNext (Api.recorded pagesApi) fuel self (rest, log)
          = some (none, self1, (rest1, log ++ new))
        ∧ new.map Call.mResponse ++ rest1 = rest
        ∧ (∀ c ∈ new, c.mError = none)
        ∧ PagesState last self1 rest1
        ∧ ((∃ r, self1.mCurrent = some r
              ∧ r :: self1.mRows = rowsOf (new.map Call.mResponse))
          ∨ (self1.mCurrent = none ∧ rest1 = [] ∧ self1.mRows = []
              ∧ rowsOf (new.map Call.mResponse) = [])) := by
  intro rest
  induction rest with
  | nil =>
    intro self log fuel hs hrows hfuel
    obtain ⟨f, rfl⟩ : ∃ f, fuel = f + 1 := ⟨fuel - 1, by omega⟩
    refine ⟨{ self with mCurrent := none }, [], [], ?_, rfl, (fun c hc => nomatch hc),
      pagesState_congr last self _ [] hs rfl rfl rfl, Or.inr ⟨rfl, rfl, hrows, rfl⟩⟩
    rw [moveNext_exhausted _ f self _ hrows (pagesState_nil last self hs), List.append_nil]
  | cons p rest ih =>
    intro self log fuel hs hrows hfuel
    obtain ⟨f, rfl⟩ : ∃ f, fuel = f + 1 := ⟨fuel - 1, by omega⟩
    obtain ⟨hex, hs1⟩ := pagesState_step last p self rest hs
    rw [moveNext_fetch _ f self _ hrows hex rfl]
    have hc : (Api.recorded pagesApi (p :: rest, log) self.request)
        = (none, p, (rest, log ++ [{ mRequest := self.request, mError := none
                                     mResponse := p }])) := rfl
    rw [hc]
    simp only
    cases hp : p.mRows with
    | nil =>
      have hr : (self.refill p).mRows = [] := hp
      obtain ⟨self1, new, rest1, h1, h2, h3, h4, h5⟩ :=
        ih (self.refill p) (log ++ [{ mRequest := self.request, mError := none
                                      mResponse := p }]) f hs1 hr (by simp at hfuel; omega)
      refine ⟨self1, { mRequest := self.request, mError := none, mResponse := p } :: new, rest1,
        ?_, ?_, ?_, h4, ?_⟩
      · rw [h1]
        simp
      · simp [h2]
      · intro c hc1
        rcases List.mem_cons.1 hc1 with rfl | hc2
        · rfl
        · exact h3 c hc2
      · simpa [rowsOf, hp] using h5
    | cons r rs =>
      have hr : (self.refill p).mRows = r :: rs := hp
      obtain ⟨f1, rfl⟩ : ∃ f1, f = f1 + 1 := ⟨f - 1, by simp at hfuel; omega⟩
      rw [moveNext_pop _ f1 _ _ r rs hr]
      refine ⟨{ self.refill p with mRows := rs, mCurrent := some r },
        [{ mRequest := self.request, mError := none, mResponse := p }], rest, rfl, rfl, ?_,
        pagesState_congr last _ _ rest hs1 rfl rfl rfl, Or.inl ⟨r, rfl, ?_⟩⟩
      · intro c hc1
        rw [List.mem_singleton.1 hc1]
      · simp [rowsOf, hp]

/-- On `pagesApi`, `collect` with enough fuel yields the rows buffered and the
rows of the pages yet to be served, with one call for each of these pages. -/
theorem collect_pages (last : GetRangeResponse) :
    ∀ (fuel : Nat) (rows : List Row) (self : RangeIterator) (rest : List GetRangeResponse)
      (log : List Call),
      PagesState last self rest →
      self.mRows.length + (rowsOf rest).length + rest.length + 2 ≤ fuel →
      ∃ self1 new,
        unittest.collect (Api.recorded pagesApi) fuel rows self (rest, log)
          = some (none, rows ++ self.mRows ++ rowsOf rest, self1, ([], log ++ new))
        ∧ new.map Call.mResponse = rest
        ∧ (∀ c ∈ new, c.mError = none)
        ∧ self1.valid = false := by
  intro fuel
  induction fuel with
  | zero =>
    intro rows self rest log _ hfuel
    omega
  | succ fuel ih =>
    intro rows self rest log hs hfuel
    cases hrows : self.mRows with
    | cons r rs =>
      rw [hrows] at hfuel
      have hm := moveNext_pop (Api.recorded pagesApi) fuel self (rest, log) r rs hrows
      rw [collect_row _ fuel rows self _ _ _ r hm rfl]
      obtain ⟨self1, new, h1, h2, h3, h4⟩ :=
        ih (rows ++ [r]) { self with mRows := rs, mCurrent := some r } rest log
          (pagesState_congr last self _ rest hs rfl rfl rfl)
          (by simp only [List.length_cons] at hfuel ⊢; omega)
      exact ⟨self1, new, by rw [h1]; simp, h2, h3, h4⟩
    | nil =>
      rw [hrows] at hfuel
      obtain ⟨self1, new, rest1, hm, h2, h3, h4, h5⟩ :=
        moveNext_pages last rest self log (fuel + 1) hs hrows
          (by simp only [List.length_nil] at hfuel; omega)
      have hrest : rowsOf rest = rowsOf (new.map Call.mResponse) ++ rowsOf rest1 := by
        rw [← rowsOf_append, h2]
      have hlen : rest.length = new.length + rest1.length := by
        rw [← h2]
        simp
      rcases h5 with ⟨r, hcur, hr⟩ | ⟨hcur, hr1, hr2, hr3⟩
      · rw [collect_row _ fuel rows self _ _ _ r hm hcur]
        have hl : (rowsOf rest).length = 1 + self1.mRows.length + (rowsOf rest1).length := by
          rw [hrest, ← hr]
          simp
          omega
        obtain ⟨self2, new2, k1, k2, k3, k4⟩ :=
          ih (rows ++ [r]) self1 rest1 (log ++ new) h4
            (by simp only [List.length_nil] at hfuel; omega)
        refine ⟨self2, new ++ new2, ?_, ?_, ?_, k4⟩
        · rw [k1, hrest, ← hr]
          simp
        · rw [List.map_append, k2, h2]
        · intro c hc
          rcases List.mem_append.1 hc with hc1 | hc1
          · exact h3 c hc1
          · exact k3 c hc1
      · rw [collect_end _ fuel rows self _ _ _ hm hcur]
        subst hr1
        refine ⟨self1, new, ?_, by simpa using h2, h3, by simp [RangeIterator.valid, hcur]⟩
        rw [hrest, hr3]
        simp [rowsOf]

/-- C28: for pages `init ++ [last]` of which only `last` has no `nextStart`,
served in order by the mock `pagesApi`, and a criterion without limit, `collect`
(`moveNext()` until `valid()` is false) with enough fuel returns without error
the rows of the pages in page order, and the client has recorded one call of
`GetRange` for each page, none of which failed. For the one page `last` without
rows this is: no rows and no error. -/
theorem rangeIterator_pages (criterion : RangeQueryCriterion) (cap : Option Int)
    (init : List GetRangeResponse) (last : GetRangeResponse) (fuel : Nat)
    (hlimit : criterion.mLimit = none) (hinit : ∀ p ∈ init, p.mNextStart ≠ none)
    (hlast : last.mNextStart = none)
    (hfuel : (rowsOf (init ++ [last])).length + init.length + 3 ≤ fuel) :
    ∃ iter log,
      unittest.collect (Api.recorded pagesApi) fuel [] (RangeIterator.create criterion cap)
          (init ++ [last], [])
        = some (none, rowsOf (init ++ [last]), iter, ([], log))
      ∧ log.map Call.mResponse = init ++ [last]
      ∧ log.length = init.length + 1
      ∧ (∀ c ∈ log, c.mError = none)
      ∧ iter.valid = false := by
  have hs : PagesState last (RangeIterator.create criterion cap) (init ++ [last]) :=
    ⟨hlimit, Or.inr ⟨init, rfl, hinit, hlast, Or.inl rfl⟩⟩
  obtain ⟨iter, log, h1, h2, h3, h4⟩ :=
    collect_pages last fuel [] (RangeIterator.create criterion cap) (init ++ [last]) [] hs
      (by simp [RangeIterator.create] at hfuel ⊢; omega)
  refine ⟨iter, log, by simpa [RangeIterator.create] using h1, h2, ?_, h3, h4⟩
  have := congrArg List.length h2
  simpa using this

/-- Instance of C28: the two pages of `RangeIterator_continuation` give the rows
`pk = 0` and `pk = 1` with two calls, and the one empty page of
`RangeIterator_empty` gives no rows with one call. -/
theorem rangeIterator_pages_witness :
    (∃ iter log,
      unittest.collect (Api.recorded pagesApi) 6 [] (RangeIterator.create sampleCriterion none)
          (pagesContinuation, [])
        = some (none, [pkRow 0, pkRow 1], iter, ([], log))
      ∧ log.length = 2)
    ∧ (∃ iter log,
      unittest.collect (Api.recorded pagesApi) 3 [] (RangeIterator.create sampleCriterion none)
          ([{}], [])
        = some (none, [], iter, ([], log))
      ∧ log.length = 1) :=
  ⟨(rangeIterator_pages sampleCriterion none
      [{ mRows := [pkRow 0], mNextStart := some (pkKey (PrimaryKeyValue.toInteger 1))
         mConsumedCapacity := { mRead := some 1 } }]
      { mRows := [pkRow 1], mConsumedCapacity := { mRead := some 2 } } 6 rfl
      (by decide) rfl (by decide)).imp fun _ h => h.imp fun _ h => ⟨h.1, h.2.2.1⟩,
    (rangeIterator_pages sampleCriterion none [] {} 3 rfl (fun p hp => nomatch hp) rfl
      (by decide)).imp fun _ h => h.imp fun _ h => ⟨h.1, h.2.2.1⟩⟩

/-! ## Bounds and termination of the reader -/

/-- C34: for every input, constants and `out`, `plainbuffer::readRow` and
`plainbuffer::readRows` never reach a read of a byte outside the input: every
access in `readUint`, `readUint8`, `peekAndCheckTag` and `MemPiece` comes behind
a test of the cursor against the end, whatever lengths the input declares. -/
theorem reader_in_bounds (c : Consts) (out : Row) (rows : List Row) (p : List Byte) :
    readRow c out p ≠ .abort .outOfBounds
    ∧ readRows c rows p ≠ .abort .outOfBounds
    ∧ (∀ chk b, impl.readBlob chk b ≠ .abort .outOfBounds)
    ∧ (∀ chk b, impl.readName c chk b ≠ .abort .outOfBounds)
    ∧ (∀ size b, impl.readUint size b ≠ .abort .outOfBounds)
    ∧ (∀ b, impl.readUint8 b ≠ .abort .outOfBounds)
    ∧ (∀ tag b, impl.peekAndCheckTag tag b ≠ none) :=
  ⟨readRow_NoAbort c out p _, readRows_NoAbort c rows p _,
    fun chk b => readBlob_NoAbort chk b _, fun chk b => readName_NoAbort c chk b _,
    fun size b => readUint_NoAbort size b _, fun b => readUint8_NoAbort b _,
    fun tag b => peekAndCheckTag_ne_none tag b⟩

theorem wireRow_bytes_length_ge (c : Consts) (r : WireRow) : 3 ≤ (r.bytes c).length := by
  simp only [WireRow.bytes, List.cons_append, List.length_cons, List.length_append,
    List.length_nil]
  omega

/-- C35: `plainbuffer::readRows` terminates. A cell read successfully, as a
row-key column or as an attribute, leaves the cursor at least one byte further,
and a row read successfully at least three bytes further; hence the loops over
the cells and over the rows, run for more tests of their condition than the
input has bytes, end within these tests, and `readRows`, which gives its loops
the length of the input plus one, never runs out of them. -/
theorem readRows_terminates (c : Consts) :
    (∀ chk b col chk1 b1, impl.readPrimaryKeyColumn c {} chk b = .ok (col, chk1) b1 →
      b1.length + 1 ≤ b.length)
    ∧ (∀ chk b a chk1 b1, impl.readAttr c {} chk b = .ok (a, chk1) b1 →
      b1.length + 1 ≤ b.length)
    ∧ (∀ out b R b1, impl.readRow c out b = .ok R b1 → b1.length + 3 ≤ b.length)
    ∧ (∀ fuel out chk b, b.length < fuel →
      impl.readRowKeyLoop c fuel out chk b ≠ .abort .outOfFuel)
    ∧ (∀ fuel out chk b, b.length < fuel →
      impl.readAttrsLoop c fuel out chk b ≠ .abort .outOfFuel)
    ∧ (∀ fuel out b, b.length < fuel → impl.readRowsLoop c fuel out b ≠ .abort .outOfFuel)
    ∧ (∀ out p, readRows c out p ≠ .abort .outOfFuel)
    ∧ (∀ out p, readRow c out p ≠ .abort .outOfFuel) := by
  refine ⟨fun chk b col chk1 b1 h => ?_, fun chk b a chk1 b1 h => ?_, fun out b R b1 h => ?_,
    fun fuel out chk b h => readRowKeyLoop_NoAbort c fuel out chk b h _,
    fun fuel out chk b h => readAttrsLoop_NoAbort c fuel out chk b h _,
    fun fuel out b h => readRowsLoop_NoAbort c fuel out b h _,
    fun out p => readRows_NoAbort c out p _, fun out p => readRow_NoAbort c out p _⟩
  · obtain ⟨x, _, _, hb, _, _⟩ := readPrimaryKeyColumn_ok h
    have := wireCell_bytes_length_pos c x
    rw [hb, List.length_append]
    omega
  · obtain ⟨x, _, _, hb, _, _⟩ := readAttr_ok h
    have := wireCell_bytes_length_pos c x
    rw [hb, List.length_append]
    omega
  · obtain ⟨r, _, _, hb, _⟩ := impl_readRow_ok h
    have := wireRow_bytes_length_ge c r
    rw [hb, List.length_append]
    omega

/-- Instance of C35: the row of three bytes, `RowKey` tag, `RowChecksum` tag and
the checksum 0, is read with the cursor three bytes further, and the loop over
the rows ends within four tests on it. -/
theorem readRows_terminates_witness :
    impl.readRow wire {} [wire.kTag_RowKey, wire.kTag_RowChecksum, 0] = .ok {} []
    ∧ ([] : List Byte).length + 3
        ≤ [wire.kTag_RowKey, wire.kTag_RowChecksum, (0 : Byte)].length
    ∧ impl.readRowsLoop wire 4 [] [wire.kTag_RowKey, wire.kTag_RowChecksum, 0]
        ≠ .abort .outOfFuel :=
  ⟨by decide,
    (readRows_terminates wire).2.2.1 {} _ _ _
      (by decide : impl.readRow wire {} [wire.kTag_RowKey, wire.kTag_RowChecksum, 0]
        = .ok {} []),
    (readRows_terminates wire).2.2.2.2.2.1 4 [] _ (by decide)⟩

/-! ## Comparisons with the sides exchanged -/

theorem ofInt_reverse (x y : List Byte) :
    CompareResult.ofInt (lexicographicOrder y x)
      = (CompareResult.ofInt (lexicographicOrder x y)).reverse := by
  have h1 := lexicographicOrder_swap x y
  have h2 := lexicographicOrder_swap y x
  unfold CompareResult.ofInt
  by_cases h3 : lexicographicOrder x y < 0
  · have h4 : lexicographicOrder y x > 0 := h2.2 h3
    have h5 : ¬ lexicographicOrder y x < 0 := by omega
    simp [h3, h4, h5, CompareResult.reverse]
  · by_cases h4 : lexicographicOrder x y > 0
    · have h5 : lexicographicOrder y x < 0 := h1.1 h4
      simp [h3, h4, h5, CompareResult.reverse]
    · have h5 : ¬ lexicographicOrder y x < 0 := fun h => h4 (h1.2 h)
      have h6 : ¬ lexicographicOrder y x > 0 := fun h => h3 (h2.1 h)
      simp [h3, h4, h5, h6, CompareResult.reverse]

theorem reverse_reverse (c : CompareResult) : c.reverse.reverse = c := by
  cases c <;> rfl

theorem reverse_eq_equivalent (c : CompareResult) :
    c.reverse = .kCR_Equivalent ↔ c = .kCR_Equivalent := by
  cases c <;> simp [CompareResult.reverse]

/-- `PrimaryKeyValue::compare` with its sides exchanged gives the reversed
result. -/
theorem primaryKeyValue_compare_reverse (a b : PrimaryKeyValue)
    (ha : a.mCategory ≠ .kNone) (hb : b.mCategory ≠ .kNone) :
    b.compare a = (a.compare b).map CompareResult.reverse := by
  obtain ⟨ca, ia, sa⟩ := a
  obtain ⟨cb, ib, sb⟩ := b
  simp only at ha hb
  unfold PrimaryKeyValue.compare PrimaryKeyValue.integer PrimaryKeyValue.str
    PrimaryKeyValue.blob
  cases ca <;> cases cb <;> simp [CompareResult.reverse] at ha hb ⊢
  · by_cases h1 : ia < ib
    · have h2 : ¬ ib < ia := by omega
      simp [h1, h2, CompareResult.reverse]
    · by_cases h2 : ib < ia
      · simp [h1, h2, CompareResult.reverse]
      · simp [h1, h2, CompareResult.reverse]
  · exact ofInt_reverse sa sb
  · exact ofInt_reverse sa sb

theorem compareLoop_reverse (a b : List PrimaryKeyColumn) (hlen : a.length = b.length)
    (ha : ∀ c ∈ a, c.mValue.mCategory ≠ .kNone) (hb : ∀ c ∈ b, c.mValue.mCategory ≠ .kNone) :
    PrimaryKey.compareLoop b a = (PrimaryKey.compareLoop a b).map CompareResult.reverse := by
  induction a generalizing b with
  | nil =>
    cases b with
    | nil => rfl
    | cons y ys => simp at hlen
  | cons x xs ih =>
    cases b with
    | nil => simp at hlen
    | cons y ys =>
      have hx := ha x (List.mem_cons_self _ _)
      have hy := hb y (List.mem_cons_self _ _)
      obtain ⟨c, hc⟩ := primaryKeyValue_compare_isSome x.mValue y.mValue hx hy
      have hr := primaryKeyValue_compare_reverse x.mValue y.mValue hx hy
      rw [hc] at hr
      simp only [Option.map_some'] at hr
      unfold PrimaryKey.compareLoop
      rw [hc, hr]
      simp only [ne_eq, reverse_eq_equivalent]
      by_cases he : c = .kCR_Equivalent
      · simp only [he, not_true_eq_false, if_false]
        exact ih ys (by simpa using hlen) (fun z hz => ha z (List.mem_cons_of_mem _ hz))
          (fun z hz => hb z (List.mem_cons_of_mem _ hz))
      · simp [he]

theorem primaryKey_compare_reverse (a b : PrimaryKey)
    (ha : ∀ c ∈ a, c.mValue.mCategory ≠ .kNone) (hb : ∀ c ∈ b, c.mValue.mCategory ≠ .kNone) :
    PrimaryKey.compare b a = (PrimaryKey.compare a b).map CompareResult.reverse := by
  unfold PrimaryKey.compare
  by_cases hlen : a.length = b.length
  · have h2 : b.length = a.length := hlen.symm
    rw [if_neg (not_not.2 hlen), if_neg (not_not.2 h2)]
    exact compareLoop_reverse a b hlen ha hb
  · have h2 : ¬ b.length = a.length := fun h => hlen h.symm
    rw [if_pos hlen, if_pos h2]
    rfl

/-- What the reversed result says of the three results that C36 names. -/
theorem reverse_iffs (x y : Option CompareResult) (h : y = x.map CompareResult.reverse) :
    (x = some .kCR_Smaller ↔ y = some .kCR_Larger)
    ∧ (x = some .kCR_Equivalent ↔ y = some .kCR_Equivalent)
    ∧ (x = some .kCR_Uncomparable ↔ y = some .kCR_Uncomparable) := by
  subst h
  cases x with
  | none => simp
  | some c => cases c <;> simp [CompareResult.reverse]

/-- C36: for primary-key values `a` and `b` that are not absent, `compare(a, b)`
is `Smaller` exactly when `compare(b, a)` is `Larger`, `Equivalent` exactly when
`compare(b, a)` is `Equivalent`, and `Uncomparable` exactly when `compare(b, a)`
is `Uncomparable`; the same holds of `PrimaryKey::compare` on two keys none of
whose values is absent. -/
theorem compare_exchange :
    (∀ a b : PrimaryKeyValue, a.mCategory ≠ .kNone → b.mCategory ≠ .kNone →
      (a.compare b = some .kCR_Smaller ↔ b.compare a = some .kCR_Larger)
      ∧ (a.compare b = some .kCR_Equivalent ↔ b.compare a = some .kCR_Equivalent)
      ∧ (a.compare b = some .kCR_Uncomparable ↔ b.compare a = some .kCR_Uncomparable))
    ∧ (∀ a b : PrimaryKey, (∀ c ∈ a, c.mValue.mCategory ≠ .kNone) →
      (∀ c ∈ b, c.mValue.mCategory ≠ .kNone) →
      (PrimaryKey.compare a b = some .kCR_Smaller ↔ PrimaryKey.compare b a = some .kCR_Larger)
      ∧ (PrimaryKey.compare a b = some .kCR_Equivalent
          ↔ PrimaryKey.compare b a = some .kCR_Equivalent)
      ∧ (PrimaryKey.compare a b = some .kCR_Uncomparable
          ↔ PrimaryKey.compare b a = some .kCR_Uncomparable)) :=
  ⟨fun a b ha hb => reverse_iffs _ _ (primaryKeyValue_compare_reverse a b ha hb),
    fun a b ha hb => reverse_iffs _ _ (primaryKey_compare_reverse a b ha hb)⟩

/-- Instance of C36: the integer 1 is `Smaller` than 2 and 2 `Larger` than 1, as
values and as keys of the one column `k`. -/
theorem compare_exchange_witness :
    (PrimaryKeyValue.toInteger 2).compare (PrimaryKeyValue.toInteger 1) = some .kCR_Larger
    ∧ PrimaryKey.compare [{ mName := [0x6B], mValue := PrimaryKeyValue.toInteger 2 }]
        [{ mName := [0x6B], mValue := PrimaryKeyValue.toInteger 1 }] = some .kCR_Larger :=
  ⟨((compare_exchange.1 (PrimaryKeyValue.toInteger 1) (PrimaryKeyValue.toInteger 2)
        (by decide) (by decide)).1).1 (by decide),
    ((compare_exchange.2 [{ mName := [0x6B], mValue := PrimaryKeyValue.toInteger 1 }]
        [{ mName := [0x6B], mValue := PrimaryKeyValue.toInteger 2 }]
        (by decide) (by decide)).1).1 (by decide)⟩

/-! ## Printing an endpoint and parsing it again -/

theorem prettyPrint_urlOf (e : http.Endpoint) :
    e.prettyPrint []
      = http.urlOf e.mProtocol e.mHost
          (if e.mPort = e.mProtocol.defaultPort then none else some e.mPort) [] := by
  obtain ⟨proto, host, port⟩ := e
  cases proto
  · by_cases hp : port = [0x38, 0x30]
    · simp [http.Endpoint.prettyPrint, http.urlOf, http.Endpoint.Protocol.literal,
        http.Endpoint.Protocol.defaultPort, hp]
    · simp [http.Endpoint.prettyPrint, http.urlOf, http.Endpoint.Protocol.literal,
        http.Endpoint.Protocol.defaultPort, hp]
  · by_cases hp : port = [0x34, 0x34, 0x33]
    · simp [http.Endpoint.prettyPrint, http.urlOf, http.Endpoint.Protocol.literal,
        http.Endpoint.Protocol.defaultPort, hp]
    · simp [http.Endpoint.prettyPrint, http.urlOf, http.Endpoint.Protocol.literal,
        http.Endpoint.Protocol.defaultPort, hp]

/-- What `parse` has made of a URL that it accepts. -/
theorem parse_ok_endpoint (pp : List Byte → String) (out : http.Endpoint) (url : List Byte)
    (e : http.Endpoint) (h : http.Endpoint.parse pp out url = (none, e)) :
    e.mHost ≠ []
    ∧ (∀ x ∈ e.mHost, x ≠ (0x3A : Byte) ∧ x ≠ 0x2F)
    ∧ (e.mPort = e.mProtocol.defaultPort
      ∨ (e.mPort ≠ [] ∧ ∀ x ∈ e.mPort, (0x30 : Byte) ≤ x ∧ x ≤ 0x39)) := by
  have h1 : (http.Endpoint.parse pp out url).1 = none := by rw [h]
  obtain ⟨proto, host, port, rest, hurl, hne, hhost, hport, hrest⟩ :=
    parse_ok_decompose pp out url h1
  have h2 := parse_urlOf pp out proto host port rest hne hhost hport (fun x hx => by
    cases rest with
    | nil => simp at hx
    | cons y ys =>
      simp only [List.head?_cons, Option.some.injEq] at hx
      exact hx ▸ hrest y (List.mem_cons_self _ _))
  rw [← hurl, h] at h2
  simp only [Prod.mk.injEq] at h2
  obtain ⟨_, he⟩ := h2
  subst he
  refine ⟨hne, hhost, ?_⟩
  cases port with
  | none => exact Or.inl rfl
  | some p => exact Or.inr (hport p rfl)

/-- C37: when `http::Endpoint::parse` accepts a URL and gives the endpoint `e`,
parsing the text that `Endpoint::prettyPrint` prints for `e` is accepted too and
gives `e` again: the same protocol, host and port. The text is the scheme,
`://` and the host, followed by `:` and the port exactly when the port is not
the one of the protocol (`80` for http, `443` for https). -/
theorem parse_prettyPrint (pp : List Byte → String) (out out1 : http.Endpoint)
    (url : List Byte) (e : http.Endpoint)
    (h : http.Endpoint.parse pp out url = (none, e)) :
    http.Endpoint.parse pp out1 (e.prettyPrint []) = (none, e)
    ∧ e.prettyPrint []
        = e.mProtocol.literal ++ [0x3A, 0x2F, 0x2F] ++ e.mHost
          ++ (if e.mPort = e.mProtocol.defaultPort then [] else 0x3A :: e.mPort)
    ∧ (e.mProtocol = .HTTP → e.mProtocol.defaultPort = [0x38, 0x30])
    ∧ (e.mProtocol = .HTTPS → e.mProtocol.defaultPort = [0x34, 0x34, 0x33]) := by
  obtain ⟨hne, hhost, hport⟩ := parse_ok_endpoint pp out url e h
  refine ⟨?_, ?_, fun hp => by rw [hp]; rfl, fun hp => by rw [hp]; rfl⟩
  · rw [prettyPrint_urlOf, parse_urlOf pp out1 e.mProtocol e.mHost _ [] hne hhost ?_
      (fun x hx => by simp at hx), validateRootPath_nil]
    · by_cases hd : e.mPort = e.mProtocol.defaultPort
      · simp only [hd, if_true, Option.getD_none]
        obtain ⟨proto, host, port⟩ := e
        simp only at hd
        rw [hd]
      · simp only [hd, if_false, Option.getD_some]
    · intro p hp
      by_cases hd : e.mPort = e.mProtocol.defaultPort
      · simp [hd] at hp
      · simp only [hd, if_false, Option.some.injEq] at hp
        subst hp
        rcases hport with h1 | h1
        · exact absurd h1 hd
        · exact h1
  · rw [prettyPrint_urlOf]
    by_cases hd : e.mPort = e.mProtocol.defaultPort
    · simp [http.urlOf, hd]
    · simp [http.urlOf, hd]

/-- Instance of C37: `http://h:80/` is parsed to HTTP, `h`, `80`, printed as
`http://h`, and parsed to the same endpoint again. -/
theorem parse_prettyPrint_witness :
    http.Endpoint.parse text {}
        [0x68, 0x74, 0x74, 0x70, 0x3A, 0x2F, 0x2F, 0x68, 0x3A, 0x38, 0x30, 0x2F]
      = (none, { mProtocol := .HTTP, mHost := [0x68], mPort := [0x38, 0x30] })
    ∧ http.Endpoint.prettyPrint { mProtocol := .HTTP, mHost := [0x68], mPort := [0x38, 0x30] } []
      = [0x68, 0x74, 0x74, 0x70, 0x3A, 0x2F, 0x2F, 0x68]
    ∧ http.Endpoint.parse text {}
        (http.Endpoint.prettyPrint
          { mProtocol := .HTTP, mHost := [0x68], mPort := [0x38, 0x30] } [])
      = (none, { mProtocol := .HTTP, mHost := [0x68], mPort := [0x38, 0x30] }) :=
  ⟨by set_option maxRecDepth 100000 in decide, by decide,
    (parse_prettyPrint text {} {}
      [0x68, 0x74, 0x74, 0x70, 0x3A, 0x2F, 0x2F, 0x68, 0x3A, 0x38, 0x30, 0x2F]
      { mProtocol := .HTTP, mHost := [0x68], mPort := [0x38, 0x30] }
      (by set_option maxRecDepth 100000 in decide)).1⟩

/-! ## No `validate()` fails an assertion -/

theorem returns_andThen_of_ok {v k : Verdict} (hv : v.Returns) (hk : v = .ok → k.Returns) :
    (v.andThen k).Returns := by
  cases v with
  | ok => exact hk rfl
  | error e => trivial
  | assertFailed => exact hv

theorem endpoint_returns (x : Endpoint) : x.validate.Returns := by
  unfold Endpoint.validate
  split_ifs <;> simp

theorem credential_returns (x : Credential) : x.validate.Returns := by
  unfold Credential.validate
  split_ifs <;> simp

theorem tracker_returns (x : Tracker) : x.validate.Returns := trivial

theorem clientOptions_returns (x : ClientOptions) : x.validate.Returns := by
  unfold ClientOptions.validate
  split_ifs <;> simp

theorem primaryKeyColumnSchema_returns (x : PrimaryKeyColumnSchema) :
    x.validate.Returns := by
  unfold PrimaryKeyColumnSchema.validate
  split_ifs <;> (try split) <;> (try split_ifs) <;> simp

theorem schema_returns (x : Schema) : (Schema.validate x).Returns := by
  unfold Schema.validate
  split_ifs
  · simp
  · exact returns_forEach _ fun c _ => primaryKeyColumnSchema_returns c

theorem tableMeta_returns (x : TableMeta) : x.validate.Returns := by
  unfold TableMeta.validate
  split_ifs
  · simp
  · exact schema_returns _

theorem capacityUnit_returns (x : CapacityUnit) : x.validate.Returns := by
  unfold CapacityUnit.validate
  apply returns_andThen <;> split <;> (try split_ifs) <;> simp

theorem tableOptions_returns (x : TableOptions) : x.validate.Returns := by
  unfold TableOptions.validate
  refine returns_andThen ?_ (returns_andThen ?_ (returns_andThen ?_
    (returns_andThen ?_ ?_)))
  · split
    · refine returns_andThen (capacityUnit_returns _) ?_
      split_ifs <;> simp
    · simp
  all_goals (split <;> (try split_ifs) <;> simp)

theorem row_returns (x : Row) : x.validate.Returns := by
  unfold Row.validate
  exact returns_andThen (primaryKey_returns _)
    (returns_forEach _ fun a _ => attribute_returns a)

theorem timeRange_returns (x : TimeRange) : x.validate.Returns := by
  unfold TimeRange.validate
  split_ifs <;> simp

theorem validateColumns_returns (l u : List PrimaryKeyColumn) (hlen : l.length = u.length) :
    (Split.validateColumns l u).Returns := by
  induction l generalizing u with
  | nil => simp [Split.validateColumns]
  | cons x xs ih =>
    cases u with
    | nil => simp at hlen
    | cons y ys =>
      unfold Split.validateColumns
      split_ifs
      · simp
      · simp
      · exact ih ys (by simpa using hlen)

theorem split_returns (x : Split) : x.validate.Returns := by
  unfold Split.validate
  split
  · simp
  · simp
  · rename_i lower upper _ _
    refine returns_andThen_of_ok (primaryKey_returns _) fun hl =>
      returns_andThen_of_ok (primaryKey_returns _) fun hu => ?_
    split_ifs with hlen
    · simp
    · refine returns_andThen (validateColumns_returns _ _ (not_not.1 hlen)) ?_
      obtain ⟨r, hr⟩ := primaryKey_compare_isSome lower upper hl hu
      rw [hr]
      simp only
      split_ifs <;> simp

theorem rowPutChange_returns (x : RowPutChange) : x.validate.Returns := by
  unfold RowPutChange.validate
  exact returns_andThen (rowChange_returns _)
    (returns_forEach _ fun a _ => attribute_returns a)

theorem update_returns (x : RowUpdateChange.Update) : x.validate.Returns := by
  unfold RowUpdateChange.Update.validate
  split
  · simp
  · refine returns_andThen ?_ ?_
    · split
      · exact attributeValue_returns _
      · simp
    · split <;> (try split) <;> (try split) <;> simp

theorem rowUpdateChange_returns (x : RowUpdateChange) : x.validate.Returns := by
  unfold RowUpdateChange.validate
  exact returns_andThen (rowChange_returns _)
    (returns_forEach _ fun a _ => update_returns a)

theorem rowDeleteChange_returns (x : RowDeleteChange) : x.validate.Returns := by
  unfold RowDeleteChange.validate
  exact returns_andThen (rowChange_returns _) returns_ok

theorem optionRow_returns (r : Option Row) :
    (match r with
      | some row => row.validate
      | none => Verdict.ok).Returns := by
  cases r with
  | none => trivial
  | some row => exact row_returns row

theorem queryCriterion_returns (x : QueryCriterion) : x.validate.Returns := by
  unfold QueryCriterion.validate
  split
  · simp
  · refine returns_andThen (returns_forEach _ fun c _ => ?_) ?_
    · split <;> simp
    · split
      · simp
      · split
        · simp
        · refine returns_andThen ?_ ?_
          · split
            · exact timeRange_returns _
            · simp
          · split
            · exact columnCondition_returns _
            · simp

theorem pointQueryCriterion_returns (x : PointQueryCriterion) :
    x.validate.Returns := by
  unfold PointQueryCriterion.validate
  exact returns_andThen (queryCriterion_returns _)
    (returns_andThen (primaryKey_returns _) returns_ok)

theorem rangeQueryCriterion_returns (x : RangeQueryCriterion) :
    x.validate.Returns := by
  unfold RangeQueryCriterion.validate
  refine returns_andThen (queryCriterion_returns _)
    (returns_andThen_of_ok (primaryKey_returns _) fun hs =>
      returns_andThen_of_ok (primaryKey_returns _) fun he => ?_)
  split
  · simp
  · split
    · simp
    · split
      · simp
      · obtain ⟨r, hr⟩ := primaryKey_compare_isSome _ _ hs he
        rw [hr]
        refine returns_andThen ?_ ?_
        · simp only
          split <;> split <;> simp
        · split
          · split <;> simp
          · simp

theorem multiPointQueryCriterion_returns (x : MultiPointQueryCriterion) :
    x.validate.Returns := by
  unfold MultiPointQueryCriterion.validate
  exact returns_andThen (queryCriterion_returns _)
    (returns_forEach _ fun k _ => primaryKey_returns _)

theorem validateRowResult_returns
    (res : PairWithUserData (Result (Option Row) OTSError)) :
    (validateRowResult res).Returns := by
  unfold validateRowResult
  split
  · rename_i hok
    simp only [Result.okValue, hok, if_true]
    cases res.get.mOkValue with
    | none => simp
    | some row => exact row_returns row
  · simp

theorem validateSplitPoint_returns (schema : Schema) (pk : PrimaryKey) (hpk : pk ≠ [])
    (hs : schema ≠ []) : (CreateTableRequest.validateSplitPoint schema pk).Returns := by
  unfold CreateTableRequest.validateSplitPoint
  cases pk with
  | nil => exact absurd rfl hpk
  | cons pkc rest =>
    simp only
    split
    · simp
    · rename_i hreal
      cases schema with
      | nil => exact absurd rfl hs
      | cons col srest =>
        simp only
        split
        · simp
        · have hr : pkc.mValue.isReal = true := by simpa using hreal
          rw [isReal_iff] at hr
          rcases hr with h | h | h <;> rw [h] <;>
            simp only [PrimaryKeyValue.toPrimaryKeyType] <;> split <;> simp

theorem createTableRequest_returns (x : CreateTableRequest) : x.validate.Returns := by
  unfold CreateTableRequest.validate
  refine returns_andThen_of_ok (tableMeta_returns _) fun hmeta =>
    returns_andThen (tableOptions_returns _) ?_
  have hschema : x.mMeta.mSchema ≠ [] := by
    unfold TableMeta.validate at hmeta
    split at hmeta
    · simp at hmeta
    · obtain ⟨s, rest, hs, _⟩ := schema_ok_head _ hmeta
      rw [hs]
      simp
  split
  · simp
  · split
    · simp
    · simp
    · split
      · simp
      · split
        · simp
        · split
          · simp
          · refine returns_andThen_of_ok
              (returns_forEach _ fun _ _ => primaryKey_returns _) fun hpk =>
              returns_andThen (returns_forEach _ fun _ _ => ?_)
                (returns_forEach _ fun pk hmem =>
                  validateSplitPoint_returns _ pk
                    ((primaryKey_ok_iff pk).1 (forEach_eq_ok.1 hpk pk hmem)).1 hschema)
            split <;> simp

theorem rowResponse_returns (cu : CapacityUnit) (r : Option Row) :
    (cu.validate.andThen
      (match r with
        | some row => row.validate
        | none => Verdict.ok)).Returns :=
  returns_andThen (capacityUnit_returns _) (optionRow_returns r)

theorem validated_returns (x : Validated) : x.validate.Returns := by
  cases x with
  | ofEndpoint x => exact endpoint_returns x
  | ofCredential x => exact credential_returns x
  | ofTracker x => exact tracker_returns x
  | ofClientOptions x => exact clientOptions_returns x
  | ofPrimaryKeyColumnSchema x => exact primaryKeyColumnSchema_returns x
  | ofSchema x => exact schema_returns x
  | ofPrimaryKeyValue x => exact primaryKeyValue_returns x
  | ofPrimaryKeyColumn x => exact primaryKeyColumn_returns x
  | ofPrimaryKey x => exact primaryKey_returns x
  | ofTableMeta x => exact tableMeta_returns x
  | ofTableOptions x => exact tableOptions_returns x
  | ofCapacityUnit x => exact capacityUnit_returns x
  | ofAttributeValue x => exact attributeValue_returns x
  | ofAttribute x => exact attribute_returns x
  | ofRow x => exact row_returns x
  | ofTimeRange x => exact timeRange_returns x
  | ofSplit x => exact split_returns x
  | ofCreateTableRequest x => exact createTableRequest_returns x
  | ofCreateTableResponse x => trivial
  | ofListTableRequest x => trivial
  | ofListTableResponse x => trivial
  | ofDeleteTableRequest x =>
    show (DeleteTableRequest.validate x).Returns
    unfold DeleteTableRequest.validate
    split <;> simp
  | ofDeleteTableResponse x => trivial
  | ofDescribeTableRequest x =>
    show (DescribeTableRequest.validate x).Returns
    unfold DescribeTableRequest.validate
    split <;> simp
  | ofDescribeTableResponse x =>
    exact returns_andThen (tableMeta_returns _)
      (returns_andThen (tableOptions_returns _)
        (returns_forEach _ fun _ _ => primaryKey_returns _))
  | ofUpdateTableRequest x =>
    show (UpdateTableRequest.validate x).Returns
    unfold UpdateTableRequest.validate
    split
    · simp
    · exact returns_andThen (tableOptions_returns _) returns_ok
  | ofUpdateTableResponse x => trivial
  | ofComputeSplitsBySizeRequest x =>
    show (ComputeSplitsBySizeRequest.validate x).Returns
    unfold ComputeSplitsBySizeRequest.validate
    split
    · simp
    · split <;> simp
  | ofComputeSplitsBySizeResponse x =>
    exact returns_andThen (capacityUnit_returns _)
      (returns_andThen (schema_returns _)
        (returns_forEach _ fun _ _ => split_returns _))
  | ofCondition x => exact condition_returns x
  | ofSingleColumnCondition x => exact singleColumnCondition_returns x
  | ofCompositeColumnCondition _ mChildren =>
    exact compositeColumnCondition_returns mChildren
  | ofRowChange x => exact rowChange_returns x
  | ofRowPutChange x => exact rowPutChange_returns x
  | ofPutRowRequest x => exact rowPutChange_returns _
  | ofPutRowResponse x => exact rowResponse_returns _ _
  | ofQueryCriterion x => exact queryCriterion_returns x
  | ofPointQueryCriterion x => exact pointQueryCriterion_returns x
  | ofGetRowRequest x => exact pointQueryCriterion_returns _
  | ofGetRowResponse x => exact rowResponse_returns _ _
  | ofRangeQueryCriterion x => exact rangeQueryCriterion_returns x
  | ofGetRangeRequest x =>
    exact returns_andThen (rangeQueryCriterion_returns _) returns_ok
  | ofGetRangeResponse x =>
    refine returns_andThen (capacityUnit_returns _)
      (returns_andThen (returns_forEach _ fun _ _ => row_returns _) ?_)
    split
    · exact returns_andThen (primaryKey_returns _) returns_ok
    · trivial
  | ofUpdate x => exact update_returns x
  | ofRowUpdateChange x => exact rowUpdateChange_returns x
  | ofUpdateRowRequest x =>
    exact returns_andThen (rowUpdateChange_returns _) returns_ok
  | ofUpdateRowResponse x => exact rowResponse_returns _ _
  | ofRowDeleteChange x => exact rowDeleteChange_returns x
  | ofDeleteRowRequest x =>
    exact returns_andThen (rowDeleteChange_returns _) returns_ok
  | ofDeleteRowResponse x => exact rowResponse_returns _ _
  | ofMultiPointQueryCriterion x => exact multiPointQueryCriterion_returns x
  | ofBatchGetRowRequest x =>
    exact returns_forEach _ fun _ _ => multiPointQueryCriterion_returns _
  | ofBatchGetRowResponse x =>
    exact returns_andThen (capacityUnit_returns _)
      (returns_forEach _ fun _ _ => validateRowResult_returns _)
  | ofBatchWriteRowRequest x =>
    exact returns_andThen (returns_forEach _ fun _ _ => rowPutChange_returns _)
      (returns_andThen (returns_forEach _ fun _ _ => rowUpdateChange_returns _)
        (returns_forEach _ fun _ _ => rowDeleteChange_returns _))
  | ofBatchWriteRowResponse x =>
    exact returns_andThen (capacityUnit_returns _)
      (returns_andThen (returns_forEach _ fun _ _ => validateRowResult_returns _)
        (returns_andThen
          (returns_forEach _ fun _ _ => validateRowResult_returns _)
          (returns_forEach _ fun _ _ => validateRowResult_returns _)))
  | ofBatchWriterConfig x => exact batchWriterConfig_returns x

/-- C38: every `validate()` of `core/types.cpp` (and that of `BatchWriterConfig`)
returns no error or an error on every object: no `OTS_ASSERT` fails and no index
leaves its vector. In particular this holds of `CreateTableRequest::validate`,
with its assertions on the sizes of a split point and of the schema and its call
of `toPrimaryKeyType`, and of `RangeQueryCriterion::validate` and
`Split::validate`, which call `compare`, whose assertion fails on an absent
value. -/
theorem validate_returns :
    (∀ x : Validated, x.validate = .ok ∨ ∃ e, x.validate = .error e)
    ∧ (∀ x : CreateTableRequest, x.validate ≠ .assertFailed)
    ∧ (∀ x : RangeQueryCriterion, x.validate ≠ .assertFailed)
    ∧ (∀ x : Split, x.validate ≠ .assertFailed) := by
  refine ⟨fun x => ?_, fun x => (returns_iff _).1 (createTableRequest_returns x),
    fun x => (returns_iff _).1 (rangeQueryCriterion_returns x),
    fun x => (returns_iff _).1 (split_returns x)⟩
  have h := validated_returns x
  cases hv : x.validate with
  | ok => exact Or.inl rfl
  | error e => exact Or.inr ⟨e, rfl⟩
  | assertFailed =>
    rw [hv] at h
    exact h.elim

/-! ## The assertions of the checked operators -/

/-- The assertion of the checked additions: it holds exactly when the exact sum
fits `int64_t`, and then the wrapped sum is the exact one. -/
theorem checkedAdd_iff (a d : Int) (ha : InInt64 a) (hd : InInt64 d) :
    (if decide (d ≥ 0) = decide (wrapInt64 (a + d) ≥ a) then some (wrapInt64 (a + d))
      else none)
      = if InInt64 (a + d) then some (a + d) else none := by
  unfold InInt64 at ha hd
  rcases wrapInt64_cases (a + d) ⟨by omega, by omega⟩ with ⟨hin, hw⟩ | ⟨hge, hw⟩ | ⟨hlt, hw⟩
  · rw [hw, if_pos (decide_eq_decide.2 ⟨fun h => by omega, fun h => by omega⟩), if_pos hin]
  · have hn : ¬ InInt64 (a + d) := fun h => by unfold InInt64 at h; omega
    rw [hw, if_neg hn, if_neg]
    rw [decide_eq_decide]
    intro h
    have := h.1 (by omega)
    omega
  · have hn : ¬ InInt64 (a + d) := fun h => by unfold InInt64 at h; omega
    rw [hw, if_neg hn, if_neg]
    rw [decide_eq_decide]
    intro h
    have := h.2 (by omega)
    omega

/-- The assertion of the checked subtractions: it holds exactly when the exact
difference fits `int64_t`, and then the wrapped difference is the exact one. -/
theorem checkedSub_iff (a b : Int) (ha : InInt64 a) (hb : InInt64 b) :
    (if decide (wrapInt64 (a - b) ≥ 0) = decide (a ≥ b) then some (wrapInt64 (a - b))
      else none)
      = if InInt64 (a - b) then some (a - b) else none := by
  unfold InInt64 at ha hb
  rcases wrapInt64_cases (a - b) ⟨by omega, by omega⟩ with ⟨hin, hw⟩ | ⟨hge, hw⟩ | ⟨hlt, hw⟩
  · rw [hw, if_pos (decide_eq_decide.2 ⟨fun h => by omega, fun h => by omega⟩), if_pos hin]
  · have hn : ¬ InInt64 (a - b) := fun h => by unfold InInt64 at h; omega
    rw [hw, if_neg hn, if_neg]
    rw [decide_eq_decide]
    intro h
    have := h.2 (by omega)
    omega
  · have hn : ¬ InInt64 (a - b) := fun h => by unfold InInt64 at h; omega
    rw [hw, if_neg hn, if_neg]
    rw [decide_eq_decide]
    intro h
    have := h.1 (by omega)
    omega

theorem ite_some_map {α β : Type} (c : Prop) [Decidable c] (x : α) (f : α → β) :
    (if c then some (f x) else none) = (if c then some x else none).map f := by
  split <;> rfl

/-- C39: for operands `a` and `b` that are `int64_t`, with the machine sum and
difference taken modulo `2 ^ 64`, each of `Duration +=`, `Duration -=`,
`MonotonicTime + Duration`, `MonotonicTime - MonotonicTime`, `UtcTime +
Duration` and `UtcTime - UtcTime` passes its assertion exactly when the exact
sum or difference lies in `int64_t`, and then holds that exact value. -/
theorem checked_operators (a b : Int) (ha : InInt64 a) (hb : InInt64 b) :
    Duration.addAssign { mValue := a } { mValue := b }
        = (if InInt64 (a + b) then some { mValue := a + b } else none)
    ∧ Duration.subAssign { mValue := a } { mValue := b }
        = (if InInt64 (a - b) then some { mValue := a - b } else none)
    ∧ MonotonicTime.add { mValue := a } { mValue := b }
        = (if InInt64 (a + b) then some { mValue := a + b } else none)
    ∧ MonotonicTime.sub { mValue := a } { mValue := b }
        = (if InInt64 (a - b) then some { mValue := a - b } else none)
    ∧ UtcTime.add { mValue := a } { mValue := b }
        = (if InInt64 (a + b) then some { mValue := a + b } else none)
    ∧ UtcTime.sub { mValue := a } { mValue := b }
        = (if InInt64 (a - b) then some { mValue := a - b } else none) := by
  have hadd := checkedAdd_iff a b ha hb
  have hsub := checkedSub_iff a b ha hb
  refine ⟨?_, ?_, ?_, ?_, ?_, ?_⟩
  · have := congrArg (Option.map fun v : Int => ({ mValue := v } : Duration)) hadd
    rw [← ite_some_map, ← ite_some_map] at this
    exact this
  · have := congrArg (Option.map fun v : Int => ({ mValue := v } : Duration)) hsub
    rw [← ite_some_map, ← ite_some_map] at this
    exact this
  · have := congrArg (Option.map fun v : Int => ({ mValue := v } : MonotonicTime)) hadd
    rw [← ite_some_map, ← ite_some_map] at this
    exact this
  · have := congrArg (Option.map fun v : Int => ({ mValue := v } : Duration)) hsub
    rw [← ite_some_map, ← ite_some_map] at this
    exact this
  · have := congrArg (Option.map fun v : Int => ({ mValue := v } : UtcTime)) hadd
    rw [← ite_some_map, ← ite_some_map] at this
    exact this
  · have := congrArg (Option.map fun v : Int => ({ mValue := v } : Duration)) hsub
    rw [← ite_some_map, ← ite_some_map] at this
    exact this

/-- Instance of C39: at `2 ^ 63 - 1` and 1 the sum leaves `int64_t` and the
assertions of the additions fail, while the difference `2 ^ 63 - 2` is held
exactly. -/
theorem checked_operators_witness :
    Duration.addAssign { mValue := 2 ^ 63 - 1 } { mValue := 1 } = none
    ∧ Duration.subAssign { mValue := 2 ^ 63 - 1 } { mValue := 1 }
        = some { mValue := 2 ^ 63 - 2 }
    ∧ MonotonicTime.add { mValue := 2 ^ 63 - 1 } { mValue := 1 } = none
    ∧ MonotonicTime.sub { mValue := 2 ^ 63 - 1 } { mValue := 1 }
        = some { mValue := 2 ^ 63 - 2 }
    ∧ UtcTime.add { mValue := 2 ^ 63 - 1 } { mValue := 1 } = none
    ∧ UtcTime.sub { mValue := 2 ^ 63 - 1 } { mValue := 1 } = some { mValue := 2 ^ 63 - 2 } :=
  checked_operators (2 ^ 63 - 1) 1 (by decide) (by decide)

/-! ## Splits that `validate()` accepts -/

theorem validateColumns_ok (l u : List PrimaryKeyColumn) (hlen : l.length = u.length)
    (h : Split.validateColumns l u = .ok) :
    List.Forall₂ (fun x y : PrimaryKeyColumn =>
      x.mName = y.mName ∧ x.mValue.mCategory = y.mValue.mCategory) l u := by
  induction l generalizing u with
  | nil =>
    cases u with
    | nil => exact List.Forall₂.nil
    | cons y ys => simp at hlen
  | cons x xs ih =>
    cases u with
    | nil => simp at hlen
    | cons y ys =>
      unfold Split.validateColumns at h
      split_ifs at h with h1 h2
      · exact absurd h (invalid_ne_ok _)
      · exact absurd h (invalid_ne_ok _)
      · exact List.Forall₂.cons ⟨not_not.1 h1, not_not.1 h2⟩ (ih ys (by simpa using hlen) h)

/-- Two keys that start with values of the same category, one of them an
infinity, do not compare `Smaller`. -/
theorem compare_infinity_head (x y : PrimaryKeyColumn) (xs ys : List PrimaryKeyColumn)
    (hc : x.mValue.mCategory = y.mValue.mCategory)
    (hinf : x.mValue.isInfinity = true ∨ y.mValue.isInfinity = true) :
    PrimaryKey.compare (x :: xs) (y :: ys) ≠ some .kCR_Smaller := by
  have hx : x.mValue.mCategory = .kInfMin ∨ x.mValue.mCategory = .kInfMax := by
    rcases hinf with h | h
    · exact (isInfinity_iff _).1 h
    · rw [hc]
      exact (isInfinity_iff _).1 h
  unfold PrimaryKey.compare
  split
  · simp
  · unfold PrimaryKey.compareLoop
    have hcmp : x.mValue.compare y.mValue = some .kCR_Uncomparable := by
      unfold PrimaryKeyValue.compare
      rcases hx with h | h
      · have h2 : y.mValue.mCategory = .kInfMin := hc ▸ h
        simp [h, h2]
      · have h2 : y.mValue.mCategory = .kInfMax := hc ▸ h
        simp [h, h2]
    rw [hcmp]
    simp

/-- C40: when `Split::validate` returns no error, both bounds are present and
`validate()` accepts each; they have the same number of columns, with the same
name and the same category of value column by column; and the lower bound
compares `Smaller` to the upper bound. Hence the first column of neither bound
holds `-inf` or `+inf`: a split with such a first column is refused. -/
theorem split_validate_ok (s : Split) (h : s.validate = .ok) :
    ∃ lower upper, s.mLowerBound = some lower ∧ s.mUpperBound = some upper
      ∧ PrimaryKey.validate lower = .ok ∧ PrimaryKey.validate upper = .ok
      ∧ lower.length = upper.length
      ∧ List.Forall₂ (fun x y : PrimaryKeyColumn =>
          x.mName = y.mName ∧ x.mValue.mCategory = y.mValue.mCategory) lower upper
      ∧ PrimaryKey.compare lower upper = some .kCR_Smaller
      ∧ (∀ x ∈ lower.head?, x.mValue.isInfinity = false)
      ∧ (∀ y ∈ upper.head?, y.mValue.isInfinity = false) := by
  unfold Split.validate at h
  split at h
  · exact absurd h (invalid_ne_ok _)
  · exact absurd h (invalid_ne_ok _)
  · rename_i lower upper hl hu
    rw [andThen_eq_ok, andThen_eq_ok] at h
    obtain ⟨hvl, hvu, h⟩ := h
    split_ifs at h with hlen
    · exact absurd h (invalid_ne_ok _)
    · have hlen2 : lower.length = upper.length := not_not.1 hlen
      rw [andThen_eq_ok] at h
      obtain ⟨hcols, h⟩ := h
      have hall := validateColumns_ok lower upper hlen2 hcols
      have hcmp : PrimaryKey.compare lower upper = some .kCR_Smaller := by
        cases hc : PrimaryKey.compare lower upper with
        | none => simp [hc] at h
        | some c =>
          rw [hc] at h
          cases c <;> simp at h ⊢
      refine ⟨lower, upper, hl, hu, hvl, hvu, hlen2, hall, hcmp, ?_, ?_⟩
      · intro x hx
        cases hall with
        | nil => simp at hx
        | cons hxy _ =>
          simp only [List.head?_cons, Option.mem_def, Option.some.injEq] at hx
          subst hx
          by_contra hinf
          exact compare_infinity_head _ _ _ _ hxy.2 (Or.inl (by simpa using hinf)) hcmp
      · intro y hy
        cases hall with
        | nil => simp at hy
        | cons hxy _ =>
          simp only [List.head?_cons, Option.mem_def, Option.some.injEq] at hy
          subst hy
          by_contra hinf
          exact compare_infinity_head _ _ _ _ hxy.2 (Or.inr (by simpa using hinf)) hcmp

/-- Instance of C40: the split from `k = 1` to `k = 2` is accepted, and its
bounds are as the claim has them. -/
theorem split_validate_ok_witness :
    PrimaryKey.compare [{ mName := [0x6B], mValue := PrimaryKeyValue.toInteger 1 }]
        [{ mName := [0x6B], mValue := PrimaryKeyValue.toInteger 2 }] = some .kCR_Smaller
    ∧ Split.validate
        { mLowerBound := some [{ mName := [0x6B], mValue := PrimaryKeyValue.toInfMin }]
          mUpperBound := some [{ mName := [0x6B], mValue := PrimaryKeyValue.toInteger 2 }] }
      ≠ .ok := by
  obtain ⟨lower, upper, hl, hu, _, _, _, _, hcmp, _, _⟩ :=
    split_validate_ok
      { mLowerBound := some [{ mName := [0x6B], mValue := PrimaryKeyValue.toInteger 1 }]
        mUpperBound := some [{ mName := [0x6B], mValue := PrimaryKeyValue.toInteger 2 }] }
      (by decide)
  simp only [Option.some.injEq] at hl hu
  subst hl hu
  exact ⟨hcmp, by decide⟩

/-! ## Pretty-printing a row -/

theorem primaryKeyValue_prettyPrint_out (P : pp.Printers) (v : PrimaryKeyValue) (out : String) :
    v.prettyPrint P out = out ++ v.prettyPrint P "" := by
  unfold PrimaryKeyValue.prettyPrint
  cases v.mCategory <;> simp only [String.empty_append]

theorem primaryKeyColumn_prettyPrint_out (P : pp.Printers) (c : PrimaryKeyColumn)
    (out : String) : c.prettyPrint P out = out ++ c.prettyPrint P "" := by
  unfold PrimaryKeyColumn.prettyPrint
  simp only [String.empty_append]
  rw [primaryKeyValue_prettyPrint_out P c.mValue (out ++ P.string c.mName ++ ":"),
    primaryKeyValue_prettyPrint_out P c.mValue (P.string c.mName ++ ":")]
  simp only [String.append_assoc]

theorem primaryKeyColumn_prettyPrint_eq (P : pp.Printers) (c : PrimaryKeyColumn) :
    c.prettyPrint P "" = P.string c.mName ++ ":" ++ c.mValue.prettyPrint P "" := by
  unfold PrimaryKeyColumn.prettyPrint
  simp only [String.empty_append]
  rw [primaryKeyValue_prettyPrint_out]

theorem attributeValue_prettyPrint_out (P : pp.Printers) (v : AttributeValue) (out : String) :
    v.prettyPrint P out = out ++ v.prettyPrint P "" := by
  unfold AttributeValue.prettyPrint
  cases v.mCategory <;> simp only [String.empty_append]
  split <;> rfl

theorem attribute_prettyPrint_out (P : pp.Printers) (a : Attribute) (out : String) :
    a.prettyPrint P out = out ++ a.prettyPrint P "" := by
  unfold Attribute.prettyPrint
  simp only [String.empty_append]
  rw [attributeValue_prettyPrint_out P a.mValue
      (out ++ "\x7b\"Name\":" ++ P.string a.mName ++ ",\"Value\":"),
    attributeValue_prettyPrint_out P a.mValue
      ("\x7b\"Name\":" ++ P.string a.mName ++ ",\"Value\":")]
  cases a.mTimestamp <;> simp only [String.append_assoc]

/-- The loop of `IVector::prettyPrint` behind the text `acc` makes the text that
`String.intercalate` makes behind `acc`. -/
theorem prettyPrintLoop_eq {α : Type} (ppElem : α → String → String)
    (hpp : ∀ x out, ppElem x out = out ++ ppElem x "") (xs : List α) (out acc : String) :
    IVector.prettyPrintLoop ppElem xs (out ++ acc)
      = out ++ String.intercalate.go acc "," (xs.map fun x => ppElem x "") := by
  induction xs generalizing acc with
  | nil => rfl
  | cons x xs ih =>
    unfold IVector.prettyPrintLoop
    rw [hpp x (out ++ acc ++ ",")]
    have e : out ++ acc ++ "," ++ ppElem x "" = out ++ (acc ++ "," ++ ppElem x "") := by
      simp only [String.append_assoc]
    rw [e, ih]
    rfl

theorem ivector_prettyPrint_eq {α : Type} (ppElem : α → String → String)
    (hpp : ∀ x out, ppElem x out = out ++ ppElem x "") (xs : List α) (out : String) :
    IVector.prettyPrint ppElem xs out
      = out ++ ("[" ++ String.intercalate "," (xs.map fun x => ppElem x "") ++ "]") := by
  cases xs with
  | nil => rfl
  | cons x xs =>
    unfold IVector.prettyPrint
    simp only
    rw [hpp x (out ++ "["), prettyPrintLoop_eq ppElem hpp xs (out ++ "[") (ppElem x "")]
    simp only [String.append_assoc]
    rfl

theorem primaryKey_prettyPrint_eq (P : pp.Printers) (key : PrimaryKey) (out : String) :
    PrimaryKey.prettyPrint P key out
      = out ++ ("\x7b"
          ++ String.intercalate "," (key.map fun c => PrimaryKeyColumn.prettyPrint P c "")
          ++ "\x7d") := by
  cases key with
  | nil => rfl
  | cons c cs =>
    unfold PrimaryKey.prettyPrint
    simp only
    rw [primaryKeyColumn_prettyPrint_out P c (out ++ "\x7b"),
      prettyPrintLoop_eq (PrimaryKeyColumn.prettyPrint P) (primaryKeyColumn_prettyPrint_out P)
        cs (out ++ "\x7b") (c.prettyPrint P "")]
    simp only [String.append_assoc]
    rfl

theorem row_prettyPrint_out (P : pp.Printers) (r : Row) (out : String) :
    r.prettyPrint P out
      = out ++ ("\x7b\"PrimaryKey\":" ++ PrimaryKey.prettyPrint P r.mPkey ""
          ++ ",\"Attributes\":" ++ IVector.prettyPrint (Attribute.prettyPrint P) r.mAttrs ""
          ++ "\x7d") := by
  unfold Row.prettyPrint
  simp only
  rw [primaryKey_prettyPrint_eq P r.mPkey (out ++ "\x7b\"PrimaryKey\":"),
    primaryKey_prettyPrint_eq P r.mPkey "",
    ivector_prettyPrint_eq _ (attribute_prettyPrint_out P) r.mAttrs,
    ivector_prettyPrint_eq _ (attribute_prettyPrint_out P) r.mAttrs ""]
  simp only [String.append_assoc, String.empty_append]

/-- C31: for every row and every choice of the printers of strings, integers
and the like, `Row::prettyPrint` appends `{"PrimaryKey":K,"Attributes":A}`,
where `K` is `{`, the key columns printed as `name:value` and joined by `,`, and
`}`, and `A` is `[`, the printed attributes joined by `,`, and `]`; an empty key
prints as `{}`, an empty list of attributes as `[]`, and a vector of rows as
`[`, the printed rows joined by `,`, and `]`. -/
theorem row_prettyPrint (P : pp.Printers) :
    (∀ (r : Row) (out : String),
      r.prettyPrint P out
        = out ++ ("\x7b\"PrimaryKey\":" ++ PrimaryKey.prettyPrint P r.mPkey ""
            ++ ",\"Attributes\":" ++ IVector.prettyPrint (Attribute.prettyPrint P) r.mAttrs ""
            ++ "\x7d"))
    ∧ (∀ key : PrimaryKey,
      PrimaryKey.prettyPrint P key ""
        = "\x7b"
          ++ String.intercalate ","
              (key.map fun c => P.string c.mName ++ ":" ++ c.mValue.prettyPrint P "")
          ++ "\x7d")
    ∧ (∀ attrs : List Attribute,
      IVector.prettyPrint (Attribute.prettyPrint P) attrs ""
        = "[" ++ String.intercalate "," (attrs.map fun a => a.prettyPrint P "") ++ "]")
    ∧ PrimaryKey.prettyPrint P [] "" = "\x7b\x7d"
    ∧ IVector.prettyPrint (Attribute.prettyPrint P) [] "" = "[]"
    ∧ (∀ rows : List Row,
      IVector.prettyPrint (Row.prettyPrint P) rows ""
        = "[" ++ String.intercalate "," (rows.map fun r => r.prettyPrint P "") ++ "]") := by
  refine ⟨row_prettyPrint_out P, fun key => ?_, fun attrs => ?_, rfl, rfl, fun rows => ?_⟩
  · rw [primaryKey_prettyPrint_eq, String.empty_append]
    have e : (fun c : PrimaryKeyColumn => PrimaryKeyColumn.prettyPrint P c "")
        = fun c => P.string c.mName ++ ":" ++ c.mValue.prettyPrint P "" :=
      funext fun c => primaryKeyColumn_prettyPrint_eq P c
    rw [e]
  · rw [ivector_prettyPrint_eq _ (attribute_prettyPrint_out P), String.empty_append]
  · rw [ivector_prettyPrint_eq _ (fun r out => ?_), String.empty_append]
    rw [row_prettyPrint_out P r out, row_prettyPrint_out P r "", String.empty_append]

/-- The text that `RangeIterator_one` asserts for its row, with strings between
double quotes and integers in decimal digits. -/
theorem row_prettyPrint_sample :
    IVector.prettyPrint (Row.prettyPrint samplePrinters) [pkRow 0] ""
      = "[\x7b\"PrimaryKey\":\x7b\"pk\":0\x7d,\"Attributes\":[]\x7d]" := by
  decide

/-! ## Retries -/

/-- C33: for an error of code `OTSRequestTimeout` or `OTSQuotaExhausted`,
`RetryStrategy::retriable(action, error)` is true exactly for the actions
`ListTable`, `DescribeTable`, `GetRow`, `GetRange`, `BatchGetRow`, `DeleteRow`
and `DeleteTable`; for `UpdateRow` it is false. -/
theorem retriable_idempotent (action : Action) (e : OTSError)
    (h : e.code = .kPredefined_OTSRequestTimeout ∨ e.code = .kPredefined_OTSQuotaExhausted) :
    (RetryStrategy.retriable action e = true ↔
      action = .kApi_ListTable ∨ action = .kApi_DescribeTable ∨ action = .kApi_GetRow
        ∨ action = .kApi_GetRange ∨ action = .kApi_BatchGetRow ∨ action = .kApi_DeleteRow
        ∨ action = .kApi_DeleteTable)
    ∧ RetryStrategy.retriable .kApi_UpdateRow e = false := by
  obtain ⟨code, msg⟩ := e
  simp only at h
  rcases h with h | h <;> subst h <;> cases action <;>
    simp [RetryStrategy.retriable, RetryStrategy.retriableCategory, Action.idempotent]

/-- Instance of C33: a request timeout of the server is retried for `GetRow` and
not for `UpdateRow`. -/
theorem retriable_idempotent_witness :
    RetryStrategy.retriable .kApi_GetRow
        { code := .kPredefined_OTSRequestTimeout, message := "" } = true
    ∧ RetryStrategy.retriable .kApi_UpdateRow
        { code := .kPredefined_OTSRequestTimeout, message := "" } = false :=
  ⟨(retriable_idempotent .kApi_GetRow { code := .kPredefined_OTSRequestTimeout, message := "" }
      (Or.inl rfl)).1.2 (by decide),
    (retriable_idempotent .kApi_GetRow { code := .kPredefined_OTSRequestTimeout, message := "" }
      (Or.inl rfl)).2⟩

/-! ## The batch writer -/

theorem writeRow_once {Response : Type} (resp : Response) (d : Option OTSError × Response) :
    SyncBatchWriterImpl.writeRow resp [d] = some d := rfl

end Tablestore
